import Mathlib

/-! # A disk-backed B+ tree index (`btree.cc`): shallow embedding and verification

The index keeps every node in one fixed-size block of a block cache.  Block 0 is
the superblock, block 1 the first root, the remaining blocks start on the free
list.  The functions below follow `BTreeIndex` in `src/btree.cc` one for one and
keep its names.

Conventions of the embedding.

* A function of the source that returns `ERROR_T` and mutates the index returns
  the error code together with the index after the call; what was written before
  an early error return stays written, as in the source.
* `none` means that the call yields no result: an `assert` of the source fails,
  or a recursive descent does not come back within its fuel.
* Keys are any linearly ordered type (the source compares fixed-width byte
  buffers lexicographically); values are any type.
* A node's payload is kept as three slot tables (keys, values, pointers).  The
  source never reinterprets the payload of one node type as that of another
  without clearing it first, so the byte layout is not modelled.
-/

namespace BTree

/-- Error codes returned by the index (`ERROR_T`).  `ERROR_NOERROR` is the zero
value tested by `if (rc)`. -/
inductive ERROR_T where
  | ERROR_NOERROR
  | ERROR_NOSPACE
  | ERROR_NONEXISTENT
  | ERROR_CONFLICT
  | ERROR_BADNODETYPE
  | ERROR_INSANE
  | ERROR_UNIMPL
  | ERROR_OUTOFBOUNDS
  | ERROR_NOBLOCK
  deriving DecidableEq, Repr

/-- Node type tags stored in a block header. -/
inductive NodeType where
  | BTREE_UNALLOCATED_BLOCK
  | BTREE_SUPERBLOCK
  | BTREE_ROOT_NODE
  | BTREE_INTERIOR_NODE
  | BTREE_LEAF_NODE
  deriving DecidableEq, Repr

/-- The two operations of `LookupOrUpdateInternal`. -/
inductive BTreeOp where
  | BTREE_OP_LOOKUP
  | BTREE_OP_UPDATE
  deriving DecidableEq, Repr

open ERROR_T NodeType BTreeOp

/-- One node, as held in memory or in a block: the header fields the index uses
(`info.nodetype`, `info.numkeys`, `info.rootnode`, `info.freelist`) and the
payload slots.  The size fields of the header are fixed when the tree is created
and are represented by the capacities in `Config`. -/
structure BTreeNode (K V : Type) where
  nodetype : NodeType
  numkeys : Nat
  rootnode : Nat
  freelist : Nat
  keys : Nat → K
  vals : Nat → V
  ptrs : Nat → Nat

/-- Quantities fixed at tree creation.  `SlotsAsLeaf` and `SlotsAsInterior` stand
for `info.GetNumSlotsAsLeaf()` and `info.GetNumSlotsAsInterior()`;
`zeroKey`/`zeroVal` are the all-zero-bytes key and value left by `memset`, and
`nullKey`/`nullVal` the buffers built from `null_key_str`/`null_val_str` in
`Split`. -/
structure Config (K V : Type) where
  SlotsAsLeaf : Nat
  SlotsAsInterior : Nat
  zeroKey : K
  zeroVal : V
  nullKey : K
  nullVal : V

/-- The index object: the block cache (one node per block, `GetNumBlocks()` is
the length), the in-memory superblock and `superblock_index`. -/
structure BTreeIndex (K V : Type) where
  buffercache : List (BTreeNode K V)
  superblock : BTreeNode K V
  superblock_index : Nat

section Codec

variable {K V : Type}

/-- Modelled from the spec: the constructor `BTreeNode(type, keysize, valuesize,
blocksize)` is not under src/; it yields a node of the given type with no keys
and a cleared payload. -/
def mkNode (cfg : Config K V) (t : NodeType) : BTreeNode K V :=
  { nodetype := t, numkeys := 0, rootnode := 0, freelist := 0,
    keys := fun _ => cfg.zeroKey, vals := fun _ => cfg.zeroVal, ptrs := fun _ => 0 }

/-- The effect of `data = new char[...]; memset(data, 0, ...)` on a node. -/
def zeroData (cfg : Config K V) (b : BTreeNode K V) : BTreeNode K V :=
  { b with keys := fun _ => cfg.zeroKey, vals := fun _ => cfg.zeroVal, ptrs := fun _ => 0 }

/-- Modelled from the spec: `BTreeNode::Unserialize` is not under src/; it reads
block `n` of the cache and fails for a block the device does not have. -/
def Unserialize (bc : List (BTreeNode K V)) (n : Nat) : Except ERROR_T (BTreeNode K V) :=
  match bc[n]? with
  | some b => .ok b
  | none => .error ERROR_NOBLOCK

/-- Modelled from the spec: `BTreeNode::Serialize` is not under src/; it writes
the node to block `n`, and a later read of block `n` observes it. -/
def Serialize (bc : List (BTreeNode K V)) (n : Nat) (b : BTreeNode K V) :
    Except ERROR_T (List (BTreeNode K V)) :=
  if n < bc.length then .ok (bc.set n b) else .error ERROR_NOBLOCK

/-- Modelled from the spec: key offsets are validated against `numkeys`. -/
def GetKey (b : BTreeNode K V) (offset : Nat) : Except ERROR_T K :=
  if offset < b.numkeys then .ok (b.keys offset) else .error ERROR_OUTOFBOUNDS

/-- Modelled from the spec: key offsets are validated against `numkeys`. -/
def SetKey (b : BTreeNode K V) (offset : Nat) (k : K) : Except ERROR_T (BTreeNode K V) :=
  if offset < b.numkeys then .ok { b with keys := Function.update b.keys offset k }
  else .error ERROR_OUTOFBOUNDS

/-- Modelled from the spec: value offsets are validated against `numkeys`. -/
def GetVal (b : BTreeNode K V) (offset : Nat) : Except ERROR_T V :=
  if offset < b.numkeys then .ok (b.vals offset) else .error ERROR_OUTOFBOUNDS

/-- Modelled from the spec: value offsets are validated against `numkeys`. -/
def SetVal (b : BTreeNode K V) (offset : Nat) (v : V) : Except ERROR_T (BTreeNode K V) :=
  if offset < b.numkeys then .ok { b with vals := Function.update b.vals offset v }
  else .error ERROR_OUTOFBOUNDS

/-- The largest pointer offset a node admits: `numkeys` for a root or interior
node (its last pointer), below `numkeys` otherwise. -/
def ptrInRange (b : BTreeNode K V) (offset : Nat) : Bool :=
  match b.nodetype with
  | BTREE_ROOT_NODE => decide (offset ≤ b.numkeys)
  | BTREE_INTERIOR_NODE => decide (offset ≤ b.numkeys)
  | _ => decide (offset < b.numkeys)

/-- Modelled from the spec: pointer offsets are validated against `numkeys`, or
`numkeys + 1` for the last interior pointer. -/
def GetPtr (b : BTreeNode K V) (offset : Nat) : Except ERROR_T Nat :=
  if ptrInRange b offset then .ok (b.ptrs offset) else .error ERROR_OUTOFBOUNDS

/-- Modelled from the spec: pointer offsets are validated against `numkeys`, or
`numkeys + 1` for the last interior pointer. -/
def SetPtr (b : BTreeNode K V) (offset : Nat) (p : Nat) : Except ERROR_T (BTreeNode K V) :=
  if ptrInRange b offset then .ok { b with ptrs := Function.update b.ptrs offset p }
  else .error ERROR_OUTOFBOUNDS

end Codec

section Index

variable {K V : Type} [LinearOrder K]

/-- `BTreeIndex::AllocateNode`: pop the head of the free list.  The result of
reading the head block is not checked by the source; when the read fails the
asserted node is not the head block and the call is given no result. -/
def AllocateNode (s : BTreeIndex K V) : Option (ERROR_T × Nat × BTreeIndex K V) :=
  let n := s.superblock.freelist
  if n = 0 then some (ERROR_NOSPACE, n, s)
  else
    match Unserialize s.buffercache n with
    | .error _ => none
    | .ok node =>
      if node.nodetype ≠ BTREE_UNALLOCATED_BLOCK then none
      else
        let sb := { s.superblock with freelist := node.freelist }
        let bc := match Serialize s.buffercache s.superblock_index sb with
          | .ok bc => bc
          | .error _ => s.buffercache
        some (ERROR_NOERROR, n, { s with superblock := sb, buffercache := bc })

/-- The loop of `Attach` that links blocks `i, i+1, ...` into the free list;
`todo` lists the values of `i` still to run. -/
def attachFreeLoop (cfg : Config K V) (superblock_index : Nat) :
    List Nat → List (BTreeNode K V) → ERROR_T × List (BTreeNode K V)
  | [], bc => (ERROR_NOERROR, bc)
  | i :: todo, bc =>
    let newfreenode : BTreeNode K V :=
      { mkNode cfg BTREE_UNALLOCATED_BLOCK with
        rootnode := superblock_index + 1
        freelist := if i + 1 = bc.length then 0 else i + 1 }
    match Serialize bc i newfreenode with
    | .error rc => (rc, bc)
    | .ok bc => attachFreeLoop cfg superblock_index todo bc

/-- `BTreeIndex::Attach`. -/
def Attach (cfg : Config K V) (s : BTreeIndex K V) (initblock : Nat) (create : Bool) :
    Option (ERROR_T × BTreeIndex K V) :=
  let s := { s with superblock_index := initblock }
  if s.superblock_index ≠ 0 then none
  else
    let mount (s : BTreeIndex K V) : Option (ERROR_T × BTreeIndex K V) :=
      match Unserialize s.buffercache initblock with
      | .error rc => some (rc, s)
      | .ok sb => some (ERROR_NOERROR, { s with superblock := sb })
    if create then
      let newsuperblock : BTreeNode K V :=
        { mkNode cfg BTREE_SUPERBLOCK with
          rootnode := s.superblock_index + 1
          freelist := s.superblock_index + 2
          numkeys := 0 }
      match Serialize s.buffercache s.superblock_index newsuperblock with
      | .error rc => some (rc, s)
      | .ok bc =>
        let s := { s with buffercache := bc }
        let newrootnode : BTreeNode K V :=
          { mkNode cfg BTREE_ROOT_NODE with
            rootnode := s.superblock_index + 1
            freelist := s.superblock_index + 2
            numkeys := 0 }
        match Serialize s.buffercache (s.superblock_index + 1) newrootnode with
        | .error rc => some (rc, s)
        | .ok bc =>
          let s := { s with buffercache := bc }
          match attachFreeLoop cfg s.superblock_index
              (List.range' (s.superblock_index + 2) (s.buffercache.length - (s.superblock_index + 2)))
              s.buffercache with
          | (ERROR_NOERROR, bc) => mount { s with buffercache := bc }
          | (rc, bc) => some (rc, { s with buffercache := bc })
    else mount s

/-- The separator scan shared by `LookupOrUpdateInternal` and `Inserter`:
`for (offset=0; offset<numkeys; offset++)`, leaving with the pointer at the first
key larger than `key`; `.ok none` when the loop runs to its end. -/
def scanInterior (b : BTreeNode K V) (key : K) : List Nat → Except ERROR_T (Option Nat)
  | [] => .ok none
  | offset :: rest =>
    match GetKey b offset with
    | .error rc => .error rc
    | .ok testkey =>
      if key < testkey then
        match GetPtr b offset with
        | .error rc => .error rc
        | .ok ptr => .ok (some ptr)
      else scanInterior b key rest

/-- The leaf scan of `LookupOrUpdateInternal`: the first offset whose key equals
`key`, `.ok none` when there is none. -/
def scanLeaf (b : BTreeNode K V) (key : K) : List Nat → Except ERROR_T (Option Nat)
  | [] => .ok none
  | offset :: rest =>
    match GetKey b offset with
    | .error rc => .error rc
    | .ok testkey => if testkey = key then .ok (some offset) else scanLeaf b key rest

/-- `BTreeIndex::LookupOrUpdateInternal`.  `value` is the in/out parameter; the
result carries its final content and the block cache. -/
def LookupOrUpdateInternal : Nat → List (BTreeNode K V) → Nat → BTreeOp → K → V →
    Option (ERROR_T × V × List (BTreeNode K V))
  | 0, _, _, _, _, _ => none
  | fuel + 1, bc, node, op, key, value =>
    match Unserialize bc node with
    | .error rc => some (rc, value, bc)
    | .ok b =>
      match b.nodetype with
      | BTREE_ROOT_NODE | BTREE_INTERIOR_NODE =>
        match scanInterior b key (List.range b.numkeys) with
        | .error rc => some (rc, value, bc)
        | .ok (some ptr) => LookupOrUpdateInternal fuel bc ptr op key value
        | .ok none =>
          if b.numkeys > 0 then
            match GetPtr b b.numkeys with
            | .error rc => some (rc, value, bc)
            | .ok ptr => LookupOrUpdateInternal fuel bc ptr op key value
          else some (ERROR_NONEXISTENT, value, bc)
      | BTREE_LEAF_NODE =>
        match scanLeaf b key (List.range b.numkeys) with
        | .error rc => some (rc, value, bc)
        | .ok (some offset) =>
          if op = BTREE_OP_LOOKUP then
            match GetVal b offset with
            | .error rc => some (rc, value, bc)
            | .ok v => some (ERROR_NOERROR, v, bc)
          else
            match SetVal b offset value with
            | .error rc => some (rc, value, bc)
            | .ok b =>
              match Serialize bc node b with
              | .error rc => some (rc, value, bc)
              | .ok bc => some (ERROR_NOERROR, value, bc)
        | .ok none => some (ERROR_NONEXISTENT, value, bc)
      | _ => some (ERROR_INSANE, value, bc)

/-- `BTreeIndex::Lookup`.  A descent that comes back visits no block twice, so
the number of blocks is fuel enough. -/
def Lookup (s : BTreeIndex K V) (key : K) (value : V) : Option (ERROR_T × V) :=
  (LookupOrUpdateInternal s.buffercache.length s.buffercache s.superblock.rootnode
    BTREE_OP_LOOKUP key value).map fun r => (r.1, r.2.1)

/-- `BTreeIndex::Update`. -/
def Update (s : BTreeIndex K V) (key : K) (value : V) : Option (ERROR_T × BTreeIndex K V) :=
  (LookupOrUpdateInternal s.buffercache.length s.buffercache s.superblock.rootnode
    BTREE_OP_UPDATE key value).map fun r => (r.1, { s with buffercache := r.2.2 })

/-- The scan of `LeafNodeInsert` and of `InteriorPointerInsert` (the same loop in
both): `.error ERROR_CONFLICT` on an equal key, otherwise the offset at which
the loop is left, `numkeys` when it runs to its end. -/
def findSlot (b : BTreeNode K V) (key : K) : List Nat → Except ERROR_T Nat
  | [] => .ok b.numkeys
  | offset :: rest =>
    match GetKey b offset with
    | .error rc => .error rc
    | .ok testkey =>
      if key = testkey then .error ERROR_CONFLICT
      else if key < testkey then .ok offset
      else findSlot b key rest

/-- The shift loop of `LeafNodeInsert`:
`for (iter = numkeys-2; iter >= offset; iter--) { ...; if (iter == offset) break; }`.
At `iter = 0` the test `iter >= offset` forces `offset = 0`, so the equality
break is taken and `iter--` is never run on zero. -/
def leafShiftLoop (offset : Nat) : Nat → BTreeNode K V → Except ERROR_T (BTreeNode K V)
  | 0, b =>
    if 0 ≥ offset then do
      let temp_key ← GetKey b 0
      let b ← SetKey b (0 + 1) temp_key
      let temp_val ← GetVal b 0
      SetVal b (0 + 1) temp_val
    else .ok b
  | iter + 1, b =>
    if iter + 1 ≥ offset then do
      let temp_key ← GetKey b (iter + 1)
      let b ← SetKey b (iter + 1 + 1) temp_key
      let temp_val ← GetVal b (iter + 1)
      let b ← SetVal b (iter + 1 + 1) temp_val
      if iter + 1 = offset then .ok b else leafShiftLoop offset iter b
    else .ok b

/-- The shift loop of `InteriorPointerInsert`: keys move one slot right and the
pointer to the right of each moved key moves with it. -/
def interiorShiftLoop (offset : Nat) : Nat → BTreeNode K V → Except ERROR_T (BTreeNode K V)
  | 0, b =>
    if 0 ≥ offset then do
      let temp_key ← GetKey b 0
      let b ← SetKey b (0 + 1) temp_key
      let temp_ptr ← GetPtr b (0 + 1)
      SetPtr b (0 + 2) temp_ptr
    else .ok b
  | iter + 1, b =>
    if iter + 1 ≥ offset then do
      let temp_key ← GetKey b (iter + 1)
      let b ← SetKey b (iter + 1 + 1) temp_key
      let temp_ptr ← GetPtr b (iter + 1 + 1)
      let b ← SetPtr b (iter + 1 + 2) temp_ptr
      if iter + 1 = offset then .ok b else interiorShiftLoop offset iter b
    else .ok b

/-- The copy loop of the root/interior case of `Split`:
`for (iter=k1+1; iter<numkeys; iter++)`, on `orig_node` and `new_node`. -/
def splitInteriorLoop (cfg : Config K V) (k1 : Nat) :
    List Nat → BTreeNode K V → BTreeNode K V → Except ERROR_T (BTreeNode K V × BTreeNode K V)
  | [], orig_node, new_node => .ok (orig_node, new_node)
  | iter :: rest, orig_node, new_node => do
    let temp_key ← GetKey orig_node iter
    let new_node ← SetKey new_node (iter - (k1 + 1)) temp_key
    let orig_node ← SetKey orig_node iter cfg.nullKey
    let temp_ptr ← GetPtr orig_node iter
    let new_node ← SetPtr new_node (iter - (k1 + 1)) temp_ptr
    let orig_node ← SetPtr orig_node iter 0
    splitInteriorLoop cfg k1 rest orig_node new_node

/-- The copy loop of the leaf case of `Split`:
`for (iter=k1; iter<numkeys; iter++)`, on `orig_node` and `new_node`. -/
def splitLeafLoop (cfg : Config K V) (k1 : Nat) :
    List Nat → BTreeNode K V → BTreeNode K V → Except ERROR_T (BTreeNode K V × BTreeNode K V)
  | [], orig_node, new_node => .ok (orig_node, new_node)
  | iter :: rest, orig_node, new_node => do
    let temp_key ← GetKey orig_node iter
    let new_node ← SetKey new_node (iter - k1) temp_key
    let orig_node ← SetKey orig_node iter cfg.nullKey
    let temp_val ← GetVal orig_node iter
    let new_node ← SetVal new_node (iter - k1) temp_val
    let orig_node ← SetVal orig_node iter cfg.nullVal
    splitLeafLoop cfg k1 rest orig_node new_node

/-- The root/interior case of `Split` between the allocation of the sibling and
the first write: the copy loop, the clearing of slot `k1`, the move of the
original's last pointer, and `orig_node.info.numkeys = k1`.  The result of
`new_node.SetPtr(k1, ...)` is overwritten unchecked in the source, so a failure
of that call leaves `new_node` as it is and the code goes on. -/
def splitInteriorMove (cfg : Config K V) (k1 : Nat) (orig_node new_node : BTreeNode K V) :
    Except ERROR_T (BTreeNode K V × BTreeNode K V) := do
  let (orig_node, new_node) ← splitInteriorLoop cfg k1
    (List.range' (k1 + 1) (orig_node.numkeys - (k1 + 1))) orig_node new_node
  let orig_node ← SetKey orig_node k1 cfg.nullKey
  let temp_ptr ← GetPtr orig_node orig_node.numkeys
  let new_node := match SetPtr new_node k1 temp_ptr with
    | .ok n => n
    | .error _ => new_node
  let orig_node ← SetPtr orig_node orig_node.numkeys 0
  pure ({ orig_node with numkeys := k1 }, new_node)

/-- The root ending of `Split`, "Must insert manually into new_root": the first
key of `new_node` becomes key 0 of the new root, pointers 0 and 1 name the
original block and the new sibling. -/
def newRootFill (new_root new_node : BTreeNode K V) (orig_block_loc new_block_loc : Nat) :
    Except ERROR_T (BTreeNode K V) := do
  let temp_key ← GetKey new_node 0
  let new_root ← SetKey new_root 0 temp_key
  let new_root ← SetPtr new_root 0 orig_block_loc
  SetPtr new_root 1 new_block_loc

/-- The body of `BTreeIndex::InteriorPointerInsert` for a non-empty `crumbs`
whose front is `node`; `split` is the call `Split(crumbs)` made at its end. -/
def InteriorPointerInsertWith (cfg : Config K V)
    (split : BTreeIndex K V → Option (ERROR_T × BTreeIndex K V))
    (node : Nat) (key : K) (ptr : Nat) (s : BTreeIndex K V) :
    Option (ERROR_T × BTreeIndex K V) :=
  match Unserialize s.buffercache node with
  | .error rc => some (rc, s)
  | .ok b =>
    if b.nodetype ≠ BTREE_INTERIOR_NODE ∧ b.nodetype ≠ BTREE_ROOT_NODE then
      some (ERROR_BADNODETYPE, s)
    else if b.numkeys = 0 then some (ERROR_INSANE, s)
    else
      match findSlot b key (List.range b.numkeys) with
      | .error rc => some (rc, s)
      | .ok offset =>
        let b := { b with numkeys := b.numkeys + 1 }
        let written : Except ERROR_T (BTreeNode K V) := do
          let b ← interiorShiftLoop offset (b.numkeys - 2) b
          let b ← SetKey b offset key
          SetPtr b (offset + 1) ptr
        match written with
        | .error rc => some (rc, s)
        | .ok b =>
          match Serialize s.buffercache node b with
          | .error rc => some (rc, s)
          | .ok bc =>
            let s := { s with buffercache := bc }
            if b.numkeys ≥ cfg.SlotsAsInterior then
              match split s with
              | none => none
              | some (rc, s) => if rc ≠ ERROR_NOERROR then some (rc, s) else some (ERROR_NOERROR, s)
            else some (ERROR_NOERROR, s)

/-- `BTreeIndex::Split`.  `crumbs` lists the ancestors, deepest first; its front
is the block to split. -/
def Split (cfg : Config K V) : List Nat → BTreeIndex K V → Option (ERROR_T × BTreeIndex K V)
  | [], s => some (ERROR_INSANE, s)
  | orig_block_loc :: crumbs, s =>
    /- `InteriorPointerInsert(crumbs, key, ptr)` on the popped list -/
    let parentInsert (key : K) (ptr : Nat) (s : BTreeIndex K V) :
        Option (ERROR_T × BTreeIndex K V) :=
      match crumbs with
      | [] => some (ERROR_INSANE, s)
      | node :: _ => InteriorPointerInsertWith cfg (Split cfg crumbs) node key ptr s
    match Unserialize s.buffercache orig_block_loc with
    | .error rc => some (rc, s)
    | .ok orig_node =>
      match orig_node.nodetype with
      | BTREE_ROOT_NODE | BTREE_INTERIOR_NODE =>
        if orig_node.numkeys < cfg.SlotsAsInterior then some (ERROR_INSANE, s)
        else
          let k1 := orig_node.numkeys / 2
          let k2 := orig_node.numkeys - k1 - 1
          match AllocateNode s with
          | none => none
          | some (rc, new_block_loc, s) =>
            if rc ≠ ERROR_NOERROR then some (rc, s)
            else
              match Unserialize s.buffercache new_block_loc with
              | .error rc => some (rc, s)
              | .ok new_node =>
                let new_node :=
                  zeroData cfg { new_node with nodetype := BTREE_INTERIOR_NODE, numkeys := k2 }
                match splitInteriorMove cfg k1 orig_node new_node with
                | .error rc => some (rc, s)
                | .ok (orig_node, new_node) =>
                  if orig_node.nodetype = BTREE_INTERIOR_NODE then
                    match Serialize s.buffercache orig_block_loc orig_node with
                    | .error rc => some (rc, s)
                    | .ok bc =>
                      let s := { s with buffercache := bc }
                      match Serialize s.buffercache new_block_loc new_node with
                      | .error rc => some (rc, s)
                      | .ok bc =>
                        let s := { s with buffercache := bc }
                        match GetKey new_node 0 with
                        | .error rc => some (rc, s)
                        | .ok temp_key =>
                          match parentInsert temp_key new_block_loc s with
                          | none => none
                          | some (rc, s) =>
                            if rc ≠ ERROR_NOERROR then some (rc, s) else some (ERROR_NOERROR, s)
                  else
                    let orig_node := { orig_node with nodetype := BTREE_INTERIOR_NODE }
                    match AllocateNode s with
                    | none => none
                    | some (rc, new_root_loc, s) =>
                      if rc ≠ ERROR_NOERROR then some (rc, s)
                      else
                        match Unserialize s.buffercache new_root_loc with
                        | .error rc => some (rc, s)
                        | .ok new_root =>
                          let new_root :=
                            zeroData cfg { new_root with nodetype := BTREE_ROOT_NODE, numkeys := 1 }
                          let s := { s with superblock := { s.superblock with rootnode := new_root_loc } }
                          match Serialize s.buffercache orig_block_loc orig_node with
                          | .error rc => some (rc, s)
                          | .ok bc =>
                            let s := { s with buffercache := bc }
                            match Serialize s.buffercache new_block_loc new_node with
                            | .error rc => some (rc, s)
                            | .ok bc =>
                              let s := { s with buffercache := bc }
                              match newRootFill new_root new_node orig_block_loc new_block_loc with
                              | .error rc => some (rc, s)
                              | .ok new_root =>
                                match Serialize s.buffercache new_root_loc new_root with
                                | .error rc => some (rc, s)
                                | .ok bc => some (ERROR_NOERROR, { s with buffercache := bc })
      | BTREE_LEAF_NODE =>
        if orig_node.numkeys < cfg.SlotsAsLeaf then some (ERROR_INSANE, s)
        else
          let k2 := orig_node.numkeys / 2
          let k1 := orig_node.numkeys - k2
          match AllocateNode s with
          | none => none
          | some (rc, new_block_loc, s) =>
            if rc ≠ ERROR_NOERROR then some (rc, s)
            else
              match Unserialize s.buffercache new_block_loc with
              | .error rc => some (rc, s)
              | .ok new_node =>
                let new_node :=
                  zeroData cfg { new_node with nodetype := BTREE_LEAF_NODE, numkeys := k2 }
                match splitLeafLoop cfg k1 (List.range' k1 (orig_node.numkeys - k1))
                    orig_node new_node with
                | .error rc => some (rc, s)
                | .ok (orig_node, new_node) =>
                  let orig_node := { orig_node with numkeys := k1 }
                  match Serialize s.buffercache orig_block_loc orig_node with
                  | .error rc => some (rc, s)
                  | .ok bc =>
                    let s := { s with buffercache := bc }
                    match Serialize s.buffercache new_block_loc new_node with
                    | .error rc => some (rc, s)
                    | .ok bc =>
                      let s := { s with buffercache := bc }
                      match GetKey new_node 0 with
                      | .error rc => some (rc, s)
                      | .ok temp_key =>
                        match parentInsert temp_key new_block_loc s with
                        | none => none
                        | some (rc, s) =>
                          if rc ≠ ERROR_NOERROR then some (rc, s) else some (ERROR_NOERROR, s)
      | _ => some (ERROR_INSANE, s)

/-- `BTreeIndex::InteriorPointerInsert`. -/
def InteriorPointerInsert (cfg : Config K V) (crumbs : List Nat) (key : K) (ptr : Nat)
    (s : BTreeIndex K V) : Option (ERROR_T × BTreeIndex K V) :=
  match crumbs with
  | [] => some (ERROR_INSANE, s)
  | node :: _ => InteriorPointerInsertWith cfg (Split cfg crumbs) node key ptr s

/-- `BTreeIndex::LeafNodeInsert`; `b` is the node read from block `node` by
`Inserter`. -/
def LeafNodeInsert (cfg : Config K V) (crumbs : List Nat) (node : Nat) (b : BTreeNode K V)
    (key : K) (value : V) (s : BTreeIndex K V) : Option (ERROR_T × BTreeIndex K V) :=
  if b.nodetype ≠ BTREE_LEAF_NODE then some (ERROR_BADNODETYPE, s)
  else if b.numkeys = 0 then
    let b := { b with numkeys := b.numkeys + 1 }
    let written : Except ERROR_T (BTreeNode K V) := do
      let b ← SetKey b 0 key
      SetVal b 0 value
    match written with
    | .error rc => some (rc, s)
    | .ok b =>
      match Serialize s.buffercache node b with
      | .error rc => some (rc, s)
      | .ok bc => some (ERROR_NOERROR, { s with buffercache := bc })
  else
    match findSlot b key (List.range b.numkeys) with
    | .error rc => some (rc, s)
    | .ok offset =>
      let b := { b with numkeys := b.numkeys + 1 }
      let written : Except ERROR_T (BTreeNode K V) := do
        let b ← leafShiftLoop offset (b.numkeys - 2) b
        let b ← SetKey b offset key
        SetVal b offset value
      match written with
      | .error rc => some (rc, s)
      | .ok b =>
        match Serialize s.buffercache node b with
        | .error rc => some (rc, s)
        | .ok bc =>
          let s := { s with buffercache := bc }
          if b.numkeys ≥ cfg.SlotsAsLeaf then
            match Split cfg crumbs s with
            | none => none
            | some (rc, s) => if rc ≠ ERROR_NOERROR then some (rc, s) else some (ERROR_NOERROR, s)
          else some (ERROR_NOERROR, s)

/-- The special case of `Inserter` for a root without keys: two leaves are
allocated, the right one receives the pair, and the root gets `key` as its only
separator. -/
def insertEmptyRoot (cfg : Config K V) (node : Nat) (b : BTreeNode K V) (key : K) (value : V)
    (s : BTreeIndex K V) : Option (ERROR_T × BTreeIndex K V) :=
  match AllocateNode s with
  | none => none
  | some (rc, left_block_loc, s) =>
    if rc ≠ ERROR_NOERROR then some (rc, s)
    else
      match Unserialize s.buffercache left_block_loc with
      | .error rc => some (rc, s)
      | .ok left_node =>
        let left_node := zeroData cfg { left_node with nodetype := BTREE_LEAF_NODE }
        let left_node := { left_node with numkeys := 0 }
        match Serialize s.buffercache left_block_loc left_node with
        | .error rc => some (rc, s)
        | .ok bc =>
          let s := { s with buffercache := bc }
          match AllocateNode s with
          | none => none
          | some (rc, right_block_loc, s) =>
            if rc ≠ ERROR_NOERROR then some (rc, s)
            else
              match Unserialize s.buffercache right_block_loc with
              | .error rc => some (rc, s)
              | .ok right_node =>
                let right_node := zeroData cfg { right_node with nodetype := BTREE_LEAF_NODE }
                let right_node := { right_node with numkeys := 1 }
                let rightWritten : Except ERROR_T (BTreeNode K V) := do
                  let right_node ← SetKey right_node 0 key
                  SetVal right_node 0 value
                match rightWritten with
                | .error rc => some (rc, s)
                | .ok right_node =>
                  match Serialize s.buffercache right_block_loc right_node with
                  | .error rc => some (rc, s)
                  | .ok bc =>
                    let s := { s with buffercache := bc }
                    let b := { b with numkeys := 1 }
                    let rootWritten : Except ERROR_T (BTreeNode K V) := do
                      let b ← SetKey b 0 key
                      let b ← SetPtr b 0 left_block_loc
                      SetPtr b 1 right_block_loc
                    match rootWritten with
                    | .error rc => some (rc, s)
                    | .ok b =>
                      match Serialize s.buffercache node b with
                      | .error rc => some (rc, s)
                      | .ok bc => some (ERROR_NOERROR, { s with buffercache := bc })

/-- `BTreeIndex::Inserter`.  The root case of the source falls through into the
interior case when the root has keys. -/
def Inserter (cfg : Config K V) :
    Nat → List Nat → Nat → K → V → BTreeIndex K V → Option (ERROR_T × BTreeIndex K V)
  | 0, _, _, _, _, _ => none
  | fuel + 1, crumbs, node, key, value, s =>
    let crumbs := node :: crumbs
    match Unserialize s.buffercache node with
    | .error rc => some (rc, s)
    | .ok b =>
      if b.nodetype = BTREE_ROOT_NODE ∧ b.numkeys = 0 then
        insertEmptyRoot cfg node b key value s
      else
        match b.nodetype with
        | BTREE_ROOT_NODE | BTREE_INTERIOR_NODE =>
          match scanInterior b key (List.range b.numkeys) with
          | .error rc => some (rc, s)
          | .ok (some ptr) => Inserter cfg fuel crumbs ptr key value s
          | .ok none =>
            if b.numkeys > 0 then
              match GetPtr b b.numkeys with
              | .error rc => some (rc, s)
              | .ok ptr => Inserter cfg fuel crumbs ptr key value s
            else some (ERROR_NONEXISTENT, s)
        | BTREE_LEAF_NODE => LeafNodeInsert cfg crumbs node b key value s
        | _ => some (ERROR_INSANE, s)

/-- `BTreeIndex::Insert`.  A descent that comes back visits no block twice, so
the number of blocks is fuel enough. -/
def Insert (cfg : Config K V) (s : BTreeIndex K V) (key : K) (value : V) :
    Option (ERROR_T × BTreeIndex K V) :=
  Inserter cfg s.buffercache.length [] s.superblock.rootnode key value s

/-- `BTreeIndex::Delete`. -/
def Delete (s : BTreeIndex K V) (_key : K) : ERROR_T × BTreeIndex K V :=
  (ERROR_UNIMPL, s)

/-- The loop `for (offset=0; offset<=numkeys; offset++)` over the child
pointers of `b` used by `DisplayInternal` and `ISA_Tree`: `visit` is the
recursive call, `acc` what the traversal has produced so far. -/
def forChildren {σ : Type} (visit : Nat → σ → Option (ERROR_T × σ)) (b : BTreeNode K V) :
    List Nat → σ → Option (ERROR_T × σ)
  | [], acc => some (ERROR_NOERROR, acc)
  | offset :: rest, acc =>
    match GetPtr b offset with
    | .error rc => some (rc, acc)
    | .ok ptr =>
      match visit ptr acc with
      | none => none
      | some (rc, acc) =>
        if rc ≠ ERROR_NOERROR then some (rc, acc) else forChildren visit b rest acc

/-- The leaf loop of `PrintNode` for the display type `BTREE_SORTED_KEYVAL`: one
`(key,value)` line for each slot, appended to `out`. -/
def printLeafLoop (b : BTreeNode K V) : List Nat → List (K × V) → ERROR_T × List (K × V)
  | [], out => (ERROR_NOERROR, out)
  | offset :: rest, out =>
    let first : Except ERROR_T Unit :=
      if offset = 0 then (GetPtr b offset).map fun _ => () else .ok ()
    match first with
    | .error rc => (rc, out)
    | .ok _ =>
      match GetKey b offset with
      | .error rc => (rc, out)
      | .ok key =>
        match GetVal b offset with
        | .error rc => (rc, out)
        | .ok value => printLeafLoop b rest (out ++ [(key, value)])

/-- `PrintNode` for the display type `BTREE_SORTED_KEYVAL`; the stream is the
list of pairs written so far. -/
def PrintNode (b : BTreeNode K V) (out : List (K × V)) : ERROR_T × List (K × V) :=
  match b.nodetype with
  | BTREE_ROOT_NODE | BTREE_INTERIOR_NODE => (ERROR_NOERROR, out)
  | BTREE_LEAF_NODE => printLeafLoop b (List.range b.numkeys) out
  | _ => (ERROR_NOERROR, out)

/-- `BTreeIndex::DisplayInternal` for the display type `BTREE_SORTED_KEYVAL`. -/
def DisplayInternal : Nat → List (BTreeNode K V) → Nat → List (K × V) →
    Option (ERROR_T × List (K × V))
  | 0, _, _, _ => none
  | fuel + 1, bc, node, out =>
    match Unserialize bc node with
    | .error rc => some (rc, out)
    | .ok b =>
      match PrintNode b out with
      | (ERROR_NOERROR, out) =>
        match b.nodetype with
        | BTREE_ROOT_NODE | BTREE_INTERIOR_NODE =>
          if b.numkeys > 0 then
            match forChildren (fun ptr out => DisplayInternal fuel bc ptr out) b
                (List.range (b.numkeys + 1)) out with
            | none => none
            | some (rc, out) =>
              if rc ≠ ERROR_NOERROR then some (rc, out) else some (ERROR_NOERROR, out)
          else some (ERROR_NOERROR, out)
        | BTREE_LEAF_NODE => some (ERROR_NOERROR, out)
        | _ => some (ERROR_INSANE, out)
      | (rc, out) => some (rc, out)

/-- `BTreeIndex::Display` for the display type `BTREE_SORTED_KEYVAL`: the
in-order dump of the pairs. -/
def Display (s : BTreeIndex K V) : Option (ERROR_T × List (K × V)) :=
  DisplayInternal s.buffercache.length s.buffercache s.superblock.rootnode []

/-- `BTreeIndex::ISA_Tree`.  `visited` is passed by value, so each child is
checked against the blocks on the path from the root to its parent. -/
def ISA_Tree (cfg : Config K V) : Nat → List (BTreeNode K V) → List Nat → Nat → Option ERROR_T
  | 0, _, _, _ => none
  | fuel + 1, bc, visited, node =>
    if node ∈ visited then some ERROR_INSANE
    else
      let visited := node :: visited
      match Unserialize bc node with
      | .error rc => some rc
      | .ok b =>
        match b.nodetype with
        | BTREE_ROOT_NODE | BTREE_INTERIOR_NODE =>
          if b.numkeys ≥ cfg.SlotsAsInterior then some ERROR_INSANE
          else
            (forChildren (fun ptr (_ : Unit) => (ISA_Tree cfg fuel bc visited ptr).map fun rc => (rc, ()))
              b (List.range (b.numkeys + 1)) ()).map fun r => r.1
        | BTREE_LEAF_NODE =>
          if b.numkeys ≥ cfg.SlotsAsLeaf then some ERROR_INSANE else some ERROR_NOERROR
        | _ => some ERROR_INSANE

/-- `BTreeIndex::SanityCheck`.  Every nested call adds a block of the device to
`visited`, so one more than the number of blocks is fuel enough. -/
def SanityCheck (cfg : Config K V) (s : BTreeIndex K V) : Option ERROR_T :=
  ISA_Tree cfg (s.buffercache.length + 1) s.buffercache [] s.superblock.rootnode

/-- `BTreeIndex::Detach`: persist the superblock. -/
def Detach (s : BTreeIndex K V) : ERROR_T × BTreeIndex K V :=
  match Serialize s.buffercache s.superblock_index s.superblock with
  | .error rc => (rc, s)
  | .ok bc => (ERROR_NOERROR, { s with buffercache := bc })

end Index

/-! ## Runs and scenarios -/

section Runs

variable {K V : Type} [LinearOrder K]

/-- A sequence of `Insert` calls on one index; the result lists the code returned
by each call, in order, and the index after the last one. -/
def insertAll (cfg : Config K V) :
    List (K × V) → BTreeIndex K V → Option (List ERROR_T × BTreeIndex K V)
  | [], s => some ([], s)
  | (key, value) :: rest, s =>
    match Insert cfg s key value with
    | none => none
    | some (rc, s) =>
      match insertAll cfg rest s with
      | none => none
      | some (rcs, s) => some (rc :: rcs, s)

/-- The index a call or run ends with, `d` when it has no result. -/
def finalIndex {α : Type} (o : Option (α × BTreeIndex K V)) (d : BTreeIndex K V) :
    BTreeIndex K V :=
  match o with
  | some (_, s) => s
  | none => d

end Runs

section Scenario

/-- The configuration of the concrete scenarios: `SlotsAsLeaf = 4` and
`SlotsAsInterior = 4`, keys and values written as numbers. -/
def scenarioConfig : Config Nat Nat :=
  { SlotsAsLeaf := 4, SlotsAsInterior := 4, zeroKey := 0, zeroVal := 0, nullKey := 0, nullVal := 0 }

/-- An index object on a device of `n` blocks before `Attach`. -/
def blankIndex (n : Nat) : BTreeIndex Nat Nat :=
  { buffercache := List.replicate n (mkNode scenarioConfig BTREE_UNALLOCATED_BLOCK),
    superblock := mkNode scenarioConfig BTREE_SUPERBLOCK,
    superblock_index := 0 }

/-- The scenario run: `Attach(0, true)` on `n` blocks followed by the inserts
`kvs`. -/
def scenario (n : Nat) (kvs : List (Nat × Nat)) : Option (List ERROR_T × BTreeIndex Nat Nat) :=
  match Attach scenarioConfig (blankIndex n) 0 true with
  | some (ERROR_NOERROR, s) => insertAll scenarioConfig kvs s
  | _ => none

/-- The pairs `(1, 101), ..., (n, 100 + n)` in ascending key order. -/
def ascending (n : Nat) : List (Nat × Nat) :=
  (List.range n).map fun i => (i + 1, 100 + (i + 1))

/-- The index the scenario run ends with. -/
def scenarioIndex (n : Nat) (kvs : List (Nat × Nat)) : BTreeIndex Nat Nat :=
  finalIndex (scenario n kvs) (blankIndex n)

end Scenario

section Fresh

variable {K V : Type}

/-- The superblock written by `Attach` with `create`. -/
def newSuperblock (cfg : Config K V) : BTreeNode K V :=
  { mkNode cfg BTREE_SUPERBLOCK with rootnode := 1, freelist := 2, numkeys := 0 }

/-- The empty root written by `Attach` with `create`. -/
def newRootNode (cfg : Config K V) : BTreeNode K V :=
  { mkNode cfg BTREE_ROOT_NODE with rootnode := 1, freelist := 2, numkeys := 0 }

/-- The free-list node written by `Attach` with `create` to block `i` of a
device of `n` blocks. -/
def newFreeNode (cfg : Config K V) (n i : Nat) : BTreeNode K V :=
  { mkNode cfg BTREE_UNALLOCATED_BLOCK with
    rootnode := 1, freelist := if i + 1 = n then 0 else i + 1 }

end Fresh

/-! ## The two-level tree: the shape kept by inserts while the root does not split -/

section Invariant

variable {K V : Type} [LinearOrder K]

/-- Slot table `f` with the entries at `lo, ..., hi - 1` moved one slot to the
right (slot `lo` keeps its old content until it is overwritten). -/
def shiftRight {α : Type} (f : Nat → α) (lo hi : Nat) : Nat → α :=
  fun j => if lo < j ∧ j ≤ hi then f (j - 1) else f j

/-- The keys of a node are strictly ascending over its `numkeys` slots. -/
def KeysAscending (b : BTreeNode K V) : Prop :=
  ∀ i j, i < j → j < b.numkeys → b.keys i < b.keys j

/-- Key `key` belongs under pointer `i` of `r`: it lies in the half-open range
from separator `i - 1` (inclusive) to separator `i` (exclusive). -/
def InRange (r : BTreeNode K V) (i : Nat) (key : K) : Prop :=
  (0 < i → r.keys (i - 1) ≤ key) ∧ (i < r.numkeys → key < r.keys i)

/-- `L` is a well-formed leaf under pointer `i` of `r`. -/
def LeafUnder (r : BTreeNode K V) (i : Nat) (L : BTreeNode K V) : Prop :=
  L.nodetype = BTREE_LEAF_NODE ∧ KeysAscending L ∧ ∀ j, j < L.numkeys → InRange r i (L.keys j)

/-- The free list of `s` is the run of blocks `h, h + 1, ...` up to the end of
the device, each tagged unallocated and linked to the next, the last one to 0;
`h` is the number of blocks when the list is empty. -/
def FreeFrom (s : BTreeIndex K V) (h : Nat) : Prop :=
  2 ≤ h ∧ h ≤ s.buffercache.length ∧
  s.superblock.freelist = (if h = s.buffercache.length then 0 else h) ∧
  ∀ i, h ≤ i → i < s.buffercache.length →
    ∃ b, s.buffercache[i]? = some b ∧ b.nodetype = BTREE_UNALLOCATED_BLOCK ∧
      b.freelist = if i + 1 = s.buffercache.length then 0 else i + 1

/-- The shape of the index while its root has not split: the superblock at block
0 names block 1 as root, the root `r` is tagged as root with ascending
separators, and (once it has keys) its `numkeys + 1` pointers name distinct leaf
blocks below the free-list start `h`, each holding ascending keys within its
separator range. -/
structure TwoLevel (s : BTreeIndex K V) (r : BTreeNode K V) (h : Nat) : Prop where
  idx : s.superblock_index = 0
  rootidx : s.superblock.rootnode = 1
  root : s.buffercache[1]? = some r
  rtype : r.nodetype = BTREE_ROOT_NODE
  free : FreeFrom s h
  rkeys : KeysAscending r
  ptrs : 0 < r.numkeys → ∀ i, i ≤ r.numkeys → 2 ≤ r.ptrs i ∧ r.ptrs i < h
  inj : 0 < r.numkeys → ∀ i j, i ≤ r.numkeys → j ≤ r.numkeys → r.ptrs i = r.ptrs j → i = j
  leaves : 0 < r.numkeys → ∀ i, i ≤ r.numkeys →
    ∃ L, s.buffercache[r.ptrs i]? = some L ∧ LeafUnder r i L

/-- Every node of the two-level tree is below capacity and every block below the
free-list start is in use: the state between two top-level operations. -/
structure WithinCapacity (cfg : Config K V) (s : BTreeIndex K V) (r : BTreeNode K V) (h : Nat) :
    Prop where
  rootcap : r.numkeys < cfg.SlotsAsInterior
  leafcap : 0 < r.numkeys → ∀ i, i ≤ r.numkeys →
    ∀ L, s.buffercache[r.ptrs i]? = some L → L.numkeys < cfg.SlotsAsLeaf
  used : h = if r.numkeys = 0 then 2 else r.numkeys + 3

/-- The pair `(key, value)` is stored in a leaf of the two-level tree. -/
def Stored (s : BTreeIndex K V) (r : BTreeNode K V) (key : K) (value : V) : Prop :=
  0 < r.numkeys ∧ ∃ i, i ≤ r.numkeys ∧ ∃ L, s.buffercache[r.ptrs i]? = some L ∧
    ∃ j, j < L.numkeys ∧ L.keys j = key ∧ L.vals j = value

end Invariant

section ClosedForms

variable {K V : Type}

/-- Slot table `f` with the slots `lo, ..., hi - 1` overwritten by `z`. -/
def clearSlots {α : Type} (f : Nat → α) (lo hi : Nat) (z : α) : Nat → α :=
  fun j => if lo ≤ j ∧ j < hi then z else f j

/-- Slot table `g` with the slots `lo, ..., hi - 1` filled from the slots
`lo + d, ..., hi + d - 1` of `f`. -/
def copySlots {α : Type} (g f : Nat → α) (d lo hi : Nat) : Nat → α :=
  fun j => if lo ≤ j ∧ j < hi then f (j + d) else g j

/-- The leaf written by `LeafNodeInsert` when the scan stops at `offset`: one more
key, the pairs from `offset` on moved one slot right, `(key, value)` at
`offset`. -/
def leafInsertNode (L : BTreeNode K V) (offset : Nat) (key : K) (value : V) : BTreeNode K V :=
  { L with
    numkeys := L.numkeys + 1
    keys := Function.update (shiftRight L.keys offset L.numkeys) offset key
    vals := Function.update (shiftRight L.vals offset L.numkeys) offset value }

/-- The node written by `InteriorPointerInsert` when the scan stops at `offset`:
one more key, `key` at `offset` and `ptr` at pointer slot `offset + 1`. -/
def interiorInsertNode (b : BTreeNode K V) (offset : Nat) (key : K) (ptr : Nat) : BTreeNode K V :=
  { b with
    numkeys := b.numkeys + 1
    keys := Function.update (shiftRight b.keys offset b.numkeys) offset key
    ptrs := Function.update (shiftRight b.ptrs (offset + 1) (b.numkeys + 1)) (offset + 1) ptr }

/-- The original leaf as `Split` writes it back: the first `k1` pairs stay, the
moved slots hold the null key and value. -/
def splitLeafOrig (cfg : Config K V) (L : BTreeNode K V) (k1 : Nat) : BTreeNode K V :=
  { L with
    numkeys := k1
    keys := clearSlots L.keys k1 L.numkeys cfg.nullKey
    vals := clearSlots L.vals k1 L.numkeys cfg.nullVal }

/-- The sibling leaf as `Split` writes it into the block whose free-list header
was `F`: the pairs of `L` from slot `k1` on. -/
def splitLeafNew (cfg : Config K V) (L F : BTreeNode K V) (k1 : Nat) : BTreeNode K V :=
  { F with
    nodetype := BTREE_LEAF_NODE
    numkeys := L.numkeys - k1
    keys := copySlots (fun _ => cfg.zeroKey) L.keys k1 0 (L.numkeys - k1)
    vals := copySlots (fun _ => cfg.zeroVal) L.vals k1 0 (L.numkeys - k1)
    ptrs := fun _ => 0 }

/-- The superblock after `AllocateNode` has popped the free-list head and read
`next` from its header. -/
def popSuperblock (sb : BTreeNode K V) (next : Nat) : BTreeNode K V :=
  { sb with freelist := next }

/-- The index after `AllocateNode` has popped the free-list head: the superblock
with the new head, written to block 0. -/
def popFree (s : BTreeIndex K V) (next : Nat) : BTreeIndex K V :=
  { s with
    superblock := popSuperblock s.superblock next
    buffercache := s.buffercache.set 0 (popSuperblock s.superblock next) }

end ClosedForms

section Contents

variable {K V : Type}

/-- The pair `(key, value)` sits in one of the `numkeys` slots of `L`. -/
def Holds (L : BTreeNode K V) (key : K) (value : V) : Prop :=
  ∃ j, j < L.numkeys ∧ L.keys j = key ∧ L.vals j = value

end Contents

section FirstInsert

variable {K V : Type}

/-- The empty left leaf written by the first insert into the block whose
free-list header was `F`. -/
def firstLeftLeaf (cfg : Config K V) (F : BTreeNode K V) : BTreeNode K V :=
  { zeroData cfg { F with nodetype := BTREE_LEAF_NODE } with numkeys := 0 }

/-- The right leaf written by the first insert: the pair `(key, value)` in slot
0. -/
def firstRightLeaf (cfg : Config K V) (F : BTreeNode K V) (key : K) (value : V) : BTreeNode K V :=
  { zeroData cfg { F with nodetype := BTREE_LEAF_NODE } with
    numkeys := 1
    keys := Function.update (fun _ => cfg.zeroKey) 0 key
    vals := Function.update (fun _ => cfg.zeroVal) 0 value }

/-- The root written by the first insert: separator `key`, pointers `left` and
`right`. -/
def firstRoot (r : BTreeNode K V) (key : K) (left right : Nat) : BTreeNode K V :=
  { r with
    numkeys := 1
    keys := Function.update r.keys 0 key
    ptrs := Function.update (Function.update r.ptrs 0 left) 1 right }

end FirstInsert

/-! ## Reachable blocks, the free list, and runs of operations -/

section Reachability

variable {K V : Type}

/-- The blocks met by following child pointers from block `node`, the way
`DisplayInternal` walks the tree: a root or interior node with `numkeys > 0`
has `numkeys + 1` children, a node without keys has none. -/
def reachableFrom : Nat → List (BTreeNode K V) → Nat → List Nat
  | 0, _, _ => []
  | fuel + 1, bc, node =>
    match bc[node]? with
    | none => []
    | some b =>
      match b.nodetype with
      | BTREE_ROOT_NODE | BTREE_INTERIOR_NODE =>
        if b.numkeys > 0 then
          node :: (List.range (b.numkeys + 1)).foldr
            (fun offset acc => reachableFrom fuel bc (b.ptrs offset) ++ acc) []
        else [node]
      | _ => [node]

/-- The distinct blocks reachable from the superblock's root. -/
def reachableBlocks (s : BTreeIndex K V) : List Nat :=
  (reachableFrom (s.buffercache.length + 1) s.buffercache s.superblock.rootnode).dedup

/-- The chain of blocks starting at block `n` and linked by `info.freelist`; it
ends at index 0. -/
def freeListFrom : Nat → List (BTreeNode K V) → Nat → List Nat
  | 0, _, _ => []
  | fuel + 1, bc, n =>
    if n = 0 then []
    else
      match bc[n]? with
      | none => []
      | some b => n :: freeListFrom fuel bc b.freelist

/-- The free list starting at the superblock's free-list head. -/
def freeBlocks (s : BTreeIndex K V) : List Nat :=
  freeListFrom s.buffercache.length s.buffercache s.superblock.freelist

/-- Reachable blocks, plus free blocks, plus one for the superblock. -/
def accountedBlocks (s : BTreeIndex K V) : Nat :=
  (reachableBlocks s).length + (freeBlocks s).length + 1

/-- The capacity condition on one node: `numkeys < SlotsAsLeaf` on a leaf,
`numkeys < SlotsAsInterior` on a root or interior node. -/
def nodeBelowCapacity (cfg : Config K V) (b : BTreeNode K V) : Bool :=
  match b.nodetype with
  | BTREE_LEAF_NODE => decide (b.numkeys < cfg.SlotsAsLeaf)
  | BTREE_ROOT_NODE | BTREE_INTERIOR_NODE => decide (b.numkeys < cfg.SlotsAsInterior)
  | _ => true

/-- Every node reachable from the root is below capacity. -/
def reachableBelowCapacity (cfg : Config K V) (s : BTreeIndex K V) : Bool :=
  (reachableBlocks s).all fun n =>
    match s.buffercache[n]? with
    | some b => nodeBelowCapacity cfg b
    | none => true

end Reachability

section Operations

variable {K V : Type} [LinearOrder K]

/-- A top-level call on the index: `Insert(key, value)`, `Update(key, value)`
or `Lookup(key, value)`. -/
inductive Operation (K V : Type) where
  | insert (key : K) (value : V)
  | update (key : K) (value : V)
  | lookup (key : K) (value : V)

/-- The code and the index after one top-level call. -/
def applyOperation (cfg : Config K V) (s : BTreeIndex K V) :
    Operation K V → Option (ERROR_T × BTreeIndex K V)
  | .insert key value => Insert cfg s key value
  | .update key value => Update s key value
  | .lookup key value => (Lookup s key value).map fun r => (r.1, s)

/-- A sequence of top-level calls on one index; the result lists the code and
the index after each call, in order. -/
def runOperations (cfg : Config K V) :
    List (Operation K V) → BTreeIndex K V → Option (List (ERROR_T × BTreeIndex K V))
  | [], _ => some []
  | op :: rest, s =>
    match applyOperation cfg s op with
    | none => none
    | some (rc, s) =>
      match runOperations cfg rest s with
      | none => none
      | some trace => some ((rc, s) :: trace)

/-- The calls `Attach(0, true)` and then `ops` on the index object `s`. -/
def createAndRun (cfg : Config K V) (s : BTreeIndex K V) (ops : List (Operation K V)) :
    Option (List (ERROR_T × BTreeIndex K V)) :=
  match Attach cfg s 0 true with
  | some (ERROR_NOERROR, s) => runOperations cfg ops s
  | _ => none

/-- The run went on without exhaustion and without a root split: no call
returned `ERROR_NOSPACE` and the superblock's root index stayed 1. -/
def Undisturbed (trace : List (ERROR_T × BTreeIndex K V)) : Prop :=
  ∀ x ∈ trace, x.1 ≠ ERROR_NOSPACE ∧ x.2.superblock.rootnode = 1

end Operations

section RunHelpers

variable {K V : Type}

/-- The calls `Insert(key, value)` for the pairs of `kvs`, in order. -/
def insertOperations (kvs : List (K × V)) : List (Operation K V) :=
  kvs.map fun kv => Operation.insert kv.1 kv.2

/-- The index after the last call of a run that started on `s`. -/
def lastIndex (s : BTreeIndex K V) (trace : List (ERROR_T × BTreeIndex K V)) : BTreeIndex K V :=
  match trace.getLast? with
  | some x => x.2
  | none => s

end RunHelpers

/-! ## Child pointers, walks, and well-formed trees of any height -/

section ChildPointers

variable {K V : Type}

/-- Block `c` is named by one of the `numkeys + 1` child pointers of the root or
interior node stored in block `n`. -/
def IsChild (bc : List (BTreeNode K V)) (n c : Nat) : Prop :=
  ∃ b, bc[n]? = some b ∧
    (b.nodetype = BTREE_ROOT_NODE ∨ b.nodetype = BTREE_INTERIOR_NODE) ∧
    ∃ offset, offset ≤ b.numkeys ∧ b.ptrs offset = c

/-- Block `c` is reached from block `a` by following child pointers (zero or more
of them). -/
inductive Reaches (bc : List (BTreeNode K V)) : Nat → Nat → Prop where
  | here (a : Nat) : Reaches bc a a
  | step {a b c : Nat} : IsChild bc a b → Reaches bc b c → Reaches bc a c

/-- Following child pointers from `root` can return to a block already on the
current path: some block reached from `root` is reached again from one of its
own children. -/
def HasCycle (bc : List (BTreeNode K V)) (root : Nat) : Prop :=
  ∃ n c, Reaches bc root n ∧ IsChild bc n c ∧ Reaches bc c n

/-- The ends of the downward paths from block `node`, the way `Lookup` and
`Display` navigate: for each path the number of pointers followed and the tag of
the block it ends at (`none` for a block that does not exist). -/
def pathEnds : Nat → List (BTreeNode K V) → Nat → Nat → List (Nat × Option NodeType)
  | 0, _, _, _ => []
  | fuel + 1, bc, node, depth =>
    match bc[node]? with
    | none => [(depth, none)]
    | some b =>
      match b.nodetype with
      | BTREE_ROOT_NODE | BTREE_INTERIOR_NODE =>
        if b.numkeys > 0 then
          (List.range (b.numkeys + 1)).foldr
            (fun offset acc => pathEnds fuel bc (b.ptrs offset) (depth + 1) ++ acc) []
        else [(depth, some b.nodetype)]
      | t => [(depth, some t)]

/-- The ends of the paths from the superblock's root. -/
def rootPathEnds (s : BTreeIndex K V) : List (Nat × Option NodeType) :=
  pathEnds (s.buffercache.length + 1) s.buffercache s.superblock.rootnode 0

/-- The root-tag condition on an index: the in-memory superblock, kept at block 0
and tagged as superblock, names a block other than 0 that is tagged root, and no
other block of the store carries the root tag. -/
structure UniqueRootTag (s : BTreeIndex K V) : Prop where
  idx : s.superblock_index = 0
  sbtag : s.superblock.nodetype = BTREE_SUPERBLOCK
  rootnz : s.superblock.rootnode ≠ 0
  root : ∃ r, s.buffercache[s.superblock.rootnode]? = some r ∧ r.nodetype = BTREE_ROOT_NODE
  only : ∀ n b, s.buffercache[n]? = some b → b.nodetype = BTREE_ROOT_NODE →
    n = s.superblock.rootnode

end ChildPointers

section WellFormedTrees

variable {K V : Type} [LinearOrder K]

/-- Key `k` lies in the half-open range from `lo` (inclusive) to `hi`
(exclusive); `none` is no bound. -/
def Within (lo hi : Option K) (k : K) : Prop :=
  (∀ l, lo = some l → l ≤ k) ∧ (∀ u, hi = some u → k < u)

/-- The structural invariants of the tree below block `n`, of height `h`, all of
whose keys lie within `lo` and `hi`: a leaf holds strictly ascending keys; a root
or interior node with keys holds strictly ascending separators `K_0, ...` and the
keys under its pointer `P_i` lie in the range from `K_{i-1}` to `K_i`; a root
without keys is a tree of its own. -/
inductive WellFormed (bc : List (BTreeNode K V)) : Nat → Option K → Option K → Nat → Prop where
  | leaf {n : Nat} {b : BTreeNode K V} {lo hi : Option K} :
      bc[n]? = some b → b.nodetype = BTREE_LEAF_NODE → KeysAscending b →
      (∀ j, j < b.numkeys → Within lo hi (b.keys j)) → WellFormed bc n lo hi 0
  | empty {n : Nat} {b : BTreeNode K V} {lo hi : Option K} :
      bc[n]? = some b → b.nodetype = BTREE_ROOT_NODE → b.numkeys = 0 →
      WellFormed bc n lo hi 0
  | inner {n : Nat} {b : BTreeNode K V} {lo hi : Option K} {h : Nat} :
      bc[n]? = some b →
      (b.nodetype = BTREE_ROOT_NODE ∨ b.nodetype = BTREE_INTERIOR_NODE) →
      0 < b.numkeys → KeysAscending b →
      (∀ j, j < b.numkeys → Within lo hi (b.keys j)) →
      (∀ i, i ≤ b.numkeys →
        WellFormed bc (b.ptrs i) (if i = 0 then lo else some (b.keys (i - 1)))
          (if i = b.numkeys then hi else some (b.keys i)) h) →
      WellFormed bc n lo hi (h + 1)

/-- The pair `(key, value)` is stored in a leaf below block `n`. -/
inductive StoredUnder (bc : List (BTreeNode K V)) (key : K) (value : V) : Nat → Prop where
  | leaf {n : Nat} {b : BTreeNode K V} {j : Nat} :
      bc[n]? = some b → b.nodetype = BTREE_LEAF_NODE → j < b.numkeys →
      b.keys j = key → b.vals j = value → StoredUnder bc key value n
  | inner {n : Nat} {b : BTreeNode K V} {i : Nat} :
      bc[n]? = some b →
      (b.nodetype = BTREE_ROOT_NODE ∨ b.nodetype = BTREE_INTERIOR_NODE) →
      0 < b.numkeys → i ≤ b.numkeys → StoredUnder bc key value (b.ptrs i) →
      StoredUnder bc key value n

/-- The pointer slot the spec prescribes for `key` at a non-leaf node: the first
`i` with `key < K_i`, and `numkeys` when there is none. -/
def routeOffset (b : BTreeNode K V) (key : K) : Nat :=
  ((List.range b.numkeys).find? fun i => decide (key < b.keys i)).getD b.numkeys

end WellFormedTrees

section HandMadeStores

/-- A leaf of the scenario configuration holding the pairs `kvs`. -/
def leafNode (kvs : List (Nat × Nat)) : BTreeNode Nat Nat :=
  { mkNode scenarioConfig BTREE_LEAF_NODE with
    numkeys := kvs.length
    keys := fun i => (kvs.getD i (0, 0)).1
    vals := fun i => (kvs.getD i (0, 0)).2 }

/-- A root or interior node of the scenario configuration with the separators
`keys` and the pointers `ptrs`. -/
def innerNode (t : NodeType) (keys ptrs : List Nat) : BTreeNode Nat Nat :=
  { mkNode scenarioConfig t with
    numkeys := keys.length
    keys := fun i => keys.getD i 0
    ptrs := fun i => ptrs.getD i 0 }

/-- A superblock naming the root block `root` and the free-list head `free`. -/
def superNode (root free : Nat) : BTreeNode Nat Nat :=
  { mkNode scenarioConfig BTREE_SUPERBLOCK with rootnode := root, freelist := free }

/-- A free block whose header links to `next`. -/
def freeNode (next : Nat) : BTreeNode Nat Nat :=
  { mkNode scenarioConfig BTREE_UNALLOCATED_BLOCK with freelist := next }

/-- A mounted index whose block 0 is the superblock and whose blocks 1, 2, ... are
`blocks`. -/
def mountedIndex (root free : Nat) (blocks : List (BTreeNode Nat Nat)) : BTreeIndex Nat Nat :=
  { buffercache := superNode root free :: blocks
    superblock := superNode root free
    superblock_index := 0 }

/-- A store whose root names the same leaf (block 2) by pointer 0 and by
pointer 1. -/
def sharedLeafIndex : BTreeIndex Nat Nat :=
  mountedIndex 1 0 [innerNode BTREE_ROOT_NODE [5] [2, 2], leafNode [(5, 105)]]

/-- A store whose root names itself by pointer 1. -/
def selfLoopIndex : BTreeIndex Nat Nat :=
  mountedIndex 1 0 [innerNode BTREE_ROOT_NODE [5] [2, 1], leafNode [(1, 101)]]

/-- A store whose root (block 1) holds `SlotsAsInterior = 4` separators
10, 20, 30, 40 and the pointers 2, ..., 6 to five leaves; blocks 7 and 8 are
free. -/
def fullRootIndex : BTreeIndex Nat Nat :=
  mountedIndex 1 7
    [innerNode BTREE_ROOT_NODE [10, 20, 30, 40] [2, 3, 4, 5, 6],
      leafNode [(1, 101)], leafNode [(10, 110)], leafNode [(20, 120)], leafNode [(30, 130)],
      leafNode [(40, 140)], freeNode 8, freeNode 0]

/-- A three-level tree: the root (block 1) with separator 30, two interior nodes
(blocks 2 and 3) with separators 10 and 50, and four leaves (blocks 4 to 7). -/
def threeLevelIndex : BTreeIndex Nat Nat :=
  mountedIndex 1 0
    [innerNode BTREE_ROOT_NODE [30] [2, 3],
      innerNode BTREE_INTERIOR_NODE [10] [4, 5], innerNode BTREE_INTERIOR_NODE [50] [6, 7],
      leafNode [(1, 101), (5, 105)], leafNode [(10, 110), (20, 120)],
      leafNode [(30, 130), (40, 140)], leafNode [(50, 150), (60, 160)]]

end HandMadeStores

section RootSteps

variable {K V : Type}

/-- The state `s1` comes after `s` with the same root index and without a block
that went back to the free pool: every block tagged unallocated in `s1` was
tagged unallocated in `s`. -/
def Kept (s s1 : BTreeIndex K V) : Prop :=
  s1.superblock.rootnode = s.superblock.rootnode ∧
    ∀ (n : Nat) (F : BTreeNode K V), s1.buffercache[n]? = some F →
      F.nodetype = BTREE_UNALLOCATED_BLOCK →
      ∃ F0 : BTreeNode K V, s.buffercache[n]? = some F0 ∧
        F0.nodetype = BTREE_UNALLOCATED_BLOCK

/-- The effect of one call on the root tag: afterwards the root-tag condition
holds, and either the root index is what it was, or the block of the old root
index is now tagged interior and the block of the new root index was tagged
unallocated before the call. -/
def RootStep (s s' : BTreeIndex K V) : Prop :=
  UniqueRootTag s' ∧
    (s'.superblock.rootnode = s.superblock.rootnode ∨
      ((∃ b, s'.buffercache[s.superblock.rootnode]? = some b ∧
          b.nodetype = BTREE_INTERIOR_NODE) ∧
        ∃ F : BTreeNode K V, s.buffercache[s'.superblock.rootnode]? = some F ∧
          F.nodetype = BTREE_UNALLOCATED_BLOCK))

end RootSteps

section UnsignedLoops

variable {K V : Type}

/-- The shift loop of `LeafNodeInsert` with `iter` as an unsigned integer of `w`
bits, `for (iter = numkeys-2; iter >= offset; iter--)`: `iter + 1` and `iter--`
are computed modulo `2 ^ w`.  Besides the node, the run reports the slots it
passed to `GetKey`, `SetKey`, `GetVal` and `SetVal`, and whether `iter--` was
run on zero.  `fuel` bounds the number of passes. -/
def leafShiftLoopUnsigned (w offset : Nat) :
    Nat → Nat → BTreeNode K V → List Nat → Bool →
      Option (Except ERROR_T (BTreeNode K V) × List Nat × Bool)
  | 0, _, _, _, _ => none
  | fuel + 1, iter, b, slots, wrapped =>
    if iter ≥ offset then
      let next := (iter + 1) % 2 ^ w
      let slots := slots ++ [iter, next]
      let moved : Except ERROR_T (BTreeNode K V) := do
        let temp_key ← GetKey b iter
        let b ← SetKey b next temp_key
        let temp_val ← GetVal b iter
        SetVal b next temp_val
      match moved with
      | .error rc => some (.error rc, slots, wrapped)
      | .ok b =>
        if iter = offset then some (.ok b, slots, wrapped)
        else leafShiftLoopUnsigned w offset fuel ((iter + (2 ^ w - 1)) % 2 ^ w) b slots
          (wrapped || decide (iter = 0))
    else some (.ok b, slots, wrapped)

/-- The shift of `LeafNodeInsert` from its start `iter = numkeys - 2` in `w`-bit
unsigned arithmetic, on the node whose `numkeys` is already incremented; the
flag is set from the start when `numkeys - 2` itself wraps around. -/
def leafShiftUnsigned (w offset : Nat) (b : BTreeNode K V) :
    Option (Except ERROR_T (BTreeNode K V) × List Nat × Bool) :=
  leafShiftLoopUnsigned w offset b.numkeys ((b.numkeys + (2 ^ w - 2)) % 2 ^ w) b []
    (decide (b.numkeys < 2))

end UnsignedLoops

section LeafFrames

variable {K V : Type}

/-- Block `n` of the cache, if the device has it, is not tagged leaf. -/
def NotLeafAt (bc : List (BTreeNode K V)) (n : Nat) : Prop :=
  ∀ b : BTreeNode K V, bc[n]? = some b → b.nodetype ≠ BTREE_LEAF_NODE

/-- The superblock is no leaf: neither the in-memory superblock nor the block at
`superblock_index` is tagged leaf. -/
def SuperblockApart (s : BTreeIndex K V) : Prop :=
  s.superblock.nodetype ≠ BTREE_LEAF_NODE ∧ NotLeafAt s.buffercache s.superblock_index

/-- The state `s'` comes after `s` without a write to a block that `s` tags
leaf, and its superblock is still no leaf. -/
def LeavesKept (s s' : BTreeIndex K V) : Prop :=
  SuperblockApart s' ∧
    ∀ (m : Nat) (b : BTreeNode K V), s.buffercache[m]? = some b →
      b.nodetype = BTREE_LEAF_NODE → s'.buffercache[m]? = some b

end LeafFrames

section MoreStores

/-- A store whose leaf in block 3 holds `SlotsAsLeaf = 4` entries under the root
of block 1; block 4 is free. -/
def fullLeafIndex : BTreeIndex Nat Nat :=
  mountedIndex 1 4
    [innerNode BTREE_ROOT_NODE [10] [2, 3], leafNode [(1, 101)],
      leafNode [(10, 110), (20, 120), (30, 130), (40, 140)], freeNode 0]

end MoreStores

section Descent

variable {K V : Type} [LinearOrder K]

/-- One step of the descent of `Inserter` for `key`: the block it recurses into
from block `node`, when `node` holds a root or interior node with keys; `none`
when the descent stops at `node` (a leaf, an empty node, an unreadable block, a
failed accessor). -/
def descendStep (bc : List (BTreeNode K V)) (key : K) (node : Nat) : Option Nat :=
  match Unserialize bc node with
  | .error _ => none
  | .ok b =>
    if b.nodetype = BTREE_ROOT_NODE ∧ b.numkeys = 0 then none
    else
      match b.nodetype with
      | BTREE_ROOT_NODE | BTREE_INTERIOR_NODE =>
        match scanInterior b key (List.range b.numkeys) with
        | .error _ => none
        | .ok (some ptr) => some ptr
        | .ok none =>
          if b.numkeys > 0 then
            match GetPtr b b.numkeys with
            | .error _ => none
            | .ok ptr => some ptr
          else none
      | _ => none

/-- The block reached from `node` after `d` steps of the descent for `key`. -/
def descend (bc : List (BTreeNode K V)) (key : K) : Nat → Nat → Option Nat
  | 0, node => some node
  | d + 1, node =>
    match descendStep bc key node with
    | none => none
    | some next => descend bc key d next

end Descent

section RoundTripScenario

/-- The index after `Attach(0, true)` on a device of `n` blocks. -/
def freshIndex (n : Nat) : BTreeIndex Nat Nat :=
  finalIndex (Attach scenarioConfig (blankIndex n) 0 true) (blankIndex n)

/-- The codes and indexes after each of the calls `Insert` for the pairs `kvs` on
a fresh device of `n` blocks. -/
def insertTrace (n : Nat) (kvs : List (Nat × Nat)) : List (ERROR_T × BTreeIndex Nat Nat) :=
  (runOperations scenarioConfig (insertOperations kvs) (freshIndex n)).getD []

/-- Seven pairs in an order that fills the right leaf first to capacity. -/
def shuffledPairs : List (Nat × Nat) :=
  [(5, 105), (2, 102), (8, 108), (1, 101), (9, 109), (3, 103), (7, 107)]

end RoundTripScenario

section RootSplitScenario

/-- The index after the calls `Insert` for the pairs `kvs` on a fresh device of
`n` blocks. -/
def insertedIndex (n : Nat) (kvs : List (Nat × Nat)) : BTreeIndex Nat Nat :=
  finalIndex (insertAll scenarioConfig kvs (freshIndex n)) (freshIndex n)

end RootSplitScenario

/-! ## Properties -/

section CodecLemmas

variable {K V : Type}

theorem Unserialize_ok_iff {bc : List (BTreeNode K V)} {n : Nat} {b : BTreeNode K V} :
    Unserialize bc n = .ok b ↔ bc[n]? = some b := by
  unfold Unserialize
  cases h : bc[n]? <;> simp

theorem Unserialize_error_ne {bc : List (BTreeNode K V)} {n : Nat} {rc : ERROR_T}
    (h : Unserialize bc n = .error rc) : rc ≠ ERROR_NOERROR := by
  unfold Unserialize at h
  cases hb : bc[n]? <;> rw [hb] at h <;> simp at h
  subst h; decide

theorem GetKey_error_ne {b : BTreeNode K V} {o : Nat} {rc : ERROR_T}
    (h : GetKey b o = .error rc) : rc ≠ ERROR_NOERROR := by
  unfold GetKey at h
  split at h <;> simp at h
  subst h; decide

theorem GetPtr_error_ne {b : BTreeNode K V} {o : Nat} {rc : ERROR_T}
    (h : GetPtr b o = .error rc) : rc ≠ ERROR_NOERROR := by
  unfold GetPtr at h
  split at h <;> simp at h
  subst h; decide

theorem finalIndex_eq {α : Type} {o : Option (α × BTreeIndex K V)} {a : α}
    (d : BTreeIndex K V) (h : o.map Prod.fst = some a) : o = some (a, finalIndex o d) := by
  cases o with
  | none => simp at h
  | some r =>
    obtain ⟨x, s⟩ := r
    simp at h
    simp [finalIndex, h]

end CodecLemmas

section LookupLemmas

variable {K V : Type} [LinearOrder K]

theorem scanLeaf_error_ne {b : BTreeNode K V} {key : K} {l : List Nat} {rc : ERROR_T}
    (h : scanLeaf b key l = .error rc) : rc ≠ ERROR_NOERROR := by
  induction l with
  | nil => simp [scanLeaf] at h
  | cons o rest ih =>
    unfold scanLeaf at h
    cases hk : GetKey b o with
    | error rc0 =>
      rw [hk] at h; simp at h; subst h; exact GetKey_error_ne hk
    | ok testkey =>
      rw [hk] at h
      simp only at h
      split at h
      · simp at h
      · exact ih h

theorem scanInterior_error_ne {b : BTreeNode K V} {key : K} {l : List Nat} {rc : ERROR_T}
    (h : scanInterior b key l = .error rc) : rc ≠ ERROR_NOERROR := by
  induction l with
  | nil => simp [scanInterior] at h
  | cons o rest ih =>
    unfold scanInterior at h
    cases hk : GetKey b o with
    | error rc0 =>
      rw [hk] at h; simp at h; subst h; exact GetKey_error_ne hk
    | ok testkey =>
      rw [hk] at h
      simp only at h
      split at h
      · cases hp : GetPtr b o with
        | error rc1 => rw [hp] at h; simp at h; subst h; exact GetPtr_error_ne hp
        | ok p => rw [hp] at h; simp at h
      · exact ih h

theorem scanLeaf_some_lt {b : BTreeNode K V} {key : K} {l : List Nat} {offset : Nat}
    (h : scanLeaf b key l = .ok (some offset)) : offset < b.numkeys ∧ b.keys offset = key := by
  induction l with
  | nil => simp [scanLeaf] at h
  | cons o rest ih =>
    unfold scanLeaf at h
    unfold GetKey at h
    by_cases ho : o < b.numkeys
    · simp only [ho, if_true] at h
      by_cases hk : b.keys o = key
      · simp only [hk, if_true] at h
        cases h
        exact ⟨ho, hk⟩
      · simp only [hk, if_false] at h
        exact ih h
    · simp [ho] at h

/-- The leaf scan reads only the key count and the keys of a node. -/
theorem scanLeaf_congr (b b' : BTreeNode K V) (key : K) (l : List Nat)
    (hn : b'.numkeys = b.numkeys) (hk : b'.keys = b.keys) :
    scanLeaf b' key l = scanLeaf b key l := by
  induction l with
  | nil => rfl
  | cons o rest ih => simp [scanLeaf, GetKey, hn, hk, ih]

/-- An update that returns `ERROR_NOERROR` rewrites one leaf; the lookup of the
same key along the same path then reads the new value. -/
theorem update_then_lookup (fuel : Nat) (bc : List (BTreeNode K V)) (key : K) (value : V) :
    ∀ (node : Nat) (v : V) (bc' : List (BTreeNode K V)),
      LookupOrUpdateInternal fuel bc node BTREE_OP_UPDATE key value = some (ERROR_NOERROR, v, bc') →
      (∀ v0, LookupOrUpdateInternal fuel bc' node BTREE_OP_LOOKUP key v0
          = some (ERROR_NOERROR, value, bc')) ∧
      bc'.length = bc.length ∧
      (∀ (n : Nat) (b : BTreeNode K V), bc[n]? = some b → b.nodetype ≠ BTREE_LEAF_NODE →
        bc'[n]? = some b) := by
  induction fuel with
  | zero => intro node v bc' h; simp [LookupOrUpdateInternal] at h
  | succ fuel ih =>
    intro node v bc' h
    unfold LookupOrUpdateInternal at h
    cases hb : Unserialize bc node with
    | error rc =>
      rw [hb] at h; simp at h; exact absurd h.1 (Unserialize_error_ne hb)
    | ok b =>
      rw [hb] at h
      have hbn := Unserialize_ok_iff.mp hb
      -- the descent through a root or interior node
      have interior : (b.nodetype = BTREE_ROOT_NODE ∨ b.nodetype = BTREE_INTERIOR_NODE) →
          (match scanInterior b key (List.range b.numkeys) with
            | .error rc => some (rc, value, bc)
            | .ok (some ptr) => LookupOrUpdateInternal fuel bc ptr BTREE_OP_UPDATE key value
            | .ok none =>
              if b.numkeys > 0 then
                match GetPtr b b.numkeys with
                | .error rc => some (rc, value, bc)
                | .ok ptr => LookupOrUpdateInternal fuel bc ptr BTREE_OP_UPDATE key value
              else some (ERROR_NONEXISTENT, value, bc)) = some (ERROR_NOERROR, v, bc') →
          (∀ v0, LookupOrUpdateInternal (fuel + 1) bc' node BTREE_OP_LOOKUP key v0
            = some (ERROR_NOERROR, value, bc')) ∧ bc'.length = bc.length ∧
          (∀ (n : Nat) (b : BTreeNode K V), bc[n]? = some b → b.nodetype ≠ BTREE_LEAF_NODE →
            bc'[n]? = some b) := by
        intro ht h
        have hne : b.nodetype ≠ BTREE_LEAF_NODE := by rcases ht with ht | ht <;> simp [ht]
        have finish : ∀ ptr, LookupOrUpdateInternal fuel bc ptr BTREE_OP_UPDATE key value
              = some (ERROR_NOERROR, v, bc') →
            (∀ v0, LookupOrUpdateInternal fuel bc' ptr BTREE_OP_LOOKUP key v0
              = some (ERROR_NOERROR, value, bc')) ∧ bc'.length = bc.length ∧
            (∀ (n : Nat) (b : BTreeNode K V), bc[n]? = some b → b.nodetype ≠ BTREE_LEAF_NODE →
              bc'[n]? = some b) := fun ptr hp => ih ptr v bc' hp
        have hb' : ∀ ptr, LookupOrUpdateInternal fuel bc ptr BTREE_OP_UPDATE key value
              = some (ERROR_NOERROR, v, bc') → Unserialize bc' node = .ok b := by
          intro ptr hp
          exact Unserialize_ok_iff.mpr ((finish ptr hp).2.2 node b hbn hne)
        cases hs : scanInterior b key (List.range b.numkeys) with
        | error rc => rw [hs] at h; simp at h; exact absurd h.1 (scanInterior_error_ne hs)
        | ok r =>
          rw [hs] at h
          cases r with
          | some ptr =>
            simp only at h
            refine ⟨?_, (finish ptr h).2⟩
            intro v0
            unfold LookupOrUpdateInternal
            rw [hb' ptr h]
            rcases ht with ht | ht <;> simp only [ht, hs] <;> exact (finish ptr h).1 v0
          | none =>
            simp only at h
            by_cases hpos : b.numkeys > 0
            · simp only [hpos, if_true] at h
              cases hp : GetPtr b b.numkeys with
              | error rc => rw [hp] at h; simp at h; exact absurd h.1 (GetPtr_error_ne hp)
              | ok ptr =>
                rw [hp] at h
                simp only at h
                refine ⟨?_, (finish ptr h).2⟩
                intro v0
                unfold LookupOrUpdateInternal
                rw [hb' ptr h]
                rcases ht with ht | ht <;> simp only [ht, hs, hpos, if_true, hp] <;>
                  exact (finish ptr h).1 v0
            · simp [hpos] at h
      cases ht : b.nodetype with
      | BTREE_UNALLOCATED_BLOCK => simp [ht] at h
      | BTREE_SUPERBLOCK => simp [ht] at h
      | BTREE_LEAF_NODE =>
        simp only [ht] at h
        cases hs : scanLeaf b key (List.range b.numkeys) with
        | error rc => rw [hs] at h; simp at h; exact absurd h.1 (scanLeaf_error_ne hs)
        | ok r =>
          rw [hs] at h
          cases r with
          | none => simp at h
          | some offset =>
            obtain ⟨hlt, hkey⟩ := scanLeaf_some_lt hs
            have hlen : node < bc.length := by
              rcases List.getElem?_eq_some_iff.mp hbn with ⟨hl, _⟩; exact hl
            simp [SetVal, hlt, Serialize, hlen] at h
            obtain ⟨hv, hbc⟩ := h
            subst hbc
            refine ⟨?_, by simp, ?_⟩
            · intro v0
              unfold LookupOrUpdateInternal
              have : Unserialize (bc.set node { b with vals := Function.update b.vals offset value }) node
                  = .ok { b with vals := Function.update b.vals offset value } := by
                rw [Unserialize_ok_iff]; simp [hlen]
              rw [this]
              have hs' : scanLeaf { b with vals := Function.update b.vals offset value } key
                  (List.range b.numkeys) = .ok (some offset) :=
                (scanLeaf_congr b { b with vals := Function.update b.vals offset value }
                  key _ rfl rfl).trans hs
              simp only [ht] at hs' ⊢
              rw [hs']
              simp [GetVal, hlt]
            · intro n b0 hn hne
              by_cases hnn : node = n
              · subst hnn; rw [hbn] at hn; cases hn; exact absurd ht hne
              · simp [List.getElem?_set_ne hnn, hn]
      | BTREE_ROOT_NODE =>
        simp only [ht] at h
        exact interior (Or.inl ht) h
      | BTREE_INTERIOR_NODE =>
        simp only [ht] at h
        exact interior (Or.inr ht) h

/-- Only an update that returns `ERROR_NOERROR` writes to the block cache. -/
theorem lookupOrUpdate_cache (fuel : Nat) (bc : List (BTreeNode K V)) (op : BTreeOp) (key : K)
    (value : V) : ∀ (node : Nat) (rc : ERROR_T) (v : V) (bc' : List (BTreeNode K V)),
      LookupOrUpdateInternal fuel bc node op key value = some (rc, v, bc') →
      bc' = bc ∨ (rc = ERROR_NOERROR ∧ op = BTREE_OP_UPDATE) := by
  induction fuel with
  | zero => intro node rc v bc' h; simp [LookupOrUpdateInternal] at h
  | succ fuel ih =>
    intro node rc v bc' h
    unfold LookupOrUpdateInternal at h
    repeat' split at h
    all_goals first
      | exact ih _ _ _ _ h
      | (simp only [Option.some.injEq, Prod.mk.injEq] at h
         first
          | exact Or.inl h.2.2.symm
          | (refine Or.inr ⟨h.1.symm, ?_⟩; cases op <;> simp_all))

/-- An `Update` that does not return `ERROR_NOERROR` leaves the index as it was. -/
theorem Update_unchanged {s s' : BTreeIndex K V} {key : K} {value : V} {rc : ERROR_T}
    (h : Update s key value = some (rc, s')) (hrc : rc ≠ ERROR_NOERROR) : s' = s := by
  unfold Update at h
  cases hr : LookupOrUpdateInternal s.buffercache.length s.buffercache s.superblock.rootnode
      BTREE_OP_UPDATE key value with
  | none => rw [hr] at h; simp at h
  | some r =>
    obtain ⟨rc0, v, bc'⟩ := r
    rw [hr] at h
    simp at h
    obtain ⟨h1, h2⟩ := h
    subst h1
    rcases lookupOrUpdate_cache _ _ _ _ _ _ _ _ _ hr with hbc | hbc
    · subst hbc; rw [← h2]
    · exact absurd hbc.1 hrc

end LookupLemmas

section Claims

variable {K V : Type} [LinearOrder K]

/-- C1 (fails on the code): on a 9-block device with `SlotsAsLeaf = SlotsAsInterior = 4`
the ascending inserts of keys 1..8 all return `ERROR_NOERROR`; the eighth splits
the root, and afterwards `Lookup` of the inserted key 5 returns
`ERROR_NONEXISTENT` and `Lookup` of the inserted key 7 returns `ERROR_INSANE`. -/
theorem C1_lookup_lost_after_root_split :
    (scenario 9 (ascending 8)).map (fun r => (r.1, Lookup r.2 5 0, Lookup r.2 7 0)) =
      some (List.replicate 8 ERROR_NOERROR,
        some (ERROR_NONEXISTENT, 0), some (ERROR_INSANE, 0)) := by
  decide

/-- C2 (fails on the code): after the ascending inserts of keys 1..7, `Insert(8, 108)`
returns `ERROR_NOERROR` (it splits the root), the immediately following
`Insert(8, 208)` returns `ERROR_INSANE` instead of `ERROR_CONFLICT`, and
`Lookup(8)` then returns `ERROR_INSANE` instead of the value 108. -/
theorem C2_second_insert_not_conflict :
    ((scenario 9 (ascending 7)).bind fun r =>
      (Insert scenarioConfig r.2 8 108).bind fun r1 =>
        (Insert scenarioConfig r1.2 8 208).map fun r2 => (r.1, r1.1, r2.1, Lookup r2.2 8 0)) =
      some (List.replicate 7 ERROR_NOERROR, ERROR_NOERROR, ERROR_INSANE,
        some (ERROR_INSANE, 0)) := by
  decide

/-- C3: whenever `Update(key, value)` returns `ERROR_NOERROR`, on any block store,
a `Lookup(key)` made right after it returns `ERROR_NOERROR` with `value`. -/
theorem C3_update_then_lookup (s s' : BTreeIndex K V) (key : K) (value : V)
    (h : Update s key value = some (ERROR_NOERROR, s')) (v0 : V) :
    Lookup s' key v0 = some (ERROR_NOERROR, value) := by
  unfold Update at h
  cases hr : LookupOrUpdateInternal s.buffercache.length s.buffercache s.superblock.rootnode
      BTREE_OP_UPDATE key value with
  | none => rw [hr] at h; simp at h
  | some r =>
    obtain ⟨rc0, v, bc'⟩ := r
    rw [hr] at h
    simp at h
    obtain ⟨h1, h2⟩ := h
    subst h1
    obtain ⟨hl, hlen, _⟩ := update_then_lookup _ _ _ _ _ _ _ hr
    subst h2
    unfold Lookup
    simp only [hlen]
    rw [hl v0]
    rfl

/-- Witness for C3: in the tree holding keys 1..3, `Update(2, 999)` returns
`ERROR_NOERROR` and the following `Lookup(2)` returns 999. -/
theorem C3_update_then_lookup_witness :
    Update (scenarioIndex 6 (ascending 3)) 2 999 =
        some (ERROR_NOERROR,
          finalIndex (Update (scenarioIndex 6 (ascending 3)) 2 999) (blankIndex 6)) ∧
      Lookup (finalIndex (Update (scenarioIndex 6 (ascending 3)) 2 999) (blankIndex 6)) 2 0 =
        some (ERROR_NOERROR, 999) :=
  ⟨finalIndex_eq _ (by decide),
   C3_update_then_lookup _ _ 2 999 (finalIndex_eq _ (by decide)) 0⟩

/-- C4 (fails on the code): after the ascending inserts of keys 1..8 (the eighth
splits the root), `Update(9, 0)` of the key 9, which was never inserted, returns
`ERROR_INSANE` instead of `ERROR_NONEXISTENT`. -/
theorem C4_update_absent_key_insane :
    ((scenario 9 (ascending 8)).bind fun r => (Update r.2 9 0).map fun u => (r.1, u.1)) =
      some (List.replicate 8 ERROR_NOERROR, ERROR_INSANE) := by
  decide

/-- C6 (fails on the code): after the ascending inserts of keys 1..8 (the eighth
splits the root), the in-order dump of `Display` stops with `ERROR_INSANE` after
the pairs of keys 1..6; keys 7 and 8 are not reached. -/
theorem C6_display_stops_after_root_split :
    (scenario 9 (ascending 8)).map (fun r => (r.1, Display r.2)) =
      some (List.replicate 8 ERROR_NOERROR,
        some (ERROR_INSANE, [(1, 101), (2, 102), (3, 103), (4, 104), (5, 105), (6, 106)])) := by
  decide

end Claims

section AttachLemmas

variable {K V : Type}

theorem attachFreeLoop_spec (cfg : Config K V) : ∀ (cnt a : Nat) (bc : List (BTreeNode K V)),
    a + cnt ≤ bc.length →
    ∃ bc', attachFreeLoop cfg 0 (List.range' a cnt) bc = (ERROR_NOERROR, bc') ∧
      bc'.length = bc.length ∧
      (∀ i, i < a ∨ a + cnt ≤ i → bc'[i]? = bc[i]?) ∧
      (∀ i, a ≤ i → i < a + cnt → bc'[i]? = some (newFreeNode cfg bc.length i)) := by
  intro cnt
  induction cnt with
  | zero =>
    intro a bc _
    exact ⟨bc, by simp [attachFreeLoop], rfl, fun _ _ => rfl, fun i h1 h2 => by omega⟩
  | succ cnt ih =>
    intro a bc hlen
    have ha : a < bc.length := by omega
    obtain ⟨bc', h1, h2, h3, h4⟩ := ih (a + 1) (bc.set a (newFreeNode cfg bc.length a))
      (by simp; omega)
    refine ⟨bc', ?_, by simpa using h2, ?_, ?_⟩
    · rw [List.range'_succ]
      simp only [attachFreeLoop, Serialize, ha, if_true]
      exact h1
    · intro i hi
      rw [h3 i (by omega)]
      rw [List.getElem?_set_ne (by omega)]
    · intro i hi1 hi2
      by_cases hia : i = a
      · subst hia
        rw [h3 i (by omega)]
        simp [ha]
      · have := h4 i (by omega) (by omega)
        simpa using this

/-- What `Attach(0, true)` leaves on a device of at least two blocks. -/
theorem Attach_create [LinearOrder K] (cfg : Config K V) (s0 : BTreeIndex K V)
    (hN : 2 ≤ s0.buffercache.length) :
    ∃ s, Attach cfg s0 0 true = some (ERROR_NOERROR, s) ∧
      s.superblock_index = 0 ∧
      s.superblock = newSuperblock cfg ∧
      s.buffercache.length = s0.buffercache.length ∧
      s.buffercache[0]? = some (newSuperblock cfg) ∧
      s.buffercache[1]? = some (newRootNode cfg) ∧
      (∀ i, 2 ≤ i → i < s0.buffercache.length →
        s.buffercache[i]? = some (newFreeNode cfg s0.buffercache.length i)) := by
  obtain ⟨bc', h1, h2, h3, h4⟩ := attachFreeLoop_spec cfg (s0.buffercache.length - 2) 2
    ((s0.buffercache.set 0 (newSuperblock cfg)).set 1 (newRootNode cfg)) (by simp; omega)
  simp only [List.length_set] at h1 h2 h3 h4
  have hb0 : bc'[0]? = some (newSuperblock cfg) := by
    rw [h3 0 (by omega), List.getElem?_set_ne (by omega), List.getElem?_set_self (by omega)]
  have hb1 : bc'[1]? = some (newRootNode cfg) := by
    rw [h3 1 (by omega), List.getElem?_set_self (by simp; omega)]
  refine ⟨{ buffercache := bc', superblock := newSuperblock cfg, superblock_index := 0 },
    ?_, rfl, rfl, h2, hb0, hb1, ?_⟩
  · unfold Attach
    have e0 : (0 : Nat) < s0.buffercache.length := by omega
    have e1 : (1 : Nat) < s0.buffercache.length := by omega
    simp only [ne_eq, not_true_eq_false, if_false, if_true, Serialize, e0, e1, List.length_set,
      Nat.zero_add]
    simp only [newSuperblock, newRootNode, mkNode] at h1 hb0 ⊢
    rw [h1]
    simp only [Unserialize, hb0]
  · intro i hi1 hi2
    exact h4 i hi1 (by omega)

theorem fresh_lookup [LinearOrder K] (cfg : Config K V) (s : BTreeIndex K V)
    (hsb : s.superblock = newSuperblock cfg) (hlen : 2 ≤ s.buffercache.length)
    (h1 : s.buffercache[1]? = some (newRootNode cfg)) (key : K) (v0 : V) :
    Lookup s key v0 = some (ERROR_NONEXISTENT, v0) := by
  obtain ⟨m, hm⟩ : ∃ m, s.buffercache.length = m + 1 := ⟨s.buffercache.length - 1, by omega⟩
  unfold Lookup
  rw [hm, hsb]
  unfold LookupOrUpdateInternal
  simp [newSuperblock, Unserialize, h1, newRootNode, mkNode, scanInterior]

/-- `ISA_Tree` follows pointer 0 of a root without keys; on the fresh tree that
pointer is 0 and names the superblock. -/
theorem fresh_sanity (cfg : Config K V) (s : BTreeIndex K V)
    (hsb : s.superblock = newSuperblock cfg) (hlen : 2 ≤ s.buffercache.length)
    (h0 : s.buffercache[0]? = some (newSuperblock cfg))
    (h1 : s.buffercache[1]? = some (newRootNode cfg)) :
    SanityCheck cfg s = some ERROR_INSANE := by
  obtain ⟨m, hm⟩ : ∃ m, s.buffercache.length = m + 1 := ⟨s.buffercache.length - 1, by omega⟩
  unfold SanityCheck
  rw [hm, hsb]
  unfold ISA_Tree
  simp only [newSuperblock, Unserialize, h1, newRootNode, mkNode, List.not_mem_nil, if_false]
  by_cases hc : 0 ≥ cfg.SlotsAsInterior
  · simp [hc]
  · simp only [hc, if_false]
    unfold ISA_Tree
    simp [forChildren, GetPtr, ptrInRange, List.range_succ, Unserialize, h0, newSuperblock, mkNode]

end AttachLemmas

section ClaimsFresh

variable {K V : Type} [LinearOrder K]

/-- C9 (fails on the code): right after `Attach(0, true)` on any device of at least
two blocks the root has no keys and `Lookup` of every key returns
`ERROR_NONEXISTENT`, but `SanityCheck` returns `ERROR_INSANE`: `ISA_Tree` visits
the `numkeys + 1` pointers of the empty root without the `numkeys > 0` guard of
`Lookup` and `Display`. -/
theorem C9_fresh_tree_sanity_check_insane (cfg : Config K V) (s0 : BTreeIndex K V)
    (hN : 2 ≤ s0.buffercache.length) :
    ∃ s, Attach cfg s0 0 true = some (ERROR_NOERROR, s) ∧
      (∃ r, s.buffercache[s.superblock.rootnode]? = some r ∧
        r.nodetype = BTREE_ROOT_NODE ∧ r.numkeys = 0) ∧
      (∀ key v0, Lookup s key v0 = some (ERROR_NONEXISTENT, v0)) ∧
      SanityCheck cfg s = some ERROR_INSANE := by
  obtain ⟨s, hs, _, hsb, hlen, h0, h1, _⟩ := Attach_create cfg s0 hN
  refine ⟨s, hs, ⟨newRootNode cfg, ?_, rfl, rfl⟩, ?_, ?_⟩
  · rw [hsb]; exact h1
  · exact fun key v0 => fresh_lookup cfg s hsb (by omega) h1 key v0
  · exact fresh_sanity cfg s hsb (by omega) h0 h1

/-- Witness for C9: the 6-block device of the scenarios. -/
theorem C9_fresh_tree_sanity_check_insane_witness :
    ∃ s, Attach scenarioConfig (blankIndex 6) 0 true = some (ERROR_NOERROR, s) ∧
      (∃ r, s.buffercache[s.superblock.rootnode]? = some r ∧
        r.nodetype = BTREE_ROOT_NODE ∧ r.numkeys = 0) ∧
      (∀ key v0, Lookup s key v0 = some (ERROR_NONEXISTENT, v0)) ∧
      SanityCheck scenarioConfig s = some ERROR_INSANE :=
  C9_fresh_tree_sanity_check_insane scenarioConfig (blankIndex 6) (by decide)

/-- C10 (fails on the code): on a device of exactly two blocks `Attach(0, true)`
returns `ERROR_NOERROR` and leaves the free-list head at 2, not at 0; block 2
does not exist on the device. -/
theorem C10_two_block_device_head_not_zero (cfg : Config K V) (s0 : BTreeIndex K V)
    (hN : s0.buffercache.length = 2) :
    ∃ s, Attach cfg s0 0 true = some (ERROR_NOERROR, s) ∧
      s.superblock.freelist = 2 ∧ s.buffercache.length = 2 ∧
      s.buffercache[s.superblock.freelist]? = none := by
  obtain ⟨s, hs, _, hsb, hlen, h0, h1, _⟩ := Attach_create cfg s0 (by omega)
  refine ⟨s, hs, by rw [hsb]; rfl, by omega, ?_⟩
  rw [hsb]
  exact List.getElem?_eq_none (by simp [newSuperblock]; omega)

/-- Witness for C10: the two-block device with the scenario configuration. -/
theorem C10_two_block_device_head_not_zero_witness :
    ∃ s, Attach scenarioConfig (blankIndex 2) 0 true = some (ERROR_NOERROR, s) ∧
      s.superblock.freelist = 2 ∧ s.buffercache.length = 2 ∧
      s.buffercache[s.superblock.freelist]? = none :=
  C10_two_block_device_head_not_zero scenarioConfig (blankIndex 2) (by decide)

end ClaimsFresh

section ShiftLemmas

variable {K V : Type}

theorem shiftRight_none {α : Type} (f : Nat → α) (lo hi : Nat) (h : hi ≤ lo) :
    shiftRight f lo hi = f := by
  funext j; unfold shiftRight; rw [if_neg]; omega

theorem shiftRight_step {α : Type} (f : Nat → α) (lo hi : Nat) (h : lo ≤ hi) :
    shiftRight (Function.update f (hi + 1) (f hi)) lo hi = shiftRight f lo (hi + 1) := by
  funext j
  simp only [shiftRight, Function.update_apply]
  split_ifs <;> first | rfl | (exfalso; omega) | (congr 1; omega)

theorem shiftRight_one {α : Type} (f : Nat → α) (lo : Nat) :
    Function.update f (lo + 1) (f lo) = shiftRight f lo (lo + 1) := by
  funext j
  simp only [shiftRight, Function.update_apply]
  split_ifs <;> first | rfl | (exfalso; omega) | (congr 1; omega)

theorem leafShiftLoop_eq (offset : Nat) : ∀ (iter : Nat) (b : BTreeNode K V),
    iter + 2 ≤ b.numkeys →
    leafShiftLoop offset iter b = .ok { b with
      keys := shiftRight b.keys offset (iter + 1)
      vals := shiftRight b.vals offset (iter + 1) } := by
  intro iter
  induction iter with
  | zero =>
    intro b hb
    unfold leafShiftLoop
    by_cases h : 0 ≥ offset
    · have h0 : offset = 0 := by omega
      subst h0
      have h1 : 0 < b.numkeys := by omega
      have h2 : 0 + 1 < b.numkeys := by omega
      simp only [ge_iff_le, le_refl, if_true, GetKey, h1, SetKey, h2, GetVal, SetVal, bind,
        Except.bind]
      rw [shiftRight_one, shiftRight_one]
    · simp only [h, if_false]
      rw [shiftRight_none _ _ _ (by omega), shiftRight_none _ _ _ (by omega)]
  | succ iter ih =>
    intro b hb
    unfold leafShiftLoop
    by_cases h : iter + 1 ≥ offset
    · have h1 : iter + 1 < b.numkeys := by omega
      have h2 : iter + 1 + 1 < b.numkeys := by omega
      simp only [h, if_true, GetKey, h1, SetKey, h2, GetVal, SetVal, bind, Except.bind]
      by_cases he : iter + 1 = offset
      · simp only [he, if_true]
        rw [shiftRight_one, shiftRight_one]
      · simp only [he, if_false]
        rw [ih _ (by simpa using (by omega : iter + 2 ≤ b.numkeys))]
        simp only
        rw [shiftRight_step _ _ _ (by omega), shiftRight_step _ _ _ (by omega)]
    · simp only [h, if_false]
      rw [shiftRight_none _ _ _ (by omega), shiftRight_none _ _ _ (by omega)]

theorem interiorShiftLoop_eq (offset : Nat) : ∀ (iter : Nat) (b : BTreeNode K V),
    iter + 2 ≤ b.numkeys →
    (b.nodetype = BTREE_ROOT_NODE ∨ b.nodetype = BTREE_INTERIOR_NODE) →
    interiorShiftLoop offset iter b = .ok { b with
      keys := shiftRight b.keys offset (iter + 1)
      ptrs := shiftRight b.ptrs (offset + 1) (iter + 2) } := by
  intro iter
  induction iter with
  | zero =>
    intro b hb ht
    unfold interiorShiftLoop
    by_cases h : 0 ≥ offset
    · have h0 : offset = 0 := by omega
      subst h0
      have h1 : 0 < b.numkeys := by omega
      have h2 : 0 + 1 < b.numkeys := by omega
      have p1 : (0 + 1 ≤ b.numkeys) = True := by simp; omega
      have p2 : (0 + 2 ≤ b.numkeys) = True := by simp; omega
      rcases ht with ht | ht <;>
      simp only [ge_iff_le, le_refl, if_true, GetKey, h1, SetKey, h2, GetPtr, SetPtr, bind,
        Except.bind, ptrInRange, ht, p1, p2, decide_True] <;>
      rw [shiftRight_one, shiftRight_one]
    · simp only [h, if_false]
      rw [shiftRight_none _ _ _ (by omega), shiftRight_none _ _ _ (by omega)]
  | succ iter ih =>
    intro b hb ht
    unfold interiorShiftLoop
    by_cases h : iter + 1 ≥ offset
    · have h1 : iter + 1 < b.numkeys := by omega
      have h2 : iter + 1 + 1 < b.numkeys := by omega
      have p1 : (iter + 1 + 1 ≤ b.numkeys) = True := by simp; omega
      have p2 : (iter + 1 + 2 ≤ b.numkeys) = True := by simp; omega
      by_cases he : iter + 1 = offset
      · subst he
        rcases ht with ht | ht <;>
        simp only [h, if_true, GetKey, h1, SetKey, h2, GetPtr, SetPtr, bind, Except.bind,
          ptrInRange, ht, p1, p2, decide_True] <;>
        rw [shiftRight_one, shiftRight_one]
      · rcases ht with ht | ht <;>
        simp only [h, if_true, GetKey, h1, SetKey, h2, GetPtr, SetPtr, bind, Except.bind,
          ptrInRange, ht, p1, p2, decide_True, he, if_false] <;>
        rw [ih _ (by simpa using (by omega : iter + 2 ≤ b.numkeys)) (by simp [ht])] <;>
        simp only <;>
        rw [shiftRight_step _ _ _ (by omega), shiftRight_step _ _ _ (by omega)]
    · simp only [h, if_false]
      rw [shiftRight_none _ _ _ (by omega), shiftRight_none _ _ _ (by omega)]

end ShiftLemmas

section TwoLevelLookup

variable {K V : Type} [LinearOrder K]

theorem scanInterior_range' (b : BTreeNode K V) (key : K)
    (ht : b.nodetype = BTREE_ROOT_NODE ∨ b.nodetype = BTREE_INTERIOR_NODE) :
    ∀ (cnt a : Nat), a + cnt = b.numkeys → (∀ j, j < a → b.keys j ≤ key) →
      ∃ i, a ≤ i ∧ i ≤ b.numkeys ∧ (∀ j, j < i → b.keys j ≤ key) ∧
        (i < b.numkeys → key < b.keys i) ∧
        scanInterior b key (List.range' a cnt) =
          .ok (if i < b.numkeys then some (b.ptrs i) else none) := by
  intro cnt
  induction cnt with
  | zero =>
    intro a ha hlt
    exact ⟨a, le_refl _, by omega, hlt, fun h => by omega, by
      rw [if_neg (by omega)]; rfl⟩
  | succ cnt ih =>
    intro a ha hlt
    have ha' : a < b.numkeys := by omega
    rw [List.range'_succ]
    unfold scanInterior
    simp only [GetKey, ha', if_true]
    by_cases hk : key < b.keys a
    · refine ⟨a, le_refl _, by omega, hlt, fun _ => hk, ?_⟩
      have : ptrInRange b a = true := by
        rcases ht with ht | ht <;> simp [ptrInRange, ht] <;> omega
      simp [hk, GetPtr, this, ha']
    · simp only [hk, if_false]
      obtain ⟨i, h1, h2, h3, h4, h5⟩ := ih (a + 1) (by omega) (by
        intro j hj
        by_cases hja : j = a
        · subst hja; exact not_lt.mp hk
        · exact hlt j (by omega))
      exact ⟨i, by omega, h2, h3, h4, h5⟩

/-- The pointer followed from a root or interior node with keys: slot `i` with
every separator before `i` at most `key` and separator `i` above `key`. -/
theorem scanInterior_spec (b : BTreeNode K V) (key : K)
    (ht : b.nodetype = BTREE_ROOT_NODE ∨ b.nodetype = BTREE_INTERIOR_NODE) :
    ∃ i, i ≤ b.numkeys ∧ (∀ j, j < i → b.keys j ≤ key) ∧ (i < b.numkeys → key < b.keys i) ∧
      scanInterior b key (List.range b.numkeys) =
        .ok (if i < b.numkeys then some (b.ptrs i) else none) := by
  obtain ⟨i, _, h2, h3, h4, h5⟩ := scanInterior_range' b key ht b.numkeys 0 (by omega)
    (fun j hj => by omega)
  rw [← List.range_eq_range'] at h5
  exact ⟨i, h2, h3, h4, h5⟩

theorem scanLeaf_range' (b : BTreeNode K V) (key : K) :
    ∀ (cnt a : Nat), a + cnt = b.numkeys → (∀ j, j < a → b.keys j ≠ key) →
      (∃ i, i < b.numkeys ∧ b.keys i = key ∧ (∀ j, j < i → b.keys j ≠ key) ∧
        scanLeaf b key (List.range' a cnt) = .ok (some i)) ∨
      ((∀ j, j < b.numkeys → b.keys j ≠ key) ∧
        scanLeaf b key (List.range' a cnt) = .ok none) := by
  intro cnt
  induction cnt with
  | zero =>
    intro a ha hlt
    exact Or.inr ⟨fun j hj => hlt j (by omega), by simp [scanLeaf]⟩
  | succ cnt ih =>
    intro a ha hlt
    have ha' : a < b.numkeys := by omega
    rw [List.range'_succ]
    unfold scanLeaf
    simp only [GetKey, ha', if_true]
    by_cases hk : b.keys a = key
    · exact Or.inl ⟨a, ha', hk, hlt, by simp [hk]⟩
    · simp only [hk, if_false]
      exact ih (a + 1) (by omega) (by
        intro j hj
        by_cases hja : j = a
        · subst hja; exact hk
        · exact hlt j (by omega))

theorem scanLeaf_spec (b : BTreeNode K V) (key : K) :
    (∃ i, i < b.numkeys ∧ b.keys i = key ∧ (∀ j, j < i → b.keys j ≠ key) ∧
      scanLeaf b key (List.range b.numkeys) = .ok (some i)) ∨
    ((∀ j, j < b.numkeys → b.keys j ≠ key) ∧
      scanLeaf b key (List.range b.numkeys) = .ok none) := by
  have := scanLeaf_range' b key b.numkeys 0 (by omega) (fun j hj => by omega)
  rwa [← List.range_eq_range'] at this

theorem KeysAscending.le {b : BTreeNode K V} (h : KeysAscending b) {i j : Nat} (hij : i ≤ j)
    (hj : j < b.numkeys) : b.keys i ≤ b.keys j := by
  rcases Nat.lt_or_eq_of_le hij with h1 | h1
  · exact le_of_lt (h i j h1 hj)
  · subst h1; exact le_refl _

theorem KeysAscending.inj {b : BTreeNode K V} (h : KeysAscending b) {i j : Nat}
    (hi : i < b.numkeys) (hj : j < b.numkeys) (hk : b.keys i = b.keys j) : i = j := by
  rcases Nat.lt_trichotomy i j with h1 | h1 | h1
  · exact absurd hk (ne_of_lt (h i j h1 hj))
  · exact h1
  · exact absurd hk.symm (ne_of_lt (h j i h1 hi))

/-- With ascending separators, the pointer under which a key belongs is the one
the descent follows. -/
theorem route_unique {r : BTreeNode K V} (hr : KeysAscending r) {key : K} {i i' : Nat}
    (hi : i ≤ r.numkeys) (h1 : ∀ j, j < i → r.keys j ≤ key) (h2 : i < r.numkeys → key < r.keys i)
    (hi' : i' ≤ r.numkeys) (h3 : InRange r i' key) : i = i' := by
  rcases Nat.lt_trichotomy i i' with h | h | h
  · exfalso
    have a1 := h2 (by omega)
    have a2 := h3.1 (by omega)
    have a3 : r.keys i ≤ r.keys (i' - 1) := hr.le (by omega) (by omega)
    exact absurd (lt_of_lt_of_le a1 (le_trans a3 a2)) (lt_irrefl _)
  · exact h
  · exfalso
    have a1 := h1 i' h
    have a2 := h3.2 (by omega)
    exact absurd (lt_of_lt_of_le a2 a1) (lt_irrefl _)


theorem LookupOrUpdateInternal_descend {bc : List (BTreeNode K V)} {node : Nat}
    {b : BTreeNode K V} (hb : bc[node]? = some b)
    (ht : b.nodetype = BTREE_ROOT_NODE ∨ b.nodetype = BTREE_INTERIOR_NODE)
    (hpos : 0 < b.numkeys) (key : K) :
    ∃ i, i ≤ b.numkeys ∧ (∀ j, j < i → b.keys j ≤ key) ∧ (i < b.numkeys → key < b.keys i) ∧
      ∀ fuel op value, LookupOrUpdateInternal (fuel + 1) bc node op key value =
        LookupOrUpdateInternal fuel bc (b.ptrs i) op key value := by
  obtain ⟨i, h1, h2, h3, h4⟩ := scanInterior_spec b key ht
  refine ⟨i, h1, h2, h3, ?_⟩
  intro fuel op value
  have hu : Unserialize bc node = .ok b := Unserialize_ok_iff.mpr hb
  have hlast : GetPtr b b.numkeys = .ok (b.ptrs b.numkeys) := by
    rcases ht with ht | ht <;> simp [GetPtr, ptrInRange, ht]
  conv => lhs; unfold LookupOrUpdateInternal
  rw [hu]
  by_cases hi : i < b.numkeys
  · rw [if_pos hi] at h4
    rcases ht with ht | ht <;> simp only [ht, h4]
  · rw [if_neg hi] at h4
    have : i = b.numkeys := by omega
    subst this
    rcases ht with ht | ht <;> simp only [ht, h4, gt_iff_lt, hpos, if_true, hlast]

theorem LookupOrUpdateInternal_leaf_lookup {bc : List (BTreeNode K V)} {node : Nat}
    {L : BTreeNode K V} (hb : bc[node]? = some L) (ht : L.nodetype = BTREE_LEAF_NODE)
    (key : K) (fuel : Nat) (v0 : V) :
    (∃ j, j < L.numkeys ∧ L.keys j = key ∧ (∀ j', j' < j → L.keys j' ≠ key) ∧
      LookupOrUpdateInternal (fuel + 1) bc node BTREE_OP_LOOKUP key v0 =
        some (ERROR_NOERROR, L.vals j, bc)) ∨
    ((∀ j, j < L.numkeys → L.keys j ≠ key) ∧
      LookupOrUpdateInternal (fuel + 1) bc node BTREE_OP_LOOKUP key v0 =
        some (ERROR_NONEXISTENT, v0, bc)) := by
  have hu : Unserialize bc node = .ok L := Unserialize_ok_iff.mpr hb
  rcases scanLeaf_spec L key with ⟨j, h1, h2, h3, h4⟩ | ⟨h1, h2⟩
  · refine Or.inl ⟨j, h1, h2, h3, ?_⟩
    unfold LookupOrUpdateInternal
    rw [hu]
    simp only [ht, h4, if_true, GetVal, h1]
  · refine Or.inr ⟨h1, ?_⟩
    unfold LookupOrUpdateInternal
    rw [hu]
    simp only [ht, h2]

theorem InRange_unique {r : BTreeNode K V} (hr : KeysAscending r) {key : K} {i i' : Nat}
    (hi : i ≤ r.numkeys) (h : InRange r i key) (hi' : i' ≤ r.numkeys) (h' : InRange r i' key) :
    i = i' := by
  refine route_unique hr hi ?_ h.2 hi' h'
  intro j hj
  exact le_trans (hr.le (by omega) (by omega)) (h.1 (by omega))

/-- A key is stored with at most one value. -/
theorem Stored_unique {s : BTreeIndex K V} {r : BTreeNode K V} {h : Nat} (ht : TwoLevel s r h)
    {key : K} {v v' : V} (h1 : Stored s r key v) (h2 : Stored s r key v') : v = v' := by
  obtain ⟨hpos, i, hi, L, hL, j, hj, hk, hv⟩ := h1
  obtain ⟨_, i', hi', L', hL', j', hj', hk', hv'⟩ := h2
  obtain ⟨L0, hL0, hleaf⟩ := ht.leaves hpos i hi
  obtain ⟨L0', hL0', hleaf'⟩ := ht.leaves hpos i' hi'
  rw [hL] at hL0; cases hL0
  rw [hL'] at hL0'; cases hL0'
  have hii : i = i' := InRange_unique ht.rkeys hi (hk ▸ hleaf.2.2 j hj) hi' (hk' ▸ hleaf'.2.2 j' hj')
  subst hii
  rw [hL] at hL'; cases hL'
  have hjj : j = j' := hleaf.2.1.inj hj hj' (hk.trans hk'.symm)
  subst hjj
  exact hv.symm.trans hv'

/-- `Lookup` on a two-level tree: the stored value, or `ERROR_NONEXISTENT` for a
key that is not stored. -/
theorem Lookup_two_level {s : BTreeIndex K V} {r : BTreeNode K V} {h : Nat}
    (ht : TwoLevel s r h) (key : K) (v0 : V) :
    (∃ v, Stored s r key v ∧ Lookup s key v0 = some (ERROR_NOERROR, v)) ∨
    ((∀ v, ¬ Stored s r key v) ∧ Lookup s key v0 = some (ERROR_NONEXISTENT, v0)) := by
  have hlen : 1 < s.buffercache.length := by
    rcases List.getElem?_eq_some_iff.mp ht.root with ⟨hl, _⟩; exact hl
  obtain ⟨m, hm⟩ : ∃ m, s.buffercache.length = m + 2 := ⟨s.buffercache.length - 2, by omega⟩
  unfold Lookup
  rw [hm, ht.rootidx]
  by_cases hpos : 0 < r.numkeys
  · obtain ⟨i, hi, h1, h2, hdesc⟩ :=
      LookupOrUpdateInternal_descend ht.root (Or.inl ht.rtype) hpos key
    rw [hdesc]
    obtain ⟨L, hL, hleaf⟩ := ht.leaves hpos i hi
    rcases LookupOrUpdateInternal_leaf_lookup hL hleaf.1 key m v0 with
      ⟨j, hj, hk, _, hres⟩ | ⟨hno, hres⟩
    · left
      exact ⟨L.vals j, ⟨hpos, i, hi, L, hL, j, hj, hk, rfl⟩, by rw [hres]; rfl⟩
    · right
      refine ⟨?_, by rw [hres]; rfl⟩
      rintro v ⟨_, i', hi', L', hL', j', hj', hk', _⟩
      obtain ⟨L0', hL0', hleaf'⟩ := ht.leaves hpos i' hi'
      rw [hL'] at hL0'; cases hL0'
      have hii : i = i' := route_unique ht.rkeys hi h1 h2 hi' (hk' ▸ hleaf'.2.2 j' hj')
      subst hii
      rw [hL] at hL'; cases hL'
      exact hno j' hj' hk'
  · right
    refine ⟨fun v hv => hpos hv.1, ?_⟩
    have hz : r.numkeys = 0 := by omega
    unfold LookupOrUpdateInternal
    simp [Unserialize, ht.root, ht.rtype, hz, scanInterior]

/-- Two two-level trees storing the same values for a key answer `Lookup` of
that key alike. -/
theorem Lookup_congr {s s' : BTreeIndex K V} {r r' : BTreeNode K V} {h h' : Nat}
    (ht : TwoLevel s r h) (ht' : TwoLevel s' r' h') (key : K)
    (hst : ∀ v, Stored s' r' key v ↔ Stored s r key v) (v0 : V) :
    Lookup s' key v0 = Lookup s key v0 := by
  rcases Lookup_two_level ht key v0 with ⟨v, hv, hl⟩ | ⟨hno, hl⟩ <;>
  rcases Lookup_two_level ht' key v0 with ⟨v', hv', hl'⟩ | ⟨hno', hl'⟩
  · rw [hl, hl', Stored_unique ht ((hst v').mp hv') hv]
  · exact absurd ((hst v).mpr hv) (hno' v)
  · exact absurd ((hst v').mp hv') (hno v')
  · rw [hl, hl']

end TwoLevelLookup

section SplitLoop
variable {K V : Type}

theorem clearSlots_empty {α : Type} (f : Nat → α) (lo : Nat) (z : α) :
    clearSlots f lo lo z = f := by
  funext j; unfold clearSlots; rw [if_neg]; omega

theorem copySlots_empty {α : Type} (g f : Nat → α) (d lo : Nat) :
    copySlots g f d lo lo = g := by
  funext j; unfold copySlots; rw [if_neg]; omega

theorem splitLeafLoop_eq (cfg : Config K V) (k1 : Nat) :
    ∀ (cnt a : Nat) (orig_node new_node : BTreeNode K V),
      k1 ≤ a → a + cnt ≤ orig_node.numkeys → a + cnt - k1 ≤ new_node.numkeys →
      splitLeafLoop cfg k1 (List.range' a cnt) orig_node new_node = .ok
        ({ orig_node with
            keys := clearSlots orig_node.keys a (a + cnt) cfg.nullKey
            vals := clearSlots orig_node.vals a (a + cnt) cfg.nullVal },
         { new_node with
            keys := copySlots new_node.keys orig_node.keys k1 (a - k1) (a + cnt - k1)
            vals := copySlots new_node.vals orig_node.vals k1 (a - k1) (a + cnt - k1) }) := by
  intro cnt
  induction cnt with
  | zero =>
    intro a orig_node new_node _ _ _
    simp only [List.range'_zero, splitLeafLoop, Nat.add_zero, clearSlots_empty, copySlots_empty]
  | succ cnt ih =>
    intro a orig_node new_node h1 h2 h3
    have e1 : a < orig_node.numkeys := by omega
    have e2 : a - k1 < new_node.numkeys := by omega
    rw [List.range'_succ]
    unfold splitLeafLoop
    simp only [GetKey, e1, if_true, SetKey, e2, GetVal, SetVal, bind, Except.bind]
    rw [ih (a + 1) _ _ (by omega) (by simpa using (by omega : a + 1 + cnt ≤ orig_node.numkeys))
      (by simpa using (by omega : a + 1 + cnt - k1 ≤ new_node.numkeys))]
    simp only
    congr 3
    · funext j
      simp only [clearSlots, Function.update_apply]
      split_ifs <;> first | rfl | (exfalso; omega)
    · funext j
      simp only [clearSlots, Function.update_apply]
      split_ifs <;> first | rfl | (exfalso; omega)
    · funext j
      simp only [copySlots, Function.update_apply]
      split_ifs <;> first | rfl | (exfalso; omega) | (congr 1; omega)
    · funext j
      simp only [copySlots, Function.update_apply]
      split_ifs <;> first | rfl | (exfalso; omega) | (congr 1; omega)

end SplitLoop

section NodeLemmas
variable {K V : Type} [LinearOrder K]

theorem findSlot_range' (b : BTreeNode K V) (key : K) :
    ∀ (cnt a : Nat), a + cnt = b.numkeys → (∀ j, j < a → b.keys j < key) →
      (∃ off, off ≤ b.numkeys ∧ (∀ j, j < off → b.keys j < key) ∧
        (off < b.numkeys → key < b.keys off) ∧
        findSlot b key (List.range' a cnt) = .ok off) ∨
      (∃ j, j < b.numkeys ∧ b.keys j = key ∧
        findSlot b key (List.range' a cnt) = .error ERROR_CONFLICT) := by
  intro cnt
  induction cnt with
  | zero =>
    intro a ha hlt
    have : a = b.numkeys := by omega
    subst this
    exact Or.inl ⟨b.numkeys, le_refl _, hlt, fun h => by omega, rfl⟩
  | succ cnt ih =>
    intro a ha hlt
    have ha' : a < b.numkeys := by omega
    rw [List.range'_succ]
    unfold findSlot
    simp only [GetKey, ha', if_true]
    by_cases he : key = b.keys a
    · exact Or.inr ⟨a, ha', he.symm, by simp [he]⟩
    · simp only [he, if_false]
      by_cases hk : key < b.keys a
      · exact Or.inl ⟨a, by omega, hlt, fun _ => hk, by simp [hk]⟩
      · simp only [hk, if_false]
        refine ih (a + 1) (by omega) ?_
        intro j hj
        by_cases hja : j = a
        · subst hja
          exact lt_of_le_of_ne (not_lt.mp hk) (fun h => he h.symm)
        · exact hlt j (by omega)

/-- The scan of `LeafNodeInsert` and `InteriorPointerInsert`: either it stops at
the first slot whose key is larger than `key`, every key before it being
smaller, or it meets `key` itself and reports a conflict. -/
theorem findSlot_spec (b : BTreeNode K V) (key : K) :
    (∃ off, off ≤ b.numkeys ∧ (∀ j, j < off → b.keys j < key) ∧
      (off < b.numkeys → key < b.keys off) ∧
      findSlot b key (List.range b.numkeys) = .ok off) ∨
    (∃ j, j < b.numkeys ∧ b.keys j = key ∧
      findSlot b key (List.range b.numkeys) = .error ERROR_CONFLICT) := by
  have := findSlot_range' b key b.numkeys 0 (by omega) (fun j hj => by omega)
  rwa [← List.range_eq_range'] at this

omit [LinearOrder K] in
theorem leafInsert_written (L : BTreeNode K V) (offset : Nat) (key : K) (value : V)
    (hn : 0 < L.numkeys) (ho : offset ≤ L.numkeys) :
    (do
      let b ← leafShiftLoop offset (({ L with numkeys := L.numkeys + 1 } : BTreeNode K V).numkeys - 2)
        { L with numkeys := L.numkeys + 1 }
      let b ← SetKey b offset key
      SetVal b offset value) = .ok (leafInsertNode L offset key value) := by
  have e : L.numkeys + 1 - 2 + 1 = L.numkeys := by omega
  have e2 : offset < L.numkeys + 1 := by omega
  rw [leafShiftLoop_eq offset _ _ (by simp only; omega)]
  simp only [bind, Except.bind, SetKey, SetVal, e, e2, if_true, leafInsertNode]

omit [LinearOrder K] in
theorem interiorInsert_written (b : BTreeNode K V) (offset : Nat) (key : K) (ptr : Nat)
    (ht : b.nodetype = BTREE_ROOT_NODE ∨ b.nodetype = BTREE_INTERIOR_NODE)
    (hn : 0 < b.numkeys) (ho : offset ≤ b.numkeys) :
    (do
      let b ← interiorShiftLoop offset
        (({ b with numkeys := b.numkeys + 1 } : BTreeNode K V).numkeys - 2)
        { b with numkeys := b.numkeys + 1 }
      let b ← SetKey b offset key
      SetPtr b (offset + 1) ptr) = .ok (interiorInsertNode b offset key ptr) := by
  have e : b.numkeys + 1 - 2 + 1 = b.numkeys := by omega
  have e' : b.numkeys + 1 - 2 + 2 = b.numkeys + 1 := by omega
  have e2 : offset < b.numkeys + 1 := by omega
  have e3 : (offset + 1 ≤ b.numkeys + 1) = True := by simp; omega
  rw [interiorShiftLoop_eq offset _ _ (by simp only; omega) (by simpa using ht)]
  rcases ht with ht | ht <;>
  simp only [bind, Except.bind, SetKey, SetPtr, ptrInRange, ht, e, e', e2, e3, if_true,
    decide_True, interiorInsertNode]

omit [LinearOrder K] in
theorem insertSlots_apply {α : Type} (f : Nat → α) (offset n : Nat) (x : α) (j : Nat) :
    Function.update (shiftRight f offset n) offset x j =
      if j = offset then x else if offset < j ∧ j ≤ n then f (j - 1) else f j := by
  simp only [Function.update_apply, shiftRight]

/-- Inserting a key at the slot found by the scan keeps the keys ascending. -/
theorem insertSlots_ascending (keys : Nat → K) (n offset : Nat) (key : K)
    (hasc : ∀ i j, i < j → j < n → keys i < keys j) (ho : offset ≤ n)
    (h1 : ∀ j, j < offset → keys j < key) (h2 : offset < n → key < keys offset) :
    ∀ i j, i < j → j < n + 1 →
      Function.update (shiftRight keys offset n) offset key i <
        Function.update (shiftRight keys offset n) offset key j := by
  intro i j hij hj
  have hlt : ∀ j, offset ≤ j → j < n → key < keys j := by
    intro j hj1 hj2
    rcases Nat.lt_or_eq_of_le hj1 with h | h
    · exact lt_trans (h2 (by omega)) (hasc offset j h hj2)
    · subst h; exact h2 hj2
  rw [insertSlots_apply, insertSlots_apply]
  by_cases hi1 : i = offset
  · subst hi1
    have : ¬ j = i := by omega
    have c : i < j ∧ j ≤ n := by omega
    simp only [if_true, this, if_false, c]
    exact hlt (j - 1) (by omega) (by omega)
  · by_cases hj1 : j = offset
    · subst hj1
      have c : ¬ (j < i ∧ i ≤ n) := by omega
      simp only [hi1, if_false, if_true, c]
      exact h1 i hij
    · simp only [hi1, hj1, if_false]
      by_cases ci : offset < i ∧ i ≤ n
      · have cj : offset < j ∧ j ≤ n := by omega
        simp only [ci, cj, if_true, and_self]
        exact hasc _ _ (by omega) (by omega)
      · have ci' : i < offset := by omega
        by_cases cj : offset < j ∧ j ≤ n
        · simp only [ci, cj, if_false, if_true, and_self]
          exact lt_trans (h1 i ci') (hlt (j - 1) (by omega) (by omega))
        · simp only [ci, cj, if_false]
          exact hasc _ _ hij (by omega)

end NodeLemmas

section InteriorSplit
variable {K V : Type}

/-- The copy loop of the root/interior case of `Split` in closed form. -/
theorem splitInteriorLoop_eq (cfg : Config K V) (k1 : Nat) :
    ∀ (cnt a : Nat) (orig_node new_node : BTreeNode K V),
      k1 + 1 ≤ a → a + cnt ≤ orig_node.numkeys → a + cnt - (k1 + 1) ≤ new_node.numkeys →
      (orig_node.nodetype = BTREE_ROOT_NODE ∨ orig_node.nodetype = BTREE_INTERIOR_NODE) →
      new_node.nodetype = BTREE_INTERIOR_NODE →
      splitInteriorLoop cfg k1 (List.range' a cnt) orig_node new_node = .ok
        ({ orig_node with
            keys := clearSlots orig_node.keys a (a + cnt) cfg.nullKey
            ptrs := clearSlots orig_node.ptrs a (a + cnt) 0 },
         { new_node with
            keys := copySlots new_node.keys orig_node.keys (k1 + 1) (a - (k1 + 1))
              (a + cnt - (k1 + 1))
            ptrs := copySlots new_node.ptrs orig_node.ptrs (k1 + 1) (a - (k1 + 1))
              (a + cnt - (k1 + 1)) }) := by
  intro cnt
  induction cnt with
  | zero =>
    intro a orig_node new_node _ _ _ _ _
    simp only [List.range'_zero, splitInteriorLoop, Nat.add_zero, clearSlots_empty,
      copySlots_empty]
  | succ cnt ih =>
    intro a orig_node new_node h1 h2 h3 hto htn
    have e1 : a < orig_node.numkeys := by omega
    have e2 : a - (k1 + 1) < new_node.numkeys := by omega
    have e3 : (a ≤ orig_node.numkeys) = True := by simp; omega
    have e4 : (a - (k1 + 1) ≤ new_node.numkeys) = True := by simp; omega
    rw [List.range'_succ]
    unfold splitInteriorLoop
    have step : ∀ (t : NodeType), orig_node.nodetype = t →
        (t = BTREE_ROOT_NODE ∨ t = BTREE_INTERIOR_NODE) →
        (do
          let temp_key ← GetKey orig_node a
          let new_node ← SetKey new_node (a - (k1 + 1)) temp_key
          let orig_node ← SetKey orig_node a cfg.nullKey
          let temp_ptr ← GetPtr orig_node a
          let new_node ← SetPtr new_node (a - (k1 + 1)) temp_ptr
          let orig_node ← SetPtr orig_node a 0
          splitInteriorLoop cfg k1 (List.range' (a + 1) cnt) orig_node new_node) =
        splitInteriorLoop cfg k1 (List.range' (a + 1) cnt)
          { orig_node with
            keys := Function.update orig_node.keys a cfg.nullKey
            ptrs := Function.update orig_node.ptrs a 0 }
          { new_node with
            keys := Function.update new_node.keys (a - (k1 + 1)) (orig_node.keys a)
            ptrs := Function.update new_node.ptrs (a - (k1 + 1)) (orig_node.ptrs a) } := by
      intro t ht htt
      rcases htt with htt | htt <;> subst htt <;>
      simp only [GetKey, e1, if_true, SetKey, e2, GetPtr, SetPtr, ptrInRange, ht, htn, e3, e4,
        decide_True, bind, Except.bind]
    rw [step _ rfl hto]
    rw [ih (a + 1) _ _ (by omega) (by simpa using (by omega : a + 1 + cnt ≤ orig_node.numkeys))
      (by simpa using (by omega : a + 1 + cnt - (k1 + 1) ≤ new_node.numkeys)) (by simpa using hto)
      (by simpa using htn)]
    simp only
    congr 3
    · funext j
      simp only [clearSlots, Function.update_apply]
      split_ifs <;> first | rfl | (exfalso; omega)
    · funext j
      simp only [clearSlots, Function.update_apply]
      split_ifs <;> first | rfl | (exfalso; omega)
    · funext j
      simp only [copySlots, Function.update_apply]
      split_ifs <;> first | rfl | (exfalso; omega) | (congr 1; omega)
    · funext j
      simp only [copySlots, Function.update_apply]
      split_ifs <;> first | rfl | (exfalso; omega) | (congr 1; omega)

/-- On a root or interior node with keys the move of the upper half to the
sibling goes through; the original keeps its type. -/
theorem splitInteriorMove_ok (cfg : Config K V) (orig_node F : BTreeNode K V)
    (hpos : 0 < orig_node.numkeys)
    (hto : orig_node.nodetype = BTREE_ROOT_NODE ∨ orig_node.nodetype = BTREE_INTERIOR_NODE) :
    ∃ o n, splitInteriorMove cfg (orig_node.numkeys / 2) orig_node
        (zeroData cfg { F with nodetype := BTREE_INTERIOR_NODE,
                               numkeys := orig_node.numkeys - orig_node.numkeys / 2 - 1 }) =
      .ok (o, n) ∧ o.nodetype = orig_node.nodetype := by
  unfold splitInteriorMove
  rw [splitInteriorLoop_eq cfg _ _ _ _ _ (le_refl _) (by omega) (by simp only [zeroData]; omega)
    hto rfl]
  have e1 : orig_node.numkeys / 2 < orig_node.numkeys := by omega
  have e2 : (orig_node.numkeys ≤ orig_node.numkeys) = True := by simp
  rcases hto with hto | hto <;>
  simp only [bind, Except.bind, pure, Except.pure, SetKey, e1, if_true, GetPtr, SetPtr,
    ptrInRange, hto, e2, decide_True] <;>
  exact ⟨_, _, rfl, rfl⟩

end InteriorSplit

section Exec
variable {K V : Type} [LinearOrder K]

omit [LinearOrder K] in
theorem passthrough_eq {σ : Type} (o : Option (ERROR_T × σ)) :
    (match o with
      | none => none
      | some (rc, s) => if rc ≠ ERROR_NOERROR then some (rc, s) else some (ERROR_NOERROR, s)) = o := by
  cases o with
  | none => rfl
  | some r =>
    obtain ⟨rc, s⟩ := r
    by_cases h : rc = ERROR_NOERROR <;> simp [h]

omit [LinearOrder K] in
theorem AllocateNode_empty (s : BTreeIndex K V) (hf : s.superblock.freelist = 0) :
    AllocateNode s = some (ERROR_NOSPACE, 0, s) := by
  unfold AllocateNode
  simp [hf]

omit [LinearOrder K] in
theorem FreeFrom.head_eq_zero_iff {s : BTreeIndex K V} {h : Nat} (hf : FreeFrom s h) :
    s.superblock.freelist = 0 ↔ h = s.buffercache.length := by
  obtain ⟨h1, h2, h3, _⟩ := hf
  rw [h3]
  by_cases e : h = s.buffercache.length
  · simp [e]
  · rw [if_neg e]; constructor <;> intro h' <;> omega

omit [LinearOrder K] in
/-- `AllocateNode` on a non-empty free list pops its first block. -/
theorem AllocateNode_pop (s : BTreeIndex K V) (h : Nat) (hidx : s.superblock_index = 0)
    (hf : FreeFrom s h) (hh : h < s.buffercache.length) :
    ∃ F, s.buffercache[h]? = some F ∧ F.nodetype = BTREE_UNALLOCATED_BLOCK ∧
      AllocateNode s = some (ERROR_NOERROR, h,
        popFree s (if h + 1 = s.buffercache.length then 0 else h + 1)) := by
  obtain ⟨h1, h2, h3, h4⟩ := hf
  obtain ⟨F, hF, hFt, hFn⟩ := h4 h (le_refl _) hh
  refine ⟨F, hF, hFt, ?_⟩
  have hne : h ≠ s.buffercache.length := by omega
  unfold AllocateNode
  have hfl : s.superblock.freelist = h := by rw [h3, if_neg hne]
  have hz : ¬ h = 0 := by omega
  have h0 : 0 < s.buffercache.length := by omega
  simp only [hfl, hz, if_false, Unserialize, hF, hFt, ne_eq, not_true_eq_false, Serialize, hidx,
    h0, if_true, hFn, popFree, popSuperblock]

omit [LinearOrder K] in
theorem popFree_getElem (s : BTreeIndex K V) (next : Nat) {j : Nat} (hj : j ≠ 0) :
    (popFree s next).buffercache[j]? = s.buffercache[j]? := by
  simp only [popFree]
  rw [List.getElem?_set_ne (by omega)]

omit [LinearOrder K] in
theorem popFree_length (s : BTreeIndex K V) (next : Nat) :
    (popFree s next).buffercache.length = s.buffercache.length := by
  simp [popFree]

omit [LinearOrder K] in
theorem FreeFrom.pop_head {s : BTreeIndex K V} {h : Nat} (hf : FreeFrom s h)
    (hh : h < s.buffercache.length) :
    FreeFrom (popFree s (if h + 1 = s.buffercache.length then 0 else h + 1)) (h + 1) := by
  obtain ⟨h1, h2, h3, h4⟩ := hf
  refine ⟨by omega, by rw [popFree_length]; omega, ?_, ?_⟩
  · rw [popFree_length]; rfl
  · intro i hi1 hi2
    rw [popFree_length] at hi2 ⊢
    rw [popFree_getElem _ _ (by omega)]
    exact h4 i (by omega) hi2

/-- `LeafNodeInsert` on a leaf read from block `node`. -/
theorem LeafNodeInsert_exec (cfg : Config K V) (crumbs : List Nat) (node : Nat)
    (L : BTreeNode K V) (key : K) (value : V) (s : BTreeIndex K V)
    (hL : s.buffercache[node]? = some L) (ht : L.nodetype = BTREE_LEAF_NODE) :
    (∃ off, off ≤ L.numkeys ∧ (∀ j, j < off → L.keys j < key) ∧
      (off < L.numkeys → key < L.keys off) ∧
      LeafNodeInsert cfg crumbs node L key value s =
        (if 0 < L.numkeys ∧ L.numkeys + 1 ≥ cfg.SlotsAsLeaf then
          Split cfg crumbs { s with buffercache := s.buffercache.set node (leafInsertNode L off key value) }
        else some (ERROR_NOERROR,
          { s with buffercache := s.buffercache.set node (leafInsertNode L off key value) }))) ∨
    (∃ j, j < L.numkeys ∧ L.keys j = key ∧
      LeafNodeInsert cfg crumbs node L key value s = some (ERROR_CONFLICT, s)) := by
  have hlen : node < s.buffercache.length := by
    rcases List.getElem?_eq_some_iff.mp hL with ⟨hl, _⟩; exact hl
  by_cases hz : L.numkeys = 0
  · left
    refine ⟨0, by omega, fun j hj => by omega, fun h => by omega, ?_⟩
    unfold LeafNodeInsert
    have e : ¬ (0 < L.numkeys ∧ L.numkeys + 1 ≥ cfg.SlotsAsLeaf) := by omega
    rw [if_neg (by simp [ht]), if_pos hz, if_neg e]
    simp only [SetKey, SetVal, bind, Except.bind, hz, Nat.zero_add, Nat.lt_one_iff, if_true,
      Serialize, hlen, leafInsertNode, shiftRight_none _ 0 0 (le_refl _), zero_add]
  · rcases findSlot_spec L key with ⟨off, h1, h2, h3, h4⟩ | ⟨j, h1, h2, h3⟩
    · left
      refine ⟨off, h1, h2, h3, ?_⟩
      unfold LeafNodeInsert
      rw [if_neg (by simp [ht]), if_neg hz, h4]
      simp only
      rw [leafInsert_written L off key value (by omega) h1]
      simp only [Serialize, hlen, if_true]
      have hpos : 0 < L.numkeys := by omega
      by_cases hc : L.numkeys + 1 ≥ cfg.SlotsAsLeaf
      · have e : (leafInsertNode L off key value).numkeys ≥ cfg.SlotsAsLeaf := hc
        simp only [e, if_true, hpos, hc, and_self]
        split
        · next h => exact h.symm
        · next rc s1 h => rw [h]; by_cases hr : rc = ERROR_NOERROR <;> simp [hr]
      · have e : ¬ (leafInsertNode L off key value).numkeys ≥ cfg.SlotsAsLeaf := hc
        simp only [e, if_false, hc, and_false]
    · right
      refine ⟨j, h1, h2, ?_⟩
      unfold LeafNodeInsert
      rw [if_neg (by simp [ht]), if_neg hz, h3]

/-- `InteriorPointerInsert` on a root or interior node with keys, when the
separator is not yet in the node. -/
theorem InteriorPointerInsertWith_exec (cfg : Config K V)
    (split : BTreeIndex K V → Option (ERROR_T × BTreeIndex K V)) (node : Nat)
    (b : BTreeNode K V) (key : K) (ptr : Nat) (s : BTreeIndex K V)
    (hb : s.buffercache[node]? = some b)
    (ht : b.nodetype = BTREE_ROOT_NODE ∨ b.nodetype = BTREE_INTERIOR_NODE)
    (hpos : 0 < b.numkeys) (hnew : ∀ j, j < b.numkeys → b.keys j ≠ key) :
    ∃ off, off ≤ b.numkeys ∧ (∀ j, j < off → b.keys j < key) ∧
      (off < b.numkeys → key < b.keys off) ∧
      InteriorPointerInsertWith cfg split node key ptr s =
        (if b.numkeys + 1 ≥ cfg.SlotsAsInterior then
          split { s with buffercache := s.buffercache.set node (interiorInsertNode b off key ptr) }
        else some (ERROR_NOERROR,
          { s with buffercache := s.buffercache.set node (interiorInsertNode b off key ptr) })) := by
  have hlen : node < s.buffercache.length := by
    rcases List.getElem?_eq_some_iff.mp hb with ⟨hl, _⟩; exact hl
  rcases findSlot_spec b key with ⟨off, h1, h2, h3, h4⟩ | ⟨j, h1, h2, _⟩
  · refine ⟨off, h1, h2, h3, ?_⟩
    unfold InteriorPointerInsertWith
    have hu : Unserialize s.buffercache node = .ok b := Unserialize_ok_iff.mpr hb
    have hty : ¬ (b.nodetype ≠ BTREE_INTERIOR_NODE ∧ b.nodetype ≠ BTREE_ROOT_NODE) := by
      rcases ht with ht | ht <;> simp [ht]
    have hz : ¬ b.numkeys = 0 := by omega
    rw [hu]
    simp only
    rw [if_neg hty, if_neg hz, h4]
    simp only
    rw [interiorInsert_written b off key ptr ht hpos h1]
    simp only [Serialize, hlen, if_true]
    by_cases hc : b.numkeys + 1 ≥ cfg.SlotsAsInterior
    · have e : (interiorInsertNode b off key ptr).numkeys ≥ cfg.SlotsAsInterior := hc
      simp only [e, if_true, hc]
      split
      · next h => exact h.symm
      · next rc s1 h => rw [h]; by_cases hr : rc = ERROR_NOERROR <;> simp [hr]
    · have e : ¬ (interiorInsertNode b off key ptr).numkeys ≥ cfg.SlotsAsInterior := hc
      simp only [e, if_false, hc]
  · exact absurd h2 (hnew j h1)


omit [LinearOrder K] in
theorem splitLeaf_nodes (cfg : Config K V) (L F : BTreeNode K V) (hm : 2 ≤ L.numkeys) :
    splitLeafLoop cfg (L.numkeys - L.numkeys / 2)
        (List.range' (L.numkeys - L.numkeys / 2) (L.numkeys - (L.numkeys - L.numkeys / 2))) L
        (zeroData cfg { F with nodetype := BTREE_LEAF_NODE, numkeys := L.numkeys / 2 }) =
      .ok ({ splitLeafOrig cfg L (L.numkeys - L.numkeys / 2) with numkeys := L.numkeys },
        splitLeafNew cfg L F (L.numkeys - L.numkeys / 2)) := by
  have e1 : L.numkeys - L.numkeys / 2 + (L.numkeys - (L.numkeys - L.numkeys / 2)) = L.numkeys := by
    omega
  have e2 : L.numkeys - (L.numkeys - L.numkeys / 2) = L.numkeys / 2 := by omega
  have e3 : L.numkeys - L.numkeys / 2 + L.numkeys / 2 = L.numkeys := by omega
  have e4 : L.numkeys - (L.numkeys - L.numkeys / 2) = L.numkeys / 2 := by omega
  rw [e2, splitLeafLoop_eq cfg _ _ _ _ _ (le_refl _) (by omega) (by simp only [zeroData]; omega)]
  simp only [e3, e4, Nat.sub_self, splitLeafOrig, splitLeafNew, zeroData]

/-- The leaf case of `Split` when the block to split holds a leaf at capacity
and a parent is on the breadcrumb list. -/
theorem Split_leaf_exec (cfg : Config K V) (p parent : Nat) (rest : List Nat)
    (s : BTreeIndex K V) (L : BTreeNode K V) (h : Nat)
    (hL : s.buffercache[p]? = some L) (ht : L.nodetype = BTREE_LEAF_NODE)
    (hidx : s.superblock_index = 0) (hf : FreeFrom s h)
    (hcap : L.numkeys ≥ cfg.SlotsAsLeaf) (hm : 2 ≤ L.numkeys) (hph : p < h) :
    (h = s.buffercache.length → Split cfg (p :: parent :: rest) s = some (ERROR_NOSPACE, s)) ∧
    (h < s.buffercache.length →
      ∃ F, s.buffercache[h]? = some F ∧ F.nodetype = BTREE_UNALLOCATED_BLOCK ∧
        Split cfg (p :: parent :: rest) s =
          InteriorPointerInsertWith cfg (Split cfg (parent :: rest)) parent
            (L.keys (L.numkeys - L.numkeys / 2)) h
            { popFree s (if h + 1 = s.buffercache.length then 0 else h + 1) with
              buffercache :=
                (((popFree s (if h + 1 = s.buffercache.length then 0 else h + 1)).buffercache.set p
                  (splitLeafOrig cfg L (L.numkeys - L.numkeys / 2))).set h
                  (splitLeafNew cfg L F (L.numkeys - L.numkeys / 2))) }) := by
  have hu : Unserialize s.buffercache p = .ok L := Unserialize_ok_iff.mpr hL
  have hnc : ¬ L.numkeys < cfg.SlotsAsLeaf := by omega
  constructor
  · intro hN
    rw [Split, hu]
    simp only [ht]
    rw [if_neg hnc, AllocateNode_empty s (hf.head_eq_zero_iff.mpr hN)]
    simp
  · intro hN
    obtain ⟨F, hF, hFt, hA⟩ := AllocateNode_pop s h hidx hf hN
    refine ⟨F, hF, hFt, ?_⟩
    have hF' : (popFree s (if h + 1 = s.buffercache.length then 0 else h + 1)).buffercache[h]?
        = some F := by rw [popFree_getElem _ _ (by have := hf.1; omega)]; exact hF
    have hplen : p < s.buffercache.length := by omega
    rw [Split, hu]
    simp only [ht]
    rw [if_neg hnc, hA]
    simp only [ne_eq, not_true_eq_false, if_false, Unserialize, hF']
    rw [splitLeaf_nodes cfg L F hm]
    have hk2 : 0 < L.numkeys - (L.numkeys - L.numkeys / 2) := by omega
    simp only [Serialize, popFree_length, hplen, if_true, List.length_set, hN, GetKey,
      splitLeafNew, hk2, copySlots, le_refl, Nat.zero_le, true_and, Nat.zero_add]
    split
    · next h => exact h.symm
    · next rc s1 h =>
      by_cases hr : rc = ERROR_NOERROR
      · rw [if_neg (by simp [hr]), ← hr]; exact h.symm
      · rw [if_pos hr]; exact h.symm

omit [LinearOrder K] in
theorem codec_error_kind (b : BTreeNode K V) (o : Nat) (rc : ERROR_T) :
    (∀ k, SetKey b o k = .error rc → rc = ERROR_OUTOFBOUNDS) ∧
    (∀ p, SetPtr b o p = .error rc → rc = ERROR_OUTOFBOUNDS) ∧
    (∀ v, SetVal b o v = .error rc → rc = ERROR_OUTOFBOUNDS) ∧
    (GetKey b o = .error rc → rc = ERROR_OUTOFBOUNDS) ∧
    (GetPtr b o = .error rc → rc = ERROR_OUTOFBOUNDS) ∧
    (GetVal b o = .error rc → rc = ERROR_OUTOFBOUNDS) := by
  refine ⟨?_, ?_, ?_, ?_, ?_, ?_⟩ <;>
  · simp only [SetKey, SetPtr, SetVal, GetKey, GetPtr, GetVal]
    intros
    split at * <;> simp_all

omit [LinearOrder K] in
theorem codec_ok_shape (b b' : BTreeNode K V) (o : Nat) :
    (∀ k, SetKey b o k = .ok b' → b'.nodetype = b.nodetype ∧ b'.numkeys = b.numkeys) ∧
    (∀ p, SetPtr b o p = .ok b' → b'.nodetype = b.nodetype ∧ b'.numkeys = b.numkeys) := by
  refine ⟨?_, ?_⟩ <;>
  · simp only [SetKey, SetPtr]
    intro x h
    split at h <;> simp at h
    subst h; exact ⟨rfl, rfl⟩

omit [LinearOrder K] in
theorem splitInteriorLoop_kind (cfg : Config K V) (k1 : Nat) :
    ∀ (l : List Nat) (orig_node new_node : BTreeNode K V),
      (∀ rc, splitInteriorLoop cfg k1 l orig_node new_node = .error rc →
        rc = ERROR_OUTOFBOUNDS) ∧
      (∀ o n, splitInteriorLoop cfg k1 l orig_node new_node = .ok (o, n) →
        o.nodetype = orig_node.nodetype ∧ o.numkeys = orig_node.numkeys) := by
  intro l
  induction l with
  | nil =>
    intro orig_node new_node
    constructor
    · intro rc h; simp [splitInteriorLoop] at h
    · intro o n h; simp [splitInteriorLoop] at h; rw [← h.1]; exact ⟨rfl, rfl⟩
  | cons iter rest ih =>
    intro orig_node new_node
    unfold splitInteriorLoop
    simp only [bind, Except.bind]
    cases h1 : GetKey orig_node iter with
    | error e =>
      exact ⟨fun rc h => by simp only [Except.error.injEq] at h; subst h; exact (codec_error_kind _ _ _).2.2.2.1 h1,
        fun o n h => by cases h⟩
    | ok temp_key =>
      dsimp only
      cases h2 : SetKey new_node (iter - (k1 + 1)) temp_key with
      | error e =>
        exact ⟨fun rc h => by simp only [Except.error.injEq] at h; subst h; exact (codec_error_kind _ _ _).1 _ h2,
          fun o n h => by cases h⟩
      | ok new1 =>
        dsimp only
        cases h3 : SetKey orig_node iter cfg.nullKey with
        | error e =>
          exact ⟨fun rc h => by simp only [Except.error.injEq] at h; subst h; exact (codec_error_kind _ _ _).1 _ h3,
            fun o n h => by cases h⟩
        | ok orig1 =>
          dsimp only
          cases h4 : GetPtr orig1 iter with
          | error e =>
            exact ⟨fun rc h => by simp only [Except.error.injEq] at h; subst h; exact (codec_error_kind _ _ _).2.2.2.2.1 h4,
              fun o n h => by cases h⟩
          | ok temp_ptr =>
            dsimp only
            cases h5 : SetPtr new1 (iter - (k1 + 1)) temp_ptr with
            | error e =>
              exact ⟨fun rc h => by simp only [Except.error.injEq] at h; subst h; exact (codec_error_kind _ _ _).2.1 _ h5,
                fun o n h => by cases h⟩
            | ok new2 =>
              dsimp only
              cases h6 : SetPtr orig1 iter 0 with
              | error e =>
                exact ⟨fun rc h => by simp only [Except.error.injEq] at h; subst h; exact (codec_error_kind _ _ _).2.1 _ h6,
                  fun o n h => by cases h⟩
              | ok orig2 =>
                dsimp only
                obtain ⟨a1, a2⟩ := (codec_ok_shape _ _ _).1 _ h3
                obtain ⟨b1, b2⟩ := (codec_ok_shape _ _ _).2 _ h6
                refine ⟨(ih orig2 new2).1, fun o n h => ?_⟩
                obtain ⟨c1, c2⟩ := (ih orig2 new2).2 o n h
                exact ⟨by rw [c1, b1, a1], by rw [c2, b2, a2]⟩


omit [LinearOrder K] in
theorem splitInteriorMove_kind (cfg : Config K V) (k1 : Nat) (orig_node new_node : BTreeNode K V) :
    (∀ rc, splitInteriorMove cfg k1 orig_node new_node = .error rc → rc = ERROR_OUTOFBOUNDS) ∧
    (∀ o n, splitInteriorMove cfg k1 orig_node new_node = .ok (o, n) →
      o.nodetype = orig_node.nodetype) := by
  unfold splitInteriorMove
  simp only [bind, Except.bind, pure, Except.pure]
  cases h1 : splitInteriorLoop cfg k1
      (List.range' (k1 + 1) (orig_node.numkeys - (k1 + 1))) orig_node new_node with
  | error e =>
    exact ⟨fun rc h => by
      simp only [Except.error.injEq] at h; subst h
      exact (splitInteriorLoop_kind cfg k1 _ _ _).1 _ h1, fun o n h => by cases h⟩
  | ok r =>
    obtain ⟨o1, n1⟩ := r
    obtain ⟨t1, _⟩ := (splitInteriorLoop_kind cfg k1 _ _ _).2 _ _ h1
    dsimp only
    cases h2 : SetKey o1 k1 cfg.nullKey with
    | error e =>
      exact ⟨fun rc h => by
        simp only [Except.error.injEq] at h; subst h
        exact (codec_error_kind _ _ _).1 _ h2, fun o n h => by cases h⟩
    | ok o2 =>
      obtain ⟨t2, _⟩ := (codec_ok_shape _ _ _).1 _ h2
      dsimp only
      cases h3 : GetPtr o2 o2.numkeys with
      | error e =>
        exact ⟨fun rc h => by
          simp only [Except.error.injEq] at h; subst h
          exact (codec_error_kind _ _ _).2.2.2.2.1 h3, fun o n h => by cases h⟩
      | ok temp_ptr =>
        dsimp only
        cases h4 : SetPtr o2 o2.numkeys 0 with
        | error e =>
          exact ⟨fun rc h => by
            simp only [Except.error.injEq] at h; subst h
            exact (codec_error_kind _ _ _).2.1 _ h4, fun o n h => by cases h⟩
        | ok o3 =>
          obtain ⟨t3, _⟩ := (codec_ok_shape _ _ _).2 _ h4
          dsimp only
          refine ⟨fun rc h => (by cases h), fun o n h => ?_⟩
          simp only [Except.ok.injEq, Prod.mk.injEq] at h
          rw [← h.1]
          show o3.nodetype = orig_node.nodetype
          rw [t3, t2, t1]

omit [LinearOrder K] in
theorem newRootFill_kind (new_root new_node : BTreeNode K V) (a b : Nat) (rc : ERROR_T)
    (h : newRootFill new_root new_node a b = .error rc) : rc = ERROR_OUTOFBOUNDS := by
  unfold newRootFill at h
  simp only [bind, Except.bind] at h
  cases h1 : GetKey new_node 0 with
  | error e =>
    rw [h1] at h; simp only [Except.error.injEq] at h; subst h
    exact (codec_error_kind _ _ _).2.2.2.1 h1
  | ok k =>
    rw [h1] at h; dsimp only at h
    cases h2 : SetKey new_root 0 k with
    | error e =>
      rw [h2] at h; simp only [Except.error.injEq] at h; subst h
      exact (codec_error_kind _ _ _).1 _ h2
    | ok r1 =>
      rw [h2] at h; dsimp only at h
      cases h3 : SetPtr r1 0 a with
      | error e =>
        rw [h3] at h; simp only [Except.error.injEq] at h; subst h
        exact (codec_error_kind _ _ _).2.1 _ h3
      | ok r2 =>
        rw [h3] at h; dsimp only at h
        exact (codec_error_kind _ _ _).2.1 _ h

omit [LinearOrder K] in
theorem Serialize_error_kind {bc : List (BTreeNode K V)} {n : Nat} {b : BTreeNode K V}
    {rc : ERROR_T} (h : Serialize bc n b = .error rc) : rc = ERROR_NOBLOCK := by
  unfold Serialize at h
  split at h <;> simp at h
  exact h.symm

omit [LinearOrder K] in
theorem Unserialize_error_kind {bc : List (BTreeNode K V)} {n : Nat} {rc : ERROR_T}
    (h : Unserialize bc n = .error rc) : rc = ERROR_NOBLOCK := by
  unfold Unserialize at h
  split at h <;> simp at h
  exact h.symm

/-- The root case of `Split` on a two-level tree: either the free list is
exhausted at one of the two allocations and nothing but the popped superblock
has changed, or the call comes back with another code and, when that code is
`ERROR_NOERROR`, with a new root index. -/
theorem Split_root_cases (cfg : Config K V) (s : BTreeIndex K V) (r : BTreeNode K V) (h : Nat)
    (hroot : s.buffercache[1]? = some r) (rtype : r.nodetype = BTREE_ROOT_NODE)
    (hpos : 0 < r.numkeys)
    (hcap : ¬ r.numkeys < cfg.SlotsAsInterior) (hidx : s.superblock_index = 0)
    (hf : FreeFrom s h) (rc : ERROR_T) (s' : BTreeIndex K V)
    (hS : Split cfg [1] s = some (rc, s')) :
    (rc = ERROR_NOSPACE ∧ s' = s ∧ h = s.buffercache.length) ∨
    (rc = ERROR_NOSPACE ∧ h + 1 = s.buffercache.length ∧ s' = popFree s 0) ∨
    (rc ≠ ERROR_NOSPACE ∧ rc ≠ ERROR_CONFLICT ∧ s'.superblock.rootnode ≠ 1) := by
  have hu : Unserialize s.buffercache 1 = .ok r := Unserialize_ok_iff.mpr hroot
  rw [Split, hu] at hS
  simp only [rtype] at hS
  rw [if_neg hcap] at hS
  by_cases hN : h = s.buffercache.length
  · rw [AllocateNode_empty s (hf.head_eq_zero_iff.mpr hN)] at hS
    simp at hS
    exact Or.inl ⟨hS.1.symm, hS.2.symm, hN⟩
  · have hlt : h < s.buffercache.length := by have := hf.2.1; omega
    obtain ⟨F, hF, hFt, hA⟩ := AllocateNode_pop s h hidx hf hlt
    have hF' : (popFree s (if h + 1 = s.buffercache.length then 0 else h + 1)).buffercache[h]?
        = some F := by rw [popFree_getElem _ _ (by have := hf.1; omega)]; exact hF
    rw [hA] at hS
    simp only [ne_eq, not_true_eq_false, if_false, Unserialize, hF'] at hS
    have hf2 := hf.pop_head hlt
    cases hm : splitInteriorMove cfg (r.numkeys / 2) r
        (zeroData cfg
          { F with nodetype := BTREE_INTERIOR_NODE, numkeys := r.numkeys - r.numkeys / 2 - 1 }) with
    | error e =>
      obtain ⟨o, n, hok, _⟩ := splitInteriorMove_ok cfg r F hpos (Or.inl rtype)
      rw [hok] at hm
      cases hm
    | ok res =>
      obtain ⟨o, n⟩ := res
      have ht := (splitInteriorMove_kind cfg _ _ _).2 _ _ hm
      rw [hm] at hS
      dsimp only at hS
      rw [if_neg (by rw [ht, rtype]; decide)] at hS
      by_cases hN2 : h + 1 = s.buffercache.length
      · have hz : (popFree s (if h + 1 = s.buffercache.length then 0 else h + 1)).superblock.freelist
            = 0 := by
          rw [hf2.head_eq_zero_iff, popFree_length]; exact hN2
        rw [AllocateNode_empty _ hz] at hS
        simp only [ne_eq, not_false_eq_true, if_true, Option.some.injEq, Prod.mk.injEq, reduceCtorEq] at hS
        right; left
        refine ⟨hS.1.symm, hN2, ?_⟩
        rw [← hS.2, if_pos hN2]
      · have hlt2 : h + 1 < (popFree s (if h + 1 = s.buffercache.length then 0
            else h + 1)).buffercache.length := by
          rw [popFree_length]; omega
        obtain ⟨F2, hF2, hF2t, hA2⟩ := AllocateNode_pop
          (popFree s (if h + 1 = s.buffercache.length then 0 else h + 1)) (h + 1) hidx hf2 hlt2
        rw [hA2] at hS
        have hF2' : (popFree (popFree s (if h + 1 = s.buffercache.length then 0 else h + 1))
            (if h + 1 + 1 = s.buffercache.length then 0 else h + 1 + 1)).buffercache[h + 1]?
            = some F2 := by rw [popFree_getElem _ _ (by omega)]; exact hF2
        have h1lt : 1 < s.buffercache.length := by have := hf.1; omega
        simp only [popFree_length] at hS
        simp only [ne_eq, not_true_eq_false, if_false, Unserialize, hF2', Serialize,
          popFree_length, List.length_set, h1lt, hlt, if_true] at hS
        right; right
        cases hfill : newRootFill (zeroData cfg { F2 with nodetype := BTREE_ROOT_NODE, numkeys := 1 })
            n 1 h with
        | error e =>
          rw [hfill] at hS
          simp only [Option.some.injEq, Prod.mk.injEq] at hS
          have := newRootFill_kind _ _ _ _ _ hfill
          rw [← hS.1, ← hS.2, this]
          refine ⟨by decide, by decide, ?_⟩
          show h + 1 ≠ 1
          have := hf.1; omega
        | ok nr =>
          rw [hfill] at hS
          have hlt3 : h + 1 < s.buffercache.length := by omega
          simp only [hlt3, if_true, Option.some.injEq, Prod.mk.injEq] at hS
          rw [← hS.1, ← hS.2]
          refine ⟨by decide, by decide, ?_⟩
          show h + 1 ≠ 1
          have := hf.1; omega
end Exec

section NodeFacts
variable {K V : Type} [LinearOrder K]

omit [LinearOrder K] in
theorem Stored_iff {s : BTreeIndex K V} {r : BTreeNode K V} {key : K} {value : V} :
    Stored s r key value ↔ 0 < r.numkeys ∧ ∃ i, i ≤ r.numkeys ∧
      ∃ L, s.buffercache[r.ptrs i]? = some L ∧ Holds L key value := Iff.rfl

omit [LinearOrder K] in
theorem leafInsertNode_keys (L : BTreeNode K V) (off : Nat) (key : K) (value : V) (j : Nat) :
    (leafInsertNode L off key value).keys j =
      if j = off then key else if off < j ∧ j ≤ L.numkeys then L.keys (j - 1) else L.keys j :=
  insertSlots_apply _ _ _ _ _

omit [LinearOrder K] in
theorem leafInsertNode_vals (L : BTreeNode K V) (off : Nat) (key : K) (value : V) (j : Nat) :
    (leafInsertNode L off key value).vals j =
      if j = off then value else if off < j ∧ j ≤ L.numkeys then L.vals (j - 1) else L.vals j :=
  insertSlots_apply _ _ _ _ _

/-- The leaf written by `LeafNodeInsert` is well formed under the same pointer. -/
theorem LeafUnder.insert {r L : BTreeNode K V} {i : Nat} (hL : LeafUnder r i L) {key : K}
    (hr : InRange r i key) {off : Nat} (ho : off ≤ L.numkeys)
    (h1 : ∀ j, j < off → L.keys j < key) (h2 : off < L.numkeys → key < L.keys off) (value : V) :
    LeafUnder r i (leafInsertNode L off key value) := by
  obtain ⟨t, asc, rng⟩ := hL
  refine ⟨t, ?_, ?_⟩
  · exact insertSlots_ascending L.keys L.numkeys off key asc ho h1 h2
  · intro j hj
    have hj' : j < L.numkeys + 1 := hj
    rw [leafInsertNode_keys]
    split_ifs with c1 c2
    · exact hr
    · exact rng (j - 1) (by omega)
    · exact rng j (by omega)

omit [LinearOrder K] in
/-- The leaf written by `LeafNodeInsert` holds the old pairs and the new one. -/
theorem Holds_leafInsertNode (L : BTreeNode K V) {off : Nat} (ho : off ≤ L.numkeys)
    (key : K) (value : V) (k : K) (v : V) :
    Holds (leafInsertNode L off key value) k v ↔ Holds L k v ∨ (k = key ∧ v = value) := by
  constructor
  · rintro ⟨j, hj, hk, hv⟩
    have hj' : j < L.numkeys + 1 := hj
    rw [leafInsertNode_keys] at hk
    rw [leafInsertNode_vals] at hv
    split_ifs at hk hv with c1 c2
    · exact Or.inr ⟨hk.symm, hv.symm⟩
    · exact Or.inl ⟨j - 1, by omega, hk, hv⟩
    · exact Or.inl ⟨j, by omega, hk, hv⟩
  · rintro (⟨j, hj, hk, hv⟩ | ⟨hk, hv⟩)
    · by_cases c : j < off
      · refine ⟨j, Nat.lt_succ_of_lt hj, ?_, ?_⟩
        · rw [leafInsertNode_keys, if_neg (by omega), if_neg (by omega)]; exact hk
        · rw [leafInsertNode_vals, if_neg (by omega), if_neg (by omega)]; exact hv
      · refine ⟨j + 1, Nat.succ_lt_succ hj, ?_, ?_⟩
        · rw [leafInsertNode_keys, if_neg (by omega), if_pos (by omega)]; exact hk
        · rw [leafInsertNode_vals, if_neg (by omega), if_pos (by omega)]; exact hv
    · refine ⟨off, Nat.lt_succ_of_le ho, ?_, ?_⟩
      · rw [leafInsertNode_keys, if_pos rfl]; exact hk.symm
      · rw [leafInsertNode_vals, if_pos rfl]; exact hv.symm

omit [LinearOrder K] in
theorem splitLeafOrig_slot (cfg : Config K V) (L : BTreeNode K V) (k1 : Nat) {j : Nat}
    (hj : j < k1) :
    (splitLeafOrig cfg L k1).keys j = L.keys j ∧ (splitLeafOrig cfg L k1).vals j = L.vals j := by
  simp only [splitLeafOrig, clearSlots]
  constructor <;> rw [if_neg (by omega)]

omit [LinearOrder K] in
theorem splitLeafNew_slot (cfg : Config K V) (L F : BTreeNode K V) (k1 : Nat) {j : Nat}
    (hj : j < L.numkeys - k1) :
    (splitLeafNew cfg L F k1).keys j = L.keys (j + k1) ∧
      (splitLeafNew cfg L F k1).vals j = L.vals (j + k1) := by
  simp only [splitLeafNew, copySlots]
  constructor <;> rw [if_pos (by omega)]

omit [LinearOrder K] in
/-- The two halves written by the leaf case of `Split` hold the pairs of the
leaf that was split. -/
theorem Holds_split (cfg : Config K V) (L F : BTreeNode K V) {k1 : Nat} (hk : k1 ≤ L.numkeys)
    (k : K) (v : V) :
    Holds (splitLeafOrig cfg L k1) k v ∨ Holds (splitLeafNew cfg L F k1) k v ↔ Holds L k v := by
  constructor
  · rintro (⟨j, hj, hk', hv⟩ | ⟨j, hj, hk', hv⟩)
    · have hj' : j < k1 := hj
      obtain ⟨e1, e2⟩ := splitLeafOrig_slot cfg L k1 hj'
      exact ⟨j, by omega, e1 ▸ hk', e2 ▸ hv⟩
    · have hj' : j < L.numkeys - k1 := hj
      obtain ⟨e1, e2⟩ := splitLeafNew_slot cfg L F k1 hj'
      exact ⟨j + k1, by omega, e1 ▸ hk', e2 ▸ hv⟩
  · rintro ⟨j, hj, hk', hv⟩
    by_cases c : j < k1
    · left
      obtain ⟨e1, e2⟩ := splitLeafOrig_slot cfg L k1 c
      exact ⟨j, c, e1.trans hk', e2.trans hv⟩
    · right
      have hj' : j - k1 < L.numkeys - k1 := by omega
      obtain ⟨e1, e2⟩ := splitLeafNew_slot cfg L F k1 hj'
      have e : j - k1 + k1 = j := by omega
      rw [e] at e1 e2
      exact ⟨j - k1, hj', e1.trans hk', e2.trans hv⟩

omit [LinearOrder K] in
theorem interiorInsertNode_keys (r : BTreeNode K V) (i : Nat) (sep : K) (p : Nat) (j : Nat) :
    (interiorInsertNode r i sep p).keys j =
      if j = i then sep else if i < j ∧ j ≤ r.numkeys then r.keys (j - 1) else r.keys j :=
  insertSlots_apply _ _ _ _ _

omit [LinearOrder K] in
theorem interiorInsertNode_ptrs (r : BTreeNode K V) (i : Nat) (sep : K) (p : Nat) (j : Nat) :
    (interiorInsertNode r i sep p).ptrs j =
      if j = i + 1 then p else if i + 1 < j ∧ j ≤ r.numkeys + 1 then r.ptrs (j - 1)
      else r.ptrs j :=
  insertSlots_apply _ _ _ _ _

/-- Separator ranges after `sep` has been inserted at slot `i` of `r`: the
pointers before `i` keep their range. -/
theorem InRange.insert_before {r : BTreeNode K V} {i i' : Nat} {key : K}
    (h : InRange r i' key) (hi : i ≤ r.numkeys) (hlt : i' < i) (sep : K) (p : Nat) :
    InRange (interiorInsertNode r i sep p) i' key := by
  constructor
  · intro h0
    rw [interiorInsertNode_keys, if_neg (by omega), if_neg (by omega)]
    exact h.1 h0
  · intro _
    rw [interiorInsertNode_keys, if_neg (by omega), if_neg (by omega)]
    exact h.2 (by omega)

/-- Pointer `i` is now bounded above by `sep`. -/
theorem InRange.insert_left {r : BTreeNode K V} {i : Nat} {key : K}
    (h : 0 < i → r.keys (i - 1) ≤ key) (sep : K) (hs : key < sep) (p : Nat) :
    InRange (interiorInsertNode r i sep p) i key := by
  constructor
  · intro h0
    rw [interiorInsertNode_keys, if_neg (by omega), if_neg (by omega)]
    exact h h0
  · intro _
    rw [interiorInsertNode_keys, if_pos rfl]
    exact hs

/-- Pointer `i + 1` is the new one: from `sep` up to the old bound of pointer
`i`. -/
theorem InRange.insert_right {r : BTreeNode K V} {i : Nat} {key : K}
    (h : i < r.numkeys → key < r.keys i) (sep : K) (hs : sep ≤ key) (p : Nat) :
    InRange (interiorInsertNode r i sep p) (i + 1) key := by
  constructor
  · intro _
    rw [interiorInsertNode_keys, if_pos (by omega)]
    exact hs
  · intro h0
    have h1 : i + 1 < r.numkeys + 1 := h0
    rw [interiorInsertNode_keys, if_neg (by omega), if_pos (by omega)]
    exact h (by omega)

/-- The pointers after `i + 1` are the old ones moved one slot right. -/
theorem InRange.insert_after {r : BTreeNode K V} {i i' : Nat} {key : K}
    (h : InRange r (i' - 1) key) (hlt : i + 1 < i') (hi' : i' ≤ r.numkeys + 1) (sep : K)
    (p : Nat) : InRange (interiorInsertNode r i sep p) i' key := by
  constructor
  · intro _
    rw [interiorInsertNode_keys, if_neg (by omega), if_pos (by omega)]
    exact h.1 (by omega)
  · intro h0
    have h1 : i' < r.numkeys + 1 := h0
    rw [interiorInsertNode_keys, if_neg (by omega), if_pos (by omega)]
    exact h.2 (by omega)

end NodeFacts

section Preserve
variable {K V : Type} [LinearOrder K]

theorem TwoLevel.length_gt {s : BTreeIndex K V} {r : BTreeNode K V} {h : Nat}
    (ht : TwoLevel s r h) : 1 < s.buffercache.length := by
  rcases List.getElem?_eq_some_iff.mp ht.root with ⟨hl, _⟩; exact hl

theorem Insert_empty (cfg : Config K V) {s : BTreeIndex K V} {r : BTreeNode K V} {h : Nat}
    (ht : TwoLevel s r h) (hz : r.numkeys = 0) (key : K) (value : V) :
    Insert cfg s key value = insertEmptyRoot cfg 1 r key value s := by
  have hlen := ht.length_gt
  obtain ⟨m, hm⟩ : ∃ m, s.buffercache.length = m + 1 := ⟨s.buffercache.length - 1, by omega⟩
  unfold Insert
  rw [hm, ht.rootidx, Inserter, Unserialize_ok_iff.mpr ht.root]
  simp only
  rw [if_pos ⟨ht.rtype, hz⟩]

theorem Insert_descend (cfg : Config K V) {s : BTreeIndex K V} {r : BTreeNode K V} {h : Nat}
    (ht : TwoLevel s r h) (hpos : 0 < r.numkeys) (key : K) (value : V) :
    ∃ i, i ≤ r.numkeys ∧ InRange r i key ∧
      ∃ L, s.buffercache[r.ptrs i]? = some L ∧ LeafUnder r i L ∧
        Insert cfg s key value =
          LeafNodeInsert cfg [r.ptrs i, 1] (r.ptrs i) L key value s := by
  have hlen := ht.length_gt
  obtain ⟨m, hm⟩ : ∃ m, s.buffercache.length = m + 2 := ⟨s.buffercache.length - 2, by omega⟩
  obtain ⟨i, h1, h2, h3, h4⟩ := scanInterior_spec r key (Or.inl ht.rtype)
  obtain ⟨L, hL, hleaf⟩ := ht.leaves hpos i h1
  have hlast : GetPtr r r.numkeys = .ok (r.ptrs r.numkeys) := by
    simp [GetPtr, ptrInRange, ht.rtype]
  refine ⟨i, h1, ⟨fun hi => h2 (i - 1) (by omega), h3⟩, L, hL, hleaf, ?_⟩
  have hnz : ¬ (r.nodetype = BTREE_ROOT_NODE ∧ r.numkeys = 0) := by omega
  have hnl : ¬ (L.nodetype = BTREE_ROOT_NODE ∧ L.numkeys = 0) := by simp [hleaf.1]
  have step2 : Inserter cfg (m + 1) [1] (r.ptrs i) key value s =
      LeafNodeInsert cfg [r.ptrs i, 1] (r.ptrs i) L key value s := by
    rw [Inserter, Unserialize_ok_iff.mpr hL]
    simp only
    rw [if_neg hnl]
    simp only [hleaf.1]
  unfold Insert
  rw [hm, ht.rootidx, Inserter, Unserialize_ok_iff.mpr ht.root]
  simp only
  rw [if_neg hnz]
  simp only [ht.rtype, h4]
  by_cases hi : i < r.numkeys
  · simp only [hi, if_true]
    exact step2
  · have : i = r.numkeys := by omega
    subst this
    simp only [Nat.lt_irrefl, if_false, gt_iff_lt, hpos, if_true, hlast]
    exact step2

/-- Rewriting the leaf under pointer `i` by another well-formed leaf keeps the
shape. -/
theorem TwoLevel.set_leaf {s : BTreeIndex K V} {r : BTreeNode K V} {h : Nat}
    (ht : TwoLevel s r h) (hpos : 0 < r.numkeys) {i : Nat} (hi : i ≤ r.numkeys)
    {L' : BTreeNode K V} (hL' : LeafUnder r i L') :
    TwoLevel { s with buffercache := s.buffercache.set (r.ptrs i) L' } r h := by
  obtain ⟨hp2, hph⟩ := ht.ptrs hpos i hi
  obtain ⟨f1, f2, f3, f4⟩ := ht.free
  refine ⟨ht.idx, ht.rootidx, ?_, ht.rtype, ⟨f1, by simpa using f2, by simpa using f3, ?_⟩,
    ht.rkeys, ht.ptrs, ht.inj, ?_⟩
  · show (s.buffercache.set (r.ptrs i) L')[1]? = some r
    rw [List.getElem?_set_ne (by omega)]; exact ht.root
  · intro j hj1 hj2
    simp only [List.length_set] at hj2 ⊢
    rw [List.getElem?_set_ne (by omega)]
    exact f4 j hj1 hj2
  · intro _ i' hi'
    by_cases hii : i' = i
    · subst hii
      refine ⟨L', ?_, hL'⟩
      show (s.buffercache.set (r.ptrs i') L')[r.ptrs i']? = some L'
      rw [List.getElem?_set_self (by omega)]
    · obtain ⟨L0, hL0, hleaf0⟩ := ht.leaves hpos i' hi'
      refine ⟨L0, ?_, hleaf0⟩
      show (s.buffercache.set (r.ptrs i) L')[r.ptrs i']? = some L0
      rw [List.getElem?_set_ne (fun e => hii (ht.inj hpos i' i hi' hi e.symm))]
      exact hL0

/-- Popping the free-list head keeps the shape. -/
theorem TwoLevel.pop_block {s : BTreeIndex K V} {r : BTreeNode K V} {h : Nat}
    (ht : TwoLevel s r h) (hh : h < s.buffercache.length) :
    TwoLevel (popFree s (if h + 1 = s.buffercache.length then 0 else h + 1)) r (h + 1) := by
  refine ⟨ht.idx, ht.rootidx, ?_, ht.rtype, ht.free.pop_head hh, ht.rkeys, ?_, ht.inj, ?_⟩
  · rw [popFree_getElem _ _ (by omega)]; exact ht.root
  · intro hpos i hi
    have := ht.ptrs hpos i hi
    omega
  · intro hpos i hi
    obtain ⟨L0, hL0, hleaf0⟩ := ht.leaves hpos i hi
    refine ⟨L0, ?_, hleaf0⟩
    rw [popFree_getElem _ _ (by have := (ht.ptrs hpos i hi).1; omega)]
    exact hL0

end Preserve

section SplitShape
variable {K V : Type} [LinearOrder K]

/-- The blocks under the pointers of the root after a leaf split: the leaves
before pointer `i` and after pointer `i + 1` are the old ones, pointer `i` names
the original half and pointer `i + 1` the new sibling in block `h`. -/
theorem split_leaf_blocks {s : BTreeIndex K V} {r : BTreeNode K V} {h : Nat}
    (ht : TwoLevel s r (h + 1)) (hpos : 0 < r.numkeys)
    (hbelow : ∀ i', i' ≤ r.numkeys → r.ptrs i' < h) (hh : h < s.buffercache.length)
    {i : Nat} (hi : i ≤ r.numkeys) (orig new : BTreeNode K V) (sep : K) :
    (∀ i', i' < i →
      (((s.buffercache.set (r.ptrs i) orig).set h new).set 1
        (interiorInsertNode r i sep h))[(interiorInsertNode r i sep h).ptrs i']? =
        s.buffercache[r.ptrs i']?) ∧
    (((s.buffercache.set (r.ptrs i) orig).set h new).set 1
        (interiorInsertNode r i sep h))[(interiorInsertNode r i sep h).ptrs i]? = some orig ∧
    (((s.buffercache.set (r.ptrs i) orig).set h new).set 1
        (interiorInsertNode r i sep h))[(interiorInsertNode r i sep h).ptrs (i + 1)]? = some new ∧
    (∀ i', i + 1 < i' → i' ≤ r.numkeys + 1 →
      (((s.buffercache.set (r.ptrs i) orig).set h new).set 1
        (interiorInsertNode r i sep h))[(interiorInsertNode r i sep h).ptrs i']? =
        s.buffercache[r.ptrs (i' - 1)]?) := by
  have hp := ht.ptrs hpos
  have hpi := hp i hi
  have hbi := hbelow i hi
  refine ⟨?_, ?_, ?_, ?_⟩
  · intro i' hi'
    have e : (interiorInsertNode r i sep h).ptrs i' = r.ptrs i' := by
      rw [interiorInsertNode_ptrs, if_neg (by omega), if_neg (by omega)]
    have h1 := hp i' (by omega)
    have h2 := hbelow i' (by omega)
    have h3 : r.ptrs i ≠ r.ptrs i' := fun e => by
      have := ht.inj hpos i i' hi (by omega) e; omega
    rw [e, List.getElem?_set_ne (by omega), List.getElem?_set_ne (by omega),
      List.getElem?_set_ne h3]
  · have e : (interiorInsertNode r i sep h).ptrs i = r.ptrs i := by
      rw [interiorInsertNode_ptrs, if_neg (by omega), if_neg (by omega)]
    rw [e, List.getElem?_set_ne (by omega), List.getElem?_set_ne (by omega),
      List.getElem?_set_self (by omega)]
  · have e : (interiorInsertNode r i sep h).ptrs (i + 1) = h := by
      rw [interiorInsertNode_ptrs, if_pos rfl]
    rw [e, List.getElem?_set_ne (by omega), List.getElem?_set_self (by simpa using hh)]
  · intro i' hi1 hi2
    have e : (interiorInsertNode r i sep h).ptrs i' = r.ptrs (i' - 1) := by
      rw [interiorInsertNode_ptrs, if_neg (by omega), if_pos (by omega)]
    have h1 := hp (i' - 1) (by omega)
    have h2 := hbelow (i' - 1) (by omega)
    have h3 : r.ptrs i ≠ r.ptrs (i' - 1) := fun e => by
      have := ht.inj hpos i (i' - 1) hi (by omega) e; omega
    rw [e, List.getElem?_set_ne (by omega), List.getElem?_set_ne (by omega),
      List.getElem?_set_ne h3]

/-- The shape after a leaf split whose separator fits into the root. -/
theorem TwoLevel.split_leaf (cfg : Config K V) {s : BTreeIndex K V} {r : BTreeNode K V} {h : Nat}
    (ht : TwoLevel s r (h + 1)) (hpos : 0 < r.numkeys)
    (hbelow : ∀ i', i' ≤ r.numkeys → r.ptrs i' < h) (hh : h < s.buffercache.length)
    {i : Nat} (hi : i ≤ r.numkeys) {L : BTreeNode K V} (hleaf : LeafUnder r i L)
    (hm : 2 ≤ L.numkeys) (F : BTreeNode K V) :
    TwoLevel
      { s with
        buffercache :=
          ((s.buffercache.set (r.ptrs i) (splitLeafOrig cfg L (L.numkeys - L.numkeys / 2))).set h
            (splitLeafNew cfg L F (L.numkeys - L.numkeys / 2))).set 1
            (interiorInsertNode r i (L.keys (L.numkeys - L.numkeys / 2)) h) }
      (interiorInsertNode r i (L.keys (L.numkeys - L.numkeys / 2)) h) (h + 1) := by
  obtain ⟨b1, b2, b3, b4⟩ := split_leaf_blocks ht hpos hbelow hh hi
    (splitLeafOrig cfg L (L.numkeys - L.numkeys / 2))
    (splitLeafNew cfg L F (L.numkeys - L.numkeys / 2)) (L.keys (L.numkeys - L.numkeys / 2))
  obtain ⟨f1, f2, f3, f4⟩ := ht.free
  obtain ⟨lt, lasc, lrng⟩ := hleaf
  have hp := ht.ptrs hpos
  have hk1 : L.numkeys - L.numkeys / 2 < L.numkeys := by omega
  have hk0 : 0 < L.numkeys - L.numkeys / 2 := by omega
  have hlen : 1 < s.buffercache.length := ht.length_gt
  -- the separator lies strictly inside the range of pointer `i`
  have sep_hi : i < r.numkeys → L.keys (L.numkeys - L.numkeys / 2) < r.keys i :=
    (lrng _ hk1).2
  have sep_lo : ∀ j, j < i → r.keys j < L.keys (L.numkeys - L.numkeys / 2) := by
    intro j hj
    have a1 : r.keys j ≤ r.keys (i - 1) := ht.rkeys.le (by omega) (by omega)
    have a2 : r.keys (i - 1) ≤ L.keys 0 := (lrng 0 (by omega)).1 (by omega)
    have a3 : L.keys 0 < L.keys (L.numkeys - L.numkeys / 2) := lasc _ _ hk0 hk1
    exact lt_of_le_of_lt (le_trans a1 a2) a3
  refine ⟨ht.idx, ht.rootidx, ?_, ht.rtype, ⟨f1, by simpa using f2, by simpa using f3, ?_⟩,
    ?_, ?_, ?_, ?_⟩
  · show (((s.buffercache.set _ _).set h _).set 1 _)[1]? = some _
    rw [List.getElem?_set_self (by simpa using hlen)]
  · intro j hj1 hj2
    simp only [List.length_set] at hj2 ⊢
    have := hp i hi
    rw [List.getElem?_set_ne (by omega), List.getElem?_set_ne (by omega),
      List.getElem?_set_ne (by omega)]
    exact f4 j hj1 hj2
  · exact insertSlots_ascending r.keys r.numkeys i _ ht.rkeys hi sep_lo sep_hi
  · intro _ j hj
    have hj' : j ≤ r.numkeys + 1 := hj
    rw [interiorInsertNode_ptrs]
    split_ifs with c1 c2
    · have := hp i hi; have := hbelow i hi; omega
    · have := hp (j - 1) (by omega); omega
    · have := hp j (by omega); omega
  · intro _ a b ha hb hab
    have ha' : a ≤ r.numkeys + 1 := ha
    have hb' : b ≤ r.numkeys + 1 := hb
    rw [interiorInsertNode_ptrs, interiorInsertNode_ptrs] at hab
    split_ifs at hab with c1 c2 c3 c4 c5 c6 c7 c8
    · omega
    · have := hbelow (b - 1) (by omega); omega
    · have := hbelow b (by omega); omega
    · have := hbelow (a - 1) (by omega); omega
    · have := ht.inj hpos (a - 1) (b - 1) (by omega) (by omega) hab; omega
    · have := ht.inj hpos (a - 1) b (by omega) (by omega) hab; omega
    · have := hbelow a (by omega); omega
    · have := ht.inj hpos a (b - 1) (by omega) (by omega) hab; omega
    · exact ht.inj hpos a b (by omega) (by omega) hab
  · intro _ i' hi'
    have hi'' : i' ≤ r.numkeys + 1 := hi'
    rcases Nat.lt_trichotomy i' i with c | c | c
    · obtain ⟨L0, hL0, t0, asc0, rng0⟩ := ht.leaves hpos i' (by omega)
      refine ⟨L0, (b1 i' c).trans hL0, t0, asc0, fun j hj => ?_⟩
      exact (rng0 j hj).insert_before hi c _ _
    · subst c
      refine ⟨_, b2, lt, ?_, ?_⟩
      · intro a b hab hb
        have hb' : b < L.numkeys - L.numkeys / 2 := hb
        rw [(splitLeafOrig_slot cfg L _ (by omega : a < L.numkeys - L.numkeys / 2)).1,
          (splitLeafOrig_slot cfg L _ hb').1]
        exact lasc a b hab (by omega)
      · intro j hj
        have hj' : j < L.numkeys - L.numkeys / 2 := hj
        rw [(splitLeafOrig_slot cfg L _ hj').1]
        exact InRange.insert_left (lrng j (by omega)).1 _ (lasc _ _ hj' hk1) _
    · by_cases c2 : i' = i + 1
      · subst c2
        refine ⟨_, b3, rfl, ?_, ?_⟩
        · intro a b hab hb
          have hb' : b < L.numkeys - (L.numkeys - L.numkeys / 2) := hb
          rw [(splitLeafNew_slot cfg L F _ (by omega : a < L.numkeys - (L.numkeys - L.numkeys / 2))).1,
            (splitLeafNew_slot cfg L F _ hb').1]
          exact lasc _ _ (by omega) (by omega)
        · intro j hj
          have hj' : j < L.numkeys - (L.numkeys - L.numkeys / 2) := hj
          rw [(splitLeafNew_slot cfg L F _ hj').1]
          refine InRange.insert_right (lrng _ (by omega)).2 _ ?_ _
          exact lasc.le (by omega) (by omega)
      · obtain ⟨L0, hL0, t0, asc0, rng0⟩ := ht.leaves hpos (i' - 1) (by omega)
        refine ⟨L0, (b4 i' (by omega) hi'').trans hL0, t0, asc0, fun j hj => ?_⟩
        exact (rng0 j hj).insert_after (by omega) hi'' _ _


/-- After `LeafNodeInsert` has rewritten the leaf under pointer `i`, the tree
stores what it stored before and the new pair. -/
theorem Stored_insert {s : BTreeIndex K V} {r : BTreeNode K V} {h : Nat}
    (ht : TwoLevel s r h) (hpos : 0 < r.numkeys) {i : Nat} (hi : i ≤ r.numkeys)
    {L : BTreeNode K V} (hL : s.buffercache[r.ptrs i]? = some L) {off : Nat}
    (ho : off ≤ L.numkeys) (key : K) (value : V) (k : K) (v : V) :
    Stored { s with buffercache := s.buffercache.set (r.ptrs i) (leafInsertNode L off key value) }
      r k v ↔ Stored s r k v ∨ (k = key ∧ v = value) := by
  have hlt : r.ptrs i < s.buffercache.length := by
    rcases List.getElem?_eq_some_iff.mp hL with ⟨hl, _⟩; exact hl
  have hself : (s.buffercache.set (r.ptrs i) (leafInsertNode L off key value))[r.ptrs i]? =
      some (leafInsertNode L off key value) := List.getElem?_set_self hlt
  have hother : ∀ i', i' ≤ r.numkeys → i' ≠ i →
      (s.buffercache.set (r.ptrs i) (leafInsertNode L off key value))[r.ptrs i']? =
        s.buffercache[r.ptrs i']? := by
    intro i' hi' hne
    exact List.getElem?_set_ne (fun e => hne (ht.inj hpos i' i hi' hi e.symm))
  constructor
  · rintro ⟨_, i', hi', L', hL', hh⟩
    by_cases c : i' = i
    · subst c
      have hL'' : (s.buffercache.set (r.ptrs i') (leafInsertNode L off key value))[r.ptrs i']? =
          some L' := hL'
      rw [hself] at hL''; cases hL''
      rcases (Holds_leafInsertNode L ho key value k v).mp hh with h1 | h1
      · exact Or.inl ⟨hpos, i', hi', L, hL, h1⟩
      · exact Or.inr h1
    · have hL'' : (s.buffercache.set (r.ptrs i) (leafInsertNode L off key value))[r.ptrs i']? =
          some L' := hL'
      rw [hother i' hi' c] at hL''
      exact Or.inl ⟨hpos, i', hi', L', hL'', hh⟩
  · rintro (⟨_, i', hi', L', hL', hh⟩ | hnew)
    · by_cases c : i' = i
      · subst c
        rw [hL] at hL'; cases hL'
        exact ⟨hpos, i', hi', _, hself,
          (Holds_leafInsertNode L ho key value k v).mpr (Or.inl hh)⟩
      · exact ⟨hpos, i', hi', L', (hother i' hi' c).trans hL', hh⟩
    · exact ⟨hpos, i, hi, _, hself, (Holds_leafInsertNode L ho key value k v).mpr (Or.inr hnew)⟩

/-- Popping the free-list head does not change what the tree stores. -/
theorem Stored_pop {s : BTreeIndex K V} {r : BTreeNode K V} {h : Nat}
    (ht : TwoLevel s r h) (next : Nat) (k : K) (v : V) :
    Stored (popFree s next) r k v ↔ Stored s r k v := by
  constructor
  · rintro ⟨hpos, i, hi, L, hL, hh⟩
    rw [popFree_getElem _ _ (by have := (ht.ptrs hpos i hi).1; omega)] at hL
    exact ⟨hpos, i, hi, L, hL, hh⟩
  · rintro ⟨hpos, i, hi, L, hL, hh⟩
    refine ⟨hpos, i, hi, L, ?_, hh⟩
    rw [popFree_getElem _ _ (by have := (ht.ptrs hpos i hi).1; omega)]
    exact hL

/-- A leaf split with its separator insert does not change what the tree
stores. -/
theorem Stored_split (cfg : Config K V) {s : BTreeIndex K V} {r : BTreeNode K V} {h : Nat}
    (ht : TwoLevel s r (h + 1)) (hpos : 0 < r.numkeys)
    (hbelow : ∀ i', i' ≤ r.numkeys → r.ptrs i' < h) (hh : h < s.buffercache.length)
    {i : Nat} (hi : i ≤ r.numkeys) {L : BTreeNode K V}
    (hL : s.buffercache[r.ptrs i]? = some L) (F : BTreeNode K V) (k : K) (v : V) :
    Stored
      { s with
        buffercache :=
          ((s.buffercache.set (r.ptrs i) (splitLeafOrig cfg L (L.numkeys - L.numkeys / 2))).set h
            (splitLeafNew cfg L F (L.numkeys - L.numkeys / 2))).set 1
            (interiorInsertNode r i (L.keys (L.numkeys - L.numkeys / 2)) h) }
      (interiorInsertNode r i (L.keys (L.numkeys - L.numkeys / 2)) h) k v ↔
    Stored s r k v := by
  obtain ⟨b1, b2, b3, b4⟩ := split_leaf_blocks ht hpos hbelow hh hi
    (splitLeafOrig cfg L (L.numkeys - L.numkeys / 2))
    (splitLeafNew cfg L F (L.numkeys - L.numkeys / 2)) (L.keys (L.numkeys - L.numkeys / 2))
  have hk : L.numkeys - L.numkeys / 2 ≤ L.numkeys := by omega
  have hpos' : 0 < (interiorInsertNode r i (L.keys (L.numkeys - L.numkeys / 2)) h).numkeys :=
    Nat.succ_pos _
  constructor
  · rintro ⟨_, i', hi', L', hL', hh'⟩
    have hi'' : i' ≤ r.numkeys + 1 := hi'
    rcases Nat.lt_trichotomy i' i with c | c | c
    · exact ⟨hpos, i', by omega, L', (b1 i' c).symm.trans hL', hh'⟩
    · subst c
      have e := b2.symm.trans hL'
      cases e
      exact ⟨hpos, i', hi, L, hL, (Holds_split cfg L F hk k v).mp (Or.inl hh')⟩
    · by_cases c2 : i' = i + 1
      · subst c2
        have e := b3.symm.trans hL'
        cases e
        exact ⟨hpos, i, hi, L, hL, (Holds_split cfg L F hk k v).mp (Or.inr hh')⟩
      · exact ⟨hpos, i' - 1, by omega, L', (b4 i' (by omega) hi'').symm.trans hL', hh'⟩
  · rintro ⟨_, i', hi', L', hL', hh'⟩
    rcases Nat.lt_trichotomy i' i with c | c | c
    · exact ⟨hpos', i', Nat.le_succ_of_le hi', L', (b1 i' c).trans hL', hh'⟩
    · subst c
      rw [hL] at hL'; cases hL'
      rcases (Holds_split cfg L F hk k v).mpr hh' with h1 | h1
      · exact ⟨hpos', i', Nat.le_succ_of_le hi', _, b2, h1⟩
      · exact ⟨hpos', i' + 1, Nat.succ_le_succ hi', _, b3, h1⟩
    · refine ⟨hpos', i' + 1, Nat.succ_le_succ hi', L', ?_, hh'⟩
      have := b4 (i' + 1) (by omega) (by omega)
      simp only [Nat.add_sub_cancel] at this
      exact this.trans hL'

end SplitShape

section Step
variable {K V : Type} [LinearOrder K]

/-- The leaf case of `Split` on a two-level tree whose leaf under pointer `i`
has just reached capacity. -/
theorem Split_leaf_step (cfg : Config K V) (hcl : 2 ≤ cfg.SlotsAsLeaf)
    {s : BTreeIndex K V} {r : BTreeNode K V} {h : Nat}
    (ht : TwoLevel s r h) (hpos : 0 < r.numkeys) {i : Nat} (hi : i ≤ r.numkeys)
    {L : BTreeNode K V} (hL : s.buffercache[r.ptrs i]? = some L) (hleaf : LeafUnder r i L)
    (hmcap : L.numkeys = cfg.SlotsAsLeaf) (hused : h = r.numkeys + 3)
    (hrcap : r.numkeys < cfg.SlotsAsInterior)
    (hlcap : ∀ i', i' ≤ r.numkeys → i' ≠ i → ∀ L', s.buffercache[r.ptrs i']? = some L' →
      L'.numkeys < cfg.SlotsAsLeaf)
    (rc : ERROR_T) (s' : BTreeIndex K V) (hS : Split cfg [r.ptrs i, 1] s = some (rc, s')) :
    (rc = ERROR_NOERROR → s'.superblock.rootnode = 1 →
      ∃ r' h', TwoLevel s' r' h' ∧ WithinCapacity cfg s' r' h' ∧ 0 < r'.numkeys ∧
        ∀ k v, Stored s' r' k v ↔ Stored s r k v) ∧
    (rc ≠ ERROR_CONFLICT ∧
      (s'.superblock.rootnode = 1 → rc = ERROR_NOERROR ∨ rc = ERROR_NOSPACE)) ∧
    (rc = ERROR_NOSPACE → ∃ r' h', TwoLevel s' r' h' ∧ ∀ k v, Stored s' r' k v ↔ Stored s r k v) ∧
    (s'.superblock.rootnode = 1 → s'.buffercache.length = s.buffercache.length) := by
  have hp := ht.ptrs hpos i hi
  have hm : 2 ≤ L.numkeys := by omega
  obtain ⟨hA, hB⟩ := Split_leaf_exec cfg (r.ptrs i) 1 [] s L h hL hleaf.1 ht.idx ht.free
    (by omega) hm hp.2
  by_cases hN : h = s.buffercache.length
  · rw [hA hN] at hS
    simp only [Option.some.injEq, Prod.mk.injEq] at hS
    obtain ⟨e1, e2⟩ := hS
    subst e1 e2
    exact ⟨fun h => absurd h (by decide), ⟨by decide, fun _ => by decide⟩,
      fun _ => ⟨r, h, ht, fun _ _ => Iff.rfl⟩, fun _ => rfl⟩
  have hlt : h < s.buffercache.length := by have := ht.free.2.1; omega
  obtain ⟨F, hF, hFt, hS2⟩ := hB hlt
  rw [hS2] at hS
  clear hS2 hA hB
  -- the state after the sibling block has been popped from the free list
  have ht2 := ht.pop_block hlt
  have hst2 := fun k v =>
    Stored_pop ht (if h + 1 = s.buffercache.length then 0 else h + 1) k v
  have hL2 : (popFree s (if h + 1 = s.buffercache.length then 0 else h + 1)).buffercache[r.ptrs i]?
      = some L := by rw [popFree_getElem _ _ (by omega)]; exact hL
  have hlcap2 : ∀ i', i' ≤ r.numkeys → i' ≠ i → ∀ L',
      (popFree s (if h + 1 = s.buffercache.length then 0 else h + 1)).buffercache[r.ptrs i']?
        = some L' → L'.numkeys < cfg.SlotsAsLeaf := by
    intro i' hi' hne L' hL'
    rw [popFree_getElem _ _ (by have := (ht.ptrs hpos i' hi').1; omega)] at hL'
    exact hlcap i' hi' hne L' hL'
  have hh2 : h < (popFree s (if h + 1 = s.buffercache.length then 0
      else h + 1)).buffercache.length := by rw [popFree_length]; exact hlt
  have hlen2 : (popFree s (if h + 1 = s.buffercache.length then 0
      else h + 1)).buffercache.length = s.buffercache.length := popFree_length _ _
  revert hS ht2 hst2 hL2 hlcap2 hh2 hlen2
  generalize popFree s (if h + 1 = s.buffercache.length then 0 else h + 1) = s2
  intro hS ht2 hst2 hL2 hlcap2 hh2 hlen2
  have hbelow : ∀ i', i' ≤ r.numkeys → r.ptrs i' < h := fun i' hi' => (ht.ptrs hpos i' hi').2
  have ht4 := TwoLevel.split_leaf cfg ht2 hpos hbelow hh2 hi hleaf hm F
  have hst4 := fun k v => Stored_split cfg ht2 hpos hbelow hh2 hi hL2 F k v
  obtain ⟨b1, b2, b3, b4⟩ := split_leaf_blocks ht2 hpos hbelow hh2 hi
    (splitLeafOrig cfg L (L.numkeys - L.numkeys / 2))
    (splitLeafNew cfg L F (L.numkeys - L.numkeys / 2)) (L.keys (L.numkeys - L.numkeys / 2))
  have hk1 : L.numkeys - L.numkeys / 2 < L.numkeys := by omega
  have hk0 : 0 < L.numkeys - L.numkeys / 2 := by omega
  have hsep := hleaf.2.2 _ hk1
  have sep_lo : ∀ j, j < i → r.keys j < L.keys (L.numkeys - L.numkeys / 2) := by
    intro j hj
    have a1 : r.keys j ≤ r.keys (i - 1) := ht.rkeys.le (by omega) (by omega)
    have a2 := (hleaf.2.2 0 (by omega)).1 (by omega)
    have a3 := hleaf.2.1 _ _ hk0 hk1
    exact lt_of_le_of_lt (le_trans a1 a2) a3
  have hnew : ∀ j, j < r.numkeys → r.keys j ≠ L.keys (L.numkeys - L.numkeys / 2) := by
    intro j hj
    by_cases c : j < i
    · exact ne_of_lt (sep_lo j c)
    · exact ne_of_gt (lt_of_lt_of_le (hsep.2 (by omega)) (ht.rkeys.le (by omega) hj))
  have hroot3 : (((s2.buffercache.set (r.ptrs i)
      (splitLeafOrig cfg L (L.numkeys - L.numkeys / 2))).set h
      (splitLeafNew cfg L F (L.numkeys - L.numkeys / 2))))[1]? = some r := by
    rw [List.getElem?_set_ne (by omega), List.getElem?_set_ne (by omega)]
    exact ht2.root
  obtain ⟨off', ho', g1, g2, hIP⟩ := InteriorPointerInsertWith_exec cfg (Split cfg [1]) 1 r
    (L.keys (L.numkeys - L.numkeys / 2)) h
    { s2 with
      buffercache := (s2.buffercache.set (r.ptrs i)
        (splitLeafOrig cfg L (L.numkeys - L.numkeys / 2))).set h
        (splitLeafNew cfg L F (L.numkeys - L.numkeys / 2)) }
    hroot3 (Or.inl ht.rtype) hpos hnew
  have hoff : off' = i := route_unique ht.rkeys ho' (fun j hj => le_of_lt (g1 j hj)) g2 hi hsep
  subst hoff
  rw [hIP] at hS
  clear hIP
  by_cases hrc : r.numkeys + 1 ≥ cfg.SlotsAsInterior
  swap
  · rw [if_neg hrc] at hS
    simp only [Option.some.injEq, Prod.mk.injEq] at hS
    obtain ⟨e1, e2⟩ := hS
    subst e1 e2
    refine ⟨fun _ _ => ⟨_, h + 1, ht4, ⟨by show r.numkeys + 1 < _; omega, ?_, ?_⟩,
        Nat.succ_pos _, fun k v => (hst4 k v).trans (hst2 k v)⟩,
      ⟨by decide, fun _ => by decide⟩, fun h => absurd h (by decide),
      fun _ => by simp only [List.length_set]; exact hlen2⟩
    · intro _ i' hi' L' hL'
      have hi'' : i' ≤ r.numkeys + 1 := hi'
      rcases Nat.lt_trichotomy i' off' with c | c | c
      · exact hlcap2 i' (by omega) (by omega) L' ((b1 i' c).symm.trans hL')
      · subst c
        have e := b2.symm.trans hL'
        cases e
        show L.numkeys - L.numkeys / 2 < cfg.SlotsAsLeaf
        omega
      · by_cases c2 : i' = off' + 1
        · subst c2
          have e := b3.symm.trans hL'
          cases e
          show L.numkeys - (L.numkeys - L.numkeys / 2) < cfg.SlotsAsLeaf
          omega
        · exact hlcap2 (i' - 1) (by omega) (by omega) L'
            ((b4 i' (by omega) hi'').symm.trans hL')
    · show h + 1 = if r.numkeys + 1 = 0 then 2 else r.numkeys + 1 + 3
      rw [if_neg (by omega)]; omega
  rw [if_pos hrc] at hS
  have hroot4 := ht4.root
  rcases Split_root_cases cfg _ _ (h + 1) hroot4 ht.rtype (Nat.succ_pos _)
    (by show ¬ r.numkeys + 1 < _; omega)
    ht4.idx ht4.free rc s' hS with ⟨e1, e2, _⟩ | ⟨e1, e2, e3⟩ | ⟨e1, e2, e3⟩
  · subst e1 e2
    exact ⟨fun h => absurd h (by decide), ⟨by decide, fun _ => by decide⟩,
      fun _ => ⟨_, h + 1, ht4, fun k v => (hst4 k v).trans (hst2 k v)⟩,
      fun _ => by simp only [List.length_set]; exact hlen2⟩
  · subst e1
    have hlt5 : h + 1 < s2.buffercache.length := by
      have : h + 1 + 1 = s2.buffercache.length := by simpa using e2
      omega
    have ht5 := ht4.pop_block (by simpa using hlt5)
    rw [if_pos e2] at ht5
    rw [e3]
    exact ⟨fun h => absurd h (by decide), ⟨by decide, fun _ => by decide⟩,
      fun _ => ⟨_, h + 1 + 1, ht5, fun k v =>
        ((Stored_pop ht4 0 k v).trans (hst4 k v)).trans (hst2 k v)⟩,
      fun _ => by rw [popFree_length]; simp only [List.length_set]; exact hlen2⟩
  · exact ⟨fun _ h2 => absurd h2 e3, ⟨e2, fun h => absurd h e3⟩, fun h => absurd h e1,
      fun h => absurd h e3⟩

/-- What one `Insert` does to a two-level tree whose root has keys. -/
theorem Insert_step_nonempty (cfg : Config K V) (hcl : 2 ≤ cfg.SlotsAsLeaf)
    {s : BTreeIndex K V} {r : BTreeNode K V} {h : Nat}
    (ht : TwoLevel s r h) (hc : WithinCapacity cfg s r h) (hpos : 0 < r.numkeys)
    (key : K) (value : V) (rc : ERROR_T) (s' : BTreeIndex K V)
    (hI : Insert cfg s key value = some (rc, s')) :
    (rc = ERROR_NOERROR → s'.superblock.rootnode = 1 →
      ∃ r' h', TwoLevel s' r' h' ∧ WithinCapacity cfg s' r' h' ∧ 0 < r'.numkeys ∧
        ∀ k v, Stored s' r' k v ↔ Stored s r k v ∨ (k = key ∧ v = value)) ∧
    (rc = ERROR_CONFLICT → s' = s ∧ ∃ v, Stored s r key v) ∧
    (rc = ERROR_NOSPACE →
      ∃ r' h', TwoLevel s' r' h' ∧
        ∀ k v, Stored s' r' k v ↔ Stored s r k v ∨ (k = key ∧ v = value)) ∧
    (s'.superblock.rootnode = 1 →
      rc = ERROR_NOERROR ∨ rc = ERROR_CONFLICT ∨ rc = ERROR_NOSPACE) ∧
    (s'.superblock.rootnode = 1 → s'.buffercache.length = s.buffercache.length) := by
  obtain ⟨i, hi, hrange, L, hL, hleaf, hIns⟩ := Insert_descend cfg ht hpos key value
  rw [hIns] at hI
  have hp := ht.ptrs hpos i hi
  have hused : h = r.numkeys + 3 := by rw [hc.used, if_neg (by omega)]
  have hLcap : L.numkeys < cfg.SlotsAsLeaf := hc.leafcap hpos i hi L hL
  rcases LeafNodeInsert_exec cfg [r.ptrs i, 1] (r.ptrs i) L key value s hL hleaf.1 with
    ⟨off, ho, h1, h2, hexec⟩ | ⟨j, hj, hk, hexec⟩
  swap
  · rw [hexec] at hI
    simp only [Option.some.injEq, Prod.mk.injEq] at hI
    obtain ⟨e1, e2⟩ := hI
    subst e1 e2
    exact ⟨fun h => absurd h (by decide), fun _ => ⟨rfl, L.vals j, hpos, i, hi, L, hL, j, hj, hk, rfl⟩,
      fun h => absurd h (by decide), fun _ => by decide, fun _ => rfl⟩
  rw [hexec] at hI
  -- the state after the leaf has been rewritten
  have hleaf1 : LeafUnder r i (leafInsertNode L off key value) :=
    hleaf.insert hrange ho h1 h2 value
  have ht1 := ht.set_leaf hpos hi hleaf1
  have hst1 := Stored_insert ht hpos hi hL ho key value
  have hplen : r.ptrs i < s.buffercache.length := by
    rcases List.getElem?_eq_some_iff.mp hL with ⟨hl, _⟩; exact hl
  have hL1 : ({ s with buffercache := s.buffercache.set (r.ptrs i) (leafInsertNode L off key value) } :
      BTreeIndex K V).buffercache[r.ptrs i]? = some (leafInsertNode L off key value) :=
    List.getElem?_set_self hplen
  have hother : ∀ i', i' ≤ r.numkeys → i' ≠ i →
      (s.buffercache.set (r.ptrs i) (leafInsertNode L off key value))[r.ptrs i']? =
        s.buffercache[r.ptrs i']? := by
    intro i' hi' hne
    exact List.getElem?_set_ne (fun e => hne (ht.inj hpos i' i hi' hi e.symm))
  by_cases hsplit : 0 < L.numkeys ∧ L.numkeys + 1 ≥ cfg.SlotsAsLeaf
  swap
  · rw [if_neg hsplit] at hI
    simp only [Option.some.injEq, Prod.mk.injEq] at hI
    obtain ⟨e1, e2⟩ := hI
    subst e1 e2
    refine ⟨fun _ _ => ⟨r, h, ht1, ⟨hc.rootcap, ?_, hc.used⟩, hpos, hst1⟩,
      fun h => absurd h (by decide), fun h => absurd h (by decide), fun _ => by decide,
      fun _ => List.length_set _ _ _⟩
    intro _ i' hi' L' hL'
    by_cases c : i' = i
    · subst c
      rw [hL1] at hL'; cases hL'
      show L.numkeys + 1 < cfg.SlotsAsLeaf
      omega
    · have hL'' : (s.buffercache.set (r.ptrs i) (leafInsertNode L off key value))[r.ptrs i']? =
          some L' := hL'
      rw [hother i' hi' c] at hL''
      exact hc.leafcap hpos i' hi' L' hL''
  rw [if_pos hsplit] at hI
  have hmcap : (leafInsertNode L off key value).numkeys = cfg.SlotsAsLeaf := by
    have : (leafInsertNode L off key value).numkeys = L.numkeys + 1 := rfl
    omega
  have hlcap : ∀ i', i' ≤ r.numkeys → i' ≠ i → ∀ L',
      ({ s with buffercache := s.buffercache.set (r.ptrs i) (leafInsertNode L off key value) } :
        BTreeIndex K V).buffercache[r.ptrs i']? = some L' → L'.numkeys < cfg.SlotsAsLeaf := by
    intro i' hi' hne L' hL'
    have hL'' : (s.buffercache.set (r.ptrs i) (leafInsertNode L off key value))[r.ptrs i']? =
        some L' := hL'
    rw [hother i' hi' hne] at hL''
    exact hc.leafcap hpos i' hi' L' hL''
  obtain ⟨c1, c2, c3, c5⟩ := Split_leaf_step cfg hcl ht1 hpos hi hL1 hleaf1 hmcap hused hc.rootcap
    hlcap rc s' hI
  refine ⟨fun e1 e2 => ?_, fun e => absurd e c2.1, fun e => ?_,
    fun e => (c2.2 e).elim Or.inl (fun x => Or.inr (Or.inr x)),
    fun e => (c5 e).trans (List.length_set _ _ _)⟩
  · obtain ⟨r', h', a1, a2, a3, a4⟩ := c1 e1 e2
    exact ⟨r', h', a1, a2, a3, fun k v => (a4 k v).trans (hst1 k v)⟩
  · obtain ⟨r', h', a1, a4⟩ := c3 e
    exact ⟨r', h', a1, fun k v => (a4 k v).trans (hst1 k v)⟩

end Step

section EmptyRoot
variable {K V : Type} [LinearOrder K]

omit [LinearOrder K] in
/-- Writing a block below the free-list start leaves the free list as it is. -/
theorem FreeFrom.set_below {s : BTreeIndex K V} {h : Nat} (hf : FreeFrom s h) {p : Nat}
    (hp : p < h) (b : BTreeNode K V) :
    FreeFrom { s with buffercache := s.buffercache.set p b } h := by
  obtain ⟨a1, a2, a3, a4⟩ := hf
  refine ⟨a1, by simpa using a2, by simpa using a3, ?_⟩
  intro j hj1 hj2
  simp only [List.length_set] at hj2 ⊢
  rw [List.getElem?_set_ne (by omega)]
  exact a4 j hj1 hj2

/-- The first insert: `insertEmptyRoot` on a two-level tree whose root has no
keys. -/
theorem insertEmptyRoot_exec (cfg : Config K V) {s : BTreeIndex K V} {r : BTreeNode K V} {h : Nat}
    (ht : TwoLevel s r h) (key : K) (value : V) :
    (h = s.buffercache.length → insertEmptyRoot cfg 1 r key value s = some (ERROR_NOSPACE, s)) ∧
    (h + 1 = s.buffercache.length → ∃ F, s.buffercache[h]? = some F ∧
      insertEmptyRoot cfg 1 r key value s = some (ERROR_NOSPACE,
        { popFree s 0 with
          buffercache := (popFree s 0).buffercache.set h (firstLeftLeaf cfg F) })) ∧
    (h + 1 < s.buffercache.length → ∃ F F2, s.buffercache[h]? = some F ∧
      s.buffercache[h + 1]? = some F2 ∧
      insertEmptyRoot cfg 1 r key value s = some (ERROR_NOERROR,
        { s with
          superblock := popSuperblock s.superblock
            (if h + 1 + 1 = s.buffercache.length then 0 else h + 1 + 1)
          buffercache := ((((((s.buffercache.set 0 (popSuperblock s.superblock (h + 1))).set h
            (firstLeftLeaf cfg F)).set 0 (popSuperblock s.superblock
              (if h + 1 + 1 = s.buffercache.length then 0 else h + 1 + 1))).set (h + 1)
            (firstRightLeaf cfg F2 key value))).set 1 (firstRoot r key h (h + 1))) })) := by
  have hf := ht.free
  have h2 := hf.1
  have hlen1 : 1 < s.buffercache.length := ht.length_gt
  refine ⟨fun hN => ?_, fun hN => ?_, fun hN => ?_⟩
  · unfold insertEmptyRoot
    rw [AllocateNode_empty s (hf.head_eq_zero_iff.mpr hN)]
    simp
  · have hlt : h < s.buffercache.length := by omega
    obtain ⟨F, hF, hFt, hA⟩ := AllocateNode_pop s h ht.idx hf hlt
    refine ⟨F, hF, ?_⟩
    rw [if_pos hN] at hA
    have hF' : (popFree s 0).buffercache[h]? = some F := by
      rw [popFree_getElem _ _ (by omega)]; exact hF
    have hz : ({ popFree s 0 with
        buffercache := (popFree s 0).buffercache.set h (firstLeftLeaf cfg F) } :
        BTreeIndex K V).superblock.freelist = 0 := rfl
    unfold insertEmptyRoot
    rw [hA]
    simp only [ne_eq, not_true_eq_false, if_false, Unserialize, hF', Serialize, popFree_length,
      hlt, if_true]
    rw [show ({ zeroData cfg { F with nodetype := BTREE_LEAF_NODE } with numkeys := 0 } :
      BTreeNode K V) = firstLeftLeaf cfg F from rfl]
    rw [AllocateNode_empty _ hz]
    simp
  · have hlt : h < s.buffercache.length := by omega
    obtain ⟨F, hF, hFt, hA⟩ := AllocateNode_pop s h ht.idx hf hlt
    obtain ⟨F2, hF2, hF2t, _⟩ := hf.2.2.2 (h + 1) (by omega) hN
    refine ⟨F, F2, hF, hF2, ?_⟩
    rw [if_neg (by omega)] at hA
    have hF' : (popFree s (h + 1)).buffercache[h]? = some F := by
      rw [popFree_getElem _ _ (by omega)]; exact hF
    have hf1 := hf.pop_head hlt
    rw [if_neg (by omega)] at hf1
    have hfb : FreeFrom ({ popFree s (h + 1) with
        buffercache := (popFree s (h + 1)).buffercache.set h (firstLeftLeaf cfg F) } :
        BTreeIndex K V) (h + 1) := hf1.set_below (by omega) _
    obtain ⟨F2', hF2', _, hA2⟩ := AllocateNode_pop ({ popFree s (h + 1) with
        buffercache := (popFree s (h + 1)).buffercache.set h (firstLeftLeaf cfg F) } :
        BTreeIndex K V) (h + 1) ht.idx hfb (by simp [popFree_length]; omega)
    have e2 : F2' = F2 := by
      have : ((popFree s (h + 1)).buffercache.set h (firstLeftLeaf cfg F))[h + 1]? = some F2' :=
        hF2'
      rw [List.getElem?_set_ne (by omega), popFree_getElem _ _ (by omega), hF2] at this
      cases this; rfl
    subst e2
    unfold insertEmptyRoot
    rw [hA]
    simp only [ne_eq, not_true_eq_false, if_false, Unserialize, hF', Serialize, popFree_length,
      hlt, if_true]
    rw [show ({ zeroData cfg { F with nodetype := BTREE_LEAF_NODE } with numkeys := 0 } :
      BTreeNode K V) = firstLeftLeaf cfg F from rfl]
    rw [hA2]
    have hF2'' : (popFree ({ popFree s (h + 1) with
        buffercache := (popFree s (h + 1)).buffercache.set h (firstLeftLeaf cfg F) } :
        BTreeIndex K V) (if h + 1 + 1 = s.buffercache.length then 0
          else h + 1 + 1)).buffercache[h + 1]? = some F2' := by
      rw [popFree_getElem _ _ (by omega)]; exact hF2'
    simp only [List.length_set, popFree_length] at hF2'' ⊢
    simp only [ne_eq, not_true_eq_false, if_false, hF2'', SetKey, SetVal, SetPtr, ptrInRange,
      ht.rtype, bind, Except.bind, zero_lt_one, if_true, Nat.zero_le, le_refl, decide_True,
      hN, hlen1, popFree_length, List.length_set, zeroData]
    simp only [firstRoot, firstRightLeaf, popFree, popSuperblock, zeroData, ht.rtype]


/-- What the first `Insert` does to a tree whose root has no keys. -/
theorem Insert_step_empty (cfg : Config K V) (hcl : 2 ≤ cfg.SlotsAsLeaf)
    (hci : 2 ≤ cfg.SlotsAsInterior) {s : BTreeIndex K V} {r : BTreeNode K V} {h : Nat}
    (ht : TwoLevel s r h) (hc : WithinCapacity cfg s r h) (hz : r.numkeys = 0)
    (key : K) (value : V) (rc : ERROR_T) (s' : BTreeIndex K V)
    (hI : Insert cfg s key value = some (rc, s')) :
    (rc = ERROR_NOERROR →
      ∃ r' h', TwoLevel s' r' h' ∧ WithinCapacity cfg s' r' h' ∧ 0 < r'.numkeys ∧
        ∀ k v, Stored s' r' k v ↔ Stored s r k v ∨ (k = key ∧ v = value)) ∧
    (rc = ERROR_NOERROR ∨ rc = ERROR_NOSPACE) ∧
    (rc = ERROR_NOSPACE → ∃ r' h', TwoLevel s' r' h' ∧ ∀ k v, Stored s' r' k v ↔ Stored s r k v) ∧
    s'.buffercache.length = s.buffercache.length := by
  rw [Insert_empty cfg ht hz] at hI
  obtain ⟨hA, hB, hC⟩ := insertEmptyRoot_exec cfg ht key value
  have hf := ht.free
  have h2 : h = 2 := by rw [hc.used, if_pos hz]
  have hlen1 : 1 < s.buffercache.length := ht.length_gt
  have hno : ∀ (s0 : BTreeIndex K V) k v, ¬ Stored s0 r k v := fun s0 k v hs => by
    have := hs.1; omega
  rcases Nat.lt_trichotomy (h + 1) s.buffercache.length with hN | hN | hN
  · obtain ⟨F, F2, hF, hF2, hE⟩ := hC hN
    rw [hE] at hI
    simp only [Option.some.injEq, Prod.mk.injEq] at hI
    obtain ⟨e1, e2⟩ := hI
    subst e1 e2
    have bL : ((((((s.buffercache.set 0 (popSuperblock s.superblock (h + 1))).set h
        (firstLeftLeaf cfg F)).set 0 (popSuperblock s.superblock
          (if h + 1 + 1 = s.buffercache.length then 0 else h + 1 + 1))).set (h + 1)
        (firstRightLeaf cfg F2 key value))).set 1 (firstRoot r key h (h + 1)))[h]? =
        some (firstLeftLeaf cfg F) := by
      rw [List.getElem?_set_ne (by omega), List.getElem?_set_ne (by omega),
        List.getElem?_set_ne (by omega), List.getElem?_set_self (by simp; omega)]
    have bR : ((((((s.buffercache.set 0 (popSuperblock s.superblock (h + 1))).set h
        (firstLeftLeaf cfg F)).set 0 (popSuperblock s.superblock
          (if h + 1 + 1 = s.buffercache.length then 0 else h + 1 + 1))).set (h + 1)
        (firstRightLeaf cfg F2 key value))).set 1 (firstRoot r key h (h + 1)))[h + 1]? =
        some (firstRightLeaf cfg F2 key value) := by
      rw [List.getElem?_set_ne (by omega), List.getElem?_set_self (by simp; omega)]
    have p0 : (firstRoot r key h (h + 1)).ptrs 0 = h := by simp [firstRoot]
    have p1 : (firstRoot r key h (h + 1)).ptrs 1 = h + 1 := by simp [firstRoot]
    have hle : ∀ i, i ≤ (firstRoot r key h (h + 1)).numkeys → i = 0 ∨ i = 1 := by
      intro i hi
      have : i ≤ 1 := hi
      omega
    refine ⟨fun _ => ⟨firstRoot r key h (h + 1), h + 1 + 1, ?_, ?_, Nat.one_pos, ?_⟩,
      by decide, fun h => absurd h (by decide), by simp only [List.length_set]⟩
    · refine ⟨ht.idx, ht.rootidx, ?_, ht.rtype,
        ⟨by omega, by simp; omega, by simp [popSuperblock], ?_⟩, ?_, ?_, ?_, ?_⟩
      · show (List.set _ 1 _)[1]? = some _
        rw [List.getElem?_set_self (by simp; omega)]
      · intro j hj1 hj2
        simp only [List.length_set] at hj2 ⊢
        rw [List.getElem?_set_ne (by omega), List.getElem?_set_ne (by omega),
          List.getElem?_set_ne (by omega), List.getElem?_set_ne (by omega),
          List.getElem?_set_ne (by omega)]
        exact hf.2.2.2 j (by omega) hj2
      · intro a b hab hb
        have : b < 1 := hb
        omega
      · intro _ i hi
        rcases hle i hi with e | e <;> subst e
        · rw [p0]; omega
        · rw [p1]; omega
      · intro _ a b ha hb hab
        rcases hle a ha with e | e <;> rcases hle b hb with e' | e' <;> subst e <;> subst e'
        · rfl
        · rw [p0, p1] at hab; omega
        · rw [p0, p1] at hab; omega
        · rfl
      · intro _ i hi
        rcases hle i hi with e | e <;> subst e
        · refine ⟨firstLeftLeaf cfg F, by rw [p0]; exact bL, rfl, ?_, ?_⟩
          · intro a b _ hb
            have : b < 0 := hb
            omega
          · intro j hj
            have : j < 0 := hj
            omega
        · refine ⟨firstRightLeaf cfg F2 key value, by rw [p1]; exact bR, rfl, ?_, ?_⟩
          · intro a b _ hb
            have : b < 1 := hb
            omega
          · intro j hj
            have hj0 : j = 0 := by
              have : j < 1 := hj
              omega
            subst hj0
            refine ⟨fun _ => ?_, fun hlt => ?_⟩
            · simp [firstRoot, firstRightLeaf]
            · have : 1 < 1 := hlt
              omega
    · refine ⟨by show 1 < _; omega, ?_, ?_⟩
      · intro _ i hi L' hL'
        rcases hle i hi with e | e <;> subst e
        · rw [p0] at hL'
          have := bL.symm.trans hL'
          cases this
          show 0 < cfg.SlotsAsLeaf
          omega
        · rw [p1] at hL'
          have := bR.symm.trans hL'
          cases this
          show 1 < cfg.SlotsAsLeaf
          omega
      · show h + 1 + 1 = if 1 = 0 then 2 else 1 + 3
        rw [if_neg (by omega)]; omega
    · intro k v
      constructor
      · rintro ⟨_, i, hi, L', hL', j, hj, hk, hv⟩
        right
        rcases hle i hi with e | e <;> subst e
        · rw [p0] at hL'
          have := bL.symm.trans hL'
          cases this
          have : j < 0 := hj
          omega
        · rw [p1] at hL'
          have := bR.symm.trans hL'
          cases this
          have hj0 : j = 0 := by
            have : j < 1 := hj
            omega
          subst hj0
          constructor
          · rw [← hk]; simp [firstRightLeaf]
          · rw [← hv]; simp [firstRightLeaf]
      · rintro (hs | ⟨hk, hv⟩)
        · exact absurd hs (hno _ k v)
        · refine ⟨Nat.one_pos, 1, le_refl _, firstRightLeaf cfg F2 key value,
            by rw [p1]; exact bR, 0, Nat.one_pos, ?_, ?_⟩
          · rw [hk]; simp [firstRightLeaf]
          · rw [hv]; simp [firstRightLeaf]
  · obtain ⟨F, hF, hE⟩ := hB hN
    rw [hE] at hI
    simp only [Option.some.injEq, Prod.mk.injEq] at hI
    obtain ⟨e1, e2⟩ := hI
    subst e1 e2
    have ht1 := ht.pop_block (by omega : h < s.buffercache.length)
    rw [if_pos hN] at ht1
    refine ⟨fun h => absurd h (by decide), by decide, fun _ => ⟨r, h + 1, ?_, fun k v =>
      ⟨fun hs => absurd hs (hno _ k v), fun hs => absurd hs (hno _ k v)⟩⟩,
      by simp only [List.length_set]; exact popFree_length _ _⟩
    refine ⟨ht1.idx, ht1.rootidx, ?_, ht.rtype, ht1.free.set_below (by omega) _, ht.rkeys,
      fun hp => absurd hp (by omega), fun hp => absurd hp (by omega),
      fun hp => absurd hp (by omega)⟩
    show (List.set _ h _)[1]? = some r
    rw [List.getElem?_set_ne (by omega)]
    exact ht1.root
  · have hN' : h = s.buffercache.length := by have := hf.2.1; omega
    rw [hA hN'] at hI
    simp only [Option.some.injEq, Prod.mk.injEq] at hI
    obtain ⟨e1, e2⟩ := hI
    subst e1 e2
    exact ⟨fun h => absurd h (by decide), by decide, fun _ => ⟨r, h, ht, fun _ _ => Iff.rfl⟩,
      rfl⟩

end EmptyRoot

section FreshShape
variable {K V : Type} [LinearOrder K]

/-- The tree formatted by `Attach(0, true)` on at least 3 blocks is a two-level
tree with an empty root and the free list starting at block 2. -/
theorem Attach_two_level (cfg : Config K V) (hci : 0 < cfg.SlotsAsInterior)
    (s0 : BTreeIndex K V) (hN : 3 ≤ s0.buffercache.length) :
    ∃ s, Attach cfg s0 0 true = some (ERROR_NOERROR, s) ∧
      s.buffercache.length = s0.buffercache.length ∧
      TwoLevel s (newRootNode cfg) 2 ∧ WithinCapacity cfg s (newRootNode cfg) 2 := by
  obtain ⟨s, hA, hidx, hsb, hlen, _, h1, hfree⟩ := Attach_create cfg s0 (by omega)
  have hz : (newRootNode cfg).numkeys = 0 := rfl
  refine ⟨s, hA, hlen, ⟨hidx, by rw [hsb]; rfl, h1, rfl, ⟨le_refl _, by omega, ?_, ?_⟩, ?_,
    fun hp => absurd hp (by rw [hz]; omega), fun hp => absurd hp (by rw [hz]; omega),
    fun hp => absurd hp (by rw [hz]; omega)⟩,
    ⟨by rw [hz]; exact hci, fun hp => absurd hp (by rw [hz]; omega), by rw [if_pos hz]⟩⟩
  · rw [hsb, if_neg (by omega)]; rfl
  · intro i hi1 hi2
    rw [hlen] at hi2 ⊢
    exact ⟨_, hfree i hi1 hi2, rfl, rfl⟩
  · intro a b _ hb
    rw [hz] at hb
    omega

end FreshShape

section Census
variable {K V : Type}

theorem freeListFrom_zero (fuel : Nat) (bc : List (BTreeNode K V)) :
    freeListFrom fuel bc 0 = [] := by
  cases fuel <;> simp [freeListFrom]

/-- The free-list walk under `FreeFrom`: the blocks `h, ..., num_blocks - 1`. -/
theorem FreeFrom.freeBlocks_eq {s : BTreeIndex K V} {h : Nat} (hf : FreeFrom s h) :
    freeBlocks s = List.range' h (s.buffercache.length - h) := by
  obtain ⟨h2, hle, hhead, hchain⟩ := hf
  have key : ∀ (k i fuel : Nat), i + k = s.buffercache.length → h ≤ i → k ≤ fuel →
      freeListFrom fuel s.buffercache (if i = s.buffercache.length then 0 else i) =
        List.range' i k := by
    intro k
    induction k with
    | zero =>
      intro i fuel hik _ _
      rw [if_pos (by omega), freeListFrom_zero]
      rfl
    | succ k ih =>
      intro i fuel hik hi hfuel
      obtain ⟨f, rfl⟩ : ∃ f, fuel = f + 1 := ⟨fuel - 1, by omega⟩
      obtain ⟨b, hb, _, hnext⟩ := hchain i hi (by omega)
      rw [if_neg (by omega), freeListFrom, if_neg (by omega), hb]
      simp only [List.range'_succ]
      rw [hnext, ih (i + 1) f (by omega) (by omega) (by omega)]
  unfold freeBlocks
  rw [hhead]
  exact key _ h _ (by omega) (le_refl _) (by omega)

theorem FreeFrom.freeBlocks_length {s : BTreeIndex K V} {h : Nat} (hf : FreeFrom s h) :
    (freeBlocks s).length = s.buffercache.length - h := by
  rw [hf.freeBlocks_eq, List.length_range']

theorem foldr_append_singleton {α β : Type} (g : α → List β) (p : α → β) :
    ∀ l : List α, (∀ o ∈ l, g o = [p o]) →
      l.foldr (fun o acc => g o ++ acc) [] = l.map p := by
  intro l
  induction l with
  | nil => intro _; rfl
  | cons a l ih =>
    intro h
    simp only [List.foldr_cons, List.map_cons]
    rw [h a (List.mem_cons_self _ _), ih (fun o ho => h o (List.mem_cons_of_mem _ ho))]
    rfl

end Census

section CensusTwoLevel
variable {K V : Type} [LinearOrder K]

/-- The blocks reachable in a two-level tree: the root, and its leaves once it
has keys. -/
theorem TwoLevel.reachableBlocks_eq {s : BTreeIndex K V} {r : BTreeNode K V} {h : Nat}
    (ht : TwoLevel s r h) :
    reachableBlocks s =
      if 0 < r.numkeys then 1 :: (List.range (r.numkeys + 1)).map r.ptrs else [1] := by
  have hlen := ht.length_gt
  obtain ⟨f, hf⟩ : ∃ f, s.buffercache.length + 1 = f + 2 := ⟨s.buffercache.length - 1, by omega⟩
  unfold reachableBlocks
  rw [ht.rootidx, hf, reachableFrom, ht.root]
  simp only [ht.rtype]
  by_cases hpos : 0 < r.numkeys
  · rw [if_pos hpos, if_pos hpos]
    rw [foldr_append_singleton _ r.ptrs]
    · apply List.Nodup.dedup
      rw [List.nodup_cons]
      constructor
      · intro hm
        obtain ⟨i, hi, he⟩ := List.mem_map.mp hm
        have := (ht.ptrs hpos i (by simpa using Nat.lt_succ_iff.mp (List.mem_range.mp hi))).1
        omega
      · apply List.Nodup.map_on _ (List.nodup_range _)
        intro a ha b hb hab
        exact ht.inj hpos a b (Nat.lt_succ_iff.mp (List.mem_range.mp ha))
          (Nat.lt_succ_iff.mp (List.mem_range.mp hb)) hab
    · intro o ho
      obtain ⟨L, hL, hleaf⟩ := ht.leaves hpos o (Nat.lt_succ_iff.mp (List.mem_range.mp ho))
      rw [reachableFrom, hL]
      simp only [hleaf.1]
  · rw [if_neg hpos, if_neg hpos]
    rfl

/-- Block conservation on a two-level tree whose blocks below the free-list start
are all in use. -/
theorem TwoLevel.accountedBlocks_eq (cfg : Config K V) {s : BTreeIndex K V} {r : BTreeNode K V}
    {h : Nat} (ht : TwoLevel s r h) (hc : WithinCapacity cfg s r h) :
    accountedBlocks s = s.buffercache.length := by
  unfold accountedBlocks
  rw [ht.reachableBlocks_eq, ht.free.freeBlocks_length]
  have hle := ht.free.2.1
  have hused := hc.used
  by_cases hpos : 0 < r.numkeys
  · rw [if_pos hpos, if_neg (by omega)] at *
    simp only [List.length_cons, List.length_map, List.length_range]
    omega
  · rw [if_neg hpos, if_pos (by omega)] at *
    simp only [List.length_cons, List.length_nil]
    omega

/-- Within capacity, every reachable node of a two-level tree is below
capacity. -/
theorem TwoLevel.reachableBelowCapacity (cfg : Config K V) {s : BTreeIndex K V}
    {r : BTreeNode K V} {h : Nat} (ht : TwoLevel s r h) (hc : WithinCapacity cfg s r h) :
    reachableBelowCapacity cfg s = true := by
  unfold BTree.reachableBelowCapacity
  rw [List.all_eq_true, ht.reachableBlocks_eq]
  have hroot : (match s.buffercache[1]? with
      | some b => nodeBelowCapacity cfg b
      | none => true) = true := by
    rw [ht.root]
    simp only [nodeBelowCapacity, ht.rtype, decide_eq_true_eq]
    exact hc.rootcap
  intro n hn
  by_cases hpos : 0 < r.numkeys
  · rw [if_pos hpos] at hn
    rcases List.mem_cons.mp hn with rfl | hm
    · exact hroot
    · obtain ⟨i, hi, rfl⟩ := List.mem_map.mp hm
      have hi' := Nat.lt_succ_iff.mp (List.mem_range.mp hi)
      obtain ⟨L, hL, hleaf⟩ := ht.leaves hpos i hi'
      rw [hL]
      simp only [nodeBelowCapacity, hleaf.1, decide_eq_true_eq]
      exact hc.leafcap hpos i hi' L hL
  · rw [if_neg hpos] at hn
    rcases List.mem_singleton.mp hn with rfl
    exact hroot

omit [LinearOrder K] in
theorem forChildren_ok {σ : Type} (visit : Nat → σ → Option (ERROR_T × σ)) (b : BTreeNode K V)
    (acc : σ) : ∀ l : List Nat,
      (∀ o ∈ l, ∃ p, GetPtr b o = .ok p ∧ visit p acc = some (ERROR_NOERROR, acc)) →
      forChildren visit b l acc = some (ERROR_NOERROR, acc) := by
  intro l
  induction l with
  | nil => intro _; rfl
  | cons a l ih =>
    intro h
    obtain ⟨p, hp, hv⟩ := h a (List.mem_cons_self _ _)
    rw [forChildren, hp]
    simp only [hv, ne_eq, not_true_eq_false, if_false]
    exact ih (fun o ho => h o (List.mem_cons_of_mem _ ho))

/-- `SanityCheck` accepts a two-level tree within capacity once the root has
keys. -/
theorem TwoLevel.SanityCheck_ok (cfg : Config K V) {s : BTreeIndex K V} {r : BTreeNode K V}
    {h : Nat} (ht : TwoLevel s r h) (hc : WithinCapacity cfg s r h) (hpos : 0 < r.numkeys) :
    SanityCheck cfg s = some ERROR_NOERROR := by
  have hlen := ht.length_gt
  obtain ⟨f, hf⟩ : ∃ f, s.buffercache.length + 1 = f + 2 := ⟨s.buffercache.length - 1, by omega⟩
  unfold SanityCheck
  rw [ht.rootidx, hf, ISA_Tree]
  rw [if_neg (by simp), Unserialize_ok_iff.mpr ht.root]
  simp only [ht.rtype]
  rw [if_neg (by have := hc.rootcap; omega)]
  rw [forChildren_ok]
  · rfl
  · intro o ho
    have ho' := Nat.lt_succ_iff.mp (List.mem_range.mp ho)
    obtain ⟨L, hL, hleaf⟩ := ht.leaves hpos o ho'
    have hp := ht.ptrs hpos o ho'
    refine ⟨r.ptrs o, ?_, ?_⟩
    · simp [GetPtr, ptrInRange, ht.rtype, ho']
    · rw [ISA_Tree, if_neg (by simp; omega), Unserialize_ok_iff.mpr hL]
      simp only [hleaf.1]
      rw [if_neg (by have := hc.leafcap hpos o ho' L hL; omega)]
      rfl

end CensusTwoLevel

section UpdateStep
variable {K V : Type} [LinearOrder K]

/-- The leaf case of `LookupOrUpdateInternal` for an update: the value slot of
the first matching key is overwritten, or the key is reported absent. -/
theorem LookupOrUpdateInternal_leaf_update {bc : List (BTreeNode K V)} {node : Nat}
    {L : BTreeNode K V} (hb : bc[node]? = some L) (ht : L.nodetype = BTREE_LEAF_NODE)
    (key : K) (fuel : Nat) (value : V) :
    (∃ j, j < L.numkeys ∧ L.keys j = key ∧
      LookupOrUpdateInternal (fuel + 1) bc node BTREE_OP_UPDATE key value =
        some (ERROR_NOERROR, value,
          bc.set node { L with vals := Function.update L.vals j value })) ∨
    LookupOrUpdateInternal (fuel + 1) bc node BTREE_OP_UPDATE key value =
        some (ERROR_NONEXISTENT, value, bc) := by
  have hu : Unserialize bc node = .ok L := Unserialize_ok_iff.mpr hb
  have hlen : node < bc.length := by
    rcases List.getElem?_eq_some_iff.mp hb with ⟨hl, _⟩; exact hl
  rcases scanLeaf_spec L key with ⟨j, h1, h2, _, h4⟩ | ⟨_, h2⟩
  · refine Or.inl ⟨j, h1, h2, ?_⟩
    unfold LookupOrUpdateInternal
    rw [hu]
    rcases L with ⟨nt, nk, rn, fl, ks, vs, ps⟩
    dsimp only at ht h1 h4
    subst ht
    simp only [h4, reduceCtorEq, if_false, SetVal, h1, if_true, Serialize, hlen]
  · refine Or.inr ?_
    unfold LookupOrUpdateInternal
    rw [hu]
    simp only [ht, h2]

/-- What one `Update` does to a two-level tree: it returns, never with
`ERROR_NOSPACE`, and keeps root, shape and key counts. -/
theorem Update_step (cfg : Config K V) {s : BTreeIndex K V} {r : BTreeNode K V} {h : Nat}
    (ht : TwoLevel s r h) (hc : WithinCapacity cfg s r h) (key : K) (value : V) :
    ∃ rc s', Update s key value = some (rc, s') ∧ rc ≠ ERROR_NOSPACE ∧
      TwoLevel s' r h ∧ WithinCapacity cfg s' r h ∧
      s'.buffercache.length = s.buffercache.length := by
  have hlen := ht.length_gt
  obtain ⟨m, hm⟩ : ∃ m, s.buffercache.length = m + 2 := ⟨s.buffercache.length - 2, by omega⟩
  unfold Update
  rw [hm, ht.rootidx]
  by_cases hpos : 0 < r.numkeys
  · obtain ⟨i, hi, h1, h2, hdesc⟩ :=
      LookupOrUpdateInternal_descend ht.root (Or.inl ht.rtype) hpos key
    rw [hdesc]
    obtain ⟨L, hL, hleaf⟩ := ht.leaves hpos i hi
    have hplen : r.ptrs i < s.buffercache.length := by
      rcases List.getElem?_eq_some_iff.mp hL with ⟨hl, _⟩; exact hl
    rcases LookupOrUpdateInternal_leaf_update hL hleaf.1 key m value with ⟨j, hj, hk, hres⟩ | hres
    · rw [hres]
      refine ⟨ERROR_NOERROR, _, rfl, by decide,
        ht.set_leaf hpos hi ⟨hleaf.1, hleaf.2.1, hleaf.2.2⟩, ⟨hc.rootcap, ?_, hc.used⟩,
        (List.length_set _ _ _).trans hm⟩
      intro _ i' hi' L' hL'
      have hL'' : (s.buffercache.set (r.ptrs i)
          { L with vals := Function.update L.vals j value })[r.ptrs i']? = some L' := hL'
      by_cases c : i' = i
      · subst c
        rw [List.getElem?_set_self hplen] at hL''
        cases hL''
        exact hc.leafcap hpos i' hi' L hL
      · rw [List.getElem?_set_ne (fun e => c (ht.inj hpos i' i hi' hi e.symm))] at hL''
        exact hc.leafcap hpos i' hi' L' hL''
    · rw [hres]
      exact ⟨ERROR_NONEXISTENT, _, rfl, by decide, ht, hc, hm⟩
  · have hz : r.numkeys = 0 := by omega
    unfold LookupOrUpdateInternal
    rw [Unserialize_ok_iff.mpr ht.root]
    simp only [ht.rtype, hz, List.range_zero, scanInterior, gt_iff_lt, lt_self_iff_false,
      if_false, Option.map_some']
    exact ⟨ERROR_NONEXISTENT, _, rfl, by decide, ht, hc, hm⟩

/-- `Lookup` on a two-level tree returns, and never with `ERROR_NOSPACE`. -/
theorem Lookup_returns {s : BTreeIndex K V} {r : BTreeNode K V} {h : Nat}
    (ht : TwoLevel s r h) (key : K) (v0 : V) :
    ∃ rc v, Lookup s key v0 = some (rc, v) ∧ rc ≠ ERROR_NOSPACE := by
  rcases Lookup_two_level ht key v0 with ⟨v, _, hl⟩ | ⟨_, hl⟩
  · exact ⟨_, _, hl, by decide⟩
  · exact ⟨_, _, hl, by decide⟩

end UpdateStep

section Returns
variable {K V : Type} [LinearOrder K]

/-- The root case of `Split` returns when the free list is well formed. -/
theorem Split_root_returns (cfg : Config K V) (s : BTreeIndex K V) (r : BTreeNode K V) (h : Nat)
    (hroot : s.buffercache[1]? = some r) (rtype : r.nodetype = BTREE_ROOT_NODE)
    (hpos : 0 < r.numkeys)
    (hcap : ¬ r.numkeys < cfg.SlotsAsInterior) (hidx : s.superblock_index = 0)
    (hf : FreeFrom s h) : ∃ rc s', Split cfg [1] s = some (rc, s') := by
  cases hS : Split cfg [1] s with
  | some res => exact ⟨res.1, res.2, rfl⟩
  | none =>
    exfalso
    have hu : Unserialize s.buffercache 1 = .ok r := Unserialize_ok_iff.mpr hroot
    rw [Split, hu] at hS
    simp only [rtype] at hS
    rw [if_neg hcap] at hS
    by_cases hN : h = s.buffercache.length
    · rw [AllocateNode_empty s (hf.head_eq_zero_iff.mpr hN)] at hS
      simp at hS
    · have hlt : h < s.buffercache.length := by have := hf.2.1; omega
      obtain ⟨F, hF, hFt, hA⟩ := AllocateNode_pop s h hidx hf hlt
      have hF' : (popFree s (if h + 1 = s.buffercache.length then 0 else h + 1)).buffercache[h]?
          = some F := by rw [popFree_getElem _ _ (by have := hf.1; omega)]; exact hF
      rw [hA] at hS
      simp only [ne_eq, not_true_eq_false, if_false, Unserialize, hF'] at hS
      have hf2 := hf.pop_head hlt
      obtain ⟨o, n, hm, ht⟩ := splitInteriorMove_ok cfg r F hpos (Or.inl rtype)
      rw [hm] at hS
      dsimp only at hS
      rw [if_neg (by rw [ht, rtype]; decide)] at hS
      by_cases hN2 : h + 1 = s.buffercache.length
      · have hz : (popFree s (if h + 1 = s.buffercache.length then 0 else h + 1)).superblock.freelist
            = 0 := by
          rw [hf2.head_eq_zero_iff, popFree_length]; exact hN2
        rw [AllocateNode_empty _ hz] at hS
        simp at hS
      · have hlt2 : h + 1 < (popFree s (if h + 1 = s.buffercache.length then 0
            else h + 1)).buffercache.length := by
          rw [popFree_length]; omega
        obtain ⟨F2, hF2, hF2t, hA2⟩ := AllocateNode_pop
          (popFree s (if h + 1 = s.buffercache.length then 0 else h + 1)) (h + 1) hidx hf2 hlt2
        rw [hA2] at hS
        have hF2' : (popFree (popFree s (if h + 1 = s.buffercache.length then 0 else h + 1))
            (if h + 1 + 1 = s.buffercache.length then 0 else h + 1 + 1)).buffercache[h + 1]?
            = some F2 := by rw [popFree_getElem _ _ (by omega)]; exact hF2
        have h1lt : 1 < s.buffercache.length := by have := hf.1; omega
        simp only [popFree_length] at hS
        simp only [ne_eq, not_true_eq_false, if_false, Unserialize, hF2', Serialize,
          popFree_length, List.length_set, h1lt, hlt, if_true] at hS
        cases hfill : newRootFill (zeroData cfg { F2 with nodetype := BTREE_ROOT_NODE, numkeys := 1 })
            n 1 h with
        | error e =>
          rw [hfill] at hS
          simp at hS
        | ok nr =>
          rw [hfill] at hS
          have hlt3 : h + 1 < s.buffercache.length := by omega
          simp [hlt3] at hS

/-- The leaf case of `Split` on a two-level tree returns. -/
theorem Split_leaf_returns (cfg : Config K V) (hcl : 2 ≤ cfg.SlotsAsLeaf)
    {s : BTreeIndex K V} {r : BTreeNode K V} {h : Nat}
    (ht : TwoLevel s r h) (hpos : 0 < r.numkeys) {i : Nat} (hi : i ≤ r.numkeys)
    {L : BTreeNode K V} (hL : s.buffercache[r.ptrs i]? = some L) (hleaf : LeafUnder r i L)
    (hmcap : L.numkeys = cfg.SlotsAsLeaf) :
    ∃ rc s', Split cfg [r.ptrs i, 1] s = some (rc, s') := by
  cases hS : Split cfg [r.ptrs i, 1] s with
  | some res => exact ⟨res.1, res.2, rfl⟩
  | none =>
    exfalso
    have hp := ht.ptrs hpos i hi
    have hm : 2 ≤ L.numkeys := by omega
    obtain ⟨hA, hB⟩ := Split_leaf_exec cfg (r.ptrs i) 1 [] s L h hL hleaf.1 ht.idx ht.free
      (by omega) hm hp.2
    by_cases hN : h = s.buffercache.length
    · rw [hA hN] at hS
      cases hS
    have hlt : h < s.buffercache.length := by have := ht.free.2.1; omega
    obtain ⟨F, hF, hFt, hS2⟩ := hB hlt
    rw [hS2] at hS
    clear hS2 hA hB
    have ht2 := ht.pop_block hlt
    have hL2 : (popFree s (if h + 1 = s.buffercache.length then 0 else h + 1)).buffercache[r.ptrs i]?
        = some L := by rw [popFree_getElem _ _ (by omega)]; exact hL
    have hh2 : h < (popFree s (if h + 1 = s.buffercache.length then 0
        else h + 1)).buffercache.length := by rw [popFree_length]; exact hlt
    revert hS ht2 hL2 hh2
    generalize popFree s (if h + 1 = s.buffercache.length then 0 else h + 1) = s2
    intro hS ht2 hL2 hh2
    have hbelow : ∀ i', i' ≤ r.numkeys → r.ptrs i' < h := fun i' hi' => (ht.ptrs hpos i' hi').2
    have ht4 := TwoLevel.split_leaf cfg ht2 hpos hbelow hh2 hi hleaf hm F
    have hk1 : L.numkeys - L.numkeys / 2 < L.numkeys := by omega
    have hk0 : 0 < L.numkeys - L.numkeys / 2 := by omega
    have hsep := hleaf.2.2 _ hk1
    have sep_lo : ∀ j, j < i → r.keys j < L.keys (L.numkeys - L.numkeys / 2) := by
      intro j hj
      have a1 : r.keys j ≤ r.keys (i - 1) := ht.rkeys.le (by omega) (by omega)
      have a2 := (hleaf.2.2 0 (by omega)).1 (by omega)
      have a3 := hleaf.2.1 _ _ hk0 hk1
      exact lt_of_le_of_lt (le_trans a1 a2) a3
    have hnew : ∀ j, j < r.numkeys → r.keys j ≠ L.keys (L.numkeys - L.numkeys / 2) := by
      intro j hj
      by_cases c : j < i
      · exact ne_of_lt (sep_lo j c)
      · exact ne_of_gt (lt_of_lt_of_le (hsep.2 (by omega)) (ht.rkeys.le (by omega) hj))
    have hroot3 : (((s2.buffercache.set (r.ptrs i)
        (splitLeafOrig cfg L (L.numkeys - L.numkeys / 2))).set h
        (splitLeafNew cfg L F (L.numkeys - L.numkeys / 2))))[1]? = some r := by
      rw [List.getElem?_set_ne (by omega), List.getElem?_set_ne (by omega)]
      exact ht2.root
    obtain ⟨off', ho', g1, g2, hIP⟩ := InteriorPointerInsertWith_exec cfg (Split cfg [1]) 1 r
      (L.keys (L.numkeys - L.numkeys / 2)) h
      { s2 with
        buffercache := (s2.buffercache.set (r.ptrs i)
          (splitLeafOrig cfg L (L.numkeys - L.numkeys / 2))).set h
          (splitLeafNew cfg L F (L.numkeys - L.numkeys / 2)) }
      hroot3 (Or.inl ht.rtype) hpos hnew
    have hoff : off' = i := route_unique ht.rkeys ho' (fun j hj => le_of_lt (g1 j hj)) g2 hi hsep
    subst hoff
    rw [hIP] at hS
    clear hIP
    by_cases hrc : r.numkeys + 1 ≥ cfg.SlotsAsInterior
    swap
    · rw [if_neg hrc] at hS
      cases hS
    rw [if_pos hrc] at hS
    obtain ⟨rc, s', hret⟩ := Split_root_returns cfg _ _ (h + 1) ht4.root ht.rtype (Nat.succ_pos _)
      (by show ¬ r.numkeys + 1 < _; omega) ht4.idx ht4.free
    rw [hret] at hS
    cases hS

/-- `Insert` on a two-level tree within capacity returns. -/
theorem Insert_returns (cfg : Config K V) (hcl : 2 ≤ cfg.SlotsAsLeaf)
    {s : BTreeIndex K V} {r : BTreeNode K V} {h : Nat}
    (ht : TwoLevel s r h) (hc : WithinCapacity cfg s r h) (key : K) (value : V) :
    ∃ rc s', Insert cfg s key value = some (rc, s') := by
  by_cases hpos : 0 < r.numkeys
  · obtain ⟨i, hi, hrange, L, hL, hleaf, hIns⟩ := Insert_descend cfg ht hpos key value
    rw [hIns]
    have hLcap : L.numkeys < cfg.SlotsAsLeaf := hc.leafcap hpos i hi L hL
    rcases LeafNodeInsert_exec cfg [r.ptrs i, 1] (r.ptrs i) L key value s hL hleaf.1 with
      ⟨off, ho, h1, h2, hexec⟩ | ⟨j, hj, hk, hexec⟩
    swap
    · exact ⟨_, _, hexec⟩
    rw [hexec]
    by_cases hsplit : 0 < L.numkeys ∧ L.numkeys + 1 ≥ cfg.SlotsAsLeaf
    swap
    · rw [if_neg hsplit]
      exact ⟨_, _, rfl⟩
    rw [if_pos hsplit]
    have hleaf1 : LeafUnder r i (leafInsertNode L off key value) :=
      hleaf.insert hrange ho h1 h2 value
    have ht1 := ht.set_leaf hpos hi hleaf1
    have hplen : r.ptrs i < s.buffercache.length := by
      rcases List.getElem?_eq_some_iff.mp hL with ⟨hl, _⟩; exact hl
    have hL1 : ({ s with buffercache := s.buffercache.set (r.ptrs i) (leafInsertNode L off key value) } :
        BTreeIndex K V).buffercache[r.ptrs i]? = some (leafInsertNode L off key value) :=
      List.getElem?_set_self hplen
    have hmcap : (leafInsertNode L off key value).numkeys = cfg.SlotsAsLeaf := by
      have : (leafInsertNode L off key value).numkeys = L.numkeys + 1 := rfl
      omega
    exact Split_leaf_returns cfg hcl ht1 hpos hi hL1 hleaf1 hmcap
  · have hz : r.numkeys = 0 := by omega
    rw [Insert_empty cfg ht hz]
    obtain ⟨hA, hB, hC⟩ := insertEmptyRoot_exec cfg ht key value
    have hf := ht.free
    rcases Nat.lt_trichotomy (h + 1) s.buffercache.length with hN | hN | hN
    · obtain ⟨F, F2, _, _, hE⟩ := hC hN
      exact ⟨_, _, hE⟩
    · obtain ⟨F, _, hE⟩ := hB hN
      exact ⟨_, _, hE⟩
    · have hN' : h = s.buffercache.length := by have := hf.2.1; omega
      exact ⟨_, _, hA hN'⟩

end Returns

section RunInvariant
variable {K V : Type} [LinearOrder K]

/-- Every top-level call returns on a two-level tree within capacity. -/
theorem applyOperation_returns (cfg : Config K V) (hcl : 2 ≤ cfg.SlotsAsLeaf)
    {s : BTreeIndex K V} {r : BTreeNode K V} {h : Nat}
    (ht : TwoLevel s r h) (hc : WithinCapacity cfg s r h) (op : Operation K V) :
    ∃ rc s', applyOperation cfg s op = some (rc, s') := by
  cases op with
  | insert key value => exact Insert_returns cfg hcl ht hc key value
  | update key value =>
    obtain ⟨rc, s', hu, _⟩ := Update_step cfg ht hc key value
    exact ⟨rc, s', hu⟩
  | lookup key value =>
    obtain ⟨rc, v, hl, _⟩ := Lookup_returns ht key value
    exact ⟨rc, s, by simp [applyOperation, hl]⟩

/-- A call that neither exhausts the device nor splits the root keeps the
two-level shape within capacity; after an `Insert` the root has keys. -/
theorem applyOperation_step (cfg : Config K V) (hcl : 2 ≤ cfg.SlotsAsLeaf)
    (hci : 2 ≤ cfg.SlotsAsInterior) {s : BTreeIndex K V} {r : BTreeNode K V} {h : Nat}
    (ht : TwoLevel s r h) (hc : WithinCapacity cfg s r h) (op : Operation K V)
    (rc : ERROR_T) (s' : BTreeIndex K V) (hap : applyOperation cfg s op = some (rc, s'))
    (hrc : rc ≠ ERROR_NOSPACE) (hroot : s'.superblock.rootnode = 1) :
    ∃ r' h', TwoLevel s' r' h' ∧ WithinCapacity cfg s' r' h' ∧
      (0 < r.numkeys → 0 < r'.numkeys) ∧
      ((∃ key value, op = Operation.insert key value) → 0 < r'.numkeys) ∧
      s'.buffercache.length = s.buffercache.length := by
  cases op with
  | insert key value =>
    have hI : Insert cfg s key value = some (rc, s') := hap
    by_cases hpos : 0 < r.numkeys
    · obtain ⟨c1, c2, _, c4, c5⟩ := Insert_step_nonempty cfg hcl ht hc hpos key value rc s' hI
      rcases c4 hroot with e | e | e
      · obtain ⟨r', h', a1, a2, a3, _⟩ := c1 e hroot
        exact ⟨r', h', a1, a2, fun _ => a3, fun _ => a3, c5 hroot⟩
      · obtain ⟨e2, _⟩ := c2 e
        subst e2
        exact ⟨r, h, ht, hc, fun _ => hpos, fun _ => hpos, rfl⟩
      · exact absurd e hrc
    · obtain ⟨c1, c2, _, c5⟩ := Insert_step_empty cfg hcl hci ht hc (by omega) key value rc s' hI
      rcases c2 with e | e
      · obtain ⟨r', h', a1, a2, a3, _⟩ := c1 e
        exact ⟨r', h', a1, a2, fun _ => a3, fun _ => a3, c5⟩
      · exact absurd e hrc
  | update key value =>
    obtain ⟨rc0, s0, hu, _, a1, a2, a3⟩ := Update_step cfg ht hc key value
    have hU : Update s key value = some (rc, s') := hap
    rw [hu] at hU
    simp only [Option.some.injEq, Prod.mk.injEq] at hU
    obtain ⟨_, e2⟩ := hU
    subst e2
    exact ⟨r, h, a1, a2, fun hp => hp, (fun ⟨_, _, e⟩ => by cases e), a3⟩
  | lookup key value =>
    obtain ⟨rc0, v, hl, _⟩ := Lookup_returns ht key value
    simp only [applyOperation, hl, Option.map_some', Option.some.injEq, Prod.mk.injEq] at hap
    obtain ⟨_, e2⟩ := hap
    subst e2
    exact ⟨r, h, ht, hc, fun hp => hp, (fun ⟨_, _, e⟩ => by cases e), rfl⟩

/-- An undisturbed run from a two-level tree within capacity stays among such
trees, and can be continued by any further call. -/
theorem runOperations_undisturbed (cfg : Config K V) (hcl : 2 ≤ cfg.SlotsAsLeaf)
    (hci : 2 ≤ cfg.SlotsAsInterior) :
    ∀ (ops : List (Operation K V)) (s : BTreeIndex K V) (r : BTreeNode K V) (h : Nat),
      TwoLevel s r h → WithinCapacity cfg s r h →
      ∀ trace, runOperations cfg ops s = some trace → Undisturbed trace →
      (∀ x ∈ trace, x.2.buffercache.length = s.buffercache.length ∧
        ∃ r' h', TwoLevel x.2 r' h' ∧ WithinCapacity cfg x.2 r' h' ∧
        ((0 < r.numkeys ∨ ∀ op ∈ ops, ∃ key value, op = Operation.insert key value) →
          0 < r'.numkeys)) ∧
      ∀ op, ∃ trace', runOperations cfg (ops ++ [op]) s = some trace' := by
  intro ops
  induction ops with
  | nil =>
    intro s r h ht hc trace hrun _
    simp only [runOperations, Option.some.injEq] at hrun
    subst hrun
    refine ⟨fun x hx => absurd hx (List.not_mem_nil _), fun op => ?_⟩
    obtain ⟨rc, s', hap⟩ := applyOperation_returns cfg hcl ht hc op
    exact ⟨[(rc, s')], by simp [runOperations, hap]⟩
  | cons op0 ops ih =>
    intro s r h ht hc trace hrun hgood
    rw [runOperations] at hrun
    cases hap : applyOperation cfg s op0 with
    | none => rw [hap] at hrun; cases hrun
    | some res =>
      obtain ⟨rc, s1⟩ := res
      rw [hap] at hrun
      dsimp only at hrun
      cases hrest : runOperations cfg ops s1 with
      | none => rw [hrest] at hrun; cases hrun
      | some t1 =>
        rw [hrest] at hrun
        simp only [Option.some.injEq] at hrun
        subst hrun
        obtain ⟨g1, g2⟩ := hgood (rc, s1) (List.mem_cons_self _ _)
        obtain ⟨r1, h1, a1, a2, a3, a4, a5⟩ :=
          applyOperation_step cfg hcl hci ht hc op0 rc s1 hap g1 g2
        obtain ⟨b1, b2⟩ := ih s1 r1 h1 a1 a2 t1 hrest
          (fun x hx => hgood x (List.mem_cons_of_mem _ hx))
        have hkeys : (0 < r.numkeys ∨
            ∀ op ∈ op0 :: ops, ∃ key value, op = Operation.insert key value) →
            0 < r1.numkeys := by
          rintro (hp | hall)
          · exact a3 hp
          · exact a4 (hall op0 (List.mem_cons_self _ _))
        refine ⟨fun x hx => ?_, fun op => ?_⟩
        · rcases List.mem_cons.mp hx with rfl | hx
          · exact ⟨a5, r1, h1, a1, a2, hkeys⟩
          · obtain ⟨c0, r', h', c1, c2, c3⟩ := b1 x hx
            exact ⟨c0.trans a5, r', h', c1, c2, fun hk => c3 (Or.inl (hkeys hk))⟩
        · obtain ⟨trace', ht'⟩ := b2 op
          refine ⟨(rc, s1) :: trace', ?_⟩
          rw [List.cons_append, runOperations, hap]
          dsimp only
          rw [ht']

/-- The index after an undisturbed run is again a two-level tree within
capacity. -/
theorem lastIndex_undisturbed (cfg : Config K V) (hcl : 2 ≤ cfg.SlotsAsLeaf)
    (hci : 2 ≤ cfg.SlotsAsInterior) {ops : List (Operation K V)} {s : BTreeIndex K V}
    {r : BTreeNode K V} {h : Nat} (ht : TwoLevel s r h) (hc : WithinCapacity cfg s r h)
    {trace : List (ERROR_T × BTreeIndex K V)} (hrun : runOperations cfg ops s = some trace)
    (hgood : Undisturbed trace) :
    ∃ r' h', TwoLevel (lastIndex s trace) r' h' ∧ WithinCapacity cfg (lastIndex s trace) r' h' ∧
      (trace ≠ [] → (∀ op ∈ ops, ∃ key value, op = Operation.insert key value) →
        0 < r'.numkeys) := by
  obtain ⟨b1, _⟩ := runOperations_undisturbed cfg hcl hci ops s r h ht hc trace hrun hgood
  unfold lastIndex
  cases hl : trace.getLast? with
  | none =>
    have : trace = [] := List.getLast?_eq_none_iff.mp hl
    exact ⟨r, h, ht, hc, fun hne => absurd this hne⟩
  | some x =>
    obtain ⟨_, r', h', c1, c2, c3⟩ := b1 x (List.mem_of_getLast?_eq_some hl)
    exact ⟨r', h', c1, c2, fun _ hall => c3 (Or.inr hall)⟩

end RunInvariant

section RunStart
variable {K V : Type} [LinearOrder K]

/-- A run after `Attach(0, true)` on at least 3 blocks starts from a two-level
tree within capacity. -/
theorem createAndRun_start (cfg : Config K V) (hci : 0 < cfg.SlotsAsInterior)
    (s0 : BTreeIndex K V) (hN : 3 ≤ s0.buffercache.length) :
    ∃ s, Attach cfg s0 0 true = some (ERROR_NOERROR, s) ∧
      s.buffercache.length = s0.buffercache.length ∧
      TwoLevel s (newRootNode cfg) 2 ∧ WithinCapacity cfg s (newRootNode cfg) 2 ∧
      ∀ ops, createAndRun cfg s0 ops = runOperations cfg ops s := by
  obtain ⟨s, hA, hlen, ht, hc⟩ := Attach_two_level cfg hci s0 hN
  refine ⟨s, hA, hlen, ht, hc, fun ops => ?_⟩
  unfold createAndRun
  rw [hA]

omit [LinearOrder K] in
theorem insertOperations_all (kvs : List (K × V)) :
    ∀ op ∈ insertOperations kvs, ∃ key value, op = Operation.insert key value := by
  intro op hop
  obtain ⟨kv, _, rfl⟩ := List.mem_map.mp hop
  exact ⟨kv.1, kv.2, rfl⟩

omit [LinearOrder K] in
theorem insertOperations_append (kvs : List (K × V)) (key : K) (value : V) :
    insertOperations (kvs ++ [(key, value)]) =
      insertOperations kvs ++ [Operation.insert key value] := by
  simp [insertOperations]

omit [LinearOrder K] in
theorem eq_some_getD {α : Type} {o : Option (List α)} (h : o.isSome = true) :
    o = some (o.getD []) := by
  cases o with
  | none => cases h
  | some t => rfl

end RunStart

section ClaimsRuns
variable {K V : Type} [LinearOrder K]

/-- C5 (fails as stated): on a 6-block device with `SlotsAsLeaf = SlotsAsInterior = 4`
the eighth ascending `Insert` returns `ERROR_NOSPACE`; after it `SanityCheck`
returns `ERROR_INSANE` and a reachable leaf holds `SlotsAsLeaf` keys.  The list
gives, after each call, the code, the result of `SanityCheck` and whether every
reachable node is below capacity. -/
theorem C5_capacity_broken_after_exhaustion :
    (createAndRun scenarioConfig (blankIndex 6) (insertOperations (ascending 8))).map
        (fun trace => trace.map fun x =>
          (x.1, SanityCheck scenarioConfig x.2, reachableBelowCapacity scenarioConfig x.2)) =
      some (List.replicate 7 (ERROR_NOERROR, some ERROR_NOERROR, true) ++
        [(ERROR_NOSPACE, some ERROR_INSANE, false)]) := by
  decide

/-- C5 (amended): with `SlotsAsLeaf ≥ 2` and `SlotsAsInterior ≥ 2`, on a device of
at least 3 blocks, after every `Insert` of a sequence of inserts on a freshly
created tree in which no call returns `ERROR_NOSPACE` and the root does not
split, `SanityCheck` returns `ERROR_NOERROR` and every node reachable from the
root is below its capacity; the next `Insert` returns as well. -/
theorem C5_capacity_invariant_undisturbed (cfg : Config K V) (hcl : 2 ≤ cfg.SlotsAsLeaf)
    (hci : 2 ≤ cfg.SlotsAsInterior) (s0 : BTreeIndex K V) (hN : 3 ≤ s0.buffercache.length)
    (kvs : List (K × V)) (trace : List (ERROR_T × BTreeIndex K V))
    (hrun : createAndRun cfg s0 (insertOperations kvs) = some trace)
    (hgood : Undisturbed trace) :
    (∀ x ∈ trace, SanityCheck cfg x.2 = some ERROR_NOERROR ∧
      reachableBelowCapacity cfg x.2 = true) ∧
    ∀ key value, ∃ trace',
      createAndRun cfg s0 (insertOperations (kvs ++ [(key, value)])) = some trace' := by
  obtain ⟨s, _, _, ht, hc, hcr⟩ := createAndRun_start cfg (by omega) s0 hN
  rw [hcr] at hrun
  obtain ⟨b1, b2⟩ := runOperations_undisturbed cfg hcl hci _ s _ 2 ht hc trace hrun hgood
  refine ⟨fun x hx => ?_, fun key value => ?_⟩
  · obtain ⟨_, r', h', c1, c2, c3⟩ := b1 x hx
    have hpos := c3 (Or.inr (insertOperations_all kvs))
    exact ⟨c1.SanityCheck_ok cfg c2 hpos, c1.reachableBelowCapacity cfg c2⟩
  · rw [hcr, insertOperations_append]
    exact b2 _

/-- Witness for C5 (amended): the ascending inserts of keys 1..5 on a 6-block
device with `SlotsAsLeaf = SlotsAsInterior = 4`. -/
theorem C5_capacity_invariant_undisturbed_witness :
    (∀ x ∈ (createAndRun scenarioConfig (blankIndex 6) (insertOperations (ascending 5))).getD [],
      SanityCheck scenarioConfig x.2 = some ERROR_NOERROR ∧
      reachableBelowCapacity scenarioConfig x.2 = true) ∧
    ∀ key value, ∃ trace',
      createAndRun scenarioConfig (blankIndex 6)
        (insertOperations (ascending 5 ++ [(key, value)])) = some trace' :=
  C5_capacity_invariant_undisturbed scenarioConfig (by decide) (by decide) (blankIndex 6)
    (by decide) (ascending 5) _ (eq_some_getD (by decide)) (by unfold Undisturbed; decide)

/-- C7 (fails as stated): on a 3-block device the first `Insert` takes the only
free block for the left leaf, finds none for the right leaf and returns
`ERROR_NOSPACE`; afterwards 1 block is reachable from the root and the free list
is empty, so the count is 1 + 0 + 1 = 2 on a device of 3 blocks.  The list
gives, after the call, the code, the number of reachable blocks, the length of
the free list and the number of blocks. -/
theorem C7_block_lost_on_exhausted_first_insert :
    (createAndRun scenarioConfig (blankIndex 3) [Operation.insert 1 101]).map
        (fun trace => trace.map fun x =>
          (x.1, (reachableBlocks x.2).length, (freeBlocks x.2).length,
            x.2.buffercache.length)) =
      some [(ERROR_NOSPACE, 1, 0, 3)] := by
  decide

/-- C7 (amended): with `SlotsAsLeaf ≥ 2` and `SlotsAsInterior ≥ 2`, on a device of
at least 3 blocks, after every call of a sequence of `Insert`, `Update` and
`Lookup` calls on a freshly created tree in which no call returns
`ERROR_NOSPACE` and the root does not split, the number of blocks reachable from
the root plus the length of the free list plus 1 equals the number of blocks
of the device, which no call changes; the next call returns as well. -/
theorem C7_blocks_conserved_undisturbed (cfg : Config K V) (hcl : 2 ≤ cfg.SlotsAsLeaf)
    (hci : 2 ≤ cfg.SlotsAsInterior) (s0 : BTreeIndex K V) (hN : 3 ≤ s0.buffercache.length)
    (ops : List (Operation K V)) (trace : List (ERROR_T × BTreeIndex K V))
    (hrun : createAndRun cfg s0 ops = some trace) (hgood : Undisturbed trace) :
    (∀ x ∈ trace, x.2.buffercache.length = s0.buffercache.length ∧
      accountedBlocks x.2 = s0.buffercache.length) ∧
    ∀ op, ∃ trace', createAndRun cfg s0 (ops ++ [op]) = some trace' := by
  obtain ⟨s, _, hlen, ht, hc, hcr⟩ := createAndRun_start cfg (by omega) s0 hN
  rw [hcr] at hrun
  obtain ⟨b1, b2⟩ := runOperations_undisturbed cfg hcl hci _ s _ 2 ht hc trace hrun hgood
  refine ⟨fun x hx => ?_, fun op => ?_⟩
  · obtain ⟨c0, r', h', c1, c2, _⟩ := b1 x hx
    exact ⟨c0.trans hlen, (c1.accountedBlocks_eq cfg c2).trans (c0.trans hlen)⟩
  · rw [hcr]
    exact b2 op

/-- Witness for C7 (amended): inserts of keys 1..4, an update, a lookup, a
conflicting insert and an update of an absent key on a 6-block device. -/
theorem C7_blocks_conserved_undisturbed_witness :
    (∀ x ∈ (createAndRun scenarioConfig (blankIndex 6)
        (insertOperations (ascending 4) ++
          [Operation.update 2 999, Operation.lookup 3 0, Operation.insert 2 5,
            Operation.update 9 1])).getD [],
      x.2.buffercache.length = (blankIndex 6).buffercache.length ∧
      accountedBlocks x.2 = (blankIndex 6).buffercache.length) ∧
    ∀ op, ∃ trace', createAndRun scenarioConfig (blankIndex 6)
        ((insertOperations (ascending 4) ++
          [Operation.update 2 999, Operation.lookup 3 0, Operation.insert 2 5,
            Operation.update 9 1]) ++ [op]) = some trace' :=
  C7_blocks_conserved_undisturbed scenarioConfig (by decide) (by decide) (blankIndex 6)
    (by decide) _ _ (eq_some_getD (by decide)) (by unfold Undisturbed; decide)

end ClaimsRuns

section ClaimsExhaustion
variable {K V : Type} [LinearOrder K]

/-- C8 (fails as stated): on a 6-block device with `SlotsAsLeaf = SlotsAsInterior = 4`,
after the ascending inserts of keys 1..7 the call `Insert(8, 108)` returns
`ERROR_NOSPACE`, yet `Lookup(8)`, which returned `ERROR_NONEXISTENT` before the
call, now returns `ERROR_NOERROR` with 108, and `SanityCheck`, which returned
`ERROR_NOERROR` before, now returns `ERROR_INSANE`.  The list gives the code,
`Lookup(8)` and `SanityCheck` after the seventh and the eighth call. -/
theorem C8_failed_insert_leaves_key_behind :
    (createAndRun scenarioConfig (blankIndex 6) (insertOperations (ascending 8))).map
        (fun trace => (trace.drop 6).map fun x =>
          (x.1, Lookup x.2 8 0, SanityCheck scenarioConfig x.2)) =
      some [(ERROR_NOERROR, some (ERROR_NONEXISTENT, 0), some ERROR_NOERROR),
        (ERROR_NOSPACE, some (ERROR_NOERROR, 108), some ERROR_INSANE)] := by
  decide

/-- C8 (amended): with `SlotsAsLeaf ≥ 2` and `SlotsAsInterior ≥ 2`, on a device of
at least 3 blocks, for every tree reached from a fresh create by successful
inserts that did not split the root, if `Insert(key, value)` returns
`ERROR_NOSPACE` then `Lookup` of every key other than `key` returns what it
returned before the call; `key` itself is afterwards found with `value` when the
tree held a key before the call. -/
theorem C8_exhaustion_keeps_other_keys (cfg : Config K V) (hcl : 2 ≤ cfg.SlotsAsLeaf)
    (hci : 2 ≤ cfg.SlotsAsInterior) (s0 s : BTreeIndex K V) (hN : 3 ≤ s0.buffercache.length)
    (hA : Attach cfg s0 0 true = some (ERROR_NOERROR, s))
    (kvs : List (K × V)) (trace : List (ERROR_T × BTreeIndex K V))
    (hrun : runOperations cfg (insertOperations kvs) s = some trace)
    (hok : ∀ x ∈ trace, x.1 = ERROR_NOERROR ∧ x.2.superblock.rootnode = 1)
    (key : K) (value : V) (s' : BTreeIndex K V)
    (hI : Insert cfg (lastIndex s trace) key value = some (ERROR_NOSPACE, s')) :
    (∀ k', k' ≠ key → ∀ v0, ∃ res,
      Lookup (lastIndex s trace) k' v0 = some res ∧ Lookup s' k' v0 = some res) ∧
    (kvs ≠ [] → ∀ v0, Lookup s' key v0 = some (ERROR_NOERROR, value)) := by
  obtain ⟨s1, hA1, _, ht, hc, _⟩ := createAndRun_start cfg (by omega) s0 hN
  rw [hA] at hA1
  simp only [Option.some.injEq, Prod.mk.injEq, true_and] at hA1
  subst hA1
  have hgood : Undisturbed trace := fun x hx =>
    ⟨by rw [(hok x hx).1]; decide, (hok x hx).2⟩
  obtain ⟨r, h, ht1, hc1, hkeys⟩ := lastIndex_undisturbed cfg hcl hci ht hc hrun hgood
  have hne : kvs ≠ [] → trace ≠ [] := by
    intro hk htr
    subst htr
    cases kvs with
    | nil => exact hk rfl
    | cons kv rest =>
      simp only [insertOperations, List.map_cons, runOperations] at hrun
      split at hrun
      · cases hrun
      · split at hrun <;> cases hrun
  -- the tree after the failed call and its stored pairs
  have hafter : ∃ r' h', TwoLevel s' r' h' ∧
      (∀ k v, k ≠ key → (Stored s' r' k v ↔ Stored (lastIndex s trace) r k v)) ∧
      (0 < r.numkeys → Stored s' r' key value) := by
    by_cases hpos : 0 < r.numkeys
    · obtain ⟨_, _, c3, _⟩ := Insert_step_nonempty cfg hcl ht1 hc1 hpos key value _ s' hI
      obtain ⟨r', h', a1, a2⟩ := c3 rfl
      refine ⟨r', h', a1, fun k v hk => ?_, fun _ => (a2 key value).mpr (Or.inr ⟨rfl, rfl⟩)⟩
      rw [a2 k v]
      exact ⟨fun hs => hs.elim id (fun e => absurd e.1 hk), Or.inl⟩
    · obtain ⟨_, _, c3, _⟩ := Insert_step_empty cfg hcl hci ht1 hc1 (by omega) key value _ s' hI
      obtain ⟨r', h', a1, a2⟩ := c3 rfl
      exact ⟨r', h', a1, fun k v _ => a2 k v, fun hp => absurd hp hpos⟩
  obtain ⟨r', h', ht', hst, hkey⟩ := hafter
  refine ⟨fun k' hk v0 => ?_, fun hk v0 => ?_⟩
  · have hcongr := Lookup_congr ht1 ht' k' (fun v => hst k' v hk) v0
    rcases Lookup_two_level ht1 k' v0 with ⟨v, _, hl⟩ | ⟨_, hl⟩
    · exact ⟨_, hl, by rw [hcongr, hl]⟩
    · exact ⟨_, hl, by rw [hcongr, hl]⟩
  · have hs := hkey (hkeys (hne hk) (insertOperations_all kvs))
    rcases Lookup_two_level ht' key v0 with ⟨v, hv, hl⟩ | ⟨hno, _⟩
    · rw [hl, Stored_unique ht' hv hs]
    · exact absurd hs (hno value)

/-- Witness for C8 (amended): the 6-block device with `SlotsAsLeaf = 4` after the
ascending inserts of keys 1..7; `Insert(8, 108)` returns `ERROR_NOSPACE`. -/
theorem C8_exhaustion_keeps_other_keys_witness :
    (∀ k', k' ≠ 8 → ∀ v0, ∃ res,
      Lookup (lastIndex (finalIndex (Attach scenarioConfig (blankIndex 6) 0 true) (blankIndex 6))
        ((runOperations scenarioConfig (insertOperations (ascending 7))
          (finalIndex (Attach scenarioConfig (blankIndex 6) 0 true) (blankIndex 6))).getD []))
        k' v0 = some res ∧
      Lookup (finalIndex (Insert scenarioConfig
        (lastIndex (finalIndex (Attach scenarioConfig (blankIndex 6) 0 true) (blankIndex 6))
          ((runOperations scenarioConfig (insertOperations (ascending 7))
            (finalIndex (Attach scenarioConfig (blankIndex 6) 0 true) (blankIndex 6))).getD []))
        8 108) (blankIndex 6)) k' v0 = some res) ∧
    (ascending 7 ≠ [] → ∀ v0,
      Lookup (finalIndex (Insert scenarioConfig
        (lastIndex (finalIndex (Attach scenarioConfig (blankIndex 6) 0 true) (blankIndex 6))
          ((runOperations scenarioConfig (insertOperations (ascending 7))
            (finalIndex (Attach scenarioConfig (blankIndex 6) 0 true) (blankIndex 6))).getD []))
        8 108) (blankIndex 6)) 8 v0 = some (ERROR_NOERROR, 108)) :=
  C8_exhaustion_keeps_other_keys scenarioConfig (by decide) (by decide) (blankIndex 6) _
    (by decide) (finalIndex_eq (blankIndex 6) (by decide)) (ascending 7) _
    (eq_some_getD (by decide)) (by decide) 8 108 _ (finalIndex_eq (blankIndex 6) (by decide))

end ClaimsExhaustion

section ClaimsFirstInsert
variable {K V : Type} [LinearOrder K]

/-- The shape part of `Attach_two_level`, for any capacities. -/
theorem Attach_shape (cfg : Config K V) (s0 : BTreeIndex K V) (hN : 3 ≤ s0.buffercache.length) :
    ∃ s, Attach cfg s0 0 true = some (ERROR_NOERROR, s) ∧
      s.buffercache.length = s0.buffercache.length ∧ TwoLevel s (newRootNode cfg) 2 := by
  obtain ⟨s, hA, hidx, hsb, hlen, _, h1, hfree⟩ := Attach_create cfg s0 (by omega)
  have hz : (newRootNode cfg).numkeys = 0 := rfl
  refine ⟨s, hA, hlen, hidx, by rw [hsb]; rfl, h1, rfl, ⟨le_refl _, by omega, ?_, ?_⟩, ?_,
    fun hp => absurd hp (by rw [hz]; omega), fun hp => absurd hp (by rw [hz]; omega),
    fun hp => absurd hp (by rw [hz]; omega)⟩
  · rw [hsb, if_neg (by omega)]; rfl
  · intro i hi1 hi2
    rw [hlen] at hi2 ⊢
    exact ⟨_, hfree i hi1 hi2, rfl, rfl⟩
  · intro a b _ hb
    rw [hz] at hb
    omega

/-- `Lookup` of the separator of a root with one separator whose right leaf holds
just that key. -/
theorem Lookup_single_separator {s : BTreeIndex K V} {r L : BTreeNode K V} {key : K}
    (hr : s.buffercache[s.superblock.rootnode]? = some r) (hrt : r.nodetype = BTREE_ROOT_NODE)
    (hn : r.numkeys = 1) (hk : r.keys 0 = key) (hL : s.buffercache[r.ptrs 1]? = some L)
    (hLt : L.nodetype = BTREE_LEAF_NODE) (hLn : L.numkeys = 1) (hLk : L.keys 0 = key)
    (hlen : 2 ≤ s.buffercache.length) (v0 : V) :
    Lookup s key v0 = some (ERROR_NOERROR, L.vals 0) := by
  obtain ⟨m, hm⟩ : ∃ m, s.buffercache.length = m + 2 := ⟨s.buffercache.length - 2, by omega⟩
  unfold Lookup
  rw [hm]
  obtain ⟨i, hi, _, h2, hdesc⟩ :=
    LookupOrUpdateInternal_descend hr (Or.inl hrt) (by omega) key
  have hi1 : i = 1 := by
    by_contra hne
    have h0 : i = 0 := by omega
    subst h0
    exact absurd (h2 (by omega)) (by rw [hk]; exact lt_irrefl _)
  subst hi1
  rw [hdesc]
  rcases LookupOrUpdateInternal_leaf_lookup hL hLt key m v0 with
    ⟨j, hj, _, _, hres⟩ | ⟨hno, _⟩
  · have hj0 : j = 0 := by omega
    subst hj0
    rw [hres]
    rfl
  · exact absurd hLk (hno 0 (by omega))

/-- C11: on a freshly created tree with at least two free blocks (a device of at
least 4 blocks), `Insert(key, value)` returns `ERROR_NOERROR`; afterwards the
root is still tagged root and has the one separator `key`, its pointer 0 names an
empty leaf, its pointer 1 a leaf whose only entry is `(key, value)`, and
`Lookup(key)` returns `value`. -/
theorem C11_first_insert_builds_two_leaves (cfg : Config K V) (s0 : BTreeIndex K V)
    (hN : 4 ≤ s0.buffercache.length) (key : K) (value : V) :
    ∃ s s', Attach cfg s0 0 true = some (ERROR_NOERROR, s) ∧
      Insert cfg s key value = some (ERROR_NOERROR, s') ∧
      ∃ r L0 L1, s'.buffercache[s'.superblock.rootnode]? = some r ∧
        r.nodetype = BTREE_ROOT_NODE ∧ r.numkeys = 1 ∧ r.keys 0 = key ∧
        s'.buffercache[r.ptrs 0]? = some L0 ∧ L0.nodetype = BTREE_LEAF_NODE ∧ L0.numkeys = 0 ∧
        s'.buffercache[r.ptrs 1]? = some L1 ∧ L1.nodetype = BTREE_LEAF_NODE ∧ L1.numkeys = 1 ∧
        L1.keys 0 = key ∧ L1.vals 0 = value ∧
        ∀ v0, Lookup s' key v0 = some (ERROR_NOERROR, value) := by
  obtain ⟨s, hA, hlen, ht⟩ := Attach_shape cfg s0 (by omega)
  obtain ⟨_, _, hC⟩ := insertEmptyRoot_exec cfg ht key value
  obtain ⟨F, F2, hF, hF2, hE⟩ := hC (by omega)
  have hI := Insert_empty cfg ht rfl key value
  rw [hE] at hI
  refine ⟨s, _, hA, hI, firstRoot (newRootNode cfg) key 2 3, firstLeftLeaf cfg F,
    firstRightLeaf cfg F2 key value, ?_⟩
  have hlen1 : 3 < s.buffercache.length := by omega
  have bRoot : ((((((s.buffercache.set 0 (popSuperblock s.superblock (2 + 1))).set 2
      (firstLeftLeaf cfg F)).set 0 (popSuperblock s.superblock
        (if 2 + 1 + 1 = s.buffercache.length then 0 else 2 + 1 + 1))).set (2 + 1)
      (firstRightLeaf cfg F2 key value))).set 1 (firstRoot (newRootNode cfg) key 2 (2 + 1)))[1]? =
      some (firstRoot (newRootNode cfg) key 2 3) := by
    rw [List.getElem?_set_self (by simp; omega)]
  have bL : ((((((s.buffercache.set 0 (popSuperblock s.superblock (2 + 1))).set 2
      (firstLeftLeaf cfg F)).set 0 (popSuperblock s.superblock
        (if 2 + 1 + 1 = s.buffercache.length then 0 else 2 + 1 + 1))).set (2 + 1)
      (firstRightLeaf cfg F2 key value))).set 1 (firstRoot (newRootNode cfg) key 2 (2 + 1)))[2]? =
      some (firstLeftLeaf cfg F) := by
    rw [List.getElem?_set_ne (by omega), List.getElem?_set_ne (by omega),
      List.getElem?_set_ne (by omega), List.getElem?_set_self (by simp; omega)]
  have bR : ((((((s.buffercache.set 0 (popSuperblock s.superblock (2 + 1))).set 2
      (firstLeftLeaf cfg F)).set 0 (popSuperblock s.superblock
        (if 2 + 1 + 1 = s.buffercache.length then 0 else 2 + 1 + 1))).set (2 + 1)
      (firstRightLeaf cfg F2 key value))).set 1 (firstRoot (newRootNode cfg) key 2 (2 + 1)))[3]? =
      some (firstRightLeaf cfg F2 key value) := by
    rw [List.getElem?_set_ne (by omega), List.getElem?_set_self (by simp; omega)]
  have p0 : (firstRoot (newRootNode cfg) key 2 3).ptrs 0 = 2 := by simp [firstRoot]
  have p1 : (firstRoot (newRootNode cfg) key 2 3).ptrs 1 = 3 := by simp [firstRoot]
  have k0 : (firstRoot (newRootNode cfg) key 2 3).keys 0 = key := by simp [firstRoot]
  have hroot' : (popSuperblock s.superblock
      (if 2 + 1 + 1 = s.buffercache.length then 0 else 2 + 1 + 1)).rootnode = 1 := ht.rootidx
  refine ⟨?_, rfl, rfl, k0, by rw [p0]; exact bL, rfl, rfl, by rw [p1]; exact bR, rfl, rfl,
    by simp [firstRightLeaf], by simp [firstRightLeaf], fun v0 => ?_⟩
  · show (List.set _ _ _)[(popSuperblock s.superblock _).rootnode]? = _
    rw [hroot']
    exact bRoot
  · have hv := Lookup_single_separator
      (s := { s with
        superblock := popSuperblock s.superblock
          (if 2 + 1 + 1 = s.buffercache.length then 0 else 2 + 1 + 1)
        buffercache := ((((((s.buffercache.set 0 (popSuperblock s.superblock (2 + 1))).set 2
          (firstLeftLeaf cfg F)).set 0 (popSuperblock s.superblock
            (if 2 + 1 + 1 = s.buffercache.length then 0 else 2 + 1 + 1))).set (2 + 1)
          (firstRightLeaf cfg F2 key value))).set 1 (firstRoot (newRootNode cfg) key 2 (2 + 1))) })
      (r := firstRoot (newRootNode cfg) key 2 3) (L := firstRightLeaf cfg F2 key value)
      (by show (List.set _ _ _)[(popSuperblock s.superblock _).rootnode]? = _
          rw [hroot']; exact bRoot)
      rfl rfl k0 (by rw [p1]; exact bR) rfl rfl (by simp [firstRightLeaf])
      (by simp only [List.length_set]; omega) v0
    rw [hv]
    simp [firstRightLeaf]

/-- Witness for C11: the first insert `(5, 105)` on a 4-block device. -/
theorem C11_first_insert_builds_two_leaves_witness :
    ∃ s s', Attach scenarioConfig (blankIndex 4) 0 true = some (ERROR_NOERROR, s) ∧
      Insert scenarioConfig s 5 105 = some (ERROR_NOERROR, s') ∧
      ∃ r L0 L1, s'.buffercache[s'.superblock.rootnode]? = some r ∧
        r.nodetype = BTREE_ROOT_NODE ∧ r.numkeys = 1 ∧ r.keys 0 = 5 ∧
        s'.buffercache[r.ptrs 0]? = some L0 ∧ L0.nodetype = BTREE_LEAF_NODE ∧ L0.numkeys = 0 ∧
        s'.buffercache[r.ptrs 1]? = some L1 ∧ L1.nodetype = BTREE_LEAF_NODE ∧ L1.numkeys = 1 ∧
        L1.keys 0 = 5 ∧ L1.vals 0 = 105 ∧
        ∀ v0, Lookup s' 5 v0 = some (ERROR_NOERROR, 105) :=
  C11_first_insert_builds_two_leaves scenarioConfig (blankIndex 4) (by decide) 5 105

end ClaimsFirstInsert

section ClaimsEvaluated

/-- C12 (fails on the code): on a 9-block device the eighth ascending `Insert`
splits the root and returns `ERROR_NOERROR`; on return the in-memory superblock
names block 8 as root, but the superblock stored in block 0 still names block 1:
the root ending of `Split` sets `superblock.info.rootnode` and does not serialize
the superblock, unlike `AllocateNode`. -/
theorem C12_root_split_not_persisted :
    (scenario 9 (ascending 8)).map
        (fun r => (r.1, r.2.superblock.rootnode,
          (r.2.buffercache[r.2.superblock_index]?).map fun b => (b.nodetype, b.rootnode))) =
      some (List.replicate 8 ERROR_NOERROR, 8, some (BTREE_SUPERBLOCK, 1)) := by
  decide

/-- C13 (fails on the code): in a store whose root names the same leaf by pointer
0 and by pointer 1, `SanityCheck` returns `ERROR_NOERROR`: `ISA_Tree` takes
`visited` by value, so the block added while checking pointer 0 is forgotten
when pointer 1 is checked. -/
theorem C13_shared_leaf_passes_sanity_check :
    (SanityCheck scenarioConfig sharedLeafIndex,
      (sharedLeafIndex.buffercache[sharedLeafIndex.superblock.rootnode]?).map
        fun r => (r.nodetype, r.numkeys, r.ptrs 0, r.ptrs 1)) =
      (some ERROR_NOERROR, some (BTREE_ROOT_NODE, 1, 2, 2)) := by
  decide

/-- C16 (fails on the code): after the ascending inserts of keys 1..8 on a
9-block device (the eighth splits the root) five paths lead down from the root,
each of two pointers; four end at a leaf and the fifth, through the sibling's
last pointer, at the superblock. -/
theorem C16_path_ends_at_superblock_after_root_split :
    (scenario 9 (ascending 8)).map (fun r => (r.1, rootPathEnds r.2)) =
      some (List.replicate 8 ERROR_NOERROR,
        List.replicate 4 (2, some BTREE_LEAF_NODE) ++ [(2, some BTREE_SUPERBLOCK)]) := by
  decide

/-- C19 (fails on the code): `Split` of a root with n = 4 separators (k1 = 2,
k2 = 1) whose last pointer P_4 is 6 returns `ERROR_NOERROR` and writes the
sibling to block 7 (pointer 1 of the new root) with `numkeys = 1`, but the
sibling's pointer slot k2 = 1 holds 0, not 6: `new_node.SetPtr(k1, ...)` is out
of range for even n and its result is not checked. -/
theorem C19_last_pointer_lost_in_interior_split :
    (fullRootIndex.buffercache[1]?).map (fun b => (b.numkeys, b.ptrs 4)) = some (4, 6) ∧
    (Split scenarioConfig [1] fullRootIndex).map (fun r => (r.1,
        (r.2.buffercache[r.2.superblock.rootnode]?).map fun b => b.ptrs 1)) =
      some (ERROR_NOERROR, some 7) ∧
    (Split scenarioConfig [1] fullRootIndex).map (fun r =>
        (r.2.buffercache[7]?).map fun b => (b.nodetype, b.numkeys, b.ptrs 0, b.ptrs 1)) =
      some (some (BTREE_INTERIOR_NODE, 1, 5, 0)) := by
  decide

/-- C20 (fails on the code): `Split` of a root with the separators 10, 20, 30, 40
(k1 = 2, middle key 30) returns `ERROR_NOERROR` with key 0 of the new root equal
to 40, the first key of the sibling, which the sibling (block 7) keeps as well;
the original (block 1) keeps 10 and 20, and the middle key 30 is stored
nowhere. -/
theorem C20_interior_split_promotes_sibling_first_key :
    (fullRootIndex.buffercache[1]?).map (fun b => (b.numkeys, b.keys 2)) = some (4, 30) ∧
    (Split scenarioConfig [1] fullRootIndex).map (fun r => (r.1,
        (r.2.buffercache[r.2.superblock.rootnode]?).map fun b => (b.numkeys, b.keys 0))) =
      some (ERROR_NOERROR, some (1, 40)) ∧
    (Split scenarioConfig [1] fullRootIndex).map (fun r =>
        (r.2.buffercache[1]?).map fun b => (b.numkeys, b.keys 0, b.keys 1)) =
      some (some (2, 10, 20)) ∧
    (Split scenarioConfig [1] fullRootIndex).map (fun r =>
        (r.2.buffercache[7]?).map fun b => (b.numkeys, b.keys 0)) =
      some (some (1, 40)) := by
  decide

end ClaimsEvaluated

section SanityLemmas
variable {K V : Type}

theorem GetPtr_inner {b : BTreeNode K V}
    (ht : b.nodetype = BTREE_ROOT_NODE ∨ b.nodetype = BTREE_INTERIOR_NODE) {o : Nat}
    (ho : o ≤ b.numkeys) : GetPtr b o = .ok (b.ptrs o) := by
  rcases ht with ht | ht <;> simp [GetPtr, ptrInRange, ht, ho]

/-- A child loop that comes back with `ERROR_NOERROR` has visited every child
with that result. -/
theorem forChildren_ok_inv (visit : Nat → Unit → Option (ERROR_T × Unit)) (b : BTreeNode K V) :
    ∀ l : List Nat, forChildren visit b l () = some (ERROR_NOERROR, ()) →
      ∀ o ∈ l, ∃ p, GetPtr b o = .ok p ∧ visit p () = some (ERROR_NOERROR, ()) := by
  intro l
  induction l with
  | nil => intro _ o ho; exact absurd ho (List.not_mem_nil _)
  | cons a l ih =>
    intro h o ho
    rw [forChildren] at h
    cases hp : GetPtr b a with
    | error rc =>
      rw [hp] at h
      simp only [Option.some.injEq, Prod.mk.injEq] at h
      exact absurd h.1 (GetPtr_error_ne hp)
    | ok p =>
      rw [hp] at h
      dsimp only at h
      cases hv : visit p () with
      | none => rw [hv] at h; cases h
      | some res =>
        obtain ⟨rc, u⟩ := res
        rw [hv] at h
        dsimp only at h
        by_cases hrc : rc = ERROR_NOERROR
        · subst hrc
          rw [if_neg (by simp)] at h
          rcases List.mem_cons.mp ho with rfl | ho'
          · exact ⟨p, hp, hv⟩
          · exact ih h o ho'
        · rw [if_pos hrc] at h
          simp only [Option.some.injEq, Prod.mk.injEq] at h
          exact absurd h.1 hrc

/-- The child loop returns when every visit returns. -/
theorem forChildren_returns (visit : Nat → Unit → Option (ERROR_T × Unit)) (b : BTreeNode K V) :
    ∀ l : List Nat, (∀ p, ∃ res, visit p () = some res) →
      ∃ res, forChildren visit b l () = some res := by
  intro l hv
  induction l with
  | nil => exact ⟨_, rfl⟩
  | cons a l ih =>
    rw [forChildren]
    cases hp : GetPtr b a with
    | error rc => exact ⟨_, rfl⟩
    | ok p =>
      obtain ⟨⟨rc, u⟩, hres⟩ := hv p
      dsimp only
      rw [hres]
      dsimp only
      by_cases hrc : rc = ERROR_NOERROR
      · rw [if_neg (by simpa using hrc)]
        exact ih
      · rw [if_pos hrc]
        exact ⟨_, rfl⟩

/-- The code of the child loop is `ERROR_NOERROR` or one of the codes of the
visits, when every pointer read succeeds. -/
theorem forChildren_codes (visit : Nat → Unit → Option (ERROR_T × Unit)) (b : BTreeNode K V)
    (S : ERROR_T → Prop) :
    ∀ l : List Nat, (∀ o ∈ l, ∃ p, GetPtr b o = .ok p) →
      (∀ p rc u, visit p () = some (rc, u) → rc = ERROR_NOERROR ∨ S rc) →
      ∀ rc u, forChildren visit b l () = some (rc, u) → rc = ERROR_NOERROR ∨ S rc := by
  intro l
  induction l with
  | nil =>
    intro _ _ rc u h
    simp only [forChildren, Option.some.injEq, Prod.mk.injEq] at h
    exact Or.inl h.1.symm
  | cons a l ih =>
    intro hg hv rc u h
    obtain ⟨p, hp⟩ := hg a (List.mem_cons_self _ _)
    rw [forChildren, hp] at h
    dsimp only at h
    cases hres : visit p () with
    | none => rw [hres] at h; cases h
    | some res =>
      obtain ⟨rc1, u1⟩ := res
      rw [hres] at h
      dsimp only at h
      by_cases hrc : rc1 = ERROR_NOERROR
      · rw [if_neg (by simpa using hrc)] at h
        exact ih (fun o ho => hg o (List.mem_cons_of_mem _ ho)) hv rc u h
      · rw [if_pos hrc] at h
        simp only [Option.some.injEq, Prod.mk.injEq] at h
        rw [← h.1]
        exact hv p rc1 u1 hres

/-- What a successful `ISA_Tree` has checked at `node`. -/
theorem ISA_Tree_ok_inv (cfg : Config K V) (bc : List (BTreeNode K V)) (fuel : Nat)
    (visited : List Nat) (node : Nat)
    (h : ISA_Tree cfg fuel bc visited node = some ERROR_NOERROR) :
    node ∉ visited ∧ ∃ b, bc[node]? = some b ∧
      (((b.nodetype = BTREE_ROOT_NODE ∨ b.nodetype = BTREE_INTERIOR_NODE) ∧
          b.numkeys < cfg.SlotsAsInterior ∧
          ∀ o, o ≤ b.numkeys →
            ISA_Tree cfg (fuel - 1) bc (node :: visited) (b.ptrs o) = some ERROR_NOERROR) ∨
        (b.nodetype = BTREE_LEAF_NODE ∧ b.numkeys < cfg.SlotsAsLeaf)) := by
  cases fuel with
  | zero => simp [ISA_Tree] at h
  | succ fuel =>
    rw [ISA_Tree] at h
    by_cases hv : node ∈ visited
    · rw [if_pos hv] at h; cases h
    rw [if_neg hv] at h
    refine ⟨hv, ?_⟩
    cases hu : Unserialize bc node with
    | error rc =>
      rw [hu] at h
      simp only [Option.some.injEq] at h
      exact absurd h (Unserialize_error_ne hu)
    | ok b =>
      rw [hu] at h
      refine ⟨b, Unserialize_ok_iff.mp hu, ?_⟩
      have inner : (b.nodetype = BTREE_ROOT_NODE ∨ b.nodetype = BTREE_INTERIOR_NODE) →
          (if b.numkeys ≥ cfg.SlotsAsInterior then some ERROR_INSANE
            else (forChildren (fun ptr (_ : Unit) =>
              (ISA_Tree cfg fuel bc (node :: visited) ptr).map fun rc => (rc, ()))
              b (List.range (b.numkeys + 1)) ()).map fun r => r.1) = some ERROR_NOERROR →
          (b.nodetype = BTREE_ROOT_NODE ∨ b.nodetype = BTREE_INTERIOR_NODE) ∧
          b.numkeys < cfg.SlotsAsInterior ∧
          ∀ o, o ≤ b.numkeys →
            ISA_Tree cfg (fuel + 1 - 1) bc (node :: visited) (b.ptrs o) = some ERROR_NOERROR := by
        intro ht h
        by_cases hc : b.numkeys ≥ cfg.SlotsAsInterior
        · rw [if_pos hc] at h; cases h
        rw [if_neg hc] at h
        refine ⟨ht, by omega, fun o ho => ?_⟩
        cases hf : forChildren (fun ptr (_ : Unit) =>
            (ISA_Tree cfg fuel bc (node :: visited) ptr).map fun rc => (rc, ()))
            b (List.range (b.numkeys + 1)) () with
        | none => rw [hf] at h; cases h
        | some res =>
          obtain ⟨rc, u⟩ := res
          rw [hf] at h
          simp only [Option.map_some', Option.some.injEq] at h
          subst h
          obtain ⟨p, hp, hvis⟩ := forChildren_ok_inv _ b _ hf o
            (List.mem_range.mpr (by omega))
          rw [GetPtr_inner ht ho] at hp
          cases hp
          simp only [Nat.add_sub_cancel]
          cases hi : ISA_Tree cfg fuel bc (node :: visited) (b.ptrs o) with
          | none => rw [hi] at hvis; cases hvis
          | some rc =>
            rw [hi] at hvis
            simp only [Option.map_some', Option.some.injEq, Prod.mk.injEq, and_true] at hvis
            rw [hvis]
      cases ht : b.nodetype with
      | BTREE_ROOT_NODE =>
        simp only [ht] at h
        exact Or.inl (ht ▸ inner (Or.inl ht) h)
      | BTREE_INTERIOR_NODE =>
        simp only [ht] at h
        exact Or.inl (ht ▸ inner (Or.inr ht) h)
      | BTREE_LEAF_NODE =>
        simp only [ht] at h
        right
        by_cases hc : b.numkeys ≥ cfg.SlotsAsLeaf
        · rw [if_pos hc] at h; cases h
        · exact ⟨rfl, by omega⟩
      | BTREE_UNALLOCATED_BLOCK => simp only [ht] at h; cases h
      | BTREE_SUPERBLOCK => simp only [ht] at h; cases h

end SanityLemmas

section SanityTotal
variable {K V : Type}

/-- A list of distinct block indices of a store is no longer than the store. -/
theorem nodup_length_le {l : List Nat} {n : Nat} (hnd : l.Nodup) (hlt : ∀ v ∈ l, v < n) :
    l.length ≤ n := by
  have hsub : l.toFinset ⊆ Finset.range n := by
    intro v hv
    exact Finset.mem_range.mpr (hlt v (List.mem_toFinset.mp hv))
  have := Finset.card_le_card hsub
  rwa [List.toFinset_card_of_nodup hnd, Finset.card_range] at this

/-- `ISA_Tree` returns: every nested call adds a block of the store to `visited`,
and the fuel covers the blocks not yet on the path. -/
theorem ISA_Tree_returns (cfg : Config K V) (bc : List (BTreeNode K V)) :
    ∀ (fuel : Nat) (visited : List Nat) (node : Nat), visited.Nodup →
      (∀ v ∈ visited, v < bc.length) → bc.length + 1 ≤ fuel + visited.length →
      ∃ rc, ISA_Tree cfg fuel bc visited node = some rc := by
  intro fuel
  induction fuel with
  | zero =>
    intro visited node hnd hlt hfuel
    have := nodup_length_le hnd hlt
    omega
  | succ fuel ih =>
    intro visited node hnd hlt hfuel
    rw [ISA_Tree]
    by_cases hv : node ∈ visited
    · rw [if_pos hv]; exact ⟨_, rfl⟩
    rw [if_neg hv]
    cases hu : Unserialize bc node with
    | error rc => exact ⟨_, rfl⟩
    | ok b =>
      have hb := Unserialize_ok_iff.mp hu
      have hnode : node < bc.length := by
        rcases List.getElem?_eq_some_iff.mp hb with ⟨hl, _⟩; exact hl
      have hchild : ∀ p, ∃ res, (fun ptr (_ : Unit) =>
          (ISA_Tree cfg fuel bc (node :: visited) ptr).map fun rc => (rc, ())) p () = some res := by
        intro p
        obtain ⟨rc, hrc⟩ := ih (node :: visited) p (List.nodup_cons.mpr ⟨hv, hnd⟩)
          (fun v hv' => by
            rcases List.mem_cons.mp hv' with rfl | h'
            · exact hnode
            · exact hlt v h')
          (by simp only [List.length_cons]; omega)
        exact ⟨(rc, ()), by simp only [hrc, Option.map_some']⟩
      have inner : ∃ rc, (if b.numkeys ≥ cfg.SlotsAsInterior then some ERROR_INSANE
            else (forChildren (fun ptr (_ : Unit) =>
              (ISA_Tree cfg fuel bc (node :: visited) ptr).map fun rc => (rc, ()))
              b (List.range (b.numkeys + 1)) ()).map fun r => r.1) = some rc := by
        by_cases hc : b.numkeys ≥ cfg.SlotsAsInterior
        · rw [if_pos hc]; exact ⟨_, rfl⟩
        · rw [if_neg hc]
          obtain ⟨res, hres⟩ := forChildren_returns (fun ptr (_ : Unit) =>
            (ISA_Tree cfg fuel bc (node :: visited) ptr).map fun rc => (rc, ()))
            b (List.range (b.numkeys + 1)) hchild
          rw [hres]
          exact ⟨_, rfl⟩
      cases ht : b.nodetype with
      | BTREE_ROOT_NODE => simp only [ht]; exact inner
      | BTREE_INTERIOR_NODE => simp only [ht]; exact inner
      | BTREE_LEAF_NODE =>
        simp only [ht]
        by_cases hc : b.numkeys ≥ cfg.SlotsAsLeaf
        · rw [if_pos hc]; exact ⟨_, rfl⟩
        · rw [if_neg hc]; exact ⟨_, rfl⟩
      | BTREE_UNALLOCATED_BLOCK => simp only [ht]; exact ⟨_, rfl⟩
      | BTREE_SUPERBLOCK => simp only [ht]; exact ⟨_, rfl⟩

/-- The codes of `ISA_Tree`: `ERROR_NOERROR`, `ERROR_INSANE`, or the code of a
failed block read. -/
theorem ISA_Tree_codes (cfg : Config K V) (bc : List (BTreeNode K V)) :
    ∀ (fuel : Nat) (visited : List Nat) (node : Nat) (rc : ERROR_T),
      ISA_Tree cfg fuel bc visited node = some rc →
      rc = ERROR_NOERROR ∨ (rc = ERROR_INSANE ∨ rc = ERROR_NOBLOCK) := by
  intro fuel
  induction fuel with
  | zero => intro visited node rc h; simp [ISA_Tree] at h
  | succ fuel ih =>
    intro visited node rc h
    rw [ISA_Tree] at h
    by_cases hv : node ∈ visited
    · rw [if_pos hv] at h
      simp only [Option.some.injEq] at h
      exact Or.inr (Or.inl h.symm)
    rw [if_neg hv] at h
    cases hu : Unserialize bc node with
    | error rc1 =>
      rw [hu] at h
      simp only [Option.some.injEq] at h
      subst h
      exact Or.inr (Or.inr (Unserialize_error_kind hu))
    | ok b =>
      rw [hu] at h
      have inner : (b.nodetype = BTREE_ROOT_NODE ∨ b.nodetype = BTREE_INTERIOR_NODE) →
          (if b.numkeys ≥ cfg.SlotsAsInterior then some ERROR_INSANE
            else (forChildren (fun ptr (_ : Unit) =>
              (ISA_Tree cfg fuel bc (node :: visited) ptr).map fun rc => (rc, ()))
              b (List.range (b.numkeys + 1)) ()).map fun r => r.1) = some rc →
          rc = ERROR_NOERROR ∨ (rc = ERROR_INSANE ∨ rc = ERROR_NOBLOCK) := by
        intro ht h
        by_cases hc : b.numkeys ≥ cfg.SlotsAsInterior
        · rw [if_pos hc] at h
          simp only [Option.some.injEq] at h
          exact Or.inr (Or.inl h.symm)
        rw [if_neg hc] at h
        cases hf : forChildren (fun ptr (_ : Unit) =>
            (ISA_Tree cfg fuel bc (node :: visited) ptr).map fun rc => (rc, ()))
            b (List.range (b.numkeys + 1)) () with
        | none => rw [hf] at h; cases h
        | some res =>
          obtain ⟨rc1, u⟩ := res
          rw [hf] at h
          simp only [Option.map_some', Option.some.injEq] at h
          subst h
          refine forChildren_codes _ b (fun rc => rc = ERROR_INSANE ∨ rc = ERROR_NOBLOCK) _
            (fun o ho => ⟨_, GetPtr_inner ht (by have := List.mem_range.mp ho; omega)⟩)
            (fun p rc2 u2 hvis => ?_) _ _ hf
          cases hi : ISA_Tree cfg fuel bc (node :: visited) p with
          | none => simp only [hi, Option.map_none'] at hvis; cases hvis
          | some rc3 =>
            simp only [hi, Option.map_some', Option.some.injEq, Prod.mk.injEq] at hvis
            rw [← hvis.1]
            exact ih _ _ _ hi
      cases ht : b.nodetype with
      | BTREE_ROOT_NODE => simp only [ht] at h; exact inner (Or.inl ht) h
      | BTREE_INTERIOR_NODE => simp only [ht] at h; exact inner (Or.inr ht) h
      | BTREE_LEAF_NODE =>
        simp only [ht] at h
        by_cases hc : b.numkeys ≥ cfg.SlotsAsLeaf
        · rw [if_pos hc] at h
          simp only [Option.some.injEq] at h
          exact Or.inr (Or.inl h.symm)
        · rw [if_neg hc] at h
          simp only [Option.some.injEq] at h
          exact Or.inl h.symm
      | BTREE_UNALLOCATED_BLOCK =>
        simp only [ht, Option.some.injEq] at h
        exact Or.inr (Or.inl h.symm)
      | BTREE_SUPERBLOCK =>
        simp only [ht, Option.some.injEq] at h
        exact Or.inr (Or.inl h.symm)

/-- A successful check of `a` includes a successful check of every block reached
from `a`, made with a `visited` set that has only grown. -/
theorem ISA_Tree_reaches (cfg : Config K V) (bc : List (BTreeNode K V)) {a c : Nat}
    (hr : Reaches bc a c) :
    ∀ (fuel : Nat) (visited : List Nat),
      ISA_Tree cfg fuel bc visited a = some ERROR_NOERROR →
      ∃ fuel' visited', (∀ v ∈ visited, v ∈ visited') ∧
        ISA_Tree cfg fuel' bc visited' c = some ERROR_NOERROR := by
  induction hr with
  | here a => exact fun fuel visited h => ⟨fuel, visited, fun _ hv => hv, h⟩
  | @step a b c hch _ ih =>
    intro fuel visited h
    obtain ⟨_, blk, hblk, hcases⟩ := ISA_Tree_ok_inv cfg bc fuel visited a h
    obtain ⟨blk', hblk', ht', o, ho, hp⟩ := hch
    rw [hblk] at hblk'
    cases hblk'
    rcases hcases with ⟨_, _, hall⟩ | ⟨hleaf, _⟩
    · obtain ⟨fuel', visited', hsub, hok⟩ := ih (fuel - 1) (a :: visited) (hp ▸ hall o ho)
      exact ⟨fuel', visited', fun v hv => hsub v (List.mem_cons_of_mem _ hv), hok⟩
    · rcases ht' with ht' | ht' <;> rw [hleaf] at ht' <;> cases ht'

/-- In the step case the child is checked with the parent on `visited`. -/
theorem ISA_Tree_child (cfg : Config K V) (bc : List (BTreeNode K V)) {a b : Nat}
    (hch : IsChild bc a b) (fuel : Nat) (visited : List Nat)
    (h : ISA_Tree cfg fuel bc visited a = some ERROR_NOERROR) :
    ISA_Tree cfg (fuel - 1) bc (a :: visited) b = some ERROR_NOERROR := by
  obtain ⟨_, blk, hblk, hcases⟩ := ISA_Tree_ok_inv cfg bc fuel visited a h
  obtain ⟨blk', hblk', ht', o, ho, hp⟩ := hch
  rw [hblk] at hblk'
  cases hblk'
  rcases hcases with ⟨_, _, hall⟩ | ⟨hleaf, _⟩
  · exact hp ▸ hall o ho
  · rcases ht' with ht' | ht' <;> rw [hleaf] at ht' <;> cases ht'

end SanityTotal

section ClaimsSanity
variable {K V : Type}

/-- C14: on every block store in which following child pointers from the root
can return to a block already on the current path, `SanityCheck` returns, and
its code is `ERROR_INSANE` or the code of a failed block read, never
`ERROR_NOERROR`. -/
theorem C14_sanity_check_rejects_cycles (cfg : Config K V) (s : BTreeIndex K V)
    (hcyc : HasCycle s.buffercache s.superblock.rootnode) :
    ∃ rc, SanityCheck cfg s = some rc ∧ (rc = ERROR_INSANE ∨ rc = ERROR_NOBLOCK) := by
  obtain ⟨rc, hrc⟩ := ISA_Tree_returns cfg s.buffercache (s.buffercache.length + 1) []
    s.superblock.rootnode List.nodup_nil (fun v hv => absurd hv (List.not_mem_nil _))
    (by simp)
  refine ⟨rc, hrc, ?_⟩
  rcases ISA_Tree_codes cfg _ _ _ _ _ hrc with hok | hbad
  · exfalso
    subst hok
    obtain ⟨n, c, hrn, hch, hcn⟩ := hcyc
    obtain ⟨f1, v1, _, h1⟩ := ISA_Tree_reaches cfg _ hrn _ _ hrc
    have h2 := ISA_Tree_child cfg _ hch f1 v1 h1
    obtain ⟨f3, v3, hsub, h3⟩ := ISA_Tree_reaches cfg _ hcn _ _ h2
    exact (ISA_Tree_ok_inv cfg _ f3 v3 n h3).1 (hsub n (List.mem_cons_self _ _))
  · exact hbad

/-- Witness for C14: the store whose root names itself by pointer 1. -/
theorem C14_sanity_check_rejects_cycles_witness :
    ∃ rc, SanityCheck scenarioConfig selfLoopIndex = some rc ∧
      (rc = ERROR_INSANE ∨ rc = ERROR_NOBLOCK) :=
  C14_sanity_check_rejects_cycles scenarioConfig selfLoopIndex
    ⟨1, 1, Reaches.here 1,
      ⟨innerNode BTREE_ROOT_NODE [5] [2, 1], rfl, Or.inl rfl, 1, by decide, rfl⟩,
      Reaches.here 1⟩

/-- C15: when `SanityCheck` returns `ERROR_NOERROR`, every block reached from the
superblock's root through the `numkeys + 1` child pointers of root and interior
nodes exists and is either a root or interior node with
`numkeys < SlotsAsInterior` or a leaf with `numkeys < SlotsAsLeaf`. -/
theorem C15_sanity_check_sound (cfg : Config K V) (s : BTreeIndex K V)
    (h : SanityCheck cfg s = some ERROR_NOERROR) (n : Nat)
    (hr : Reaches s.buffercache s.superblock.rootnode n) :
    ∃ b, s.buffercache[n]? = some b ∧
      (((b.nodetype = BTREE_ROOT_NODE ∨ b.nodetype = BTREE_INTERIOR_NODE) ∧
          b.numkeys < cfg.SlotsAsInterior) ∨
        (b.nodetype = BTREE_LEAF_NODE ∧ b.numkeys < cfg.SlotsAsLeaf)) := by
  obtain ⟨f1, v1, _, h1⟩ := ISA_Tree_reaches cfg _ hr _ _ h
  obtain ⟨_, b, hb, hcases⟩ := ISA_Tree_ok_inv cfg _ f1 v1 n h1
  refine ⟨b, hb, ?_⟩
  rcases hcases with ⟨ht, hc, _⟩ | hleaf
  · exact Or.inl ⟨ht, hc⟩
  · exact Or.inr hleaf

/-- Witness for C15: the three-level tree, at the leaf in block 6 reached through
pointer 1 of the root and pointer 0 of block 3. -/
theorem C15_sanity_check_sound_witness :
    ∃ b, threeLevelIndex.buffercache[6]? = some b ∧
      (((b.nodetype = BTREE_ROOT_NODE ∨ b.nodetype = BTREE_INTERIOR_NODE) ∧
          b.numkeys < scenarioConfig.SlotsAsInterior) ∨
        (b.nodetype = BTREE_LEAF_NODE ∧ b.numkeys < scenarioConfig.SlotsAsLeaf)) :=
  C15_sanity_check_sound scenarioConfig threeLevelIndex (by decide) 6
    (Reaches.step ⟨innerNode BTREE_ROOT_NODE [30] [2, 3], rfl, Or.inl rfl, 1, by decide, rfl⟩
      (Reaches.step
        ⟨innerNode BTREE_INTERIOR_NODE [50] [6, 7], rfl, Or.inr rfl, 0, by decide, rfl⟩
        (Reaches.here 6)))

end ClaimsSanity

section WellFormedLemmas
variable {K V : Type} [LinearOrder K]

/-- The range of a child contains only keys of the parent's range. -/
theorem Within.of_child {b : BTreeNode K V} {lo hi : Option K} {key : K} {i : Nat}
    (hi' : i ≤ b.numkeys) (hsep : ∀ j, j < b.numkeys → Within lo hi (b.keys j))
    (h : Within (if i = 0 then lo else some (b.keys (i - 1)))
      (if i = b.numkeys then hi else some (b.keys i)) key) :
    Within lo hi key ∧ InRange b i key := by
  obtain ⟨h1, h2⟩ := h
  refine ⟨⟨fun l hl => ?_, fun u hu => ?_⟩, fun hpos => ?_, fun hlt => ?_⟩
  · by_cases c : i = 0
    · rw [if_pos c] at h1
      exact h1 l hl
    · rw [if_neg c] at h1
      exact le_trans ((hsep (i - 1) (by omega)).1 l hl) (h1 _ rfl)
  · by_cases c : i = b.numkeys
    · rw [if_pos c] at h2
      exact h2 u hu
    · rw [if_neg c] at h2
      exact lt_trans (h2 _ rfl) ((hsep i (by omega)).2 u hu)
  · rw [if_neg (by omega)] at h1
    exact h1 _ rfl
  · rw [if_neg (by omega)] at h2
    exact h2 _ rfl

/-- Every key stored below a well-formed node lies within the node's range. -/
theorem WellFormed.stored_within {bc : List (BTreeNode K V)} {n h : Nat} {lo hi : Option K}
    (hwf : WellFormed bc n lo hi h) {key : K} {value : V} (hs : StoredUnder bc key value n) :
    Within lo hi key := by
  induction hwf with
  | leaf hb ht _ hw =>
    cases hs with
    | leaf hb' _ hj hk _ =>
      rw [hb] at hb'
      cases hb'
      exact hk ▸ hw _ hj
    | inner hb' ht' _ _ _ =>
      rw [hb] at hb'
      cases hb'
      rcases ht' with ht' | ht' <;> rw [ht] at ht' <;> cases ht'
  | empty hb ht hz =>
    cases hs with
    | leaf hb' ht' _ _ _ =>
      rw [hb] at hb'
      cases hb'
      rw [ht] at ht'
      cases ht'
    | inner hb' _ hpos _ _ =>
      rw [hb] at hb'
      cases hb'
      omega
  | inner hb ht _ _ hsep _ ih =>
    cases hs with
    | leaf hb' ht' _ _ _ =>
      rw [hb] at hb'
      cases hb'
      rcases ht with ht | ht <;> rw [ht'] at ht <;> cases ht
    | inner hb' _ _ hi' hs' =>
      rw [hb] at hb'
      cases hb'
      exact (Within.of_child hi' hsep (ih _ hi' hs')).1

/-- A block is well formed at one height only. -/
theorem WellFormed.height_unique {bc : List (BTreeNode K V)} {n h : Nat} {lo hi : Option K}
    (hwf : WellFormed bc n lo hi h) :
    ∀ {h' : Nat} {lo' hi' : Option K}, WellFormed bc n lo' hi' h' → h = h' := by
  induction hwf with
  | leaf hb ht _ _ =>
    intro h' lo' hi' hwf'
    cases hwf' with
    | leaf _ _ _ _ => rfl
    | empty _ _ _ => rfl
    | inner hb' ht' _ _ _ _ =>
      rw [hb] at hb'
      cases hb'
      rcases ht' with ht' | ht' <;> rw [ht] at ht' <;> cases ht'
  | empty hb _ hz =>
    intro h' lo' hi' hwf'
    cases hwf' with
    | leaf _ _ _ _ => rfl
    | empty _ _ _ => rfl
    | inner hb' _ hpos _ _ _ =>
      rw [hb] at hb'
      cases hb'
      omega
  | inner hb ht hpos _ _ _ ih =>
    intro h' lo' hi' hwf'
    cases hwf' with
    | leaf hb' ht' _ _ =>
      rw [hb] at hb'
      cases hb'
      rcases ht with ht | ht <;> rw [ht'] at ht <;> cases ht
    | empty hb' _ hz =>
      rw [hb] at hb'
      cases hb'
      omega
    | inner hb' _ _ _ _ hch' =>
      rw [hb] at hb'
      cases hb'
      rw [ih 0 (Nat.zero_le _) (hch' 0 (Nat.zero_le _))]

/-- A well-formed tree of height `h` has `h + 1` distinct blocks on its leftmost
path. -/
theorem WellFormed.path_blocks {bc : List (BTreeNode K V)} {n h : Nat} {lo hi : Option K}
    (hwf : WellFormed bc n lo hi h) :
    ∃ l : List Nat, l.length = h + 1 ∧ l.Nodup ∧ (∀ x ∈ l, x < bc.length) ∧
      ∀ x ∈ l, ∃ lo' hi' k, k ≤ h ∧ WellFormed bc x lo' hi' k := by
  have hlt : ∀ {n : Nat} {b : BTreeNode K V}, bc[n]? = some b → n < bc.length := by
    intro n b hb
    rcases List.getElem?_eq_some_iff.mp hb with ⟨hl, _⟩
    exact hl
  induction hwf with
  | @leaf n b lo hi hb ht ha hw =>
    refine ⟨[n], rfl, List.nodup_singleton _, ?_, ?_⟩
    · intro x hx
      rw [List.mem_singleton.mp hx]
      exact hlt hb
    · intro x hx
      rw [List.mem_singleton.mp hx]
      exact ⟨lo, hi, 0, le_refl _, WellFormed.leaf hb ht ha hw⟩
  | @empty n b lo hi hb ht hz =>
    refine ⟨[n], rfl, List.nodup_singleton _, ?_, ?_⟩
    · intro x hx
      rw [List.mem_singleton.mp hx]
      exact hlt hb
    · intro x hx
      rw [List.mem_singleton.mp hx]
      exact ⟨lo, hi, 0, le_refl _, WellFormed.empty hb ht hz⟩
  | @inner n b lo hi h hb ht hpos ha hsep hch ih =>
    obtain ⟨l, hlen, hnd, hrange, hall⟩ := ih 0 (Nat.zero_le _)
    have hself : WellFormed bc n lo hi (h + 1) := WellFormed.inner hb ht hpos ha hsep hch
    refine ⟨n :: l, by simp [hlen], List.nodup_cons.mpr ⟨?_, hnd⟩, ?_, ?_⟩
    · intro hmem
      obtain ⟨lo', hi', k, hk, hwf'⟩ := hall n hmem
      have := hself.height_unique hwf'
      omega
    · intro x hx
      rcases List.mem_cons.mp hx with rfl | hx'
      · exact hlt hb
      · exact hrange x hx'
    · intro x hx
      rcases List.mem_cons.mp hx with rfl | hx'
      · exact ⟨lo, hi, h + 1, le_refl _, hself⟩
      · obtain ⟨lo', hi', k, hk, hwf'⟩ := hall x hx'
        exact ⟨lo', hi', k, by omega, hwf'⟩

/-- The height of a well-formed tree is below the number of blocks. -/
theorem WellFormed.height_lt {bc : List (BTreeNode K V)} {n h : Nat} {lo hi : Option K}
    (hwf : WellFormed bc n lo hi h) : h < bc.length := by
  obtain ⟨l, hlen, hnd, hrange, _⟩ := hwf.path_blocks
  have := nodup_length_le hnd hrange
  omega

/-- The descent of `LookupOrUpdateInternal` below a well-formed node: the value
stored with `key`, or `ERROR_NONEXISTENT` when `key` is stored nowhere below. -/
theorem WellFormed.lookup {bc : List (BTreeNode K V)} {n h : Nat} {lo hi : Option K}
    (hwf : WellFormed bc n lo hi h) (key : K) :
    ∀ (fuel : Nat), h < fuel → ∀ v0 : V,
      (∀ v, StoredUnder bc key v n →
        LookupOrUpdateInternal fuel bc n BTREE_OP_LOOKUP key v0 = some (ERROR_NOERROR, v, bc)) ∧
      ((∀ v, ¬ StoredUnder bc key v n) →
        LookupOrUpdateInternal fuel bc n BTREE_OP_LOOKUP key v0 =
          some (ERROR_NONEXISTENT, v0, bc)) := by
  induction hwf with
  | @leaf n b lo hi hb ht ha hw =>
    intro fuel hfuel v0
    obtain ⟨f, rfl⟩ : ∃ f, fuel = f + 1 := ⟨fuel - 1, by omega⟩
    rcases LookupOrUpdateInternal_leaf_lookup hb ht key f v0 with
      ⟨j, hj, hk, _, hres⟩ | ⟨hno, hres⟩
    · refine ⟨fun v hs => ?_, fun hnone => ?_⟩
      · cases hs with
        | leaf hb' _ hj' hk' hv' =>
          rw [hb] at hb'
          cases hb'
          have := ha.inj hj hj' (hk.trans hk'.symm)
          subst this
          rw [hres, hv']
        | inner hb' ht' _ _ _ =>
          rw [hb] at hb'
          cases hb'
          rcases ht' with ht' | ht' <;> rw [ht] at ht' <;> cases ht'
      · exact absurd (StoredUnder.leaf hb ht hj hk rfl) (hnone _)
    · refine ⟨fun v hs => ?_, fun _ => hres⟩
      cases hs with
      | leaf hb' _ hj' hk' _ =>
        rw [hb] at hb'
        cases hb'
        exact absurd hk' (hno _ hj')
      | inner hb' ht' _ _ _ =>
        rw [hb] at hb'
        cases hb'
        rcases ht' with ht' | ht' <;> rw [ht] at ht' <;> cases ht'
  | @empty n b lo hi hb ht hz =>
    intro fuel hfuel v0
    obtain ⟨f, rfl⟩ : ∃ f, fuel = f + 1 := ⟨fuel - 1, by omega⟩
    refine ⟨fun v hs => ?_, fun _ => ?_⟩
    · cases hs with
      | leaf hb' ht' _ _ _ =>
        rw [hb] at hb'
        cases hb'
        rw [ht] at ht'
        cases ht'
      | inner hb' _ hpos _ _ =>
        rw [hb] at hb'
        cases hb'
        omega
    · unfold LookupOrUpdateInternal
      rw [Unserialize_ok_iff.mpr hb]
      simp only [ht, hz, List.range_zero, scanInterior, gt_iff_lt, lt_self_iff_false, if_false]
  | @inner n b lo hi h hb ht hpos ha hsep hch ih =>
    intro fuel hfuel v0
    obtain ⟨f, rfl⟩ : ∃ f, fuel = f + 1 := ⟨fuel - 1, by omega⟩
    obtain ⟨i, hi', h1, h2, hdesc⟩ := LookupOrUpdateInternal_descend hb ht hpos key
    rw [hdesc]
    obtain ⟨ih1, ih2⟩ := ih i hi' f (by omega) v0
    have hiff : ∀ v, StoredUnder bc key v n → StoredUnder bc key v (b.ptrs i) := by
      intro v hs
      cases hs with
      | leaf hb' ht' _ _ _ =>
        rw [hb] at hb'
        cases hb'
        rcases ht with ht | ht <;> rw [ht'] at ht <;> cases ht
      | @inner _ _ i' hb' _ _ hi'' hs' =>
        rw [hb] at hb'
        cases hb'
        have hr := (Within.of_child hi'' hsep ((hch i' hi'').stored_within hs')).2
        have := route_unique ha hi' h1 h2 hi'' hr
        subst this
        exact hs'
    refine ⟨fun v hs => ih1 v (hiff v hs), fun hnone => ih2 (fun v hs => ?_)⟩
    exact hnone v (StoredUnder.inner hb ht hpos hi' hs)

/-- The first offset with `key < K_i`, in terms of the list search. -/
theorem find_first_above (keys : Nat → K) (key : K) :
    ∀ (n i : Nat), i ≤ n → (∀ j, j < i → ¬ key < keys j) → (i < n → key < keys i) →
      ((List.range n).find? fun i => decide (key < keys i)).getD n = i := by
  intro n i hi hbelow hat
  have key1 : ∀ m, m ≤ i → (List.range m).find? (fun i => decide (key < keys i)) = none := by
    intro m
    induction m with
    | zero => intro _; rfl
    | succ m ihm =>
      intro hm
      rw [List.range_succ, List.find?_append, ihm (by omega)]
      simp only [Option.none_or, List.find?_cons, List.find?_nil]
      rw [decide_eq_false (hbelow m (by omega))]
  have key2 : key < keys i → ∀ m, i < m →
      (List.range m).find? (fun i => decide (key < keys i)) = some i := by
    intro habove m
    induction m with
    | zero => intro hm; omega
    | succ m ihm =>
      intro hm
      rw [List.range_succ, List.find?_append]
      by_cases c : i < m
      · rw [ihm c]
        rfl
      · have e : m = i := by omega
        subst e
        rw [key1 m (le_refl _)]
        simp only [Option.none_or, List.find?_cons]
        rw [decide_eq_true habove]
  by_cases c : i < n
  · rw [key2 (hat c) n c]
    rfl
  · have e : i = n := by omega
    subst e
    rw [key1 i (le_refl _)]
    rfl

/-- The descent follows the pointer at `routeOffset`. -/
theorem LookupOrUpdateInternal_route {bc : List (BTreeNode K V)} {node : Nat}
    {b : BTreeNode K V} (hb : bc[node]? = some b)
    (ht : b.nodetype = BTREE_ROOT_NODE ∨ b.nodetype = BTREE_INTERIOR_NODE)
    (hpos : 0 < b.numkeys) (key : K) (fuel : Nat) (op : BTreeOp) (value : V) :
    LookupOrUpdateInternal (fuel + 1) bc node op key value =
      LookupOrUpdateInternal fuel bc (b.ptrs (routeOffset b key)) op key value := by
  obtain ⟨i, hi, h1, h2, hdesc⟩ := LookupOrUpdateInternal_descend hb ht hpos key
  rw [hdesc]
  have : routeOffset b key = i :=
    find_first_above b.keys key b.numkeys i hi (fun j hj => not_lt.mpr (h1 j hj)) h2
  rw [this]

end WellFormedLemmas

section ClaimsLookup
variable {K V : Type} [LinearOrder K]

/-- A leaf of the three-level tree is well formed within its range. -/
theorem threeLevel_leaf (n : Nat) (k1 v1 k2 v2 : Nat) (lo hi : Option Nat)
    (hb : threeLevelIndex.buffercache[n]? = some (leafNode [(k1, v1), (k2, v2)]))
    (h12 : k1 < k2) (hw1 : Within lo hi k1) (hw2 : Within lo hi k2) :
    WellFormed threeLevelIndex.buffercache n lo hi 0 := by
  refine WellFormed.leaf hb rfl ?_ ?_
  · intro i j hij hj
    have hj2 : j < 2 := hj
    have hj1 : j = 1 := by omega
    have hi0 : i = 0 := by omega
    subst hj1 hi0
    exact h12
  · intro j hj
    have hj2 : j < 2 := hj
    rcases Nat.lt_or_ge j 1 with c | c
    · have : j = 0 := by omega
      subst this
      exact hw1
    · have : j = 1 := by omega
      subst this
      exact hw2

/-- An interior node of the three-level tree with one separator is well formed
over two well-formed leaves. -/
theorem threeLevel_inner (n : Nat) (t : NodeType) (k p0 p1 : Nat) (lo hi : Option Nat)
    (hb : threeLevelIndex.buffercache[n]? = some (innerNode t [k] [p0, p1]))
    (ht : t = BTREE_ROOT_NODE ∨ t = BTREE_INTERIOR_NODE) (hw : Within lo hi k) (h : Nat)
    (h0 : WellFormed threeLevelIndex.buffercache p0 lo (some k) h)
    (h1 : WellFormed threeLevelIndex.buffercache p1 (some k) hi h) :
    WellFormed threeLevelIndex.buffercache n lo hi (h + 1) := by
  refine WellFormed.inner hb ht Nat.one_pos ?_ ?_ ?_
  · intro i j hij hj
    have hj1 : j < 1 := hj
    omega
  · intro j hj
    have hj1 : j < 1 := hj
    have : j = 0 := by omega
    subst this
    exact hw
  · intro i hi'
    have hi1 : i ≤ 1 := hi'
    rcases Nat.lt_or_ge i 1 with c | c
    · have : i = 0 := by omega
      subst this
      exact h0
    · have : i = 1 := by omega
      subst this
      exact h1

/-- The three-level tree satisfies the structural invariants. -/
theorem threeLevelIndex_wellFormed :
    WellFormed threeLevelIndex.buffercache threeLevelIndex.superblock.rootnode none none 2 := by
  have bnd : ∀ (a b : Nat), a ≤ b → ∀ l, some a = some l → l ≤ b := by
    intro a b hab l hl
    cases hl
    exact hab
  have bnd' : ∀ (a b : Nat), b < a → ∀ u, some a = some u → b < u := by
    intro a b hab u hu
    cases hu
    exact hab
  have non : ∀ (P : Nat → Prop) (l : Nat), (none : Option Nat) = some l → P l := by
    intro P l hl
    cases hl
  refine threeLevel_inner 1 BTREE_ROOT_NODE 30 2 3 none none rfl (Or.inl rfl)
    ⟨non _, non _⟩ 1 ?_ ?_
  · refine threeLevel_inner 2 BTREE_INTERIOR_NODE 10 4 5 none (some 30) rfl (Or.inr rfl)
      ⟨non _, bnd' 30 10 (by decide)⟩ 0 ?_ ?_
    · exact threeLevel_leaf 4 1 101 5 105 none (some 10) rfl (by decide)
        ⟨non _, bnd' 10 1 (by decide)⟩ ⟨non _, bnd' 10 5 (by decide)⟩
    · exact threeLevel_leaf 5 10 110 20 120 (some 10) (some 30) rfl (by decide)
        ⟨bnd 10 10 (by decide), bnd' 30 10 (by decide)⟩
        ⟨bnd 10 20 (by decide), bnd' 30 20 (by decide)⟩
  · refine threeLevel_inner 3 BTREE_INTERIOR_NODE 50 6 7 (some 30) none rfl (Or.inr rfl)
      ⟨bnd 30 50 (by decide), non _⟩ 0 ?_ ?_
    · exact threeLevel_leaf 6 30 130 40 140 (some 30) (some 50) rfl (by decide)
        ⟨bnd 30 30 (by decide), bnd' 50 30 (by decide)⟩
        ⟨bnd 30 40 (by decide), bnd' 50 40 (by decide)⟩
    · exact threeLevel_leaf 7 50 150 60 160 (some 50) none rfl (by decide)
        ⟨bnd 50 50 (by decide), non _⟩ ⟨bnd 50 60 (by decide), non _⟩

/-- C18: on every block store whose tree below the superblock's root satisfies
the structural invariants, `Lookup(key)` returns `ERROR_NOERROR` with `v` when
`(key, v)` is stored in a leaf and `ERROR_NONEXISTENT` when `key` is stored in no
leaf; at every root or interior node with keys the descent goes into the pointer
at the first `i` with `key < K_i`, and into the last pointer when there is
none. -/
theorem C18_lookup_correct_on_well_formed (s : BTreeIndex K V) (h : Nat)
    (hwf : WellFormed s.buffercache s.superblock.rootnode none none h) (key : K) (v0 : V) :
    (∀ v, StoredUnder s.buffercache key v s.superblock.rootnode →
      Lookup s key v0 = some (ERROR_NOERROR, v)) ∧
    ((∀ v, ¬ StoredUnder s.buffercache key v s.superblock.rootnode) →
      Lookup s key v0 = some (ERROR_NONEXISTENT, v0)) ∧
    ∀ (n : Nat) (b : BTreeNode K V) (fuel : Nat) (op : BTreeOp) (value : V),
      s.buffercache[n]? = some b →
      (b.nodetype = BTREE_ROOT_NODE ∨ b.nodetype = BTREE_INTERIOR_NODE) → 0 < b.numkeys →
      LookupOrUpdateInternal (fuel + 1) s.buffercache n op key value =
        LookupOrUpdateInternal fuel s.buffercache (b.ptrs (routeOffset b key)) op key value := by
  obtain ⟨h1, h2⟩ := hwf.lookup key s.buffercache.length hwf.height_lt v0
  refine ⟨fun v hs => ?_, fun hnone => ?_, fun n b fuel op value hb ht hpos => ?_⟩
  · unfold Lookup
    rw [h1 v hs]
    rfl
  · unfold Lookup
    rw [h2 hnone]
    rfl
  · exact LookupOrUpdateInternal_route hb ht hpos key fuel op value

/-- Witness for C18: the pair `(40, 140)` is stored in the leaf of block 6 of the
three-level tree, under pointer 1 of the root and pointer 0 of block 3, and
`Lookup(40)` returns 140. -/
theorem C18_lookup_correct_on_well_formed_witness :
    WellFormed threeLevelIndex.buffercache threeLevelIndex.superblock.rootnode none none 2 ∧
    StoredUnder threeLevelIndex.buffercache 40 140 threeLevelIndex.superblock.rootnode ∧
    Lookup threeLevelIndex 40 0 = some (ERROR_NOERROR, 140) :=
  have hs : StoredUnder threeLevelIndex.buffercache 40 140 threeLevelIndex.superblock.rootnode :=
    StoredUnder.inner (b := innerNode BTREE_ROOT_NODE [30] [2, 3]) (i := 1) rfl (Or.inl rfl)
      (by decide) (by decide)
      (StoredUnder.inner (b := innerNode BTREE_INTERIOR_NODE [50] [6, 7]) (i := 0) rfl
        (Or.inr rfl) (by decide) (by decide)
        (StoredUnder.leaf (b := leafNode [(30, 130), (40, 140)]) (j := 1) rfl rfl (by decide)
          rfl rfl))
  ⟨threeLevelIndex_wellFormed, hs,
    (C18_lookup_correct_on_well_formed threeLevelIndex 2 threeLevelIndex_wellFormed 40 0).1
      140 hs⟩

end ClaimsLookup

section RootTagBasics
variable {K V : Type}

theorem Serialize_ok_iff {bc bc' : List (BTreeNode K V)} {n : Nat} {b : BTreeNode K V} :
    Serialize bc n b = .ok bc' ↔ n < bc.length ∧ bc' = bc.set n b := by
  unfold Serialize
  by_cases h : n < bc.length
  · rw [if_pos h]
    constructor
    · intro e
      cases e
      exact ⟨h, rfl⟩
    · rintro ⟨_, e⟩
      rw [e]
  · rw [if_neg h]
    constructor
    · intro e
      cases e
    · rintro ⟨h', _⟩
      exact absurd h' h

/-- The root block is the only block tagged root, so a block with another tag is
not the root block. -/
theorem UniqueRootTag.ne_root {s : BTreeIndex K V} (hj : UniqueRootTag s) {n : Nat}
    {b : BTreeNode K V} (hb : s.buffercache[n]? = some b) (ht : b.nodetype ≠ BTREE_ROOT_NODE) :
    n ≠ s.superblock.rootnode := by
  intro e
  obtain ⟨r, hr, hrt⟩ := hj.root
  rw [← e, hb] at hr
  cases hr
  exact ht hrt

/-- Writing a block keeps the root-tag condition when the block written carries
the root tag exactly if it is written to the root block. -/
theorem UniqueRootTag.write {s : BTreeIndex K V} (hj : UniqueRootTag s) {n : Nat}
    {b : BTreeNode K V} {bc' : List (BTreeNode K V)} (hs : Serialize s.buffercache n b = .ok bc')
    (h1 : b.nodetype = BTREE_ROOT_NODE → n = s.superblock.rootnode)
    (h2 : n = s.superblock.rootnode → b.nodetype = BTREE_ROOT_NODE) :
    UniqueRootTag { s with buffercache := bc' } := by
  obtain ⟨hlen, rfl⟩ := Serialize_ok_iff.mp hs
  refine ⟨hj.idx, hj.sbtag, hj.rootnz, ?_, ?_⟩
  · by_cases e : n = s.superblock.rootnode
    · refine ⟨b, ?_, h2 e⟩
      show (s.buffercache.set n b)[s.superblock.rootnode]? = some b
      rw [← e, List.getElem?_set_self hlen]
    · obtain ⟨r, hr, hrt⟩ := hj.root
      refine ⟨r, ?_, hrt⟩
      show (s.buffercache.set n b)[s.superblock.rootnode]? = some r
      rw [List.getElem?_set_ne e]
      exact hr
  · intro m b' hm ht
    have hm' : (s.buffercache.set n b)[m]? = some b' := hm
    by_cases e : n = m
    · subst e
      rw [List.getElem?_set_self hlen] at hm'
      cases hm'
      exact h1 ht
    · rw [List.getElem?_set_ne e] at hm'
      exact hj.only m b' hm' ht

/-- A successful `AllocateNode` keeps the root-tag condition and the root index;
the block it hands out is not block 0 and still carries the unallocated tag. -/
theorem AllocateNode_tag [LinearOrder K] {s s1 : BTreeIndex K V} (hj : UniqueRootTag s) {n : Nat}
    (h : AllocateNode s = some (ERROR_NOERROR, n, s1)) :
    UniqueRootTag s1 ∧ s1.superblock.rootnode = s.superblock.rootnode ∧ n ≠ 0 ∧
      (∃ F, s1.buffercache[n]? = some F ∧ F.nodetype = BTREE_UNALLOCATED_BLOCK) ∧
      (∀ m, m ≠ 0 → s1.buffercache[m]? = s.buffercache[m]?) := by
  unfold AllocateNode at h
  by_cases hz : s.superblock.freelist = 0
  · simp [hz] at h
  simp only [hz, if_false] at h
  cases hu : Unserialize s.buffercache s.superblock.freelist with
  | error e => rw [hu] at h; cases h
  | ok node =>
    rw [hu] at h
    dsimp only at h
    by_cases ht : node.nodetype = BTREE_UNALLOCATED_BLOCK
    swap
    · rw [if_pos ht] at h; cases h
    rw [if_neg (by simpa using ht)] at h
    simp only [Option.some.injEq, Prod.mk.injEq, true_and] at h
    obtain ⟨hn, hs1⟩ := h
    subst hn
    have hnode := Unserialize_ok_iff.mp hu
    have hframe : ∀ m, m ≠ 0 → s1.buffercache[m]? = s.buffercache[m]? := by
      intro m hm
      rw [← hs1]
      dsimp only
      rw [hj.idx]
      unfold Serialize
      split_ifs
      · exact List.getElem?_set_ne (fun e => hm e.symm)
      · rfl
    have hzero : ∀ b, s1.buffercache[0]? = some b → b.nodetype ≠ BTREE_ROOT_NODE := by
      intro b hb
      rw [← hs1] at hb
      dsimp only at hb
      rw [hj.idx] at hb
      unfold Serialize at hb
      split_ifs at hb with hl
      · rw [List.getElem?_set_self hl] at hb
        cases hb
        show s.superblock.nodetype ≠ _
        rw [hj.sbtag]
        decide
      · obtain ⟨r, hr, hrt⟩ := hj.root
        intro hbt
        exact hj.rootnz (hj.only 0 b hb hbt).symm
    have hroot : s1.superblock.rootnode = s.superblock.rootnode := by rw [← hs1]
    refine ⟨⟨by rw [← hs1]; exact hj.idx, by rw [← hs1]; exact hj.sbtag,
        by rw [hroot]; exact hj.rootnz, ?_, ?_⟩, hroot, hz, ⟨node, ?_, ht⟩, hframe⟩
    · obtain ⟨r, hr, hrt⟩ := hj.root
      exact ⟨r, by rw [hroot, hframe _ hj.rootnz]; exact hr, hrt⟩
    · intro m b hm hbt
      by_cases e : m = 0
      · subst e
        exact absurd hbt (hzero b hm)
      · rw [hframe m e] at hm
        rw [hroot]
        exact hj.only m b hm hbt
    · rw [hframe _ hz]
      exact hnode

theorem SetVal_shape (b b' : BTreeNode K V) (o : Nat) (v : V) (h : SetVal b o v = .ok b') :
    b'.nodetype = b.nodetype ∧ b'.numkeys = b.numkeys := by
  unfold SetVal at h
  split at h <;> simp at h
  subst h
  exact ⟨rfl, rfl⟩

/-- The copy loop of the leaf split keeps the tags of both nodes. -/
theorem splitLeafLoop_tags (cfg : Config K V) (k1 : Nat) :
    ∀ (l : List Nat) (orig_node new_node o n : BTreeNode K V),
      splitLeafLoop cfg k1 l orig_node new_node = .ok (o, n) →
      o.nodetype = orig_node.nodetype ∧ n.nodetype = new_node.nodetype := by
  intro l
  induction l with
  | nil =>
    intro orig_node new_node o n h
    simp only [splitLeafLoop, Except.ok.injEq, Prod.mk.injEq] at h
    rw [← h.1, ← h.2]
    exact ⟨rfl, rfl⟩
  | cons iter rest ih =>
    intro orig_node new_node o n h
    unfold splitLeafLoop at h
    simp only [bind, Except.bind] at h
    cases h1 : GetKey orig_node iter with
    | error e => rw [h1] at h; cases h
    | ok k =>
      rw [h1] at h
      dsimp only at h
      cases h2 : SetKey new_node (iter - k1) k with
      | error e => rw [h2] at h; cases h
      | ok n1 =>
        rw [h2] at h
        dsimp only at h
        cases h3 : SetKey orig_node iter cfg.nullKey with
        | error e => rw [h3] at h; cases h
        | ok o1 =>
          rw [h3] at h
          dsimp only at h
          cases h4 : GetVal o1 iter with
          | error e => rw [h4] at h; cases h
          | ok v =>
            rw [h4] at h
            dsimp only at h
            cases h5 : SetVal n1 (iter - k1) v with
            | error e => rw [h5] at h; cases h
            | ok n2 =>
              rw [h5] at h
              dsimp only at h
              cases h6 : SetVal o1 iter cfg.nullVal with
              | error e => rw [h6] at h; cases h
              | ok o2 =>
                rw [h6] at h
                dsimp only at h
                obtain ⟨a1, a2⟩ := ih _ _ _ _ h
                rw [a1, a2, (SetVal_shape _ _ _ _ h6).1, (SetVal_shape _ _ _ _ h5).1,
                  ((codec_ok_shape _ _ _).1 _ h3).1, ((codec_ok_shape _ _ _).1 _ h2).1]
                exact ⟨rfl, rfl⟩

/-- The copy loop of the interior split keeps the tag of the sibling. -/
theorem splitInteriorLoop_new_tag (cfg : Config K V) (k1 : Nat) :
    ∀ (l : List Nat) (orig_node new_node o n : BTreeNode K V),
      splitInteriorLoop cfg k1 l orig_node new_node = .ok (o, n) →
      n.nodetype = new_node.nodetype := by
  intro l
  induction l with
  | nil =>
    intro orig_node new_node o n h
    simp only [splitInteriorLoop, Except.ok.injEq, Prod.mk.injEq] at h
    rw [← h.2]
  | cons iter rest ih =>
    intro orig_node new_node o n h
    unfold splitInteriorLoop at h
    simp only [bind, Except.bind] at h
    cases h1 : GetKey orig_node iter with
    | error e => rw [h1] at h; cases h
    | ok k =>
      rw [h1] at h
      dsimp only at h
      cases h2 : SetKey new_node (iter - (k1 + 1)) k with
      | error e => rw [h2] at h; cases h
      | ok n1 =>
        rw [h2] at h
        dsimp only at h
        cases h3 : SetKey orig_node iter cfg.nullKey with
        | error e => rw [h3] at h; cases h
        | ok o1 =>
          rw [h3] at h
          dsimp only at h
          cases h4 : GetPtr o1 iter with
          | error e => rw [h4] at h; cases h
          | ok p =>
            rw [h4] at h
            dsimp only at h
            cases h5 : SetPtr n1 (iter - (k1 + 1)) p with
            | error e => rw [h5] at h; cases h
            | ok n2 =>
              rw [h5] at h
              dsimp only at h
              cases h6 : SetPtr o1 iter 0 with
              | error e => rw [h6] at h; cases h
              | ok o2 =>
                rw [h6] at h
                dsimp only at h
                rw [ih _ _ _ _ h, ((codec_ok_shape _ _ _).2 _ h5).1,
                  ((codec_ok_shape _ _ _).1 _ h2).1]

/-- The move of the upper half keeps the tag of the sibling. -/
theorem splitInteriorMove_new_tag (cfg : Config K V) (k1 : Nat)
    (orig_node new_node o n : BTreeNode K V)
    (h : splitInteriorMove cfg k1 orig_node new_node = .ok (o, n)) :
    n.nodetype = new_node.nodetype := by
  unfold splitInteriorMove at h
  simp only [bind, Except.bind, pure, Except.pure] at h
  cases h1 : splitInteriorLoop cfg k1
      (List.range' (k1 + 1) (orig_node.numkeys - (k1 + 1))) orig_node new_node with
  | error e => rw [h1] at h; cases h
  | ok r =>
    obtain ⟨o1, n1⟩ := r
    have t1 := splitInteriorLoop_new_tag cfg k1 _ _ _ _ _ h1
    rw [h1] at h
    dsimp only at h
    cases h2 : SetKey o1 k1 cfg.nullKey with
    | error e => rw [h2] at h; cases h
    | ok o2 =>
      rw [h2] at h
      dsimp only at h
      cases h3 : GetPtr o2 o2.numkeys with
      | error e => rw [h3] at h; cases h
      | ok p =>
        rw [h3] at h
        dsimp only at h
        cases h4 : SetPtr o2 o2.numkeys 0 with
        | error e => rw [h4] at h; cases h
        | ok o3 =>
          rw [h4] at h
          simp only [Except.ok.injEq, Prod.mk.injEq] at h
          rw [← h.2]
          cases h5 : SetPtr n1 k1 p with
          | error e => exact t1
          | ok n2 =>
            dsimp only
            rw [((codec_ok_shape _ _ _).2 _ h5).1]
            exact t1

/-- Filling the new root keeps its tag. -/
theorem newRootFill_tag (new_root new_node nr : BTreeNode K V) (a b : Nat)
    (h : newRootFill new_root new_node a b = .ok nr) : nr.nodetype = new_root.nodetype := by
  unfold newRootFill at h
  simp only [bind, Except.bind] at h
  cases h1 : GetKey new_node 0 with
  | error e => rw [h1] at h; cases h
  | ok k =>
    rw [h1] at h
    dsimp only at h
    cases h2 : SetKey new_root 0 k with
    | error e => rw [h2] at h; cases h
    | ok r1 =>
      rw [h2] at h
      dsimp only at h
      cases h3 : SetPtr r1 0 a with
      | error e => rw [h3] at h; cases h
      | ok r2 =>
        rw [h3] at h
        dsimp only at h
        rw [((codec_ok_shape _ _ _).2 _ h).1, ((codec_ok_shape _ _ _).2 _ h3).1,
          ((codec_ok_shape _ _ _).1 _ h2).1]

/-- The tree formatted by `Attach(0, true)` satisfies the root-tag condition. -/
theorem Attach_root_tag [LinearOrder K] (cfg : Config K V) (s0 s : BTreeIndex K V)
    (hN : 2 ≤ s0.buffercache.length) (hA : Attach cfg s0 0 true = some (ERROR_NOERROR, s)) :
    UniqueRootTag s := by
  obtain ⟨s1, hA1, hidx, hsb, hlen, h0, h1, hfree⟩ := Attach_create cfg s0 hN
  rw [hA] at hA1
  simp only [Option.some.injEq, Prod.mk.injEq, true_and] at hA1
  subst hA1
  refine ⟨hidx, by rw [hsb]; rfl, by rw [hsb]; show (1 : Nat) ≠ 0; omega,
    ⟨newRootNode cfg, by rw [hsb]; exact h1, rfl⟩, ?_⟩
  intro n b hb ht
  rw [hsb]
  show n = 1
  rcases Nat.lt_trichotomy n 1 with c | c | c
  · have : n = 0 := by omega
    subst this
    rw [h0] at hb
    cases hb
    cases ht
  · exact c
  · have hn : n < s0.buffercache.length := by
      rcases List.getElem?_eq_some_iff.mp hb with ⟨hl, _⟩
      omega
    rw [hfree n (by omega) hn] at hb
    cases hb
    cases ht

end RootTagBasics

section RootTagInsert
variable {K V : Type} [LinearOrder K]

omit [LinearOrder K] in
theorem RootStep.same {s s' : BTreeIndex K V} (hj : UniqueRootTag s')
    (hr : s'.superblock.rootnode = s.superblock.rootnode) : RootStep s s' :=
  ⟨hj, Or.inl hr⟩

omit [LinearOrder K] in
/-- Nothing has happened yet. -/
theorem Kept.start (s : BTreeIndex K V) : Kept s s :=
  ⟨rfl, fun _ F h ht => ⟨F, h, ht⟩⟩

omit [LinearOrder K] in
/-- Two stretches that keep the root index and free no block make one. -/
theorem Kept.andThen {s s1 s2 : BTreeIndex K V} (h1 : Kept s s1) (h2 : Kept s1 s2) :
    Kept s s2 := by
  refine ⟨h2.1.trans h1.1, fun n F h ht => ?_⟩
  obtain ⟨F1, hF1, hF1t⟩ := h2.2 n F h ht
  exact h1.2 n F1 hF1 hF1t

omit [LinearOrder K] in
/-- Writing a block whose tag is not the unallocated one frees no block. -/
theorem Kept.write_tagged {s : BTreeIndex K V} {n : Nat} {b : BTreeNode K V}
    {bc' : List (BTreeNode K V)} (hs : Serialize s.buffercache n b = .ok bc')
    (ht : b.nodetype ≠ BTREE_UNALLOCATED_BLOCK) : Kept s { s with buffercache := bc' } := by
  obtain ⟨hl, rfl⟩ := Serialize_ok_iff.mp hs
  refine ⟨rfl, fun m F hm hFt => ?_⟩
  have hm' : (s.buffercache.set n b)[m]? = some F := hm
  by_cases hmn : m = n
  · subst hmn
    rw [List.getElem?_set_self hl] at hm'
    cases hm'
    exact absurd hFt ht
  · rw [List.getElem?_set_ne (fun e => hmn e.symm)] at hm'
    exact ⟨F, hm', hFt⟩

/-- A successful `AllocateNode` keeps the root index and frees no block. -/
theorem AllocateNode_kept {s s1 : BTreeIndex K V} (hj : UniqueRootTag s) {n : Nat}
    (h : AllocateNode s = some (ERROR_NOERROR, n, s1)) : Kept s s1 := by
  obtain ⟨_, hr, _, _, hframe⟩ := AllocateNode_tag hj h
  refine ⟨hr, fun m F hm hFt => ?_⟩
  by_cases hm0 : m = 0
  swap
  · rw [hframe m hm0] at hm
    exact ⟨F, hm, hFt⟩
  subst hm0
  unfold AllocateNode at h
  by_cases hz : s.superblock.freelist = 0
  · simp [hz] at h
  simp only [hz, if_false] at h
  cases hu : Unserialize s.buffercache s.superblock.freelist with
  | error e => rw [hu] at h; cases h
  | ok node =>
    rw [hu] at h
    dsimp only at h
    by_cases ht : node.nodetype = BTREE_UNALLOCATED_BLOCK
    swap
    · rw [if_pos ht] at h; cases h
    rw [if_neg (by simpa using ht)] at h
    simp only [Option.some.injEq, Prod.mk.injEq, true_and] at h
    obtain ⟨_, hs1⟩ := h
    rw [← hs1] at hm
    dsimp only at hm
    rw [hj.idx] at hm
    unfold Serialize at hm
    split_ifs at hm with hl
    · rw [List.getElem?_set_self hl] at hm
      cases hm
      have hFt' : s.superblock.nodetype = BTREE_UNALLOCATED_BLOCK := hFt
      rw [hj.sbtag] at hFt'
      cases hFt'
    · exact ⟨F, hm, hFt⟩

omit [LinearOrder K] in
/-- A step made after a stretch that kept the root index and freed no block is a
step from the start. -/
theorem RootStep.after {s s1 s' : BTreeIndex K V} (hk : Kept s s1) (h : RootStep s1 s') :
    RootStep s s' := by
  obtain ⟨hj, hm⟩ := h
  refine ⟨hj, ?_⟩
  rcases hm with hm | ⟨hb, F, hF, hFt⟩
  · exact Or.inl (hm.trans hk.1)
  · refine Or.inr ⟨?_, hk.2 _ F hF hFt⟩
    rw [← hk.1]
    exact hb

omit [LinearOrder K] in
/-- Writing a block that is not tagged root to a block that was not tagged root
keeps the root-tag condition. -/
theorem UniqueRootTag.write_other {s : BTreeIndex K V} (hj : UniqueRootTag s) {n : Nat}
    {b b0 : BTreeNode K V} {bc' : List (BTreeNode K V)}
    (hs : Serialize s.buffercache n b = .ok bc') (hb0 : s.buffercache[n]? = some b0)
    (ht0 : b0.nodetype ≠ BTREE_ROOT_NODE) (ht : b.nodetype ≠ BTREE_ROOT_NODE) :
    UniqueRootTag { s with buffercache := bc' } :=
  hj.write hs (fun h => absurd h ht) (fun e => absurd e (hj.ne_root hb0 ht0))

omit [LinearOrder K] in
/-- Writing a block back with the tag it had keeps the root-tag condition. -/
theorem UniqueRootTag.write_back {s : BTreeIndex K V} (hj : UniqueRootTag s) {n : Nat}
    {b b0 : BTreeNode K V} {bc' : List (BTreeNode K V)}
    (hs : Serialize s.buffercache n b = .ok bc') (hb0 : s.buffercache[n]? = some b0)
    (ht : b.nodetype = b0.nodetype) :
    UniqueRootTag { s with buffercache := bc' } := by
  refine hj.write hs (fun h => hj.only n b0 hb0 (ht ▸ h)) (fun e => ?_)
  obtain ⟨r, hr, hrt⟩ := hj.root
  rw [← e, hb0] at hr
  cases hr
  rw [ht]
  exact hrt

/-- The first insert keeps the root-tag condition and the root index. -/
theorem insertEmptyRoot_tag (cfg : Config K V) {s s' : BTreeIndex K V} (hj : UniqueRootTag s)
    {node : Nat} {b : BTreeNode K V} (hb : s.buffercache[node]? = some b)
    (key : K) (value : V)
    (h : insertEmptyRoot cfg node b key value s = some (ERROR_NOERROR, s')) :
    UniqueRootTag s' ∧ s'.superblock.rootnode = s.superblock.rootnode := by
  unfold insertEmptyRoot at h
  cases hA : AllocateNode s with
  | none => rw [hA] at h; cases h
  | some res =>
    obtain ⟨rc, left_loc, s1⟩ := res
    rw [hA] at h
    dsimp only at h
    by_cases hrc : rc = ERROR_NOERROR
    swap
    · rw [if_pos hrc] at h
      simp only [Option.some.injEq, Prod.mk.injEq] at h
      exact absurd h.1 hrc
    subst hrc
    rw [if_neg (by simp)] at h
    obtain ⟨hj1, hr1, hl0, ⟨F, hF, hFt⟩, hfr1⟩ := AllocateNode_tag hj hA
    rw [Unserialize_ok_iff.mpr hF] at h
    dsimp only at h
    cases hS1 : Serialize s1.buffercache left_loc
        { zeroData cfg { F with nodetype := BTREE_LEAF_NODE } with numkeys := 0 } with
    | error e =>
      rw [hS1] at h
      simp only [Option.some.injEq, Prod.mk.injEq] at h
      have := Serialize_error_kind hS1
      rw [this] at h
      exact absurd h.1 (by decide)
    | ok bc2 =>
      rw [hS1] at h
      dsimp only at h
      have hj2 : UniqueRootTag { s1 with buffercache := bc2 } :=
        hj1.write_other hS1 hF (by rw [hFt]; decide) (by show BTREE_LEAF_NODE ≠ _; decide)
      cases hA2 : AllocateNode { s1 with buffercache := bc2 } with
      | none => rw [hA2] at h; cases h
      | some res =>
        obtain ⟨rc2, right_loc, s3⟩ := res
        rw [hA2] at h
        dsimp only at h
        by_cases hrc2 : rc2 = ERROR_NOERROR
        swap
        · rw [if_pos hrc2] at h
          simp only [Option.some.injEq, Prod.mk.injEq] at h
          exact absurd h.1 hrc2
        subst hrc2
        rw [if_neg (by simp)] at h
        obtain ⟨hj3, hr3, _, ⟨F2, hF2, hF2t⟩, hfr3⟩ := AllocateNode_tag hj2 hA2
        rw [Unserialize_ok_iff.mpr hF2] at h
        dsimp only at h
        have hr3' : s3.superblock.rootnode = s.superblock.rootnode := by rw [hr3]; exact hr1
        cases hW : (do
            let right_node ← SetKey
              { zeroData cfg { F2 with nodetype := BTREE_LEAF_NODE } with numkeys := 1 } 0 key
            SetVal right_node 0 value : Except ERROR_T (BTreeNode K V)) with
        | error e =>
          rw [hW] at h
          simp only [Option.some.injEq, Prod.mk.injEq] at h
          rw [← h.2]
          exact ⟨hj3, hr3'⟩
        | ok right_node =>
          rw [hW] at h
          dsimp only at h
          have hrt : right_node.nodetype = BTREE_LEAF_NODE := by
            simp only [bind, Except.bind] at hW
            cases hk : SetKey
                { zeroData cfg { F2 with nodetype := BTREE_LEAF_NODE } with numkeys := 1 } 0 key with
            | error e => rw [hk] at hW; cases hW
            | ok r1 =>
              rw [hk] at hW
              dsimp only at hW
              rw [(SetVal_shape _ _ _ _ hW).1, ((codec_ok_shape _ _ _).1 _ hk).1]
              rfl
          cases hS2 : Serialize s3.buffercache right_loc right_node with
          | error e =>
            rw [hS2] at h
            simp only [Option.some.injEq, Prod.mk.injEq] at h
            rw [← h.2]
            exact ⟨hj3, hr3'⟩
          | ok bc4 =>
            rw [hS2] at h
            dsimp only at h
            have hj4 : UniqueRootTag { s3 with buffercache := bc4 } :=
              hj3.write_other hS2 hF2 (by rw [hF2t]; decide) (by rw [hrt]; decide)
            cases hR : (do
                let b ← SetKey { b with numkeys := 1 } 0 key
                let b ← SetPtr b 0 left_loc
                SetPtr b 1 right_loc : Except ERROR_T (BTreeNode K V)) with
            | error e =>
              rw [hR] at h
              simp only [Option.some.injEq, Prod.mk.injEq] at h
              rw [← h.2]
              exact ⟨hj4, hr3'⟩
            | ok b' =>
              rw [hR] at h
              dsimp only at h
              have hbt : b'.nodetype = b.nodetype := by
                simp only [bind, Except.bind] at hR
                cases hk : SetKey { b with numkeys := 1 } 0 key with
                | error e => rw [hk] at hR; cases hR
                | ok r1 =>
                  rw [hk] at hR
                  dsimp only at hR
                  cases hp : SetPtr r1 0 left_loc with
                  | error e => rw [hp] at hR; cases hR
                  | ok r2 =>
                    rw [hp] at hR
                    dsimp only at hR
                    rw [((codec_ok_shape _ _ _).2 _ hR).1, ((codec_ok_shape _ _ _).2 _ hp).1,
                      ((codec_ok_shape _ _ _).1 _ hk).1]
              cases hS3 : Serialize bc4 node b' with
              | error e =>
                have hS3' : Serialize ({ s3 with buffercache := bc4 } : BTreeIndex K V).buffercache
                    node b' = .error e := hS3
                rw [hS3'] at h
                simp only [Option.some.injEq, Prod.mk.injEq] at h
                rw [← h.2]
                exact ⟨hj4, hr3'⟩
              | ok bc5 =>
                have hS3' : Serialize ({ s3 with buffercache := bc4 } : BTreeIndex K V).buffercache
                    node b' = .ok bc5 := hS3
                rw [hS3'] at h
                simp only [Option.some.injEq, Prod.mk.injEq, true_and] at h
                rw [← h]
                refine ⟨?_, hr3'⟩
                -- the block read at the start is still in place unless it was block 0 or
                -- one of the two blocks handed out
                by_cases hbr : b.nodetype = BTREE_ROOT_NODE
                · have hnode : node = s.superblock.rootnode := hj.only node b hb hbr
                  exact hj4.write hS3' (fun _ => by rw [hnode]; exact hr3'.symm)
                    (fun _ => by rw [hbt]; exact hbr)
                · have hne : node ≠ s.superblock.rootnode := hj.ne_root hb hbr
                  exact hj4.write hS3' (fun hx => absurd (hbt ▸ hx) hbr)
                    (fun e => absurd (e.trans hr3') hne)

end RootTagInsert

section RootTagSplit
variable {K V : Type} [LinearOrder K]

/-- `InteriorPointerInsert` makes a root step when the `Split` at its end does. -/
theorem InteriorPointerInsertWith_tag (cfg : Config K V)
    (split : BTreeIndex K V → Option (ERROR_T × BTreeIndex K V)) (node : Nat) (key : K)
    (ptr : Nat) {s s' : BTreeIndex K V} (hj : UniqueRootTag s)
    (hsplit : ∀ s1 s2, UniqueRootTag s1 →
      s1.superblock.rootnode = s.superblock.rootnode →
      split s1 = some (ERROR_NOERROR, s2) → RootStep s1 s2)
    (h : InteriorPointerInsertWith cfg split node key ptr s = some (ERROR_NOERROR, s')) :
    RootStep s s' := by
  unfold InteriorPointerInsertWith at h
  cases hu : Unserialize s.buffercache node with
  | error e =>
    rw [hu] at h
    simp only [Option.some.injEq, Prod.mk.injEq] at h
    exact absurd h.1 (Unserialize_error_ne hu)
  | ok b =>
    have hb := Unserialize_ok_iff.mp hu
    have hlen : node < s.buffercache.length := by
      rcases List.getElem?_eq_some_iff.mp hb with ⟨hl, _⟩; exact hl
    rw [hu] at h
    dsimp only at h
    by_cases hty : b.nodetype ≠ BTREE_INTERIOR_NODE ∧ b.nodetype ≠ BTREE_ROOT_NODE
    · rw [if_pos hty] at h
      cases h
    rw [if_neg hty] at h
    by_cases hz : b.numkeys = 0
    · rw [if_pos hz] at h
      cases h
    rw [if_neg hz] at h
    have ht : b.nodetype = BTREE_ROOT_NODE ∨ b.nodetype = BTREE_INTERIOR_NODE := by
      by_cases c : b.nodetype = BTREE_ROOT_NODE
      · exact Or.inl c
      · by_cases c' : b.nodetype = BTREE_INTERIOR_NODE
        · exact Or.inr c'
        · exact absurd ⟨c', c⟩ hty
    rcases findSlot_spec b key with ⟨off, h1, _, _, h4⟩ | ⟨j, _, _, h4⟩
    swap
    · rw [h4] at h
      cases h
    rw [h4] at h
    simp only at h
    rw [interiorInsert_written b off key ptr ht (by omega) h1] at h
    simp only [Serialize, hlen, if_true] at h
    have hj1 : UniqueRootTag
        { s with buffercache := s.buffercache.set node (interiorInsertNode b off key ptr) } :=
      hj.write_back (Serialize_ok_iff.mpr ⟨hlen, rfl⟩) hb rfl
    by_cases hc : (interiorInsertNode b off key ptr).numkeys ≥ cfg.SlotsAsInterior
    · rw [if_pos hc] at h
      cases hsp : split
          { s with buffercache := s.buffercache.set node (interiorInsertNode b off key ptr) } with
      | none => rw [hsp] at h; cases h
      | some res =>
        obtain ⟨rc, s2⟩ := res
        rw [hsp] at h
        dsimp only at h
        by_cases hrc : rc = ERROR_NOERROR
        · subst hrc
          rw [if_neg (by simp)] at h
          simp only [Option.some.injEq, Prod.mk.injEq, true_and] at h
          subst h
          have hstep := hsplit _ _ hj1 rfl hsp
          refine RootStep.after (Kept.write_tagged (Serialize_ok_iff.mpr ⟨hlen, rfl⟩) ?_) hstep
          show b.nodetype ≠ BTREE_UNALLOCATED_BLOCK
          rcases ht with ht | ht <;> rw [ht] <;> decide
        · rw [if_pos hrc] at h
          simp only [Option.some.injEq, Prod.mk.injEq] at h
          exact absurd h.1 hrc
    · rw [if_neg hc] at h
      simp only [Option.some.injEq, Prod.mk.injEq, true_and] at h
      subst h
      exact RootStep.same hj1 rfl

/-- `LeafNodeInsert` makes a root step when the `Split` at its end does. -/
theorem LeafNodeInsert_tag (cfg : Config K V) (crumbs : List Nat) (node : Nat)
    (b : BTreeNode K V) (key : K) (value : V) {s s' : BTreeIndex K V} (hj : UniqueRootTag s)
    (hb : s.buffercache[node]? = some b)
    (hsplit : ∀ s1 s2, UniqueRootTag s1 →
      s1.superblock.rootnode = s.superblock.rootnode →
      Split cfg crumbs s1 = some (ERROR_NOERROR, s2) → RootStep s1 s2)
    (h : LeafNodeInsert cfg crumbs node b key value s = some (ERROR_NOERROR, s')) :
    RootStep s s' := by
  by_cases ht : b.nodetype = BTREE_LEAF_NODE
  swap
  · unfold LeafNodeInsert at h
    rw [if_pos ht] at h
    cases h
  have hlen : node < s.buffercache.length := by
    rcases List.getElem?_eq_some_iff.mp hb with ⟨hl, _⟩; exact hl
  rcases LeafNodeInsert_exec cfg crumbs node b key value s hb ht with
    ⟨off, _, _, _, hexec⟩ | ⟨j, _, _, hexec⟩
  swap
  · rw [hexec] at h
    cases h
  rw [hexec] at h
  have hj1 : UniqueRootTag
      { s with buffercache := s.buffercache.set node (leafInsertNode b off key value) } :=
    hj.write_back (Serialize_ok_iff.mpr ⟨hlen, rfl⟩) hb rfl
  by_cases hc : 0 < b.numkeys ∧ b.numkeys + 1 ≥ cfg.SlotsAsLeaf
  · rw [if_pos hc] at h
    have hstep := hsplit _ _ hj1 rfl h
    refine RootStep.after (Kept.write_tagged (Serialize_ok_iff.mpr ⟨hlen, rfl⟩) ?_) hstep
    show b.nodetype ≠ BTREE_UNALLOCATED_BLOCK
    rw [ht]
    decide
  · rw [if_neg hc] at h
    simp only [Option.some.injEq, Prod.mk.injEq, true_and] at h
    subst h
    exact RootStep.same hj1 rfl

end RootTagSplit

section RootTagSplitMain
variable {K V : Type} [LinearOrder K]

/-- The call of `InteriorPointerInsert` at the end of `Split` makes a root step
when `Split` on the remaining crumbs does. -/
theorem parentInsert_tag (cfg : Config K V) (crumbs : List Nat)
    (ih : ∀ (s s' : BTreeIndex K V), UniqueRootTag s →
      Split cfg crumbs s = some (ERROR_NOERROR, s') → RootStep s s')
    (key : K) (ptr : Nat) {s1 s' : BTreeIndex K V} (hj1 : UniqueRootTag s1)
    (h : (match (match crumbs with
          | [] => some (ERROR_INSANE, s1)
          | node :: _ => InteriorPointerInsertWith cfg (Split cfg crumbs) node key ptr s1) with
        | none => none
        | some (rc, s) =>
          if rc ≠ ERROR_NOERROR then some (rc, s) else some (ERROR_NOERROR, s)) =
      some (ERROR_NOERROR, s')) : RootStep s1 s' := by
  cases crumbs with
  | nil =>
    simp at h
  | cons node tail =>
    dsimp only at h
    generalize hsp : InteriorPointerInsertWith cfg (Split cfg (node :: tail)) node key ptr s1 = res
      at h
    cases res with
    | none => cases h
    | some r =>
      obtain ⟨rc, s2⟩ := r
      dsimp only at h
      by_cases hrc : rc = ERROR_NOERROR
      · subst hrc
        rw [if_neg (by simp)] at h
        simp only [Option.some.injEq, Prod.mk.injEq, true_and] at h
        subst h
        exact InteriorPointerInsertWith_tag cfg _ node key ptr hj1
          (fun a b ha _ hab => ih a b ha hab) hsp
      · rw [if_pos hrc] at h
        simp only [Option.some.injEq, Prod.mk.injEq] at h
        exact absurd h.1 hrc

/-- `Split` makes a root step: every block it writes keeps its tag or is a block
just taken from the free list, except in the root ending, which retags the old
root as interior and writes the new root. -/
theorem Split_tag (cfg : Config K V) :
    ∀ (crumbs : List Nat) (s s' : BTreeIndex K V), UniqueRootTag s →
      Split cfg crumbs s = some (ERROR_NOERROR, s') → RootStep s s' := by
  intro crumbs
  induction crumbs with
  | nil =>
    intro s s' _ h
    simp only [Split, Option.some.injEq, Prod.mk.injEq] at h
    exact absurd h.1 (by decide)
  | cons orig crumbs ih =>
    intro s s' hj h
    rw [Split] at h
    cases hu : Unserialize s.buffercache orig with
    | error e =>
      rw [hu] at h
      simp only [Option.some.injEq, Prod.mk.injEq] at h
      exact absurd h.1 (Unserialize_error_ne hu)
    | ok orig_node =>
      have hb := Unserialize_ok_iff.mp hu
      rw [hu] at h
      dsimp only at h
      cases ht : orig_node.nodetype with
      | BTREE_LEAF_NODE =>
        rw [ht] at h
        dsimp only at h
        by_cases hc : orig_node.numkeys < cfg.SlotsAsLeaf
        · rw [if_pos hc] at h
          cases h
        rw [if_neg hc] at h
        cases hA : AllocateNode s with
        | none => rw [hA] at h; cases h
        | some res =>
          obtain ⟨rc, new_loc, s1⟩ := res
          rw [hA] at h
          dsimp only at h
          by_cases hrc : rc = ERROR_NOERROR
          swap
          · rw [if_pos hrc] at h
            simp only [Option.some.injEq, Prod.mk.injEq] at h
            exact absurd h.1 hrc
          subst hrc
          rw [if_neg (by simp)] at h
          obtain ⟨hj1, hr1, _, ⟨F, hF, hFt⟩, _⟩ := AllocateNode_tag hj hA
          rw [Unserialize_ok_iff.mpr hF] at h
          dsimp only at h
          have horig : orig ≠ s1.superblock.rootnode := by
            rw [hr1]
            exact hj.ne_root hb (by rw [ht]; decide)
          have hnew : new_loc ≠ s1.superblock.rootnode :=
            hj1.ne_root hF (by rw [hFt]; decide)
          cases hL : splitLeafLoop cfg (orig_node.numkeys - orig_node.numkeys / 2)
              (List.range' (orig_node.numkeys - orig_node.numkeys / 2)
                (orig_node.numkeys - (orig_node.numkeys - orig_node.numkeys / 2)))
              orig_node
              (zeroData cfg
                { F with nodetype := BTREE_LEAF_NODE, numkeys := orig_node.numkeys / 2 }) with
          | error e =>
            rw [hL] at h
            simp only [Option.some.injEq, Prod.mk.injEq] at h
            rw [← h.2]
            exact RootStep.same hj1 hr1
          | ok res =>
            obtain ⟨o, n⟩ := res
            obtain ⟨tgo, tgn⟩ := splitLeafLoop_tags cfg _ _ _ _ _ _ hL
            rw [hL] at h
            dsimp only at h
            cases hS1 : Serialize s1.buffercache orig
                { o with numkeys := orig_node.numkeys - orig_node.numkeys / 2 } with
            | error e =>
              rw [hS1] at h
              simp only [Option.some.injEq, Prod.mk.injEq] at h
              rw [← h.2]
              exact RootStep.same hj1 hr1
            | ok bc2 =>
              rw [hS1] at h
              dsimp only at h
              have hj2 : UniqueRootTag { s1 with buffercache := bc2 } :=
                hj1.write hS1 (fun hx => by
                  have hx' : o.nodetype = BTREE_ROOT_NODE := hx
                  rw [tgo, ht] at hx'
                  cases hx') (fun e => absurd e horig)
              cases hS2 : Serialize bc2 new_loc n with
              | error e =>
                rw [hS2] at h
                simp only [Option.some.injEq, Prod.mk.injEq] at h
                rw [← h.2]
                exact RootStep.same hj2 hr1
              | ok bc3 =>
                rw [hS2] at h
                dsimp only at h
                have hj3 : UniqueRootTag { s1 with buffercache := bc3 } :=
                  hj2.write (s := { s1 with buffercache := bc2 }) hS2 (fun hx => by
                    rw [tgn] at hx
                    cases hx) (fun e => absurd e hnew)
                cases hG : GetKey n 0 with
                | error e =>
                  rw [hG] at h
                  simp only [Option.some.injEq, Prod.mk.injEq] at h
                  rw [← h.2]
                  exact RootStep.same hj3 hr1
                | ok k =>
                  rw [hG] at h
                  dsimp only at h
                  have hstep := parentInsert_tag cfg crumbs ih k new_loc hj3 h
                  have hk : Kept s { s1 with buffercache := bc3 } :=
                    (AllocateNode_kept hj hA).andThen
                      ((Kept.write_tagged hS1 (by
                        show o.nodetype ≠ BTREE_UNALLOCATED_BLOCK
                        rw [tgo, ht]
                        decide)).andThen
                        (Kept.write_tagged (s := { s1 with buffercache := bc2 }) hS2 (by
                          rw [tgn]
                          show BTREE_LEAF_NODE ≠ BTREE_UNALLOCATED_BLOCK
                          decide)))
                  exact RootStep.after hk hstep
      | BTREE_ROOT_NODE | BTREE_INTERIOR_NODE =>
        rw [ht] at h
        dsimp only at h
        by_cases hc : orig_node.numkeys < cfg.SlotsAsInterior
        · rw [if_pos hc] at h
          cases h
        rw [if_neg hc] at h
        cases hA : AllocateNode s with
        | none => rw [hA] at h; cases h
        | some res =>
          obtain ⟨rc, new_loc, s1⟩ := res
          rw [hA] at h
          dsimp only at h
          by_cases hrc : rc = ERROR_NOERROR
          swap
          · rw [if_pos hrc] at h
            simp only [Option.some.injEq, Prod.mk.injEq] at h
            exact absurd h.1 hrc
          subst hrc
          rw [if_neg (by simp)] at h
          obtain ⟨hj1, hr1, _, ⟨F, hF, hFt⟩, _⟩ := AllocateNode_tag hj hA
          rw [Unserialize_ok_iff.mpr hF] at h
          dsimp only at h
          have hnew : new_loc ≠ s1.superblock.rootnode :=
            hj1.ne_root hF (by rw [hFt]; decide)
          cases hM : splitInteriorMove cfg (orig_node.numkeys / 2) orig_node
              (zeroData cfg
                { F with nodetype := BTREE_INTERIOR_NODE,
                         numkeys := orig_node.numkeys - orig_node.numkeys / 2 - 1 }) with
          | error e =>
            rw [hM] at h
            simp only [Option.some.injEq, Prod.mk.injEq] at h
            rw [← h.2]
            exact RootStep.same hj1 hr1
          | ok res =>
            obtain ⟨o, n⟩ := res
            have tgo := (splitInteriorMove_kind cfg _ _ _).2 _ _ hM
            have tgn : n.nodetype = BTREE_INTERIOR_NODE :=
              splitInteriorMove_new_tag cfg _ _ _ _ _ hM
            rw [hM] at h
            dsimp only at h
            by_cases hoi : o.nodetype = BTREE_INTERIOR_NODE
            · rw [if_pos hoi] at h
              have horig : orig ≠ s1.superblock.rootnode := by
                rw [hr1]
                exact hj.ne_root hb (by rw [← tgo, hoi]; decide)
              cases hS1 : Serialize s1.buffercache orig o with
              | error e =>
                rw [hS1] at h
                simp only [Option.some.injEq, Prod.mk.injEq] at h
                rw [← h.2]
                exact RootStep.same hj1 hr1
              | ok bc2 =>
                rw [hS1] at h
                dsimp only at h
                have hj2 : UniqueRootTag { s1 with buffercache := bc2 } :=
                  hj1.write hS1 (fun hx => by rw [hoi] at hx; cases hx)
                    (fun e => absurd e horig)
                cases hS2 : Serialize bc2 new_loc n with
                | error e =>
                  rw [hS2] at h
                  simp only [Option.some.injEq, Prod.mk.injEq] at h
                  rw [← h.2]
                  exact RootStep.same hj2 hr1
                | ok bc3 =>
                  rw [hS2] at h
                  dsimp only at h
                  have hj3 : UniqueRootTag { s1 with buffercache := bc3 } :=
                    hj2.write (s := { s1 with buffercache := bc2 }) hS2 (fun hx => by
                      rw [tgn] at hx
                      cases hx) (fun e => absurd e hnew)
                  cases hG : GetKey n 0 with
                  | error e =>
                    rw [hG] at h
                    simp only [Option.some.injEq, Prod.mk.injEq] at h
                    rw [← h.2]
                    exact RootStep.same hj3 hr1
                  | ok k =>
                    rw [hG] at h
                    dsimp only at h
                    have hstep := parentInsert_tag cfg crumbs ih k new_loc hj3 h
                    have hk : Kept s { s1 with buffercache := bc3 } :=
                      (AllocateNode_kept hj hA).andThen
                        ((Kept.write_tagged hS1 (by
                          rw [hoi]
                          decide)).andThen
                          (Kept.write_tagged (s := { s1 with buffercache := bc2 }) hS2 (by
                            rw [tgn]
                            decide)))
                    exact RootStep.after hk hstep
            · rw [if_neg hoi] at h
              have hroot : orig_node.nodetype = BTREE_ROOT_NODE := by
                first
                  | exact ht
                  | exact absurd (tgo.trans ht) hoi
              have horig : orig = s.superblock.rootnode := hj.only orig orig_node hb hroot
              cases hA2 : AllocateNode s1 with
              | none => rw [hA2] at h; cases h
              | some res =>
                obtain ⟨rc2, root_loc, s2⟩ := res
                rw [hA2] at h
                dsimp only at h
                by_cases hrc2 : rc2 = ERROR_NOERROR
                swap
                · rw [if_pos hrc2] at h
                  simp only [Option.some.injEq, Prod.mk.injEq] at h
                  exact absurd h.1 hrc2
                subst hrc2
                rw [if_neg (by simp)] at h
                obtain ⟨hj2, hr2, hnz2, ⟨F2, hF2, hF2t⟩, hfr2⟩ := AllocateNode_tag hj1 hA2
                rw [Unserialize_ok_iff.mpr hF2] at h
                dsimp only at h
                have hr2' : s2.superblock.rootnode = orig := by rw [hr2, hr1, horig]
                have hne_root : orig ≠ root_loc := by
                  intro e
                  obtain ⟨r, hr, hrt⟩ := hj2.root
                  rw [hr2', e, hF2] at hr
                  cases hr
                  rw [hF2t] at hrt
                  cases hrt
                have hne_new : orig ≠ new_loc := by
                  intro e
                  obtain ⟨r, hr, hrt⟩ := hj1.root
                  rw [hr1, ← horig, e, hF] at hr
                  cases hr
                  rw [hFt] at hrt
                  cases hrt
                cases hS1 : Serialize s2.buffercache orig
                    { o with nodetype := BTREE_INTERIOR_NODE } with
                | error e =>
                  rw [hS1] at h
                  simp only [Option.some.injEq, Prod.mk.injEq] at h
                  rw [Serialize_error_kind hS1] at h
                  exact absurd h.1 (by decide)
                | ok bc3 =>
                  rw [hS1] at h
                  dsimp only at h
                  obtain ⟨hl1, rfl⟩ := Serialize_ok_iff.mp hS1
                  cases hS2 : Serialize (s2.buffercache.set orig
                      { o with nodetype := BTREE_INTERIOR_NODE }) new_loc n with
                  | error e =>
                    rw [hS2] at h
                    simp only [Option.some.injEq, Prod.mk.injEq] at h
                    rw [Serialize_error_kind hS2] at h
                    exact absurd h.1 (by decide)
                  | ok bc4 =>
                    rw [hS2] at h
                    dsimp only at h
                    obtain ⟨hl2, rfl⟩ := Serialize_ok_iff.mp hS2
                    cases hfill : newRootFill
                        (zeroData cfg { F2 with nodetype := BTREE_ROOT_NODE, numkeys := 1 })
                        n orig new_loc with
                    | error e =>
                      rw [hfill] at h
                      simp only [Option.some.injEq, Prod.mk.injEq] at h
                      rw [newRootFill_kind _ _ _ _ _ hfill] at h
                      exact absurd h.1 (by decide)
                    | ok nr =>
                      rw [hfill] at h
                      dsimp only at h
                      have tnr : nr.nodetype = BTREE_ROOT_NODE :=
                        newRootFill_tag _ _ _ _ _ hfill
                      cases hS3 : Serialize ((s2.buffercache.set orig
                          { o with nodetype := BTREE_INTERIOR_NODE }).set new_loc n)
                          root_loc nr with
                      | error e =>
                        rw [hS3] at h
                        simp only [Option.some.injEq, Prod.mk.injEq] at h
                        rw [Serialize_error_kind hS3] at h
                        exact absurd h.1 (by decide)
                      | ok bc5 =>
                        rw [hS3] at h
                        obtain ⟨hl3, rfl⟩ := Serialize_ok_iff.mp hS3
                        simp only [Option.some.injEq, Prod.mk.injEq, true_and] at h
                        subst h
                        refine ⟨⟨hj2.idx, hj2.sbtag, hnz2, ⟨nr, ?_, tnr⟩, ?_⟩, Or.inr ⟨?_,
                          ((AllocateNode_kept hj hA).andThen (AllocateNode_kept hj1 hA2)).2
                            root_loc F2 hF2 hF2t⟩⟩
                        · exact List.getElem?_set_self hl3
                        · intro m b hm hbt
                          have hm' : (((s2.buffercache.set orig
                              { o with nodetype := BTREE_INTERIOR_NODE }).set new_loc n).set
                              root_loc nr)[m]? = some b := hm
                          show m = root_loc
                          by_contra hmr
                          rw [List.getElem?_set_ne (fun e => hmr e.symm)] at hm'
                          by_cases hmn : m = new_loc
                          · subst hmn
                            rw [List.getElem?_set_self hl2] at hm'
                            cases hm'
                            rw [tgn] at hbt
                            cases hbt
                          · rw [List.getElem?_set_ne (fun e => hmn e.symm)] at hm'
                            by_cases hmo : m = orig
                            · subst hmo
                              rw [List.getElem?_set_self hl1] at hm'
                              cases hm'
                              cases hbt
                            · rw [List.getElem?_set_ne (fun e => hmo e.symm)] at hm'
                              exact hmo ((hj2.only m b hm' hbt).trans hr2')
                        · refine ⟨{ o with nodetype := BTREE_INTERIOR_NODE }, ?_, rfl⟩
                          show (((s2.buffercache.set orig
                              { o with nodetype := BTREE_INTERIOR_NODE }).set new_loc n).set
                              root_loc nr)[s.superblock.rootnode]? = _
                          rw [← horig, List.getElem?_set_ne (fun e => hne_root e.symm),
                            List.getElem?_set_ne (fun e => hne_new e.symm),
                            List.getElem?_set_self hl1]
      | BTREE_UNALLOCATED_BLOCK => rw [ht] at h; cases h
      | BTREE_SUPERBLOCK => rw [ht] at h; cases h

end RootTagSplitMain

section RootTagInsert
variable {K V : Type} [LinearOrder K]

/-- Every successful descent of `Inserter` from a state with the root-tag
condition makes a root step. -/
theorem Inserter_tag (cfg : Config K V) :
    ∀ (fuel : Nat) (crumbs : List Nat) (node : Nat) (key : K) (value : V)
      (s s' : BTreeIndex K V), UniqueRootTag s →
      Inserter cfg fuel crumbs node key value s = some (ERROR_NOERROR, s') → RootStep s s' := by
  intro fuel
  induction fuel with
  | zero =>
    intro crumbs node key value s s' _ h
    cases h
  | succ fuel ih =>
    intro crumbs node key value s s' hj h
    unfold Inserter at h
    dsimp only at h
    cases hU : Unserialize s.buffercache node with
    | error e =>
      rw [hU] at h
      simp only [Option.some.injEq, Prod.mk.injEq] at h
      rw [← h.2]
      exact RootStep.same hj rfl
    | ok b =>
      rw [hU] at h
      dsimp only at h
      have hb := Unserialize_ok_iff.mp hU
      by_cases he : b.nodetype = BTREE_ROOT_NODE ∧ b.numkeys = 0
      · rw [if_pos he] at h
        obtain ⟨hj', hr'⟩ := insertEmptyRoot_tag cfg hj hb key value h
        exact RootStep.same hj' hr'
      rw [if_neg he] at h
      cases ht : b.nodetype with
      | BTREE_ROOT_NODE | BTREE_INTERIOR_NODE =>
        rw [ht] at h
        dsimp only at h
        cases hsc : scanInterior b key (List.range b.numkeys) with
        | error e =>
          rw [hsc] at h
          simp only [Option.some.injEq, Prod.mk.injEq] at h
          rw [← h.2]
          exact RootStep.same hj rfl
        | ok o =>
          rw [hsc] at h
          cases o with
          | some ptr => exact ih _ _ _ _ _ _ hj h
          | none =>
            dsimp only at h
            by_cases hk : b.numkeys > 0
            · rw [if_pos hk] at h
              cases hg : GetPtr b b.numkeys with
              | error e =>
                rw [hg] at h
                simp only [Option.some.injEq, Prod.mk.injEq] at h
                rw [← h.2]
                exact RootStep.same hj rfl
              | ok ptr =>
                rw [hg] at h
                exact ih _ _ _ _ _ _ hj h
            · rw [if_neg hk] at h
              cases h
      | BTREE_LEAF_NODE =>
        rw [ht] at h
        dsimp only at h
        exact LeafNodeInsert_tag cfg _ node b key value hj hb
          (fun s1 s2 hj1 _ hsp => Split_tag cfg _ s1 s2 hj1 hsp) h
      | BTREE_UNALLOCATED_BLOCK | BTREE_SUPERBLOCK =>
        rw [ht] at h
        cases h

/-- A successful `Insert` keeps the root-tag condition; when it changes the
root index, the block that was the root is tagged Interior afterwards. -/
theorem Insert_tag (cfg : Config K V) {s s' : BTreeIndex K V} (hj : UniqueRootTag s)
    (key : K) (value : V) (h : Insert cfg s key value = some (ERROR_NOERROR, s')) :
    RootStep s s' :=
  Inserter_tag cfg _ _ _ _ _ _ _ hj h

/-- A run of `Insert` calls that all return `ERROR_NOERROR` keeps the root-tag
condition. -/
theorem insertAll_tag (cfg : Config K V) :
    ∀ (kvs : List (K × V)) (s t : BTreeIndex K V) (rcs : List ERROR_T), UniqueRootTag s →
      insertAll cfg kvs s = some (rcs, t) → (∀ rc ∈ rcs, rc = ERROR_NOERROR) →
      UniqueRootTag t := by
  intro kvs
  induction kvs with
  | nil =>
    intro s t rcs hj h _
    simp only [insertAll, Option.some.injEq, Prod.mk.injEq] at h
    rw [← h.2]
    exact hj
  | cons kv rest ih =>
    intro s t rcs hj h hok
    obtain ⟨key, value⟩ := kv
    rw [insertAll] at h
    cases hI : Insert cfg s key value with
    | none => rw [hI] at h; cases h
    | some r =>
      obtain ⟨rc, s1⟩ := r
      rw [hI] at h
      dsimp only at h
      cases hR : insertAll cfg rest s1 with
      | none => rw [hR] at h; cases h
      | some r2 =>
        obtain ⟨rcs2, t2⟩ := r2
        rw [hR] at h
        simp only [Option.some.injEq, Prod.mk.injEq] at h
        obtain ⟨h1, h2⟩ := h
        subst h1
        subst h2
        have hrc : rc = ERROR_NOERROR := hok rc (List.mem_cons_self _ _)
        subst hrc
        exact ih s1 t2 rcs2 (Insert_tag cfg hj key value hI).1 hR
          (fun x hx => hok x (List.mem_cons_of_mem _ hx))

end RootTagInsert

section LeafSplitRun
variable {K V : Type} [LinearOrder K]

omit [LinearOrder K] in
/-- `AllocateNode` on any index whose free-list head names a block tagged
unallocated: the head is handed out, the superblock gets the next head and is
written to the block at `superblock_index` when the device has it. -/
theorem AllocateNode_run (s : BTreeIndex K V) (F : BTreeNode K V)
    (hfree : s.superblock.freelist ≠ 0)
    (hF : s.buffercache[s.superblock.freelist]? = some F)
    (hFt : F.nodetype = BTREE_UNALLOCATED_BLOCK) :
    ∃ s1, AllocateNode s = some (ERROR_NOERROR, s.superblock.freelist, s1) ∧
      s1.superblock = { s.superblock with freelist := F.freelist } ∧
      s1.superblock_index = s.superblock_index ∧
      s1.buffercache.length = s.buffercache.length ∧
      (∀ m, m ≠ s.superblock_index → s1.buffercache[m]? = s.buffercache[m]?) ∧
      (∀ b, s1.buffercache[s.superblock_index]? = some b →
        b = s1.superblock ∨ s1.buffercache = s.buffercache) := by
  unfold AllocateNode
  simp only [hfree, if_false, Unserialize_ok_iff.mpr hF, hFt, ne_eq, not_true_eq_false]
  refine ⟨_, rfl, rfl, rfl, ?_, ?_, ?_⟩
  · unfold Serialize
    split_ifs <;> simp
  · intro m hm
    unfold Serialize
    split_ifs
    · exact List.getElem?_set_ne (fun e => hm e.symm)
    · rfl
  · intro b hb
    unfold Serialize at hb ⊢
    split_ifs at hb ⊢ with hl
    · left
      rw [List.getElem?_set_self hl] at hb
      cases hb
      rfl
    · right
      rfl

/-- The leaf case of `Split` on any index: when the block to split holds a leaf
at or over capacity and the free-list head names a block tagged unallocated,
the two leaves are written and the call goes on with the parent. -/
theorem Split_leaf_run (cfg : Config K V) (orig : Nat) (crumbs : List Nat)
    (s : BTreeIndex K V) (L F : BTreeNode K V)
    (hL : s.buffercache[orig]? = some L) (ht : L.nodetype = BTREE_LEAF_NODE)
    (hcap : L.numkeys ≥ cfg.SlotsAsLeaf) (hfree : s.superblock.freelist ≠ 0)
    (hF : s.buffercache[s.superblock.freelist]? = some F)
    (hFt : F.nodetype = BTREE_UNALLOCATED_BLOCK) :
    ∃ s1 F1, AllocateNode s = some (ERROR_NOERROR, s.superblock.freelist, s1) ∧
      s1.superblock = { s.superblock with freelist := F.freelist } ∧
      s1.superblock_index = s.superblock_index ∧
      s1.buffercache.length = s.buffercache.length ∧
      (∀ m, m ≠ s.superblock_index → s1.buffercache[m]? = s.buffercache[m]?) ∧
      (∀ b, s1.buffercache[s.superblock_index]? = some b →
        b = s1.superblock ∨ s1.buffercache = s.buffercache) ∧
      s1.buffercache[s.superblock.freelist]? = some F1 ∧
      Split cfg (orig :: crumbs) s =
        (match GetKey (splitLeafNew cfg L F1 (L.numkeys - L.numkeys / 2)) 0 with
        | .error rc => some (rc,
            { s1 with
              buffercache := (s1.buffercache.set orig
                (splitLeafOrig cfg L (L.numkeys - L.numkeys / 2))).set s.superblock.freelist
                (splitLeafNew cfg L F1 (L.numkeys - L.numkeys / 2)) })
        | .ok k => InteriorPointerInsert cfg crumbs k s.superblock.freelist
            { s1 with
              buffercache := (s1.buffercache.set orig
                (splitLeafOrig cfg L (L.numkeys - L.numkeys / 2))).set s.superblock.freelist
                (splitLeafNew cfg L F1 (L.numkeys - L.numkeys / 2)) }) := by
  obtain ⟨s1, hA, hq1, hq2, hlen, hq3, hq4⟩ := AllocateNode_run s F hfree hF hFt
  have hnl : s.superblock.freelist < s1.buffercache.length := by
    rw [hlen]
    rcases List.getElem?_eq_some_iff.mp hF with ⟨hl, _⟩
    exact hl
  have hol : orig < s1.buffercache.length := by
    rw [hlen]
    rcases List.getElem?_eq_some_iff.mp hL with ⟨hl, _⟩
    exact hl
  obtain ⟨F1, hF1⟩ : ∃ F1, s1.buffercache[s.superblock.freelist]? = some F1 :=
    ⟨_, List.getElem?_eq_getElem hnl⟩
  refine ⟨s1, F1, hA, hq1, hq2, hlen, hq3, hq4, hF1, ?_⟩
  have hu : Unserialize s.buffercache orig = .ok L := Unserialize_ok_iff.mpr hL
  have hnc : ¬ L.numkeys < cfg.SlotsAsLeaf := by omega
  have e1 : L.numkeys - L.numkeys / 2 + (L.numkeys - (L.numkeys - L.numkeys / 2)) =
      L.numkeys := by omega
  have e2 : L.numkeys - (L.numkeys - L.numkeys / 2) = L.numkeys / 2 := by omega
  have e3 : L.numkeys - L.numkeys / 2 + L.numkeys / 2 = L.numkeys := by omega
  have hloop : splitLeafLoop cfg (L.numkeys - L.numkeys / 2)
      (List.range' (L.numkeys - L.numkeys / 2) (L.numkeys - (L.numkeys - L.numkeys / 2))) L
      (zeroData cfg { F1 with nodetype := BTREE_LEAF_NODE, numkeys := L.numkeys / 2 }) =
      .ok ({ splitLeafOrig cfg L (L.numkeys - L.numkeys / 2) with numkeys := L.numkeys },
        splitLeafNew cfg L F1 (L.numkeys - L.numkeys / 2)) := by
    rw [e2, splitLeafLoop_eq cfg _ _ _ _ _ (le_refl _) (by omega)
      (by simp only [zeroData]; omega)]
    simp only [e3, e2, Nat.sub_self, splitLeafOrig, splitLeafNew, zeroData]
  cases crumbs with
  | nil =>
    rw [Split, hu]
    simp only [ht]
    rw [if_neg hnc, hA]
    simp only [ne_eq, not_true_eq_false, if_false, Unserialize, hF1]
    rw [hloop]
    simp only [Serialize, hol, hnl, if_true, List.length_set]
    cases hG : GetKey (splitLeafNew cfg L F1 (L.numkeys - L.numkeys / 2)) 0 with
    | error e => rfl
    | ok k => rfl
  | cons parent rest =>
    rw [Split, hu]
    simp only [ht]
    rw [if_neg hnc, hA]
    simp only [ne_eq, not_true_eq_false, if_false, Unserialize, hF1]
    rw [hloop]
    simp only [Serialize, hol, hnl, if_true, List.length_set]
    cases hG : GetKey (splitLeafNew cfg L F1 (L.numkeys - L.numkeys / 2)) 0 with
    | error e => rfl
    | ok k =>
      simp only
      show _ = InteriorPointerInsertWith cfg (Split cfg (parent :: rest)) parent k _ _
      split
      · next h => exact h.symm
      · next rc s2 h =>
        by_cases hr : rc = ERROR_NOERROR
        · rw [if_neg (by simp [hr]), ← hr]; exact h.symm
        · rw [if_pos hr]; exact h.symm

end LeafSplitRun

section LeafFrameLemmas
variable {K V : Type} [LinearOrder K]

omit [LinearOrder K] in
/-- Writing a node that is no leaf anywhere leaves block `n` no leaf. -/
theorem NotLeafAt.set_block {bc : List (BTreeNode K V)} {n : Nat} (h : NotLeafAt bc n)
    (m : Nat) {b : BTreeNode K V} (hb : b.nodetype ≠ BTREE_LEAF_NODE) :
    NotLeafAt (bc.set m b) n := by
  intro x hx
  by_cases e : m = n
  · subst e
    by_cases hl : m < bc.length
    · rw [List.getElem?_set_self hl] at hx
      cases hx
      exact hb
    · rw [List.getElem?_eq_none (by rw [List.length_set]; omega)] at hx
      cases hx
  · rw [List.getElem?_set_ne e] at hx
    exact h x hx

omit [LinearOrder K] in
/-- Nothing has been written yet. -/
theorem LeavesKept.at_start {s : BTreeIndex K V} (h : SuperblockApart s) : LeavesKept s s :=
  ⟨h, fun _ _ hb _ => hb⟩

omit [LinearOrder K] in
/-- A write of a node that is no leaf to a block that is no leaf keeps the
leaves. -/
theorem LeavesKept.write_block {s0 s1 : BTreeIndex K V} (hk : LeavesKept s0 s1) {n : Nat}
    {b : BTreeNode K V} {bc' : List (BTreeNode K V)} (h0 : NotLeafAt s1.buffercache n)
    (hb : b.nodetype ≠ BTREE_LEAF_NODE) (hs : Serialize s1.buffercache n b = .ok bc') :
    LeavesKept s0 { s1 with buffercache := bc' } := by
  obtain ⟨_, rfl⟩ := Serialize_ok_iff.mp hs
  refine ⟨⟨hk.1.1, hk.1.2.set_block n hb⟩, fun m x hx hxt => ?_⟩
  have hm := hk.2 m x hx hxt
  show (s1.buffercache.set n b)[m]? = some x
  by_cases e : n = m
  · subst e
    exact absurd hxt (h0 x hm)
  · rw [List.getElem?_set_ne e]
    exact hm

omit [LinearOrder K] in
/-- Setting the root index keeps the leaves. -/
theorem LeavesKept.set_root {s0 s1 : BTreeIndex K V} (hk : LeavesKept s0 s1) (r : Nat) :
    LeavesKept s0 { s1 with superblock := { s1.superblock with rootnode := r } } :=
  ⟨⟨hk.1.1, hk.1.2⟩, hk.2⟩

omit [LinearOrder K] in
/-- `AllocateNode` keeps the leaves, hands out a block that is no leaf, and
turns no block into a leaf. -/
theorem LeavesKept.alloc {s0 s1 : BTreeIndex K V} (hk : LeavesKept s0 s1) {rc : ERROR_T}
    {n : Nat} {s2 : BTreeIndex K V} (h : AllocateNode s1 = some (rc, n, s2)) :
    LeavesKept s0 s2 ∧ (rc = ERROR_NOERROR → NotLeafAt s2.buffercache n) ∧
      ∀ m, NotLeafAt s1.buffercache m → NotLeafAt s2.buffercache m := by
  unfold AllocateNode at h
  by_cases hz : s1.superblock.freelist = 0
  · simp only [hz, if_true, Option.some.injEq, Prod.mk.injEq] at h
    obtain ⟨h1, _, h3⟩ := h
    subst h3
    refine ⟨hk, fun e => ?_, fun _ hm => hm⟩
    rw [← h1] at e
    cases e
  simp only [hz, if_false] at h
  cases hu : Unserialize s1.buffercache s1.superblock.freelist with
  | error e => rw [hu] at h; cases h
  | ok node =>
    rw [hu] at h
    dsimp only at h
    by_cases ht : node.nodetype = BTREE_UNALLOCATED_BLOCK
    swap
    · rw [if_pos ht] at h; cases h
    rw [if_neg (by simpa using ht)] at h
    simp only [Option.some.injEq, Prod.mk.injEq] at h
    obtain ⟨hrc, hn, hs2⟩ := h
    subst hrc
    subst hn
    subst hs2
    have hnode := Unserialize_ok_iff.mp hu
    have hsbt : ({ s1.superblock with freelist := node.freelist } : BTreeNode K V).nodetype ≠
        BTREE_LEAF_NODE := hk.1.1
    have hall : ∀ m, NotLeafAt s1.buffercache m →
        NotLeafAt (match Serialize s1.buffercache s1.superblock_index
            { s1.superblock with freelist := node.freelist } with
          | .ok bc => bc
          | .error _ => s1.buffercache) m := by
      intro m hm
      unfold Serialize
      split_ifs
      · exact hm.set_block _ hsbt
      · exact hm
    refine ⟨⟨⟨hsbt, hall _ hk.1.2⟩, fun m x hx hxt => ?_⟩, fun _ => hall _ ?_, hall⟩
    · have hm := hk.2 m x hx hxt
      show (match Serialize s1.buffercache s1.superblock_index
          { s1.superblock with freelist := node.freelist } with
        | .ok bc => bc
        | .error _ => s1.buffercache)[m]? = some x
      unfold Serialize
      split_ifs
      · have e : s1.superblock_index ≠ m := by
          intro e
          subst e
          exact hk.1.2 x hm hxt
        show (s1.buffercache.set _ _)[m]? = some x
        rw [List.getElem?_set_ne e]
        exact hm
      · exact hm
    · intro x hx
      rw [hnode] at hx
      cases hx
      rw [ht]
      decide

/-- `InteriorPointerInsert` keeps the leaves when the `Split` at its end does. -/
theorem InteriorPointerInsertWith_frame (cfg : Config K V)
    (split : BTreeIndex K V → Option (ERROR_T × BTreeIndex K V)) (node : Nat) (key : K)
    (ptr : Nat) {s0 s : BTreeIndex K V} (hk : LeavesKept s0 s)
    (hsplit : ∀ s1 rc s2, LeavesKept s0 s1 → NotLeafAt s1.buffercache node →
      split s1 = some (rc, s2) → LeavesKept s0 s2)
    {rc : ERROR_T} {s' : BTreeIndex K V}
    (h : InteriorPointerInsertWith cfg split node key ptr s = some (rc, s')) :
    LeavesKept s0 s' := by
  unfold InteriorPointerInsertWith at h
  cases hu : Unserialize s.buffercache node with
  | error e =>
    rw [hu] at h
    simp only [Option.some.injEq, Prod.mk.injEq] at h
    rw [← h.2]
    exact hk
  | ok b =>
    have hb := Unserialize_ok_iff.mp hu
    have hlen : node < s.buffercache.length := by
      rcases List.getElem?_eq_some_iff.mp hb with ⟨hl, _⟩; exact hl
    rw [hu] at h
    dsimp only at h
    by_cases hty : b.nodetype ≠ BTREE_INTERIOR_NODE ∧ b.nodetype ≠ BTREE_ROOT_NODE
    · rw [if_pos hty] at h
      simp only [Option.some.injEq, Prod.mk.injEq] at h
      rw [← h.2]
      exact hk
    rw [if_neg hty] at h
    by_cases hz : b.numkeys = 0
    · rw [if_pos hz] at h
      simp only [Option.some.injEq, Prod.mk.injEq] at h
      rw [← h.2]
      exact hk
    rw [if_neg hz] at h
    have ht : b.nodetype = BTREE_ROOT_NODE ∨ b.nodetype = BTREE_INTERIOR_NODE := by
      by_cases c : b.nodetype = BTREE_ROOT_NODE
      · exact Or.inl c
      · by_cases c' : b.nodetype = BTREE_INTERIOR_NODE
        · exact Or.inr c'
        · exact absurd ⟨c', c⟩ hty
    have htl : b.nodetype ≠ BTREE_LEAF_NODE := by
      rcases ht with ht | ht <;> rw [ht] <;> decide
    rcases findSlot_spec b key with ⟨off, h1, _, _, h4⟩ | ⟨j, _, _, h4⟩
    swap
    · rw [h4] at h
      simp only [Option.some.injEq, Prod.mk.injEq] at h
      rw [← h.2]
      exact hk
    rw [h4] at h
    simp only at h
    rw [interiorInsert_written b off key ptr ht (by omega) h1] at h
    simp only [Serialize, hlen, if_true] at h
    have hk1 : LeavesKept s0
        { s with buffercache := s.buffercache.set node (interiorInsertNode b off key ptr) } :=
      hk.write_block (fun x hx => by
        rw [hb] at hx
        cases hx
        exact htl) (show (interiorInsertNode b off key ptr).nodetype ≠ _ from htl)
        (Serialize_ok_iff.mpr ⟨hlen, rfl⟩)
    by_cases hc : (interiorInsertNode b off key ptr).numkeys ≥ cfg.SlotsAsInterior
    · rw [if_pos hc] at h
      cases hsp : split
          { s with buffercache := s.buffercache.set node (interiorInsertNode b off key ptr) } with
      | none => rw [hsp] at h; cases h
      | some res =>
        obtain ⟨rc2, s2⟩ := res
        rw [hsp] at h
        dsimp only at h
        have hres : LeavesKept s0 s2 := hsplit _ _ _ hk1 (fun x hx => by
          have hx' : (s.buffercache.set node (interiorInsertNode b off key ptr))[node]? =
            some x := hx
          rw [List.getElem?_set_self hlen] at hx'
          cases hx'
          exact htl) hsp
        by_cases hrc : rc2 = ERROR_NOERROR
        · rw [if_neg (by simp [hrc])] at h
          simp only [Option.some.injEq, Prod.mk.injEq] at h
          rw [← h.2]
          exact hres
        · rw [if_pos hrc] at h
          simp only [Option.some.injEq, Prod.mk.injEq] at h
          rw [← h.2]
          exact hres
    · rw [if_neg hc] at h
      simp only [Option.some.injEq, Prod.mk.injEq] at h
      rw [← h.2]
      exact hk1

/-- The call of `InteriorPointerInsert` at the end of `Split` keeps the leaves
when `Split` on the remaining crumbs does. -/
theorem parentInsert_frame (cfg : Config K V) (crumbs : List Nat)
    (ih : ∀ (s0 s : BTreeIndex K V) (rc : ERROR_T) (s' : BTreeIndex K V), LeavesKept s0 s →
      (∀ orig rest, crumbs = orig :: rest → NotLeafAt s.buffercache orig) →
      Split cfg crumbs s = some (rc, s') → LeavesKept s0 s')
    (key : K) (ptr : Nat) {s0 s1 : BTreeIndex K V} {rc : ERROR_T} {s' : BTreeIndex K V}
    (hk : LeavesKept s0 s1)
    (h : (match (match crumbs with
          | [] => some (ERROR_INSANE, s1)
          | node :: _ => InteriorPointerInsertWith cfg (Split cfg crumbs) node key ptr s1) with
        | none => none
        | some (rc, s) =>
          if rc ≠ ERROR_NOERROR then some (rc, s) else some (ERROR_NOERROR, s)) =
      some (rc, s')) : LeavesKept s0 s' := by
  cases crumbs with
  | nil =>
    simp only [ne_eq, reduceCtorEq, not_false_eq_true, if_true, Option.some.injEq,
      Prod.mk.injEq] at h
    rw [← h.2]
    exact hk
  | cons node tail =>
    dsimp only at h
    generalize hsp : InteriorPointerInsertWith cfg (Split cfg (node :: tail)) node key ptr s1 = res
      at h
    cases res with
    | none => cases h
    | some r =>
      obtain ⟨rc2, s2⟩ := r
      dsimp only at h
      have hres : LeavesKept s0 s2 :=
        InteriorPointerInsertWith_frame cfg _ node key ptr hk
          (fun a c b ha hn hab =>
            ih s0 a c b ha (fun orig rest e => by
              cases e
              exact hn) hab) hsp
      by_cases hrc : rc2 = ERROR_NOERROR
      · rw [if_neg (by simp [hrc])] at h
        simp only [Option.some.injEq, Prod.mk.injEq] at h
        rw [← h.2]
        exact hres
      · rw [if_pos hrc] at h
        simp only [Option.some.injEq, Prod.mk.injEq] at h
        rw [← h.2]
        exact hres

end LeafFrameLemmas

section LeafFrameSplit
variable {K V : Type} [LinearOrder K]

/-- `Split` on a block that is no leaf writes to no block tagged leaf: it writes
the block it splits, blocks taken from the free list and the superblock, and
goes on with the parent, which is checked to be a root or interior node. -/
theorem Split_frame (cfg : Config K V) :
    ∀ (crumbs : List Nat) (s0 s : BTreeIndex K V) (rc : ERROR_T) (s' : BTreeIndex K V),
      LeavesKept s0 s →
      (∀ orig rest, crumbs = orig :: rest → NotLeafAt s.buffercache orig) →
      Split cfg crumbs s = some (rc, s') → LeavesKept s0 s' := by
  intro crumbs
  induction crumbs with
  | nil =>
    intro s0 s rc s' hk _ h
    simp only [Split, Option.some.injEq, Prod.mk.injEq] at h
    rw [← h.2]
    exact hk
  | cons orig crumbs ih =>
    intro s0 s rc s' hk hhead h
    have ho := hhead orig crumbs rfl
    rw [Split] at h
    cases hu : Unserialize s.buffercache orig with
    | error e =>
      rw [hu] at h
      simp only [Option.some.injEq, Prod.mk.injEq] at h
      rw [← h.2]
      exact hk
    | ok orig_node =>
      have hb := Unserialize_ok_iff.mp hu
      rw [hu] at h
      dsimp only at h
      have htl : orig_node.nodetype ≠ BTREE_LEAF_NODE := ho _ hb
      cases ht : orig_node.nodetype with
      | BTREE_LEAF_NODE => exact absurd ht htl
      | BTREE_ROOT_NODE | BTREE_INTERIOR_NODE =>
        rw [ht] at h
        dsimp only at h
        by_cases hc : orig_node.numkeys < cfg.SlotsAsInterior
        · rw [if_pos hc] at h
          simp only [Option.some.injEq, Prod.mk.injEq] at h
          rw [← h.2]
          exact hk
        rw [if_neg hc] at h
        cases hA : AllocateNode s with
        | none => rw [hA] at h; cases h
        | some res =>
          obtain ⟨rc1, new_loc, s1⟩ := res
          rw [hA] at h
          dsimp only at h
          obtain ⟨hk1, hnl1, hall1⟩ := hk.alloc hA
          by_cases hrc : rc1 = ERROR_NOERROR
          swap
          · rw [if_pos hrc] at h
            simp only [Option.some.injEq, Prod.mk.injEq] at h
            rw [← h.2]
            exact hk1
          subst hrc
          rw [if_neg (by simp)] at h
          have ho1 : NotLeafAt s1.buffercache orig := hall1 _ ho
          have hn1 : NotLeafAt s1.buffercache new_loc := hnl1 rfl
          cases hU2 : Unserialize s1.buffercache new_loc with
          | error e =>
            rw [hU2] at h
            simp only [Option.some.injEq, Prod.mk.injEq] at h
            rw [← h.2]
            exact hk1
          | ok F =>
            rw [hU2] at h
            dsimp only at h
            cases hM : splitInteriorMove cfg (orig_node.numkeys / 2) orig_node
                (zeroData cfg
                  { F with nodetype := BTREE_INTERIOR_NODE,
                           numkeys := orig_node.numkeys - orig_node.numkeys / 2 - 1 }) with
            | error e =>
              rw [hM] at h
              simp only [Option.some.injEq, Prod.mk.injEq] at h
              rw [← h.2]
              exact hk1
            | ok res =>
              obtain ⟨o, n⟩ := res
              have tgo := (splitInteriorMove_kind cfg _ _ _).2 _ _ hM
              have tgn : n.nodetype = BTREE_INTERIOR_NODE :=
                splitInteriorMove_new_tag cfg _ _ _ _ _ hM
              have hot : o.nodetype ≠ BTREE_LEAF_NODE := by rw [tgo]; exact htl
              have hnt : n.nodetype ≠ BTREE_LEAF_NODE := by rw [tgn]; decide
              rw [hM] at h
              dsimp only at h
              by_cases hoi : o.nodetype = BTREE_INTERIOR_NODE
              · rw [if_pos hoi] at h
                cases hS1 : Serialize s1.buffercache orig o with
                | error e =>
                  rw [hS1] at h
                  simp only [Option.some.injEq, Prod.mk.injEq] at h
                  rw [← h.2]
                  exact hk1
                | ok bc2 =>
                  rw [hS1] at h
                  dsimp only at h
                  have hk2 := hk1.write_block ho1 hot hS1
                  obtain ⟨_, hbc2⟩ := Serialize_ok_iff.mp hS1
                  have hn2 : NotLeafAt bc2 new_loc := by
                    rw [hbc2]
                    exact hn1.set_block _ hot
                  cases hS2 : Serialize bc2 new_loc n with
                  | error e =>
                    rw [hS2] at h
                    simp only [Option.some.injEq, Prod.mk.injEq] at h
                    rw [← h.2]
                    exact hk2
                  | ok bc3 =>
                    rw [hS2] at h
                    dsimp only at h
                    have hk3 := hk2.write_block hn2 hnt hS2
                    cases hG : GetKey n 0 with
                    | error e =>
                      rw [hG] at h
                      simp only [Option.some.injEq, Prod.mk.injEq] at h
                      rw [← h.2]
                      exact hk3
                    | ok k =>
                      rw [hG] at h
                      dsimp only at h
                      exact parentInsert_frame cfg crumbs ih k new_loc hk3 h
              · rw [if_neg hoi] at h
                cases hA2 : AllocateNode s1 with
                | none => rw [hA2] at h; cases h
                | some res =>
                  obtain ⟨rc2, root_loc, s2⟩ := res
                  rw [hA2] at h
                  dsimp only at h
                  obtain ⟨hk2, hnl2, hall2⟩ := hk1.alloc hA2
                  by_cases hrc2 : rc2 = ERROR_NOERROR
                  swap
                  · rw [if_pos hrc2] at h
                    simp only [Option.some.injEq, Prod.mk.injEq] at h
                    rw [← h.2]
                    exact hk2
                  subst hrc2
                  rw [if_neg (by simp)] at h
                  have ho2 : NotLeafAt s2.buffercache orig := hall2 _ ho1
                  have hn2 : NotLeafAt s2.buffercache new_loc := hall2 _ hn1
                  have hr2 : NotLeafAt s2.buffercache root_loc := hnl2 rfl
                  cases hU3 : Unserialize s2.buffercache root_loc with
                  | error e =>
                    rw [hU3] at h
                    simp only [Option.some.injEq, Prod.mk.injEq] at h
                    rw [← h.2]
                    exact hk2
                  | ok F2 =>
                    rw [hU3] at h
                    dsimp only at h
                    have hkr := hk2.set_root root_loc
                    have hit : ({ o with nodetype := BTREE_INTERIOR_NODE } :
                        BTreeNode K V).nodetype ≠ BTREE_LEAF_NODE := by
                      show BTREE_INTERIOR_NODE ≠ BTREE_LEAF_NODE
                      decide
                    cases hS1 : Serialize s2.buffercache orig
                        { o with nodetype := BTREE_INTERIOR_NODE } with
                    | error e =>
                      rw [hS1] at h
                      simp only [Option.some.injEq, Prod.mk.injEq] at h
                      rw [← h.2]
                      exact hkr
                    | ok bc3 =>
                      rw [hS1] at h
                      dsimp only at h
                      have hk3 := hkr.write_block ho2 hit hS1
                      obtain ⟨_, hbc3⟩ := Serialize_ok_iff.mp hS1
                      have hn3 : NotLeafAt bc3 new_loc := by
                        rw [hbc3]
                        exact hn2.set_block _ hit
                      have hr3 : NotLeafAt bc3 root_loc := by
                        rw [hbc3]
                        exact hr2.set_block _ hit
                      cases hS2 : Serialize bc3 new_loc n with
                      | error e =>
                        rw [hS2] at h
                        simp only [Option.some.injEq, Prod.mk.injEq] at h
                        rw [← h.2]
                        exact hk3
                      | ok bc4 =>
                        rw [hS2] at h
                        dsimp only at h
                        have hk4 := hk3.write_block hn3 hnt hS2
                        obtain ⟨_, hbc4⟩ := Serialize_ok_iff.mp hS2
                        have hr4 : NotLeafAt bc4 root_loc := by
                          rw [hbc4]
                          exact hr3.set_block _ hnt
                        cases hfill : newRootFill
                            (zeroData cfg { F2 with nodetype := BTREE_ROOT_NODE, numkeys := 1 })
                            n orig new_loc with
                        | error e =>
                          rw [hfill] at h
                          simp only [Option.some.injEq, Prod.mk.injEq] at h
                          rw [← h.2]
                          exact hk4
                        | ok nr =>
                          rw [hfill] at h
                          dsimp only at h
                          have tnr : nr.nodetype ≠ BTREE_LEAF_NODE := by
                            rw [newRootFill_tag _ _ _ _ _ hfill]
                            show BTREE_ROOT_NODE ≠ BTREE_LEAF_NODE
                            decide
                          cases hS3 : Serialize bc4 root_loc nr with
                          | error e =>
                            rw [hS3] at h
                            simp only [Option.some.injEq, Prod.mk.injEq] at h
                            rw [← h.2]
                            exact hk4
                          | ok bc5 =>
                            rw [hS3] at h
                            have hk5 := hk4.write_block hr4 tnr hS3
                            simp only [Option.some.injEq, Prod.mk.injEq] at h
                            rw [← h.2]
                            exact hk5
      | BTREE_UNALLOCATED_BLOCK | BTREE_SUPERBLOCK =>
        rw [ht] at h
        simp only [Option.some.injEq, Prod.mk.injEq] at h
        rw [← h.2]
        exact hk

end LeafFrameSplit

section ClaimsLeafSplit
variable {K V : Type} [LinearOrder K]

/-- C21: let block `orig` hold a leaf `L` with `n ≥ SlotsAsLeaf` entries, let the
free-list head name a block tagged unallocated, and let the superblock (in
memory and in its block) be tagged as superblock; put `k2 = n / 2` and
`k1 = n - k2`.  `Split` writes to block `orig` a leaf with `numkeys = k1` and
the entries `0..k1-1` of `L`, and to the block taken from the free list a leaf
with `numkeys = k2` and the entries `k1..n-1` of `L` at slots `0..k2-1`.  For
`n ≥ 2`, when entry `k1` exists, it then calls `InteriorPointerInsert` on the
popped breadcrumbs with the key of entry `k1` and the index of the new block
(for `n < 2` the sibling is empty and the call returns `ERROR_OUTOFBOUNDS`).
Whatever `Split` returns, both blocks still hold these leaves on return. -/
theorem C21_leaf_split_partitions (cfg : Config K V) (orig : Nat) (crumbs : List Nat)
    (s : BTreeIndex K V) (L F : BTreeNode K V)
    (hL : s.buffercache[orig]? = some L) (ht : L.nodetype = BTREE_LEAF_NODE)
    (hcap : L.numkeys ≥ cfg.SlotsAsLeaf)
    (hsb : s.superblock.nodetype = BTREE_SUPERBLOCK)
    (hsb0 : ∃ sb, s.buffercache[s.superblock_index]? = some sb ∧
      sb.nodetype = BTREE_SUPERBLOCK)
    (hfree : s.superblock.freelist ≠ 0)
    (hF : s.buffercache[s.superblock.freelist]? = some F)
    (hFt : F.nodetype = BTREE_UNALLOCATED_BLOCK) :
    ∃ o' n' s2, s2.buffercache[orig]? = some o' ∧
      s2.buffercache[s.superblock.freelist]? = some n' ∧
      o'.nodetype = BTREE_LEAF_NODE ∧ o'.numkeys = L.numkeys - L.numkeys / 2 ∧
      (∀ j, j < L.numkeys - L.numkeys / 2 → o'.keys j = L.keys j ∧ o'.vals j = L.vals j) ∧
      n'.nodetype = BTREE_LEAF_NODE ∧ n'.numkeys = L.numkeys / 2 ∧
      (∀ j, j < L.numkeys / 2 →
        n'.keys j = L.keys (L.numkeys - L.numkeys / 2 + j) ∧
        n'.vals j = L.vals (L.numkeys - L.numkeys / 2 + j)) ∧
      (2 ≤ L.numkeys → Split cfg (orig :: crumbs) s =
        InteriorPointerInsert cfg crumbs (L.keys (L.numkeys - L.numkeys / 2))
          s.superblock.freelist s2) ∧
      (L.numkeys < 2 → Split cfg (orig :: crumbs) s = some (ERROR_OUTOFBOUNDS, s2)) ∧
      ∀ rc s', Split cfg (orig :: crumbs) s = some (rc, s') →
        s'.buffercache[orig]? = some o' ∧ s'.buffercache[s.superblock.freelist]? = some n' := by
  obtain ⟨s1, F1, _, hq1, hq2, hlen, hq3, hq4, hF1, hsplit⟩ :=
    Split_leaf_run cfg orig crumbs s L F hL ht hcap hfree hF hFt
  obtain ⟨sb, hsbb, hsbt⟩ := hsb0
  have hol : orig < s1.buffercache.length := by
    rw [hlen]
    rcases List.getElem?_eq_some_iff.mp hL with ⟨hl, _⟩
    exact hl
  have hnl : s.superblock.freelist < s1.buffercache.length := by
    rw [hlen]
    rcases List.getElem?_eq_some_iff.mp hF with ⟨hl, _⟩
    exact hl
  have hne : orig ≠ s.superblock.freelist := by
    intro e
    rw [e, hF] at hL
    cases hL
    rw [hFt] at ht
    cases ht
  have hio : s.superblock_index ≠ orig := by
    intro e
    rw [e, hL] at hsbb
    cases hsbb
    rw [ht] at hsbt
    cases hsbt
  have hin : s.superblock_index ≠ s.superblock.freelist := by
    intro e
    rw [e, hF] at hsbb
    cases hsbb
    rw [hFt] at hsbt
    cases hsbt
  have e2 : L.numkeys - (L.numkeys - L.numkeys / 2) = L.numkeys / 2 := by omega
  have hb1 : ((s1.buffercache.set orig
      (splitLeafOrig cfg L (L.numkeys - L.numkeys / 2))).set s.superblock.freelist
      (splitLeafNew cfg L F1 (L.numkeys - L.numkeys / 2)))[orig]? =
      some (splitLeafOrig cfg L (L.numkeys - L.numkeys / 2)) := by
    rw [List.getElem?_set_ne (fun e => hne e.symm), List.getElem?_set_self hol]
  have hb2 : ((s1.buffercache.set orig
      (splitLeafOrig cfg L (L.numkeys - L.numkeys / 2))).set s.superblock.freelist
      (splitLeafNew cfg L F1 (L.numkeys - L.numkeys / 2)))[s.superblock.freelist]? =
      some (splitLeafNew cfg L F1 (L.numkeys - L.numkeys / 2)) :=
    List.getElem?_set_self (by rw [List.length_set]; exact hnl)
  have hapart : SuperblockApart
      { s1 with
        buffercache := (s1.buffercache.set orig
          (splitLeafOrig cfg L (L.numkeys - L.numkeys / 2))).set s.superblock.freelist
          (splitLeafNew cfg L F1 (L.numkeys - L.numkeys / 2)) } := by
    constructor
    · show s1.superblock.nodetype ≠ _
      rw [hq1]
      show s.superblock.nodetype ≠ _
      rw [hsb]
      decide
    · intro b hb
      have hb' : ((s1.buffercache.set orig
          (splitLeafOrig cfg L (L.numkeys - L.numkeys / 2))).set s.superblock.freelist
          (splitLeafNew cfg L F1 (L.numkeys - L.numkeys / 2)))[s1.superblock_index]? =
          some b := hb
      rw [hq2, List.getElem?_set_ne (fun e => hin e.symm),
        List.getElem?_set_ne (fun e => hio e.symm)] at hb'
      rcases hq4 b hb' with e | e
      · rw [e, hq1]
        show s.superblock.nodetype ≠ _
        rw [hsb]
        decide
      · rw [e, hsbb] at hb'
        cases hb'
        rw [hsbt]
        decide
  have hget2 : 2 ≤ L.numkeys →
      GetKey (splitLeafNew cfg L F1 (L.numkeys - L.numkeys / 2)) 0 =
        .ok (L.keys (L.numkeys - L.numkeys / 2)) := by
    intro h2
    have hpos : 0 < L.numkeys - (L.numkeys - L.numkeys / 2) := by omega
    simp only [GetKey, splitLeafNew, hpos, if_true, copySlots, le_refl, true_and, Nat.zero_add]
  have hget0 : L.numkeys < 2 →
      GetKey (splitLeafNew cfg L F1 (L.numkeys - L.numkeys / 2)) 0 =
        .error ERROR_OUTOFBOUNDS := by
    intro h2
    have hpos : ¬ 0 < L.numkeys - (L.numkeys - L.numkeys / 2) := by omega
    simp only [GetKey, splitLeafNew, hpos, if_false]
  refine ⟨splitLeafOrig cfg L (L.numkeys - L.numkeys / 2),
    splitLeafNew cfg L F1 (L.numkeys - L.numkeys / 2),
    { s1 with
      buffercache := (s1.buffercache.set orig
        (splitLeafOrig cfg L (L.numkeys - L.numkeys / 2))).set s.superblock.freelist
        (splitLeafNew cfg L F1 (L.numkeys - L.numkeys / 2)) },
    hb1, hb2, ht, rfl, fun j hj => splitLeafOrig_slot cfg L _ hj, rfl, e2, ?_, ?_, ?_, ?_⟩
  · intro j hj
    have := splitLeafNew_slot cfg L F1 (L.numkeys - L.numkeys / 2) (j := j) (by omega)
    rw [Nat.add_comm]
    exact this
  · intro h2
    rw [hsplit, hget2 h2]
  · intro h2
    rw [hsplit, hget0 h2]
  · intro rc s' h
    rw [hsplit] at h
    have hkept : LeavesKept
        { s1 with
          buffercache := (s1.buffercache.set orig
            (splitLeafOrig cfg L (L.numkeys - L.numkeys / 2))).set s.superblock.freelist
            (splitLeafNew cfg L F1 (L.numkeys - L.numkeys / 2)) } s' := by
      cases hG : GetKey (splitLeafNew cfg L F1 (L.numkeys - L.numkeys / 2)) 0 with
      | error e =>
        rw [hG] at h
        simp only [Option.some.injEq, Prod.mk.injEq] at h
        rw [← h.2]
        exact LeavesKept.at_start hapart
      | ok k =>
        rw [hG] at h
        dsimp only at h
        cases crumbs with
        | nil =>
          simp only [InteriorPointerInsert, Option.some.injEq, Prod.mk.injEq] at h
          rw [← h.2]
          exact LeavesKept.at_start hapart
        | cons node tail =>
          exact InteriorPointerInsertWith_frame cfg _ node k _ (LeavesKept.at_start hapart)
            (fun a c b ha hn hab =>
              Split_frame cfg (node :: tail) _ a c b ha (fun o r e => by
                cases e
                exact hn) hab) h
    exact ⟨hkept.2 _ _ hb1 ht, hkept.2 _ _ hb2 rfl⟩

end ClaimsLeafSplit

section ClaimsLeafSplitScenario

/-- Witness for C21: the leaf of block 3 of `fullLeafIndex`, with the entries
10, 20, 30, 40, split with the breadcrumbs `[3, 1]`; block 4 is the free-list
head. -/
theorem C21_leaf_split_partitions_witness :
    ∃ L F, fullLeafIndex.buffercache[3]? = some L ∧ L.nodetype = BTREE_LEAF_NODE ∧
      L.numkeys ≥ scenarioConfig.SlotsAsLeaf ∧
      fullLeafIndex.superblock.nodetype = BTREE_SUPERBLOCK ∧
      (∃ sb, fullLeafIndex.buffercache[fullLeafIndex.superblock_index]? = some sb ∧
        sb.nodetype = BTREE_SUPERBLOCK) ∧
      fullLeafIndex.superblock.freelist ≠ 0 ∧
      fullLeafIndex.buffercache[fullLeafIndex.superblock.freelist]? = some F ∧
      F.nodetype = BTREE_UNALLOCATED_BLOCK ∧
      ∃ o' n' s2, s2.buffercache[3]? = some o' ∧
        s2.buffercache[fullLeafIndex.superblock.freelist]? = some n' ∧
        o'.nodetype = BTREE_LEAF_NODE ∧ o'.numkeys = L.numkeys - L.numkeys / 2 ∧
        (∀ j, j < L.numkeys - L.numkeys / 2 →
          o'.keys j = L.keys j ∧ o'.vals j = L.vals j) ∧
        n'.nodetype = BTREE_LEAF_NODE ∧ n'.numkeys = L.numkeys / 2 ∧
        (∀ j, j < L.numkeys / 2 →
          n'.keys j = L.keys (L.numkeys - L.numkeys / 2 + j) ∧
          n'.vals j = L.vals (L.numkeys - L.numkeys / 2 + j)) ∧
        (2 ≤ L.numkeys → Split scenarioConfig [3, 1] fullLeafIndex =
          InteriorPointerInsert scenarioConfig [1] (L.keys (L.numkeys - L.numkeys / 2))
            fullLeafIndex.superblock.freelist s2) ∧
        (L.numkeys < 2 →
          Split scenarioConfig [3, 1] fullLeafIndex = some (ERROR_OUTOFBOUNDS, s2)) ∧
        ∀ rc s', Split scenarioConfig [3, 1] fullLeafIndex = some (rc, s') →
          s'.buffercache[3]? = some o' ∧
          s'.buffercache[fullLeafIndex.superblock.freelist]? = some n' :=
  ⟨leafNode [(10, 110), (20, 120), (30, 130), (40, 140)], freeNode 0, rfl, rfl, by decide, rfl,
    ⟨superNode 1 4, rfl, rfl⟩, by decide, rfl, rfl,
    C21_leaf_split_partitions scenarioConfig 3 [1] fullLeafIndex _ (freeNode 0) rfl rfl
      (by decide) rfl ⟨superNode 1 4, rfl, rfl⟩ (by decide) rfl rfl⟩

end ClaimsLeafSplitScenario

section UnsignedShift
variable {K V : Type}

/-- The unsigned shift loop started below the last slot moves the same pairs as
the loop of the embedding, touches no slot above `B`, and never runs `iter--`
on zero. -/
theorem leafShiftLoopUnsigned_eq (w offset B : Nat) :
    ∀ (iter fuel : Nat) (b : BTreeNode K V) (slots : List Nat) (wrapped : Bool),
      iter + 2 ≤ b.numkeys → b.numkeys ≤ 2 ^ w → iter < fuel → iter + 1 ≤ B →
      (∀ i ∈ slots, i ≤ B) →
      ∃ slots', (∀ i ∈ slots', i ≤ B) ∧
        leafShiftLoopUnsigned w offset fuel iter b slots wrapped =
          some (.ok { b with
            keys := shiftRight b.keys offset (iter + 1)
            vals := shiftRight b.vals offset (iter + 1) }, slots', wrapped) := by
  intro iter
  induction iter with
  | zero =>
    intro fuel b slots wrapped hb hw hf hB hs
    obtain ⟨fuel, rfl⟩ : ∃ f, fuel = f + 1 := ⟨fuel - 1, by omega⟩
    unfold leafShiftLoopUnsigned
    by_cases h : 0 ≥ offset
    · have h0 : offset = 0 := by omega
      subst h0
      have h1 : 0 < b.numkeys := by omega
      have h2 : 0 + 1 < b.numkeys := by omega
      have hm : (0 + 1) % 2 ^ w = 1 := Nat.mod_eq_of_lt (by omega)
      refine ⟨slots ++ [0, 1], ?_, ?_⟩
      · intro i hi
        rcases List.mem_append.mp hi with hi | hi
        · exact hs i hi
        · simp only [List.mem_cons, List.mem_singleton, List.not_mem_nil, or_false] at hi
          omega
      · simp only [ge_iff_le, le_refl, if_true, hm, GetKey, h1, SetKey, h2, GetVal, SetVal,
          bind, Except.bind]
        rw [shiftRight_one, shiftRight_one]
    · refine ⟨slots, hs, ?_⟩
      simp only [h, if_false]
      rw [shiftRight_none _ _ _ (by omega), shiftRight_none _ _ _ (by omega)]
  | succ iter ih =>
    intro fuel b slots wrapped hb hw hf hB hs
    obtain ⟨fuel, rfl⟩ : ∃ f, fuel = f + 1 := ⟨fuel - 1, by omega⟩
    unfold leafShiftLoopUnsigned
    by_cases h : iter + 1 ≥ offset
    · have h1 : iter + 1 < b.numkeys := by omega
      have h2 : iter + 1 + 1 < b.numkeys := by omega
      have hm : (iter + 1 + 1) % 2 ^ w = iter + 1 + 1 := Nat.mod_eq_of_lt (by omega)
      have hd : (iter + 1 + (2 ^ w - 1)) % 2 ^ w = iter := by
        have : iter + 1 + (2 ^ w - 1) = iter + 2 ^ w := by omega
        rw [this, Nat.add_mod_right]
        exact Nat.mod_eq_of_lt (by omega)
      have hs' : ∀ i ∈ slots ++ [iter + 1, iter + 1 + 1], i ≤ B := by
        intro i hi
        rcases List.mem_append.mp hi with hi | hi
        · exact hs i hi
        · simp only [List.mem_cons, List.mem_singleton, List.not_mem_nil, or_false] at hi
          omega
      simp only [h, if_true, hm, GetKey, h1, SetKey, h2, GetVal, SetVal, bind, Except.bind]
      by_cases he : iter + 1 = offset
      · refine ⟨_, hs', ?_⟩
        simp only [he, if_true]
        rw [shiftRight_one, shiftRight_one]
      · simp only [he, if_false, hd]
        obtain ⟨slots', hs2, heq⟩ := ih fuel
          ({ b with
              keys := Function.update b.keys (iter + 1 + 1) (b.keys (iter + 1))
              vals := Function.update b.vals (iter + 1 + 1) (b.vals (iter + 1)) })
          (slots ++ [iter + 1, iter + 1 + 1]) wrapped (by simpa using (by omega : iter + 2 ≤ b.numkeys))
          hw (by omega) (by omega) hs'
        refine ⟨slots', hs2, ?_⟩
        have hwr : (wrapped || decide (iter + 1 = 0)) = wrapped := by simp
        rw [hwr, heq]
        simp only
        rw [shiftRight_step _ _ _ (by omega), shiftRight_step _ _ _ (by omega)]
    · refine ⟨slots, hs, ?_⟩
      simp only [h, if_false]
      rw [shiftRight_none _ _ _ (by omega), shiftRight_none _ _ _ (by omega)]

end UnsignedShift

section ClaimsLeafInsert
variable {K V : Type} [LinearOrder K]

/-- C22: for a leaf `L` in block `node` with at least one key, strictly
ascending keys and none equal to `key`, `LeafNodeInsert` writes to block `node`,
before it checks for a split, a leaf with one more entry and strictly ascending
keys: `(key, value)` sits at `off`, the first slot whose old key is greater
than `key` (`numkeys` if there is none), the entries before `off` stay and the
others move one slot right with their values.  The shift loop, run with a
`w`-bit unsigned iterator, passes only slots of `[0, numkeys]` to the accessors,
never runs `iter--` on zero, and moves what the loop of the embedding moves. -/
theorem C22_leaf_insert_keeps_leaf_sorted (cfg : Config K V) (crumbs : List Nat) (node : Nat)
    (L : BTreeNode K V) (key : K) (value : V) (s : BTreeIndex K V) (w : Nat)
    (hL : s.buffercache[node]? = some L) (ht : L.nodetype = BTREE_LEAF_NODE)
    (hn : 1 ≤ L.numkeys) (hasc : KeysAscending L)
    (hnew : ∀ j, j < L.numkeys → L.keys j ≠ key) (hw : L.numkeys + 1 < 2 ^ w) :
    ∃ off b' bc', off ≤ L.numkeys ∧ (∀ j, j < off → L.keys j < key) ∧
      (off < L.numkeys → key < L.keys off) ∧
      Serialize s.buffercache node b' = .ok bc' ∧ bc'[node]? = some b' ∧
      LeafNodeInsert cfg crumbs node L key value s =
        (if b'.numkeys ≥ cfg.SlotsAsLeaf then Split cfg crumbs { s with buffercache := bc' }
        else some (ERROR_NOERROR, { s with buffercache := bc' })) ∧
      b'.nodetype = BTREE_LEAF_NODE ∧ b'.numkeys = L.numkeys + 1 ∧ KeysAscending b' ∧
      (∀ j, j < off → b'.keys j = L.keys j ∧ b'.vals j = L.vals j) ∧
      b'.keys off = key ∧ b'.vals off = value ∧
      (∀ j, off ≤ j → j < L.numkeys →
        b'.keys (j + 1) = L.keys j ∧ b'.vals (j + 1) = L.vals j) ∧
      ∃ shifted slots,
        leafShiftUnsigned w off { L with numkeys := L.numkeys + 1 } =
          some (.ok shifted, slots, false) ∧
        (∀ i ∈ slots, i ≤ L.numkeys) ∧
        leafShiftLoop off (L.numkeys + 1 - 2) { L with numkeys := L.numkeys + 1 } =
          .ok shifted := by
  have hlen : node < s.buffercache.length := by
    rcases List.getElem?_eq_some_iff.mp hL with ⟨hl, _⟩
    exact hl
  rcases LeafNodeInsert_exec cfg crumbs node L key value s hL ht with
    ⟨off, ho, h1, h2, hexec⟩ | ⟨j, hj, hk, _⟩
  swap
  · exact absurd hk (hnew j hj)
  refine ⟨off, leafInsertNode L off key value, s.buffercache.set node
    (leafInsertNode L off key value), ho, h1, h2, Serialize_ok_iff.mpr ⟨hlen, rfl⟩,
    List.getElem?_set_self hlen, ?_, ht, rfl, ?_, ?_, ?_, ?_, ?_, ?_⟩
  · rw [hexec]
    have hc : (0 < L.numkeys ∧ L.numkeys + 1 ≥ cfg.SlotsAsLeaf) ↔
        (leafInsertNode L off key value).numkeys ≥ cfg.SlotsAsLeaf := by
      show _ ↔ L.numkeys + 1 ≥ cfg.SlotsAsLeaf
      constructor
      · exact fun h => h.2
      · exact fun h => ⟨by omega, h⟩
    by_cases hcap : (leafInsertNode L off key value).numkeys ≥ cfg.SlotsAsLeaf
    · rw [if_pos (hc.mpr hcap), if_pos hcap]
    · rw [if_neg (fun h => hcap (hc.mp h)), if_neg hcap]
  · exact insertSlots_ascending L.keys L.numkeys off key hasc ho h1 h2
  · intro j hj
    rw [leafInsertNode_keys, leafInsertNode_vals, if_neg (by omega), if_neg (by omega),
      if_neg (by omega), if_neg (by omega)]
    exact ⟨rfl, rfl⟩
  · rw [leafInsertNode_keys, if_pos rfl]
  · rw [leafInsertNode_vals, if_pos rfl]
  · intro j h3 h4
    rw [leafInsertNode_keys, leafInsertNode_vals, if_neg (by omega), if_pos (by omega),
      if_neg (by omega), if_pos (by omega)]
    exact ⟨rfl, rfl⟩
  · have e1 : (L.numkeys + 1 + (2 ^ w - 2)) % 2 ^ w = L.numkeys - 1 := by
      have : L.numkeys + 1 + (2 ^ w - 2) = L.numkeys - 1 + 2 ^ w := by omega
      rw [this, Nat.add_mod_right]
      exact Nat.mod_eq_of_lt (by omega)
    have e2 : L.numkeys + 1 - 2 = L.numkeys - 1 := by omega
    have e3 : decide (L.numkeys + 1 < 2) = false := by
      rw [decide_eq_false_iff_not]
      omega
    obtain ⟨slots, hs, heq⟩ := leafShiftLoopUnsigned_eq w off L.numkeys (L.numkeys - 1)
      (L.numkeys + 1) ({ L with numkeys := L.numkeys + 1 } : BTreeNode K V) [] false
      (by show L.numkeys - 1 + 2 ≤ L.numkeys + 1; omega)
      (by show L.numkeys + 1 ≤ 2 ^ w; omega) (by omega) (by omega)
      (fun i hi => absurd hi (List.not_mem_nil i))
    refine ⟨
      { L with
        numkeys := L.numkeys + 1
        keys := shiftRight L.keys off (L.numkeys - 1 + 1)
        vals := shiftRight L.vals off (L.numkeys - 1 + 1) }, slots, ?_, hs, ?_⟩
    · unfold leafShiftUnsigned
      show leafShiftLoopUnsigned w off (L.numkeys + 1)
        ((L.numkeys + 1 + (2 ^ w - 2)) % 2 ^ w) _ [] (decide (L.numkeys + 1 < 2)) = _
      rw [e1, e3]
      exact heq
    · rw [e2]
      exact leafShiftLoop_eq off (L.numkeys - 1) _
        (by show L.numkeys - 1 + 2 ≤ L.numkeys + 1; omega)

end ClaimsLeafInsert

section ClaimsLeafInsertScenario

/-- Witness for C22: the pair `(15, 115)` inserted into the leaf of block 5 of
`threeLevelIndex`, which holds the keys 10 and 20, with a 64-bit iterator. -/
theorem C22_leaf_insert_keeps_leaf_sorted_witness :
    ∃ L, threeLevelIndex.buffercache[5]? = some L ∧ L.nodetype = BTREE_LEAF_NODE ∧
      1 ≤ L.numkeys ∧ KeysAscending L ∧ (∀ j, j < L.numkeys → L.keys j ≠ 15) ∧
      L.numkeys + 1 < 2 ^ 64 ∧
      ∃ off b' bc', off ≤ L.numkeys ∧ (∀ j, j < off → L.keys j < 15) ∧
        (off < L.numkeys → 15 < L.keys off) ∧
        Serialize threeLevelIndex.buffercache 5 b' = .ok bc' ∧ bc'[5]? = some b' ∧
        LeafNodeInsert scenarioConfig [5, 2, 1] 5 L 15 115 threeLevelIndex =
          (if b'.numkeys ≥ scenarioConfig.SlotsAsLeaf then
            Split scenarioConfig [5, 2, 1] { threeLevelIndex with buffercache := bc' }
          else some (ERROR_NOERROR, { threeLevelIndex with buffercache := bc' })) ∧
        b'.nodetype = BTREE_LEAF_NODE ∧ b'.numkeys = L.numkeys + 1 ∧ KeysAscending b' ∧
        (∀ j, j < off → b'.keys j = L.keys j ∧ b'.vals j = L.vals j) ∧
        b'.keys off = 15 ∧ b'.vals off = 115 ∧
        (∀ j, off ≤ j → j < L.numkeys →
          b'.keys (j + 1) = L.keys j ∧ b'.vals (j + 1) = L.vals j) ∧
        ∃ shifted slots,
          leafShiftUnsigned 64 off { L with numkeys := L.numkeys + 1 } =
            some (.ok shifted, slots, false) ∧
          (∀ i ∈ slots, i ≤ L.numkeys) ∧
          leafShiftLoop off (L.numkeys + 1 - 2) { L with numkeys := L.numkeys + 1 } =
            .ok shifted :=
  ⟨leafNode [(10, 110), (20, 120)], rfl, rfl, by decide,
    (fun i j hij hj => by
      have hj' : j < 2 := hj
      have hi0 : i = 0 := by omega
      have hj1 : j = 1 := by omega
      subst hi0
      subst hj1
      decide),
    (fun j hj => by
      have hj' : j < 2 := hj
      rcases (by omega : j = 0 ∨ j = 1) with c | c <;> subst c <;> decide),
    (by
      show 2 + 1 < 2 ^ 64
      norm_num),
    C22_leaf_insert_keeps_leaf_sorted scenarioConfig [5, 2, 1] 5 _ 15 115 threeLevelIndex 64 rfl
      rfl (by decide)
      (fun i j hij hj => by
        have hj' : j < 2 := hj
        have hi0 : i = 0 := by omega
        have hj1 : j = 1 := by omega
        subst hi0
        subst hj1
        decide)
      (fun j hj => by
        have hj' : j < 2 := hj
        rcases (by omega : j = 0 ∨ j = 1) with c | c <;> subst c <;> decide)
      (by
        show 2 + 1 < 2 ^ 64
        norm_num)⟩

end ClaimsLeafInsertScenario

section ClaimsPointerInsert
variable {K V : Type} [LinearOrder K]

/-- C23: for a root or interior node `b` in block `node` with `n ≥ 1` strictly
ascending separators, none equal to `key`, `InteriorPointerInsert(key, ptr)`
writes to block `node`, before it checks for a split, a node with the same tag
and `n + 1` strictly ascending separators: `key` sits at `off`, the first slot
whose old key is greater than `key` (`n` if there is none), the separators
before `off` stay and the others move one slot right; `ptr` sits at pointer
slot `off + 1`, the pointers `0..off` stay and the pointers after `off` move
one slot right.  The call then returns `ERROR_NOERROR`, or goes on with `Split`
when the node has reached `SlotsAsInterior` separators. -/
theorem C23_interior_pointer_insert_aligned (cfg : Config K V) (crumbs : List Nat) (node : Nat)
    (b : BTreeNode K V) (key : K) (ptr : Nat) (s : BTreeIndex K V)
    (hb : s.buffercache[node]? = some b)
    (ht : b.nodetype = BTREE_ROOT_NODE ∨ b.nodetype = BTREE_INTERIOR_NODE)
    (hn : 1 ≤ b.numkeys) (hasc : KeysAscending b)
    (hnew : ∀ j, j < b.numkeys → b.keys j ≠ key) :
    ∃ off b' bc', off ≤ b.numkeys ∧ (∀ j, j < off → b.keys j < key) ∧
      (off < b.numkeys → key < b.keys off) ∧
      Serialize s.buffercache node b' = .ok bc' ∧ bc'[node]? = some b' ∧
      InteriorPointerInsert cfg (node :: crumbs) key ptr s =
        (if b'.numkeys ≥ cfg.SlotsAsInterior then
          Split cfg (node :: crumbs) { s with buffercache := bc' }
        else some (ERROR_NOERROR, { s with buffercache := bc' })) ∧
      b'.nodetype = b.nodetype ∧ b'.numkeys = b.numkeys + 1 ∧ KeysAscending b' ∧
      (∀ j, j < off → b'.keys j = b.keys j) ∧ b'.keys off = key ∧
      (∀ j, off ≤ j → j < b.numkeys → b'.keys (j + 1) = b.keys j) ∧
      (∀ j, j ≤ off → b'.ptrs j = b.ptrs j) ∧ b'.ptrs (off + 1) = ptr ∧
      (∀ j, off < j → j ≤ b.numkeys → b'.ptrs (j + 1) = b.ptrs j) := by
  obtain ⟨off, ho, h1, h2, hexec⟩ :=
    InteriorPointerInsertWith_exec cfg (Split cfg (node :: crumbs)) node b key ptr s hb ht hn hnew
  have hlen : node < s.buffercache.length := by
    rcases List.getElem?_eq_some_iff.mp hb with ⟨hl, _⟩
    exact hl
  refine ⟨off, interiorInsertNode b off key ptr, s.buffercache.set node
    (interiorInsertNode b off key ptr), ho, h1, h2, Serialize_ok_iff.mpr ⟨hlen, rfl⟩,
    List.getElem?_set_self hlen, hexec, rfl, rfl, ?_, ?_, ?_, ?_, ?_, ?_, ?_⟩
  · exact insertSlots_ascending b.keys b.numkeys off key hasc ho h1 h2
  · intro j hj
    rw [interiorInsertNode_keys, if_neg (by omega), if_neg (by omega)]
  · rw [interiorInsertNode_keys, if_pos rfl]
  · intro j h3 h4
    rw [interiorInsertNode_keys, if_neg (by omega), if_pos (by omega)]
    rfl
  · intro j hj
    rw [interiorInsertNode_ptrs, if_neg (by omega), if_neg (by omega)]
  · rw [interiorInsertNode_ptrs, if_pos rfl]
  · intro j h3 h4
    rw [interiorInsertNode_ptrs, if_neg (by omega), if_pos (by omega)]
    rfl

end ClaimsPointerInsert

section ClaimsPointerInsertScenario

/-- Witness for C23: the separator 25 with pointer 9 inserted into the root of
`threeLevelIndex` (separator 30, pointers 2 and 3). -/
theorem C23_interior_pointer_insert_aligned_witness :
    ∃ b, threeLevelIndex.buffercache[1]? = some b ∧
      (b.nodetype = BTREE_ROOT_NODE ∨ b.nodetype = BTREE_INTERIOR_NODE) ∧ 1 ≤ b.numkeys ∧
      KeysAscending b ∧ (∀ j, j < b.numkeys → b.keys j ≠ 25) ∧
      ∃ off b' bc', off ≤ b.numkeys ∧ (∀ j, j < off → b.keys j < 25) ∧
        (off < b.numkeys → 25 < b.keys off) ∧
        Serialize threeLevelIndex.buffercache 1 b' = .ok bc' ∧ bc'[1]? = some b' ∧
        InteriorPointerInsert scenarioConfig [1] 25 9 threeLevelIndex =
          (if b'.numkeys ≥ scenarioConfig.SlotsAsInterior then
            Split scenarioConfig [1] { threeLevelIndex with buffercache := bc' }
          else some (ERROR_NOERROR, { threeLevelIndex with buffercache := bc' })) ∧
        b'.nodetype = b.nodetype ∧ b'.numkeys = b.numkeys + 1 ∧ KeysAscending b' ∧
        (∀ j, j < off → b'.keys j = b.keys j) ∧ b'.keys off = 25 ∧
        (∀ j, off ≤ j → j < b.numkeys → b'.keys (j + 1) = b.keys j) ∧
        (∀ j, j ≤ off → b'.ptrs j = b.ptrs j) ∧ b'.ptrs (off + 1) = 9 ∧
        (∀ j, off < j → j ≤ b.numkeys → b'.ptrs (j + 1) = b.ptrs j) :=
  ⟨innerNode BTREE_ROOT_NODE [30] [2, 3], rfl, Or.inl rfl, by decide,
    (fun i j hij hj => by
      have hj' : j < 1 := hj
      omega),
    (fun j hj => by
      have hj' : j < 1 := hj
      have : j = 0 := by omega
      subst this
      decide),
    C23_interior_pointer_insert_aligned scenarioConfig [] 1 _ 25 9 threeLevelIndex rfl
      (Or.inl rfl) (by decide)
      (fun i j hij hj => by
        have hj' : j < 1 := hj
        omega)
      (fun j hj => by
        have hj' : j < 1 := hj
        have : j = 0 := by omega
        subst this
        decide)⟩

end ClaimsPointerInsertScenario

section ClaimsAllocate
variable {K V : Type}

/-- C24: `AllocateNode` returns `ERROR_NOSPACE` exactly when the free-list head
of the superblock is 0, and then the index is unchanged.  When the head `h` is
not 0 and block `h` is tagged unallocated (the source asserts it), the call
returns `ERROR_NOERROR` with `h`; the superblock keeps every field except the
free-list head, which becomes the `freelist` field of block `h`; with the
superblock index 0 set by `Attach`, block 0 holds the updated superblock and
every other block, block `h` included, is what it was. -/
theorem C24_allocate_pops_free_list_head (s : BTreeIndex K V) :
    (s.superblock.freelist = 0 → AllocateNode s = some (ERROR_NOSPACE, 0, s)) ∧
    (∀ rc n s', AllocateNode s = some (rc, n, s') →
      (rc = ERROR_NOSPACE ↔ s.superblock.freelist = 0)) ∧
    (s.superblock.freelist ≠ 0 → s.superblock_index = 0 →
      ∀ F, s.buffercache[s.superblock.freelist]? = some F →
        F.nodetype = BTREE_UNALLOCATED_BLOCK →
        ∃ s', AllocateNode s = some (ERROR_NOERROR, s.superblock.freelist, s') ∧
          s'.superblock = { s.superblock with freelist := F.freelist } ∧
          s'.superblock_index = s.superblock_index ∧
          s'.buffercache.length = s.buffercache.length ∧
          s'.buffercache[0]? = some s'.superblock ∧
          s'.buffercache[s.superblock.freelist]? = some F ∧
          ∀ m, m ≠ 0 → s'.buffercache[m]? = s.buffercache[m]?) := by
  refine ⟨fun hz => ?_, fun rc n s' h => ?_, fun hnz hidx F hF hFt => ?_⟩
  · unfold AllocateNode
    simp only [hz, if_true]
  · unfold AllocateNode at h
    by_cases hz : s.superblock.freelist = 0
    · simp only [hz, if_true, Option.some.injEq, Prod.mk.injEq] at h
      exact ⟨fun _ => hz, fun _ => h.1.symm⟩
    · simp only [hz, if_false] at h
      cases hu : Unserialize s.buffercache s.superblock.freelist with
      | error e => rw [hu] at h; cases h
      | ok node =>
        rw [hu] at h
        dsimp only at h
        by_cases ht : node.nodetype = BTREE_UNALLOCATED_BLOCK
        · rw [if_neg (by simpa using ht)] at h
          simp only [Option.some.injEq, Prod.mk.injEq] at h
          refine ⟨fun e => ?_, fun e => absurd e hz⟩
          rw [← h.1] at e
          cases e
        · rw [if_pos ht] at h
          cases h
  · have hlen : s.superblock.freelist < s.buffercache.length := by
      rcases List.getElem?_eq_some_iff.mp hF with ⟨hl, _⟩
      exact hl
    have h0 : 0 < s.buffercache.length := by omega
    unfold AllocateNode
    simp only [hnz, if_false, Unserialize_ok_iff.mpr hF, hFt, ne_eq, not_true_eq_false,
      Serialize, hidx, h0, if_true]
    refine ⟨_, rfl, rfl, rfl, ?_, ?_, ?_, ?_⟩
    · simp
    · exact List.getElem?_set_self h0
    · show (s.buffercache.set 0 _)[s.superblock.freelist]? = some F
      rw [List.getElem?_set_ne (fun e => hnz e.symm)]
      exact hF
    · intro m hm
      exact List.getElem?_set_ne (fun e => hm e.symm)

end ClaimsAllocate

section ClaimsAllocateScenario

/-- Witness for C24: the store whose free list is block 7, then block 8. -/
theorem C24_allocate_pops_free_list_head_witness :
    fullRootIndex.superblock.freelist ≠ 0 ∧ fullRootIndex.superblock_index = 0 ∧
    fullRootIndex.buffercache[fullRootIndex.superblock.freelist]? = some (freeNode 8) ∧
    (freeNode 8).nodetype = BTREE_UNALLOCATED_BLOCK ∧
    ∃ s', AllocateNode fullRootIndex =
        some (ERROR_NOERROR, fullRootIndex.superblock.freelist, s') ∧
      s'.superblock = { fullRootIndex.superblock with freelist := (freeNode 8).freelist } ∧
      s'.superblock_index = fullRootIndex.superblock_index ∧
      s'.buffercache.length = fullRootIndex.buffercache.length ∧
      s'.buffercache[0]? = some s'.superblock ∧
      s'.buffercache[fullRootIndex.superblock.freelist]? = some (freeNode 8) ∧
      ∀ m, m ≠ 0 → s'.buffercache[m]? = fullRootIndex.buffercache[m]? :=
  ⟨by decide, rfl, rfl, rfl,
    (C24_allocate_pops_free_list_head fullRootIndex).2.2 (by decide) rfl (freeNode 8) rfl rfl⟩

end ClaimsAllocateScenario

section InsertRuns
variable {K V : Type} [LinearOrder K]

omit [LinearOrder K] in
/-- The index after a run that starts with a call leading to `s1` is the index
after the rest of the run from `s1`. -/
theorem lastIndex_cons (s s1 : BTreeIndex K V) (rc : ERROR_T)
    (trace : List (ERROR_T × BTreeIndex K V)) :
    lastIndex s ((rc, s1) :: trace) = lastIndex s1 trace := by
  unfold lastIndex
  cases trace with
  | nil => rfl
  | cons x rest =>
    rw [List.getLast?_cons_cons]
    cases hl : (x :: rest).getLast? with
    | none => exact absurd (List.getLast?_eq_none_iff.mp hl) (List.cons_ne_nil _ _)
    | some y => rfl

/-- A run of `Insert` calls with keys that are new and pairwise distinct, in which
no call returns `ERROR_NOSPACE` and the root index stays 1: every call returns
`ERROR_NOERROR`, the two-level shape is kept, and the tree stores the pairs it
stored before together with the inserted ones. -/
theorem insertRun_stored (cfg : Config K V) (hcl : 2 ≤ cfg.SlotsAsLeaf)
    (hci : 2 ≤ cfg.SlotsAsInterior) :
    ∀ (kvs : List (K × V)) (s : BTreeIndex K V) (r : BTreeNode K V) (h : Nat)
      (prior : List (K × V)) (trace : List (ERROR_T × BTreeIndex K V)),
      TwoLevel s r h → WithinCapacity cfg s r h →
      (∀ k v, Stored s r k v ↔ (k, v) ∈ prior) →
      ((prior ++ kvs).map Prod.fst).Nodup →
      runOperations cfg (insertOperations kvs) s = some trace →
      (∀ x ∈ trace, x.1 ≠ ERROR_NOSPACE ∧ x.2.superblock.rootnode = 1) →
      (∀ x ∈ trace, x.1 = ERROR_NOERROR) ∧
      ∃ r' h', TwoLevel (lastIndex s trace) r' h' ∧
        WithinCapacity cfg (lastIndex s trace) r' h' ∧
        ∀ k v, Stored (lastIndex s trace) r' k v ↔ (k, v) ∈ prior ++ kvs := by
  intro kvs
  induction kvs with
  | nil =>
    intro s r h prior trace ht hc hst _ hrun _
    simp only [insertOperations, List.map_nil, runOperations, Option.some.injEq] at hrun
    subst hrun
    refine ⟨fun x hx => absurd hx (List.not_mem_nil x), r, h, ht, hc, ?_⟩
    intro k v
    rw [List.append_nil]
    exact hst k v
  | cons kv rest ih =>
    intro s r h prior trace ht hc hst hnd hrun hgood
    obtain ⟨key, value⟩ := kv
    simp only [insertOperations, List.map_cons, runOperations, applyOperation] at hrun
    cases hI : Insert cfg s key value with
    | none => rw [hI] at hrun; cases hrun
    | some res =>
      obtain ⟨rc, s1⟩ := res
      rw [hI] at hrun
      dsimp only at hrun
      cases hR : runOperations cfg (List.map (fun kv => Operation.insert kv.1 kv.2) rest) s1 with
      | none => rw [hR] at hrun; cases hrun
      | some trace1 =>
        rw [hR] at hrun
        simp only [Option.some.injEq] at hrun
        subst hrun
        obtain ⟨hns, hroot⟩ := hgood (rc, s1) (List.mem_cons_self _ _)
        have hgood1 : ∀ x ∈ trace1, x.1 ≠ ERROR_NOSPACE ∧ x.2.superblock.rootnode = 1 :=
          fun x hx => hgood x (List.mem_cons_of_mem _ hx)
        have hstep : rc = ERROR_NOERROR ∧ ∃ r' h', TwoLevel s1 r' h' ∧
            WithinCapacity cfg s1 r' h' ∧
            ∀ k v, Stored s1 r' k v ↔ Stored s r k v ∨ (k = key ∧ v = value) := by
          by_cases hz : r.numkeys = 0
          · obtain ⟨a1, a2, _, _⟩ := Insert_step_empty cfg hcl hci ht hc hz key value rc s1 hI
            have hrc : rc = ERROR_NOERROR := by
              rcases a2 with c | c
              · exact c
              · exact absurd c hns
            obtain ⟨r', h', b1, b2, _, b4⟩ := a1 hrc
            exact ⟨hrc, r', h', b1, b2, b4⟩
          · obtain ⟨a1, a2, _, a4, _⟩ :=
              Insert_step_nonempty cfg hcl ht hc (by omega) key value rc s1 hI
            have hrc : rc = ERROR_NOERROR := by
              rcases a4 hroot with c | c | c
              · exact c
              · exfalso
                obtain ⟨_, v, hv⟩ := a2 c
                have hmem : (key, v) ∈ prior := (hst key v).mp hv
                rw [List.map_append, List.map_cons] at hnd
                have hdis := (List.nodup_append.mp hnd).2.2
                exact hdis (List.mem_map.mpr ⟨(key, v), hmem, rfl⟩) (List.mem_cons_self _ _)
              · exact absurd c hns
            obtain ⟨r', h', b1, b2, _, b4⟩ := a1 hrc hroot
            exact ⟨hrc, r', h', b1, b2, b4⟩
        obtain ⟨hrc, r', h', ht1, hc1, hst1⟩ := hstep
        have hst1' : ∀ k v, Stored s1 r' k v ↔ (k, v) ∈ prior ++ [(key, value)] := by
          intro k v
          rw [hst1 k v, hst k v, List.mem_append, List.mem_singleton, Prod.mk.injEq]
        have hnd1 : (((prior ++ [(key, value)]) ++ rest).map Prod.fst).Nodup := by
          rw [List.append_assoc]
          exact hnd
        obtain ⟨c1, r2, h2, c2, c3, c4⟩ :=
          ih s1 r' h' (prior ++ [(key, value)]) trace1 ht1 hc1 hst1' hnd1 hR hgood1
        refine ⟨?_, r2, h2, ?_, ?_, ?_⟩
        · intro x hx
          rcases List.mem_cons.mp hx with e | e
          · rw [e]
            exact hrc
          · exact c1 x e
        · rw [lastIndex_cons]
          exact c2
        · rw [lastIndex_cons]
          exact c3
        · intro k v
          rw [lastIndex_cons, c4 k v, List.append_assoc]
          rfl

end InsertRuns

section FreshRuns
variable {K V : Type} [LinearOrder K]

omit [LinearOrder K] in
/-- `Attach(0, true)` returns `ERROR_NOERROR` only on a device with a block for
the superblock and one for the root. -/
theorem Attach_ok_length (cfg : Config K V) (s0 s : BTreeIndex K V)
    (hA : Attach cfg s0 0 true = some (ERROR_NOERROR, s)) : 2 ≤ s0.buffercache.length := by
  obtain ⟨bc, sb, idx⟩ := s0
  cases bc with
  | nil => simp [Attach, Serialize] at hA
  | cons a t =>
    cases t with
    | nil => simp [Attach, Serialize] at hA
    | cons b t => simp

/-- On a device of two blocks the first `Insert` after `Attach(0, true)` has no
result: the free-list head written by `Attach` is 2, and `AllocateNode` asserts
on a block the device does not have. -/
theorem Insert_two_blocks (cfg : Config K V) (s0 s : BTreeIndex K V)
    (hA : Attach cfg s0 0 true = some (ERROR_NOERROR, s)) (h2 : s0.buffercache.length = 2)
    (key : K) (value : V) : Insert cfg s key value = none := by
  obtain ⟨s1, hA1, _, hsb, hlen, _, h1, _⟩ := Attach_create cfg s0 (by omega)
  rw [hA] at hA1
  simp only [Option.some.injEq, Prod.mk.injEq, true_and] at hA1
  subst hA1
  have hroot : s.superblock.rootnode = 1 := by rw [hsb]; rfl
  have hfl : s.superblock.freelist = 2 := by rw [hsb]; rfl
  have hnone : s.buffercache[2]? = none := List.getElem?_eq_none (by omega)
  unfold Insert
  rw [hlen, h2, hroot, Inserter, Unserialize_ok_iff.mpr h1]
  dsimp only
  rw [if_pos ⟨rfl, rfl⟩]
  unfold insertEmptyRoot AllocateNode
  simp [hfl, Unserialize, hnone]

/-- The first `Insert` on a fresh tree returns; when it returns `ERROR_NOERROR`
the root in block 1 has one separator. -/
theorem Insert_fresh (cfg : Config K V) (s0 s : BTreeIndex K V)
    (hA : Attach cfg s0 0 true = some (ERROR_NOERROR, s)) (hN : 3 ≤ s0.buffercache.length)
    (key : K) (value : V) :
    ∃ rc s1, Insert cfg s key value = some (rc, s1) ∧
      (rc = ERROR_NOERROR ∨ rc = ERROR_NOSPACE) ∧
      (rc = ERROR_NOERROR → ∃ r, s1.buffercache[1]? = some r ∧ r.numkeys = 1) := by
  obtain ⟨s', hA', hlen, ht⟩ := Attach_shape cfg s0 hN
  rw [hA] at hA'
  simp only [Option.some.injEq, Prod.mk.injEq, true_and] at hA'
  subst hA'
  rw [Insert_empty cfg ht rfl key value]
  obtain ⟨e1, e2, e3⟩ := insertEmptyRoot_exec cfg ht key value
  rcases Nat.lt_trichotomy (2 + 1) s.buffercache.length with c | c | c
  · obtain ⟨F, F2, _, _, hres⟩ := e3 c
    rw [hres]
    refine ⟨_, _, rfl, Or.inl rfl, fun _ => ⟨firstRoot (newRootNode cfg) key 2 (2 + 1), ?_, rfl⟩⟩
    exact List.getElem?_set_self (by simp only [List.length_set]; omega)
  · obtain ⟨F, _, hres⟩ := e2 c
    rw [hres]
    exact ⟨_, _, rfl, Or.inr rfl, fun e => by cases e⟩
  · have : 2 = s.buffercache.length := by omega
    rw [e1 this]
    exact ⟨_, _, rfl, Or.inr rfl, fun e => by cases e⟩

end FreshRuns

section ClaimsRoundTrip
variable {K V : Type} [LinearOrder K]

/-- C25: with `SlotsAsLeaf ≥ 2`, take a run of `Insert` calls with pairwise
distinct keys on a tree made by `Attach(0, true)`, in which no call returns
`ERROR_NOSPACE` (a free block is there whenever one is needed) and after every
call the root index is still 1 and the root holds fewer than `SlotsAsInterior`
separators (the root never splits).  Then every call returns `ERROR_NOERROR`,
`Lookup` of each inserted key on the final index returns the value it was
inserted with, and the final root is tagged root, has ascending separators, and
each of its pointers names a leaf whose keys lie in the separator range of that
pointer.  A further `Insert` on the final index returns a result. -/
theorem C25_round_trip_without_interior_split (cfg : Config K V) (hcl : 2 ≤ cfg.SlotsAsLeaf)
    (s0 s : BTreeIndex K V) (hA : Attach cfg s0 0 true = some (ERROR_NOERROR, s))
    (kvs : List (K × V)) (hdist : (kvs.map Prod.fst).Nodup)
    (trace : List (ERROR_T × BTreeIndex K V))
    (hrun : runOperations cfg (insertOperations kvs) s = some trace)
    (hgood : ∀ x ∈ trace, x.1 ≠ ERROR_NOSPACE ∧ x.2.superblock.rootnode = 1 ∧
      ∀ r, x.2.buffercache[x.2.superblock.rootnode]? = some r →
        r.numkeys < cfg.SlotsAsInterior) :
    (∀ x ∈ trace, x.1 = ERROR_NOERROR) ∧
    (∀ kv ∈ kvs, ∀ v0, Lookup (lastIndex s trace) kv.1 v0 = some (ERROR_NOERROR, kv.2)) ∧
    (∃ r, (lastIndex s trace).buffercache[(lastIndex s trace).superblock.rootnode]? = some r ∧
      r.nodetype = BTREE_ROOT_NODE ∧ KeysAscending r ∧
      (0 < r.numkeys → ∀ i, i ≤ r.numkeys →
        ∃ L, (lastIndex s trace).buffercache[r.ptrs i]? = some L ∧
          L.nodetype = BTREE_LEAF_NODE ∧ ∀ j, j < L.numkeys → InRange r i (L.keys j))) ∧
    ((kvs ≠ [] ∨ 3 ≤ s0.buffercache.length) →
      ∀ key value, ∃ rc s', Insert cfg (lastIndex s trace) key value = some (rc, s')) := by
  have hlen2 := Attach_ok_length cfg s0 s hA
  cases kvs with
  | nil =>
    simp only [insertOperations, List.map_nil, runOperations, Option.some.injEq] at hrun
    subst hrun
    obtain ⟨s', hA', _, hsb, _, _, h1, _⟩ := Attach_create cfg s0 hlen2
    rw [hA] at hA'
    simp only [Option.some.injEq, Prod.mk.injEq, true_and] at hA'
    subst hA'
    refine ⟨fun x hx => absurd hx (List.not_mem_nil x),
      fun kv hkv => absurd hkv (List.not_mem_nil kv), ⟨newRootNode cfg, ?_, rfl, ?_, ?_⟩, ?_⟩
    · show s.buffercache[s.superblock.rootnode]? = _
      rw [hsb]
      exact h1
    · intro i j _ hj
      exact absurd hj (Nat.not_lt_zero j)
    · intro hpos
      exact absurd hpos (Nat.lt_irrefl 0)
    · intro hor key value
      rcases hor with c | c
      · exact absurd rfl c
      · obtain ⟨rc, s1, hI, _⟩ := Insert_fresh cfg s0 s hA c key value
        exact ⟨rc, s1, hI⟩
  | cons kv rest =>
    obtain ⟨key, value⟩ := kv
    have hN : 3 ≤ s0.buffercache.length := by
      by_contra hlt
      have hnone := Insert_two_blocks cfg s0 s hA (by omega) key value
      simp only [insertOperations, List.map_cons, runOperations, applyOperation, hnone] at hrun
      cases hrun
    have hci : 2 ≤ cfg.SlotsAsInterior := by
      obtain ⟨rc, s1, hI, hrc, hone⟩ := Insert_fresh cfg s0 s hA hN key value
      simp only [insertOperations, List.map_cons, runOperations, applyOperation, hI] at hrun
      cases hR : runOperations cfg (List.map (fun kv => Operation.insert kv.1 kv.2) rest) s1 with
      | none => rw [hR] at hrun; cases hrun
      | some trace1 =>
        rw [hR] at hrun
        simp only [Option.some.injEq] at hrun
        subst hrun
        obtain ⟨g1, g2, g3⟩ := hgood (rc, s1) (List.mem_cons_self _ _)
        have hok : rc = ERROR_NOERROR := by
          rcases hrc with c | c
          · exact c
          · exact absurd c g1
        obtain ⟨r, hr, hr1⟩ := hone hok
        have := g3 r (by
          show s1.buffercache[s1.superblock.rootnode]? = some r
          rw [show s1.superblock.rootnode = 1 from g2]
          exact hr)
        omega
    obtain ⟨s', hA', _, ht, hc⟩ := Attach_two_level cfg (by omega) s0 hN
    rw [hA] at hA'
    simp only [Option.some.injEq, Prod.mk.injEq, true_and] at hA'
    subst hA'
    have hst : ∀ k v, Stored s (newRootNode cfg) k v ↔ (k, v) ∈ ([] : List (K × V)) := by
      intro k v
      constructor
      · intro h
        exact absurd h.1 (Nat.lt_irrefl 0)
      · intro h
        exact absurd h (List.not_mem_nil _)
    obtain ⟨c1, r', h', c2, c3, c4⟩ :=
      insertRun_stored cfg hcl hci ((key, value) :: rest) s (newRootNode cfg) 2 [] trace ht hc
        hst hdist hrun (fun x hx => ⟨(hgood x hx).1, (hgood x hx).2.1⟩)
    refine ⟨c1, ?_, ⟨r', ?_, c2.rtype, c2.rkeys, ?_⟩, fun _ key' value' =>
      Insert_returns cfg hcl c2 c3 key' value'⟩
    · intro kv hkv v0
      have hs : Stored (lastIndex s trace) r' kv.1 kv.2 := (c4 kv.1 kv.2).mpr hkv
      rcases Lookup_two_level c2 kv.1 v0 with ⟨v, hv, hl⟩ | ⟨hno, _⟩
      · rw [hl, Stored_unique c2 hs hv]
      · exact absurd hs (hno kv.2)
    · rw [c2.rootidx]
      exact c2.root
    · intro hpos i hi
      obtain ⟨L, hL, hLt, _, hLr⟩ := c2.leaves hpos i hi
      exact ⟨L, hL, hLt, hLr⟩

end ClaimsRoundTrip

section ClaimsRoundTripScenario

/-- Witness for C25: seven inserts in shuffled key order on a 9-block device; the
seventh splits the right leaf and the root ends with two separators. -/
theorem C25_round_trip_without_interior_split_witness :
    (∀ x ∈ insertTrace 9 shuffledPairs, x.1 = ERROR_NOERROR) ∧
    (∀ kv ∈ shuffledPairs, ∀ v0,
      Lookup (lastIndex (freshIndex 9) (insertTrace 9 shuffledPairs)) kv.1 v0 =
        some (ERROR_NOERROR, kv.2)) ∧
    (∃ r, (lastIndex (freshIndex 9) (insertTrace 9 shuffledPairs)).buffercache[
        (lastIndex (freshIndex 9) (insertTrace 9 shuffledPairs)).superblock.rootnode]? =
          some r ∧
      r.nodetype = BTREE_ROOT_NODE ∧ KeysAscending r ∧
      (0 < r.numkeys → ∀ i, i ≤ r.numkeys →
        ∃ L, (lastIndex (freshIndex 9) (insertTrace 9 shuffledPairs)).buffercache[r.ptrs i]? =
            some L ∧
          L.nodetype = BTREE_LEAF_NODE ∧ ∀ j, j < L.numkeys → InRange r i (L.keys j))) ∧
    ((shuffledPairs ≠ [] ∨ 3 ≤ (blankIndex 9).buffercache.length) →
      ∀ key value, ∃ rc s',
        Insert scenarioConfig (lastIndex (freshIndex 9) (insertTrace 9 shuffledPairs))
          key value = some (rc, s')) :=
  C25_round_trip_without_interior_split scenarioConfig (by decide) (blankIndex 9)
    (freshIndex 9) (finalIndex_eq (blankIndex 9) (by decide)) shuffledPairs (by decide)
    (insertTrace 9 shuffledPairs) (eq_some_getD (by decide))
    (fun x hx => by
      have h := (by decide : ∀ x ∈ insertTrace 9 shuffledPairs,
        x.1 ≠ ERROR_NOSPACE ∧ x.2.superblock.rootnode = 1 ∧
          (x.2.buffercache[x.2.superblock.rootnode]?).map
            (fun r => decide (r.numkeys < scenarioConfig.SlotsAsInterior)) = some true) x hx
      refine ⟨h.1, h.2.1, fun r hr => ?_⟩
      have h3 := h.2.2
      rw [hr] at h3
      simpa using h3)

end ClaimsRoundTripScenario

section DescentLemmas
variable {K V : Type} [LinearOrder K]

/-- A block the descent steps from is a block of the device. -/
theorem descendStep_lt {bc : List (BTreeNode K V)} {key : K} {node next : Nat}
    (h : descendStep bc key node = some next) : node < bc.length := by
  unfold descendStep at h
  cases hu : Unserialize bc node with
  | error e => rw [hu] at h; cases h
  | ok b =>
    rcases List.getElem?_eq_some_iff.mp (Unserialize_ok_iff.mp hu) with ⟨hl, _⟩
    exact hl

/-- The descent does not step from a leaf. -/
theorem descendStep_leaf {bc : List (BTreeNode K V)} {key : K} {node : Nat}
    {L : BTreeNode K V} (hL : bc[node]? = some L) (ht : L.nodetype = BTREE_LEAF_NODE) :
    descendStep bc key node = none := by
  unfold descendStep
  rw [Unserialize_ok_iff.mpr hL]
  simp [ht]

/-- Where the descent steps on, `Inserter` calls itself on the next block with
the current block pushed on the breadcrumbs. -/
theorem Inserter_descendStep (cfg : Config K V) (fuel : Nat) (crumbs : List Nat)
    (node next : Nat) (key : K) (value : V) (s : BTreeIndex K V)
    (h : descendStep s.buffercache key node = some next) :
    Inserter cfg (fuel + 1) crumbs node key value s =
      Inserter cfg fuel (node :: crumbs) next key value s := by
  unfold descendStep at h
  rw [Inserter]
  cases hu : Unserialize s.buffercache node with
  | error e => rw [hu] at h; cases h
  | ok b =>
    rw [hu] at h
    dsimp only at h ⊢
    by_cases he : b.nodetype = BTREE_ROOT_NODE ∧ b.numkeys = 0
    · rw [if_pos he] at h
      cases h
    rw [if_neg he] at h
    rw [if_neg he]
    cases ht : b.nodetype with
    | BTREE_ROOT_NODE | BTREE_INTERIOR_NODE =>
      rw [ht] at h
      dsimp only at h ⊢
      cases hsc : scanInterior b key (List.range b.numkeys) with
      | error e => rw [hsc] at h; cases h
      | ok o =>
        rw [hsc] at h
        cases o with
        | some ptr =>
          simp only [Option.some.injEq] at h
          subst h
          rfl
        | none =>
          dsimp only at h ⊢
          by_cases hk : b.numkeys > 0
          · rw [if_pos hk] at h
            rw [if_pos hk]
            cases hg : GetPtr b b.numkeys with
            | error e => rw [hg] at h; cases h
            | ok ptr =>
              rw [hg] at h
              simp only [Option.some.injEq] at h
              subst h
              rfl
          · rw [if_neg hk] at h
            cases h
    | BTREE_LEAF_NODE | BTREE_UNALLOCATED_BLOCK | BTREE_SUPERBLOCK =>
      rw [ht] at h
      cases h

/-- At a leaf in which the scan of `LeafNodeInsert` meets `key` (slot `j` holds
it, the slots before hold smaller keys), `Inserter` returns `ERROR_CONFLICT` and
leaves the index as it is. -/
theorem Inserter_leaf_conflict (cfg : Config K V) (fuel : Nat) (crumbs : List Nat)
    (leaf : Nat) (key : K) (value : V) (s : BTreeIndex K V) (L : BTreeNode K V) (j : Nat)
    (hL : s.buffercache[leaf]? = some L) (ht : L.nodetype = BTREE_LEAF_NODE)
    (hj : j < L.numkeys) (hk : L.keys j = key) (hscan : ∀ i, i < j → L.keys i < key) :
    Inserter cfg (fuel + 1) crumbs leaf key value s = some (ERROR_CONFLICT, s) := by
  rw [Inserter]
  rw [Unserialize_ok_iff.mpr hL]
  dsimp only
  rw [if_neg (by rw [ht]; simp)]
  rw [ht]
  dsimp only
  rcases LeafNodeInsert_exec cfg (leaf :: crumbs) leaf L key value s hL ht with
    ⟨off, _, h1, h2, _⟩ | ⟨_, _, _, hexec⟩
  · exfalso
    rcases Nat.lt_trichotomy off j with c | c | c
    · have a := h2 (by omega)
      have b := hscan off c
      exact lt_asymm a b
    · subst c
      have a := h2 hj
      rw [hk] at a
      exact lt_irrefl _ a
    · have a := h1 j c
      rw [hk] at a
      exact lt_irrefl _ a
  · exact hexec

/-- A descent of `d` steps that ends at such a leaf: `Inserter` with more than
`d` units of fuel returns `ERROR_CONFLICT` and leaves the index as it is. -/
theorem Inserter_descend_conflict (cfg : Config K V) (key : K) (value : V)
    (s : BTreeIndex K V) (leaf : Nat) (L : BTreeNode K V) (j : Nat)
    (hL : s.buffercache[leaf]? = some L) (ht : L.nodetype = BTREE_LEAF_NODE)
    (hj : j < L.numkeys) (hk : L.keys j = key) (hscan : ∀ i, i < j → L.keys i < key) :
    ∀ (d fuel : Nat) (crumbs : List Nat) (node : Nat),
      descend s.buffercache key d node = some leaf → d < fuel →
      Inserter cfg fuel crumbs node key value s = some (ERROR_CONFLICT, s) := by
  intro d
  induction d with
  | zero =>
    intro fuel crumbs node hd hf
    simp only [descend, Option.some.injEq] at hd
    subst hd
    obtain ⟨f, rfl⟩ : ∃ f, fuel = f + 1 := ⟨fuel - 1, by omega⟩
    exact Inserter_leaf_conflict cfg f crumbs node key value s L j hL ht hj hk hscan
  | succ d ih =>
    intro fuel crumbs node hd hf
    obtain ⟨f, rfl⟩ : ∃ f, fuel = f + 1 := ⟨fuel - 1, by omega⟩
    rw [descend] at hd
    cases hst : descendStep s.buffercache key node with
    | none => rw [hst] at hd; cases hd
    | some next =>
      rw [hst] at hd
      rw [Inserter_descendStep cfg f crumbs node next key value s hst]
      exact ih f (node :: crumbs) next hd (by omega)

/-- Descents compose. -/
theorem descend_add (bc : List (BTreeNode K V)) (key : K) :
    ∀ (a b node : Nat),
      descend bc key (a + b) node = (descend bc key a node).bind (descend bc key b) := by
  intro a
  induction a with
  | zero =>
    intro b node
    simp [descend]
  | succ a ih =>
    intro b node
    rw [Nat.succ_add, descend, descend]
    cases descendStep bc key node with
    | none => rfl
    | some next => exact ih b next

/-- A descent that has reached a leaf goes no further. -/
theorem descend_from_leaf {bc : List (BTreeNode K V)} {key : K} {leaf : Nat}
    {L : BTreeNode K V} (hL : bc[leaf]? = some L) (ht : L.nodetype = BTREE_LEAF_NODE)
    (d : Nat) : descend bc key (d + 1) leaf = none := by
  rw [descend, descendStep_leaf hL ht]

/-- The number of steps from a block down to a leaf is determined. -/
theorem descend_depth_unique {bc : List (BTreeNode K V)} {key : K} {leaf : Nat}
    {L : BTreeNode K V} (hL : bc[leaf]? = some L) (ht : L.nodetype = BTREE_LEAF_NODE)
    {a b node : Nat} (ha : descend bc key a node = some leaf)
    (hb : descend bc key b node = some leaf) : a = b := by
  by_contra hne
  rcases Nat.lt_or_gt_of_ne hne with c | c
  · obtain ⟨e, rfl⟩ : ∃ e, b = a + (e + 1) := ⟨b - a - 1, by omega⟩
    rw [descend_add, ha] at hb
    simp only [Option.some_bind] at hb
    rw [descend_from_leaf hL ht] at hb
    cases hb
  · obtain ⟨e, rfl⟩ : ∃ e, a = b + (e + 1) := ⟨a - b - 1, by omega⟩
    rw [descend_add, hb] at ha
    simp only [Option.some_bind] at ha
    rw [descend_from_leaf hL ht] at ha
    cases ha

/-- Every block on a descent is a block of the device. -/
theorem descend_lt {bc : List (BTreeNode K V)} {key : K} {leaf : Nat}
    {L : BTreeNode K V} (hL : bc[leaf]? = some L) :
    ∀ (d node : Nat), descend bc key d node = some leaf → node < bc.length := by
  intro d
  induction d with
  | zero =>
    intro node hd
    simp only [descend, Option.some.injEq] at hd
    subst hd
    rcases List.getElem?_eq_some_iff.mp hL with ⟨hl, _⟩
    exact hl
  | succ d _ =>
    intro node hd
    rw [descend] at hd
    cases hst : descendStep bc key node with
    | none => rw [hst] at hd; cases hd
    | some next => exact descendStep_lt hst

/-- A descent that reaches a leaf meets no block twice, so it is shorter than
the number of blocks. -/
theorem descend_depth_lt {bc : List (BTreeNode K V)} {key : K} {leaf : Nat}
    {L : BTreeNode K V} (hL : bc[leaf]? = some L) (ht : L.nodetype = BTREE_LEAF_NODE)
    {d root : Nat} (hd : descend bc key d root = some leaf) : d < bc.length := by
  have hpre : ∀ i, i ≤ d → ∃ x, descend bc key i root = some x ∧
      descend bc key (d - i) x = some leaf := by
    intro i hi
    have e : d = i + (d - i) := by omega
    rw [e, descend_add] at hd
    cases hx : descend bc key i root with
    | none => rw [hx] at hd; cases hd
    | some x =>
      rw [hx] at hd
      exact ⟨x, rfl, hd⟩
  have hnd : ((List.range (d + 1)).map fun i => (descend bc key i root).getD 0).Nodup := by
    rw [List.nodup_map_iff_inj_on (List.nodup_range _)]
    intro i hi i' hi' hEq
    rw [List.mem_range] at hi hi'
    obtain ⟨x, hx, hxl⟩ := hpre i (by omega)
    obtain ⟨x', hx', hxl'⟩ := hpre i' (by omega)
    rw [hx, hx'] at hEq
    simp only [Option.getD_some] at hEq
    subst hEq
    have := descend_depth_unique hL ht hxl hxl'
    omega
  have hlt : ∀ v ∈ (List.range (d + 1)).map fun i => (descend bc key i root).getD 0,
      v < bc.length := by
    intro v hv
    rw [List.mem_map] at hv
    obtain ⟨i, hi, rfl⟩ := hv
    rw [List.mem_range] at hi
    obtain ⟨x, hx, hxl⟩ := hpre i (by omega)
    rw [hx]
    exact descend_lt hL _ _ hxl
  have := nodup_length_le hnd hlt
  rw [List.length_map, List.length_range] at this
  omega

end DescentLemmas

section ClaimsConflict
variable {K V : Type} [LinearOrder K]

/-- C26: on any block store, when the descent of `Insert` for `key` ends at a
leaf in which the scan of `LeafNodeInsert` meets `key` (slot `j` holds it and
the slots before it hold smaller keys, as they do in a sorted leaf), `Insert`
returns `ERROR_CONFLICT` and the index on return is the index before the call:
the same block cache, the same in-memory superblock. -/
theorem C26_leaf_conflict_is_atomic (cfg : Config K V) (s : BTreeIndex K V) (key : K)
    (value : V) (d leaf : Nat) (L : BTreeNode K V) (j : Nat)
    (hd : descend s.buffercache key d s.superblock.rootnode = some leaf)
    (hL : s.buffercache[leaf]? = some L) (ht : L.nodetype = BTREE_LEAF_NODE)
    (hj : j < L.numkeys) (hk : L.keys j = key) (hscan : ∀ i, i < j → L.keys i < key) :
    Insert cfg s key value = some (ERROR_CONFLICT, s) :=
  Inserter_descend_conflict cfg key value s leaf L j hL ht hj hk hscan d _ [] _ hd
    (descend_depth_lt hL ht hd)

end ClaimsConflict

section ClaimsConflictScenario

/-- Witness for C26: `Insert(40, 999)` on `threeLevelIndex`, where the descent
for key 40 ends after two steps at the leaf of block 6, which holds 30 and 40. -/
theorem C26_leaf_conflict_is_atomic_witness :
    descend threeLevelIndex.buffercache 40 2 threeLevelIndex.superblock.rootnode = some 6 ∧
    threeLevelIndex.buffercache[6]? = some (leafNode [(30, 130), (40, 140)]) ∧
    (leafNode [(30, 130), (40, 140)]).nodetype = BTREE_LEAF_NODE ∧
    1 < (leafNode [(30, 130), (40, 140)]).numkeys ∧
    (leafNode [(30, 130), (40, 140)]).keys 1 = 40 ∧
    (∀ i, i < 1 → (leafNode [(30, 130), (40, 140)]).keys i < 40) ∧
    Insert scenarioConfig threeLevelIndex 40 999 = some (ERROR_CONFLICT, threeLevelIndex) :=
  ⟨by decide, rfl, rfl, by decide, rfl,
    (fun i hi => by
      have : i = 0 := by omega
      subst this
      decide),
    C26_leaf_conflict_is_atomic scenarioConfig threeLevelIndex 40 999 2 6
      (leafNode [(30, 130), (40, 140)]) 1 (by decide) rfl rfl (by decide) rfl
      (fun i hi => by
        have : i = 0 := by omega
        subst this
        decide)⟩

end ClaimsConflictScenario

section RootSplitRun
variable {K V : Type} [LinearOrder K]

omit [LinearOrder K] in
/-- The copy loop of the interior split keeps `numkeys` of the sibling. -/
theorem splitInteriorLoop_new_numkeys (cfg : Config K V) (k1 : Nat) :
    ∀ (l : List Nat) (orig_node new_node o n : BTreeNode K V),
      splitInteriorLoop cfg k1 l orig_node new_node = .ok (o, n) →
      n.numkeys = new_node.numkeys := by
  intro l
  induction l with
  | nil =>
    intro orig_node new_node o n h
    simp only [splitInteriorLoop, Except.ok.injEq, Prod.mk.injEq] at h
    rw [← h.2]
  | cons iter rest ih =>
    intro orig_node new_node o n h
    unfold splitInteriorLoop at h
    simp only [bind, Except.bind] at h
    cases h1 : GetKey orig_node iter with
    | error e => rw [h1] at h; cases h
    | ok k =>
      rw [h1] at h
      dsimp only at h
      cases h2 : SetKey new_node (iter - (k1 + 1)) k with
      | error e => rw [h2] at h; cases h
      | ok n1 =>
        rw [h2] at h
        dsimp only at h
        cases h3 : SetKey orig_node iter cfg.nullKey with
        | error e => rw [h3] at h; cases h
        | ok o1 =>
          rw [h3] at h
          dsimp only at h
          cases h4 : GetPtr o1 iter with
          | error e => rw [h4] at h; cases h
          | ok p =>
            rw [h4] at h
            dsimp only at h
            cases h5 : SetPtr n1 (iter - (k1 + 1)) p with
            | error e => rw [h5] at h; cases h
            | ok n2 =>
              rw [h5] at h
              dsimp only at h
              cases h6 : SetPtr o1 iter 0 with
              | error e => rw [h6] at h; cases h
              | ok o2 =>
                rw [h6] at h
                dsimp only at h
                rw [ih _ _ _ _ h, ((codec_ok_shape _ _ _).2 _ h5).2,
                  ((codec_ok_shape _ _ _).1 _ h2).2]

omit [LinearOrder K] in
/-- The interior split keeps `numkeys` of the sibling as it was set before the
copy. -/
theorem splitInteriorMove_new_numkeys (cfg : Config K V) (k1 : Nat)
    (orig_node new_node o n : BTreeNode K V)
    (h : splitInteriorMove cfg k1 orig_node new_node = .ok (o, n)) :
    n.numkeys = new_node.numkeys := by
  unfold splitInteriorMove at h
  simp only [bind, Except.bind, pure, Except.pure] at h
  cases h1 : splitInteriorLoop cfg k1
      (List.range' (k1 + 1) (orig_node.numkeys - (k1 + 1))) orig_node new_node with
  | error e => rw [h1] at h; cases h
  | ok r =>
    obtain ⟨o1, n1⟩ := r
    have t1 := splitInteriorLoop_new_numkeys cfg k1 _ _ _ _ _ h1
    rw [h1] at h
    dsimp only at h
    cases h2 : SetKey o1 k1 cfg.nullKey with
    | error e => rw [h2] at h; cases h
    | ok o2 =>
      rw [h2] at h
      dsimp only at h
      cases h3 : GetPtr o2 o2.numkeys with
      | error e => rw [h3] at h; cases h
      | ok p =>
        rw [h3] at h
        dsimp only at h
        cases h4 : SetPtr o2 o2.numkeys 0 with
        | error e => rw [h4] at h; cases h
        | ok o3 =>
          rw [h4] at h
          simp only [Except.ok.injEq, Prod.mk.injEq] at h
          rw [← h.2]
          cases h5 : SetPtr n1 k1 p with
          | error e => exact t1
          | ok n2 =>
            dsimp only
            rw [((codec_ok_shape _ _ _).2 _ h5).2]
            exact t1

omit [LinearOrder K] in
/-- The new root as the root ending of `Split` fills it, when the sibling has a
key. -/
theorem newRootFill_ok (cfg : Config K V) (F n : BTreeNode K V) (a b : Nat)
    (hn : 0 < n.numkeys) :
    ∃ nr, newRootFill (zeroData cfg { F with nodetype := BTREE_ROOT_NODE, numkeys := 1 })
        n a b = .ok nr ∧
      nr.nodetype = BTREE_ROOT_NODE ∧ nr.numkeys = 1 ∧ nr.keys 0 = n.keys 0 ∧
      nr.ptrs 0 = a ∧ nr.ptrs 1 = b := by
  refine ⟨
    { nodetype := BTREE_ROOT_NODE
      numkeys := 1
      rootnode := F.rootnode
      freelist := F.freelist
      keys := Function.update (fun _ => cfg.zeroKey) 0 (n.keys 0)
      vals := fun _ => cfg.zeroVal
      ptrs := Function.update (Function.update (fun _ => 0) 0 a) 1 b }, ?_, rfl, rfl, ?_, ?_, ?_⟩
  · simp [newRootFill, GetKey, hn, SetKey, zeroData, SetPtr, ptrInRange, bind, Except.bind]
  · simp
  · simp
  · simp

end RootSplitRun

section RootSplitExec
variable {K V : Type} [LinearOrder K]

/-- The root ending of `Split` on any index with superblock index 0: when the
block to split holds a node tagged root with at least `SlotsAsInterior` and at
least 3 separators, and the free list starts with two blocks tagged
unallocated, `Split` returns `ERROR_NOERROR`; the root index is then the second
of these blocks, which holds the new root with one separator and the pointers
to the old root and to the sibling, and the block of the old root holds a node
tagged interior. -/
theorem Split_root_run (cfg : Config K V) (orig : Nat) (crumbs : List Nat)
    (s : BTreeIndex K V) (r F1 F2 : BTreeNode K V)
    (hidx : s.superblock_index = 0)
    (hr : s.buffercache[orig]? = some r) (hrt : r.nodetype = BTREE_ROOT_NODE)
    (hcap : r.numkeys ≥ cfg.SlotsAsInterior) (h3 : 3 ≤ r.numkeys)
    (hfree : s.superblock.freelist ≠ 0)
    (hF1 : s.buffercache[s.superblock.freelist]? = some F1)
    (hF1t : F1.nodetype = BTREE_UNALLOCATED_BLOCK) (hnext : F1.freelist ≠ 0)
    (hF2 : s.buffercache[F1.freelist]? = some F2)
    (hF2t : F2.nodetype = BTREE_UNALLOCATED_BLOCK) :
    ∃ s', Split cfg (orig :: crumbs) s = some (ERROR_NOERROR, s') ∧
      s'.superblock.rootnode = F1.freelist ∧
      (∃ b, s'.buffercache[orig]? = some b ∧ b.nodetype = BTREE_INTERIOR_NODE) ∧
      ∃ nr, s'.buffercache[F1.freelist]? = some nr ∧ nr.nodetype = BTREE_ROOT_NODE ∧
        nr.numkeys = 1 ∧ nr.ptrs 0 = orig ∧ nr.ptrs 1 = s.superblock.freelist := by
  obtain ⟨s1, hA1, hq1, hq2, hlen1, hq3, _⟩ := AllocateNode_run s F1 hfree hF1 hF1t
  have hF1' : s1.buffercache[s.superblock.freelist]? = some F1 := by
    rw [hq3 _ (by rw [hidx]; exact hfree)]
    exact hF1
  have hfl1 : s1.superblock.freelist = F1.freelist := by rw [hq1]
  have hF2' : s1.buffercache[s1.superblock.freelist]? = some F2 := by
    rw [hfl1, hq3 _ (by rw [hidx]; exact hnext)]
    exact hF2
  obtain ⟨s2, hA2, hr1, hr2, hlen2, hr3, _⟩ :=
    AllocateNode_run s1 F2 (by rw [hfl1]; exact hnext) hF2' hF2t
  rw [hfl1] at hA2
  have hol : orig < s2.buffercache.length := by
    rw [hlen2, hlen1]
    rcases List.getElem?_eq_some_iff.mp hr with ⟨hl, _⟩
    exact hl
  have hnl : s.superblock.freelist < s2.buffercache.length := by
    rw [hlen2, hlen1]
    rcases List.getElem?_eq_some_iff.mp hF1 with ⟨hl, _⟩
    exact hl
  have hrl : F1.freelist < s2.buffercache.length := by
    rw [hlen2, hlen1]
    rcases List.getElem?_eq_some_iff.mp hF2 with ⟨hl, _⟩
    exact hl
  obtain ⟨F2', hF2''⟩ : ∃ F2', s2.buffercache[F1.freelist]? = some F2' :=
    ⟨_, List.getElem?_eq_getElem hrl⟩
  obtain ⟨o, n, hM, hot⟩ := splitInteriorMove_ok cfg r F1 (by omega) (Or.inl hrt)
  have hnk : n.numkeys = r.numkeys - r.numkeys / 2 - 1 :=
    splitInteriorMove_new_numkeys cfg _ _ _ _ _ hM
  have hoi : ¬ o.nodetype = BTREE_INTERIOR_NODE := by
    rw [hot, hrt]
    decide
  obtain ⟨nr, hfill, hnrt, hnrk, _, hp0, hp1⟩ :=
    newRootFill_ok cfg F2' n orig s.superblock.freelist (by rw [hnk]; omega)
  have hne1 : orig ≠ s.superblock.freelist := by
    intro e
    rw [e, hF1] at hr
    cases hr
    rw [hF1t] at hrt
    cases hrt
  have hne2 : orig ≠ F1.freelist := by
    intro e
    rw [e, hF2] at hr
    cases hr
    rw [hF2t] at hrt
    cases hrt
  refine ⟨{ s2 with
      superblock := { s2.superblock with rootnode := F1.freelist }
      buffercache := ((s2.buffercache.set orig
        { o with nodetype := BTREE_INTERIOR_NODE }).set s.superblock.freelist n).set
        F1.freelist nr }, ?_, rfl, ⟨{ o with nodetype := BTREE_INTERIOR_NODE }, ?_, rfl⟩,
    nr, ?_, hnrt, hnrk, hp0, hp1⟩
  · rw [Split, Unserialize_ok_iff.mpr hr]
    simp only [hrt]
    rw [if_neg (by omega), hA1]
    simp only [ne_eq, not_true_eq_false, if_false, Unserialize_ok_iff.mpr hF1']
    rw [hM]
    simp only [hoi, if_false]
    rw [hA2]
    simp only [ne_eq, not_true_eq_false, if_false, Unserialize_ok_iff.mpr hF2'', Serialize, hol,
      hnl, hrl, if_true, List.length_set, hfill]
  · show (((s2.buffercache.set orig { o with nodetype := BTREE_INTERIOR_NODE }).set
      s.superblock.freelist n).set F1.freelist nr)[orig]? = _
    rw [List.getElem?_set_ne (fun e => hne2 e.symm),
      List.getElem?_set_ne (fun e => hne1 e.symm), List.getElem?_set_self hol]
  · show (((s2.buffercache.set orig { o with nodetype := BTREE_INTERIOR_NODE }).set
      s.superblock.freelist n).set F1.freelist nr)[F1.freelist]? = _
    exact List.getElem?_set_self (by simp only [List.length_set]; exact hrl)

end RootSplitExec

section FirstRootSplit
variable {K V : Type} [LinearOrder K]

/-- The leaf ending of `Split` below a root that the promoted separator fills to
capacity: when a free block is left, the call moves the upper half of the leaf
to it, inserts the separator into the root, and continues as `Split` on the root
of a two-level store whose root holds one separator more. -/
theorem Split_leaf_to_root (cfg : Config K V)
    {s : BTreeIndex K V} {r : BTreeNode K V} {h : Nat}
    (ht : TwoLevel s r h) (hpos : 0 < r.numkeys) {i : Nat} (hi : i ≤ r.numkeys)
    {L : BTreeNode K V} (hL : s.buffercache[r.ptrs i]? = some L) (hleaf : LeafUnder r i L)
    (hm : 2 ≤ L.numkeys) (hcap : L.numkeys ≥ cfg.SlotsAsLeaf)
    (hlt : h < s.buffercache.length) (hrc : r.numkeys + 1 ≥ cfg.SlotsAsInterior) :
    ∃ s4 r4, TwoLevel s4 r4 (h + 1) ∧ r4.numkeys = r.numkeys + 1 ∧
      s4.buffercache.length = s.buffercache.length ∧
      Split cfg [r.ptrs i, 1] s = Split cfg [1] s4 := by
  have hp := ht.ptrs hpos i hi
  obtain ⟨_, hB⟩ := Split_leaf_exec cfg (r.ptrs i) 1 [] s L h hL hleaf.1 ht.idx ht.free
    hcap hm hp.2
  obtain ⟨F, hF, hFt, hS2⟩ := hB hlt
  rw [hS2]
  clear hS2 hB
  have ht2 := ht.pop_block hlt
  have hh2 : h < (popFree s (if h + 1 = s.buffercache.length then 0
      else h + 1)).buffercache.length := by rw [popFree_length]; exact hlt
  have hlen2 : (popFree s (if h + 1 = s.buffercache.length then 0
      else h + 1)).buffercache.length = s.buffercache.length := popFree_length _ _
  revert ht2 hh2 hlen2
  generalize popFree s (if h + 1 = s.buffercache.length then 0 else h + 1) = s2
  intro ht2 hh2 hlen2
  have hbelow : ∀ i', i' ≤ r.numkeys → r.ptrs i' < h := fun i' hi' => (ht.ptrs hpos i' hi').2
  have ht4 := TwoLevel.split_leaf cfg ht2 hpos hbelow hh2 hi hleaf hm F
  have hk1 : L.numkeys - L.numkeys / 2 < L.numkeys := by omega
  have hk0 : 0 < L.numkeys - L.numkeys / 2 := by omega
  have hsep := hleaf.2.2 _ hk1
  have sep_lo : ∀ j, j < i → r.keys j < L.keys (L.numkeys - L.numkeys / 2) := by
    intro j hj
    have a1 : r.keys j ≤ r.keys (i - 1) := ht.rkeys.le (by omega) (by omega)
    have a2 := (hleaf.2.2 0 (by omega)).1 (by omega)
    have a3 := hleaf.2.1 _ _ hk0 hk1
    exact lt_of_le_of_lt (le_trans a1 a2) a3
  have hnew : ∀ j, j < r.numkeys → r.keys j ≠ L.keys (L.numkeys - L.numkeys / 2) := by
    intro j hj
    by_cases c : j < i
    · exact ne_of_lt (sep_lo j c)
    · exact ne_of_gt (lt_of_lt_of_le (hsep.2 (by omega)) (ht.rkeys.le (by omega) hj))
  have hroot3 : (((s2.buffercache.set (r.ptrs i)
      (splitLeafOrig cfg L (L.numkeys - L.numkeys / 2))).set h
      (splitLeafNew cfg L F (L.numkeys - L.numkeys / 2))))[1]? = some r := by
    rw [List.getElem?_set_ne (by omega), List.getElem?_set_ne (by omega)]
    exact ht2.root
  obtain ⟨off', ho', g1, g2, hIP⟩ := InteriorPointerInsertWith_exec cfg (Split cfg [1]) 1 r
    (L.keys (L.numkeys - L.numkeys / 2)) h
    { s2 with
      buffercache := (s2.buffercache.set (r.ptrs i)
        (splitLeafOrig cfg L (L.numkeys - L.numkeys / 2))).set h
        (splitLeafNew cfg L F (L.numkeys - L.numkeys / 2)) }
    hroot3 (Or.inl ht.rtype) hpos hnew
  have hoff : off' = i := route_unique ht.rkeys ho' (fun j hj => le_of_lt (g1 j hj)) g2 hi hsep
  subst hoff
  rw [hIP, if_pos hrc]
  exact ⟨_, _, ht4, rfl, by simp only [List.length_set]; exact hlen2, rfl⟩

/-- The first root split: on a two-level tree between two operations whose root
holds `SlotsAsInterior - 1` separators, with three blocks still free, an insert
of a new key into a leaf holding `SlotsAsLeaf - 1` entries returns
`ERROR_NOERROR` and leaves the root index at block `h + 2`, the third free
block. -/
theorem Insert_first_root_split (cfg : Config K V) (hcl : 2 ≤ cfg.SlotsAsLeaf)
    (hci : 3 ≤ cfg.SlotsAsInterior)
    {s : BTreeIndex K V} {r : BTreeNode K V} {h : Nat}
    (ht : TwoLevel s r h) (hfull : r.numkeys + 1 = cfg.SlotsAsInterior)
    (hblocks : h + 3 ≤ s.buffercache.length) (key : K) (value : V)
    (hleafc : ∀ i, i ≤ r.numkeys → InRange r i key → ∀ L, s.buffercache[r.ptrs i]? = some L →
      L.numkeys + 1 = cfg.SlotsAsLeaf ∧ ∀ j, j < L.numkeys → L.keys j ≠ key) :
    ∃ s', Insert cfg s key value = some (ERROR_NOERROR, s') ∧
      s'.superblock.rootnode = h + 2 := by
  have hpos : 0 < r.numkeys := by omega
  obtain ⟨i, hi, hrange, L, hL, hleaf, hIns⟩ := Insert_descend cfg ht hpos key value
  obtain ⟨hLn, hfresh⟩ := hleafc i hi hrange L hL
  rcases LeafNodeInsert_exec cfg [r.ptrs i, 1] (r.ptrs i) L key value s hL hleaf.1 with
    ⟨off, ho, h1, h2, hexec⟩ | ⟨j, hj, hk, _⟩
  swap
  · exact absurd hk (hfresh j hj)
  rw [hIns, hexec, if_pos ⟨by omega, by omega⟩]
  have hleaf1 : LeafUnder r i (leafInsertNode L off key value) :=
    hleaf.insert hrange ho h1 h2 value
  have ht1 := ht.set_leaf hpos hi hleaf1
  have hplen : r.ptrs i < s.buffercache.length := by
    rcases List.getElem?_eq_some_iff.mp hL with ⟨hl, _⟩; exact hl
  have hL1 : ({ s with buffercache := s.buffercache.set (r.ptrs i) (leafInsertNode L off key value) } :
      BTreeIndex K V).buffercache[r.ptrs i]? = some (leafInsertNode L off key value) :=
    List.getElem?_set_self hplen
  have hnk : (leafInsertNode L off key value).numkeys = L.numkeys + 1 := rfl
  obtain ⟨s4, r4, ht4, hr4, hlen4, heq⟩ := Split_leaf_to_root cfg ht1 hpos hi hL1 hleaf1
    (by omega) (by omega) (by simp only [List.length_set]; omega) (by omega)
  rw [heq]
  have hlen4' : s4.buffercache.length = s.buffercache.length := by
    rw [hlen4]; simp only [List.length_set]
  obtain ⟨_, _, f3, f4⟩ := ht4.free
  have hfl : s4.superblock.freelist = h + 1 := by rw [f3, if_neg (by omega)]
  obtain ⟨F1, hF1, hF1t, hF1n⟩ := f4 (h + 1) (le_refl _) (by omega)
  rw [if_neg (by omega)] at hF1n
  obtain ⟨F2, hF2, hF2t, _⟩ := f4 (h + 1 + 1) (by omega) (by omega)
  obtain ⟨s', hS, hroot, _⟩ := Split_root_run cfg 1 [] s4 r4 F1 F2 ht4.idx ht4.root ht4.rtype
    (by omega) (by omega) (by omega) (by rw [hfl]; exact hF1) hF1t (by omega)
    (by rw [hF1n]; exact hF2) hF2t
  exact ⟨s', hS, by rw [hroot, hF1n]⟩

end FirstRootSplit

section RootSplitTags
variable {K V : Type} [LinearOrder K]

/-- A run of `Insert` calls recorded call by call gives the codes and the final
index that `insertAll` returns. -/
theorem insertAll_of_run (cfg : Config K V) :
    ∀ (kvs : List (K × V)) (s : BTreeIndex K V) (trace : List (ERROR_T × BTreeIndex K V)),
      runOperations cfg (insertOperations kvs) s = some trace →
      insertAll cfg kvs s = some (trace.map Prod.fst, lastIndex s trace) := by
  intro kvs
  induction kvs with
  | nil =>
    intro s trace h
    simp only [insertOperations, List.map_nil, runOperations, Option.some.injEq] at h
    subst h
    rfl
  | cons kv rest ih =>
    intro s trace h
    obtain ⟨key, value⟩ := kv
    simp only [insertOperations, List.map_cons, runOperations, applyOperation] at h
    rw [insertAll]
    cases hI : Insert cfg s key value with
    | none => rw [hI] at h; cases h
    | some p =>
      obtain ⟨rc, s1⟩ := p
      rw [hI] at h
      dsimp only at h ⊢
      cases hR : runOperations cfg (List.map (fun kv => Operation.insert kv.1 kv.2) rest) s1 with
      | none => rw [hR] at h; cases h
      | some trace1 =>
        rw [hR] at h
        simp only [Option.some.injEq] at h
        subst h
        rw [ih s1 trace1 hR, lastIndex_cons]
        rfl

/-- The root ending of `Split` on an index that satisfies the root-tag
condition: with the root at capacity, at least 3 separators and two free blocks,
the call returns `ERROR_NOERROR`, the root index moves to the second free block,
the old root block is tagged interior, and the new root block is the only one
tagged root. -/
theorem Split_root_tags (cfg : Config K V) (crumbs : List Nat)
    (u : BTreeIndex K V) (r F1 F2 : BTreeNode K V) (hj : UniqueRootTag u)
    (hr : u.buffercache[u.superblock.rootnode]? = some r)
    (hcap : r.numkeys ≥ cfg.SlotsAsInterior) (h3 : 3 ≤ r.numkeys)
    (hfree : u.superblock.freelist ≠ 0)
    (hF1 : u.buffercache[u.superblock.freelist]? = some F1)
    (hF1t : F1.nodetype = BTREE_UNALLOCATED_BLOCK) (hnext : F1.freelist ≠ 0)
    (hF2 : u.buffercache[F1.freelist]? = some F2)
    (hF2t : F2.nodetype = BTREE_UNALLOCATED_BLOCK) :
    ∃ u', Split cfg (u.superblock.rootnode :: crumbs) u = some (ERROR_NOERROR, u') ∧
      u'.superblock.rootnode = F1.freelist ∧
      u'.superblock.rootnode ≠ u.superblock.rootnode ∧
      (∃ b, u'.buffercache[u.superblock.rootnode]? = some b ∧
        b.nodetype = BTREE_INTERIOR_NODE) ∧
      (∃ nr, u'.buffercache[u'.superblock.rootnode]? = some nr ∧
        nr.nodetype = BTREE_ROOT_NODE ∧ nr.numkeys = 1 ∧
        nr.ptrs 0 = u.superblock.rootnode ∧ nr.ptrs 1 = u.superblock.freelist) ∧
      ∀ n b, u'.buffercache[n]? = some b → b.nodetype = BTREE_ROOT_NODE →
        n = u'.superblock.rootnode := by
  obtain ⟨r0, hr0, hr0t⟩ := hj.root
  have hrt : r.nodetype = BTREE_ROOT_NODE := by
    rw [hr] at hr0
    cases hr0
    exact hr0t
  obtain ⟨u', hS, hroot, hold, nr, hnr, hnrt, hnk, hp0, hp1⟩ :=
    Split_root_run cfg u.superblock.rootnode crumbs u r F1 F2 hj.idx hr hrt hcap h3 hfree
      hF1 hF1t hnext hF2 hF2t
  have hstep := Split_tag cfg (u.superblock.rootnode :: crumbs) u u' hj hS
  have hne : u'.superblock.rootnode ≠ u.superblock.rootnode := by
    intro e
    rw [hroot] at e
    rw [e, hr] at hF2
    cases hF2
    rw [hrt] at hF2t
    cases hF2t
  refine ⟨u', hS, hroot, hne, hold, ⟨nr, by rw [hroot]; exact hnr, hnrt, hnk, hp0, hp1⟩,
    hstep.1.only⟩

end RootSplitTags

section ClaimsRootTag
variable {K V : Type} [LinearOrder K]

/-- C17: in every index reached from `Attach(0, true)` by `Insert` calls that all
returned `ERROR_NOERROR`, the root index of the in-memory superblock names a
block tagged Root, no other block of the store is tagged Root, in particular
none that is reachable from the root, and whenever one more `Insert` returns
`ERROR_NOERROR` with a changed root index, the block that was the root is then
tagged Interior, and the block under the new root index, which was tagged
unallocated before that call, is the only one tagged Root.  The root index does
change: `Split` on the root of any index with the root-tag condition, the root
at capacity with at least 3 separators and two free blocks at the head of the
free list, returns `ERROR_NOERROR`, moves the root index to the second free
block, leaves the old root block tagged Interior and the new root block, with
one separator and the pointers to the old root and its sibling, as the only one
tagged Root.  And when the root index has been 1 throughout the run, the root
holds `SlotsAsInterior - 1` separators, three blocks are free and the leaf that
`key` is routed to holds `SlotsAsLeaf - 1` entries with other keys, then
`Insert(key, value)` returns `ERROR_NOERROR` with the root index changed to the
third free block, the old root block tagged Interior and the new root block the
only one tagged Root. -/
theorem C17_unique_root_tag (cfg : Config K V) (s0 s t : BTreeIndex K V)
    (kvs : List (K × V)) (rcs : List ERROR_T) (hN : 2 ≤ s0.buffercache.length)
    (hA : Attach cfg s0 0 true = some (ERROR_NOERROR, s))
    (hrun : insertAll cfg kvs s = some (rcs, t)) (hok : ∀ rc ∈ rcs, rc = ERROR_NOERROR) :
    (∃ r, t.buffercache[t.superblock.rootnode]? = some r ∧ r.nodetype = BTREE_ROOT_NODE) ∧
    (∀ n b, t.buffercache[n]? = some b → b.nodetype = BTREE_ROOT_NODE →
      n = t.superblock.rootnode) ∧
    (∀ n, Reaches t.buffercache t.superblock.rootnode n → n ≠ t.superblock.rootnode →
      ∀ b, t.buffercache[n]? = some b → b.nodetype ≠ BTREE_ROOT_NODE) ∧
    (∀ key value t', Insert cfg t key value = some (ERROR_NOERROR, t') →
      t'.superblock.rootnode ≠ t.superblock.rootnode →
      (∃ b, t'.buffercache[t.superblock.rootnode]? = some b ∧
        b.nodetype = BTREE_INTERIOR_NODE) ∧
      (∃ F, t.buffercache[t'.superblock.rootnode]? = some F ∧
        F.nodetype = BTREE_UNALLOCATED_BLOCK) ∧
      (∃ r, t'.buffercache[t'.superblock.rootnode]? = some r ∧
        r.nodetype = BTREE_ROOT_NODE) ∧
      ∀ n b, t'.buffercache[n]? = some b → b.nodetype = BTREE_ROOT_NODE →
        n = t'.superblock.rootnode) ∧
    (∀ (u : BTreeIndex K V) (crumbs : List Nat) (r F1 F2 : BTreeNode K V),
      UniqueRootTag u → u.buffercache[u.superblock.rootnode]? = some r →
      r.numkeys ≥ cfg.SlotsAsInterior → 3 ≤ r.numkeys →
      u.superblock.freelist ≠ 0 → u.buffercache[u.superblock.freelist]? = some F1 →
      F1.nodetype = BTREE_UNALLOCATED_BLOCK → F1.freelist ≠ 0 →
      u.buffercache[F1.freelist]? = some F2 → F2.nodetype = BTREE_UNALLOCATED_BLOCK →
      ∃ u', Split cfg (u.superblock.rootnode :: crumbs) u = some (ERROR_NOERROR, u') ∧
        u'.superblock.rootnode = F1.freelist ∧
        u'.superblock.rootnode ≠ u.superblock.rootnode ∧
        (∃ b, u'.buffercache[u.superblock.rootnode]? = some b ∧
          b.nodetype = BTREE_INTERIOR_NODE) ∧
        (∃ nr, u'.buffercache[u'.superblock.rootnode]? = some nr ∧
          nr.nodetype = BTREE_ROOT_NODE ∧ nr.numkeys = 1 ∧
          nr.ptrs 0 = u.superblock.rootnode ∧ nr.ptrs 1 = u.superblock.freelist) ∧
        ∀ n b, u'.buffercache[n]? = some b → b.nodetype = BTREE_ROOT_NODE →
          n = u'.superblock.rootnode) ∧
    ∀ (trace : List (ERROR_T × BTreeIndex K V)) (r : BTreeNode K V) (key : K) (value : V),
      runOperations cfg (insertOperations kvs) s = some trace →
      (∀ x ∈ trace, x.2.superblock.rootnode = 1) →
      2 ≤ cfg.SlotsAsLeaf → 3 ≤ cfg.SlotsAsInterior →
      t.buffercache[t.superblock.rootnode]? = some r →
      r.numkeys + 1 = cfg.SlotsAsInterior → r.numkeys + 6 ≤ t.buffercache.length →
      (∀ i, i ≤ r.numkeys → InRange r i key → ∀ L, t.buffercache[r.ptrs i]? = some L →
        L.numkeys + 1 = cfg.SlotsAsLeaf ∧ ∀ j, j < L.numkeys → L.keys j ≠ key) →
      ∃ t', Insert cfg t key value = some (ERROR_NOERROR, t') ∧
        t'.superblock.rootnode = r.numkeys + 5 ∧
        t'.superblock.rootnode ≠ t.superblock.rootnode ∧
        (∃ b, t'.buffercache[t.superblock.rootnode]? = some b ∧
          b.nodetype = BTREE_INTERIOR_NODE) ∧
        (∃ F, t.buffercache[t'.superblock.rootnode]? = some F ∧
          F.nodetype = BTREE_UNALLOCATED_BLOCK) ∧
        (∃ nr, t'.buffercache[t'.superblock.rootnode]? = some nr ∧
          nr.nodetype = BTREE_ROOT_NODE) ∧
        ∀ n b, t'.buffercache[n]? = some b → b.nodetype = BTREE_ROOT_NODE →
          n = t'.superblock.rootnode := by
  have hj : UniqueRootTag t :=
    insertAll_tag cfg kvs s t rcs (Attach_root_tag cfg s0 s hN hA) hrun hok
  refine ⟨hj.root, hj.only, fun n _ hne b hb ht => hne (hj.only n b hb ht), ?_, ?_, ?_⟩
  · intro key value t' hI hne
    obtain ⟨hj', hm⟩ := Insert_tag cfg hj key value hI
    rcases hm with hm | hm
    · exact absurd hm hne
    · exact ⟨hm.1, hm.2, hj'.root, hj'.only⟩
  · intro u crumbs r F1 F2 hu hr hcap h3 hfree hF1 hF1t hnext hF2 hF2t
    exact Split_root_tags cfg crumbs u r F1 F2 hu hr hcap h3 hfree hF1 hF1t hnext hF2 hF2t
  · intro trace r key value htr hone hcl hci hr hfull hblocks hleafc
    have hlink := insertAll_of_run cfg kvs s trace htr
    rw [hrun] at hlink
    simp only [Option.some.injEq, Prod.mk.injEq] at hlink
    obtain ⟨hrcs, hlast⟩ := hlink
    have hgood : Undisturbed trace := by
      intro x hx
      refine ⟨?_, hone x hx⟩
      have hmem : x.1 ∈ rcs := by rw [hrcs]; exact List.mem_map_of_mem _ hx
      rw [hok x.1 hmem]
      decide
    obtain ⟨sa, hAa, _, _, hlena, _⟩ := Attach_create cfg s0 hN
    rw [hA] at hAa
    simp only [Option.some.injEq, Prod.mk.injEq, true_and] at hAa
    subst hAa
    have hN3 : 3 ≤ s0.buffercache.length := by
      by_contra hlt
      cases kvs with
      | nil =>
        simp only [insertAll, Option.some.injEq, Prod.mk.injEq] at hrun
        rw [← hrun.2] at hblocks
        omega
      | cons kv rest =>
        obtain ⟨k1, v1⟩ := kv
        have hnone := Insert_two_blocks cfg s0 s hA (by omega) k1 v1
        rw [insertAll, hnone] at hrun
        cases hrun
    obtain ⟨s', hA', _, ht, hc⟩ := Attach_two_level cfg (by omega) s0 hN3
    rw [hA] at hA'
    simp only [Option.some.injEq, Prod.mk.injEq, true_and] at hA'
    subst hA'
    obtain ⟨r', h', ht', hc', _⟩ := lastIndex_undisturbed cfg hcl (by omega) ht hc htr hgood
    rw [← hlast] at ht' hc'
    have hrr : r' = r := by
      have e := ht'.root
      rw [ht'.rootidx] at hr
      rw [hr] at e
      cases e
      rfl
    subst hrr
    have hh : h' = r'.numkeys + 3 := by rw [hc'.used, if_neg (by omega)]
    subst hh
    obtain ⟨t', hI, hroot⟩ := Insert_first_root_split cfg hcl hci ht' hfull (by omega)
      key value hleafc
    have hne : t'.superblock.rootnode ≠ t.superblock.rootnode := by
      rw [hroot, ht'.rootidx]
      omega
    obtain ⟨hj', hm⟩ := Insert_tag cfg hj key value hI
    rcases hm with hm | hm
    · exact absurd hm hne
    · exact ⟨t', hI, hroot, hne, hm.1, hm.2, hj'.root, hj'.only⟩

end ClaimsRootTag

section RootTagChecks
variable {K V : Type}

/-- The root-tag condition read off the list of block tags. -/
theorem UniqueRootTag.of_tag_list (s : BTreeIndex K V) (h0 : s.superblock_index = 0)
    (h1 : s.superblock.nodetype = BTREE_SUPERBLOCK) (h2 : s.superblock.rootnode ≠ 0)
    (h3 : (s.buffercache.map fun b => b.nodetype)[s.superblock.rootnode]? =
      some BTREE_ROOT_NODE)
    (h4 : ∀ n, n < s.buffercache.length →
      (s.buffercache.map fun b => b.nodetype)[n]? = some BTREE_ROOT_NODE →
      n = s.superblock.rootnode) : UniqueRootTag s := by
  refine ⟨h0, h1, h2, ?_, ?_⟩
  · rw [List.getElem?_map] at h3
    cases hb : s.buffercache[s.superblock.rootnode]? with
    | none => rw [hb] at h3; cases h3
    | some b =>
      rw [hb] at h3
      simp only [Option.map_some', Option.some.injEq] at h3
      exact ⟨b, rfl, h3⟩
  · intro n b hb ht
    have hlt : n < s.buffercache.length := by
      rcases List.getElem?_eq_some_iff.mp hb with ⟨hl, _⟩; exact hl
    apply h4 n hlt
    rw [List.getElem?_map, hb]
    simp only [Option.map_some', ht]

end RootTagChecks

section ClaimsRootTagScenario

/-- Witness for C17: a 9-block device after the ascending inserts of keys 1..7.
The eighth insert, of key 8, returns `ERROR_NOERROR` and moves the root index
from block 1 to block 8; block 1 is then tagged Interior and block 8 is the only
block tagged Root.  On the hand-made store with a full root, `Split` on the root
moves the root index from block 1 to block 8 in the same way.  The run of all
eight inserts ends in an index whose root index 8 names the only block tagged
Root. -/
theorem C17_unique_root_tag_witness :
    2 ≤ (blankIndex 9).buffercache.length ∧
    Attach scenarioConfig (blankIndex 9) 0 true = some (ERROR_NOERROR, freshIndex 9) ∧
    insertAll scenarioConfig (ascending 7) (freshIndex 9) =
      some (List.replicate 7 ERROR_NOERROR, insertedIndex 9 (ascending 7)) ∧
    (∀ rc ∈ List.replicate 7 ERROR_NOERROR, rc = ERROR_NOERROR) ∧
    (∃ r, (insertedIndex 9 (ascending 7)).buffercache[
        (insertedIndex 9 (ascending 7)).superblock.rootnode]? = some r ∧
      r.nodetype = BTREE_ROOT_NODE) ∧
    (∀ n b, (insertedIndex 9 (ascending 7)).buffercache[n]? = some b →
      b.nodetype = BTREE_ROOT_NODE → n = (insertedIndex 9 (ascending 7)).superblock.rootnode) ∧
    (∀ n, Reaches (insertedIndex 9 (ascending 7)).buffercache
        (insertedIndex 9 (ascending 7)).superblock.rootnode n →
      n ≠ (insertedIndex 9 (ascending 7)).superblock.rootnode →
      ∀ b, (insertedIndex 9 (ascending 7)).buffercache[n]? = some b →
        b.nodetype ≠ BTREE_ROOT_NODE) ∧
    (insertedIndex 9 (ascending 7)).superblock.rootnode = 1 ∧
    (∃ t', Insert scenarioConfig (insertedIndex 9 (ascending 7)) 8 108 =
        some (ERROR_NOERROR, t') ∧
      t'.superblock.rootnode = 8 ∧
      t'.superblock.rootnode ≠ (insertedIndex 9 (ascending 7)).superblock.rootnode ∧
      (∃ b, t'.buffercache[1]? = some b ∧ b.nodetype = BTREE_INTERIOR_NODE) ∧
      (∃ F, (insertedIndex 9 (ascending 7)).buffercache[8]? = some F ∧
        F.nodetype = BTREE_UNALLOCATED_BLOCK) ∧
      (∃ nr, t'.buffercache[8]? = some nr ∧ nr.nodetype = BTREE_ROOT_NODE) ∧
      ∀ n b, t'.buffercache[n]? = some b → b.nodetype = BTREE_ROOT_NODE → n = 8) ∧
    (∃ u', Split scenarioConfig [1] fullRootIndex = some (ERROR_NOERROR, u') ∧
      u'.superblock.rootnode = 8 ∧
      (∃ b, u'.buffercache[1]? = some b ∧ b.nodetype = BTREE_INTERIOR_NODE) ∧
      (∃ nr, u'.buffercache[8]? = some nr ∧ nr.nodetype = BTREE_ROOT_NODE ∧
        nr.numkeys = 1 ∧ nr.ptrs 0 = 1 ∧ nr.ptrs 1 = 7) ∧
      ∀ n b, u'.buffercache[n]? = some b → b.nodetype = BTREE_ROOT_NODE → n = 8) ∧
    insertAll scenarioConfig (ascending 8) (freshIndex 9) =
      some (List.replicate 8 ERROR_NOERROR, insertedIndex 9 (ascending 8)) ∧
    (insertedIndex 9 (ascending 8)).superblock.rootnode = 8 ∧
    (∃ r, (insertedIndex 9 (ascending 8)).buffercache[8]? = some r ∧
      r.nodetype = BTREE_ROOT_NODE) ∧
    (∀ n b, (insertedIndex 9 (ascending 8)).buffercache[n]? = some b →
      b.nodetype = BTREE_ROOT_NODE → n = 8) ∧
    ∀ n, Reaches (insertedIndex 9 (ascending 8)).buffercache 8 n → n ≠ 8 →
      ∀ b, (insertedIndex 9 (ascending 8)).buffercache[n]? = some b →
        b.nodetype ≠ BTREE_ROOT_NODE := by
  obtain ⟨c1, c2, c3, _, c5, c6⟩ :=
    C17_unique_root_tag scenarioConfig (blankIndex 9) (freshIndex 9)
      (insertedIndex 9 (ascending 7)) (ascending 7) (List.replicate 7 ERROR_NOERROR)
      (by decide) (finalIndex_eq (blankIndex 9) (by decide))
      (finalIndex_eq (freshIndex 9) (by decide)) (by decide)
  have hone : (insertedIndex 9 (ascending 7)).superblock.rootnode = 1 := by decide
  obtain ⟨d1, d2, d3, _⟩ :=
    C17_unique_root_tag scenarioConfig (blankIndex 9) (freshIndex 9)
      (insertedIndex 9 (ascending 8)) (ascending 8) (List.replicate 8 ERROR_NOERROR)
      (by decide) (finalIndex_eq (blankIndex 9) (by decide))
      (finalIndex_eq (freshIndex 9) (by decide)) (by decide)
  have hroot8 : (insertedIndex 9 (ascending 8)).superblock.rootnode = 8 := by decide
  rw [hroot8] at d1 d2 d3
  refine ⟨by decide, finalIndex_eq (blankIndex 9) (by decide),
    finalIndex_eq (freshIndex 9) (by decide), by decide, c1, c2, c3, hone, ?_, ?_,
    finalIndex_eq (freshIndex 9) (by decide), hroot8, d1, d2, d3⟩
  · obtain ⟨R, hR⟩ : ∃ R, (insertedIndex 9 (ascending 7)).buffercache[
        (insertedIndex 9 (ascending 7)).superblock.rootnode]? = some R :=
      Option.isSome_iff_exists.mp (by decide)
    have hshape : ((insertedIndex 9 (ascending 7)).buffercache[
        (insertedIndex 9 (ascending 7)).superblock.rootnode]?).map
        (fun (r : BTreeNode Nat Nat) => decide (r.numkeys = 3 ∧
          ∀ i : Nat, i ≤ 3 → (i < 3 ∧ ¬ 8 < r.keys i) ∨
            ((insertedIndex 9 (ascending 7)).buffercache[r.ptrs i]?).map
              (fun (L : BTreeNode Nat Nat) => decide (L.numkeys + 1 = 4 ∧ ∀ j : Nat, j < L.numkeys → L.keys j ≠ 8)) =
              some true)) = some true := by decide
    rw [hR] at hshape
    simp only [Option.map_some', Option.some.injEq, decide_eq_true_eq] at hshape
    obtain ⟨hk, hleaves⟩ := hshape
    obtain ⟨t', hI, hroot, hne, hold, hwas, hnew, honly⟩ :=
      c6 (insertTrace 9 (ascending 7)) R 8 108 (eq_some_getD (by decide)) (by decide)
        (by decide) (by decide) hR (by rw [hk]; rfl) (by rw [hk]; decide)
        (fun i hi hrange L hL => by
          rw [hk] at hi
          rcases hleaves i hi with ⟨a, b⟩ | c
          · exact absurd (hrange.2 (by rw [hk]; exact a)) b
          · rw [hL] at c
            simp only [Option.map_some', Option.some.injEq, decide_eq_true_eq] at c
            exact c)
    have h8 : t'.superblock.rootnode = 8 := by rw [hroot, hk]
    rw [hone] at hold
    rw [h8] at hwas hnew honly
    exact ⟨t', hI, h8, hne, hold, hwas, hnew, honly⟩
  · obtain ⟨u', hS, hroot, _, hold, hnew, honly⟩ :=
      c5 fullRootIndex [] (innerNode BTREE_ROOT_NODE [10, 20, 30, 40] [2, 3, 4, 5, 6])
        (freeNode 8) (freeNode 0)
        (UniqueRootTag.of_tag_list fullRootIndex rfl rfl (by decide) (by decide) (by decide))
        rfl (by decide) (by decide) (by decide) rfl rfl (by decide) rfl rfl
    have h8 : u'.superblock.rootnode = 8 := hroot
    rw [h8] at hnew honly
    exact ⟨u', hS, h8, hold, hnew, honly⟩

end ClaimsRootTagScenario

end BTree
